import Mathlib

/-!
# Path resolution core of the assembler (`pe_resolver.hpp`)

A shallow embedding of `SimpleOverlapRemover` (namespace `path_extend`) and of the
collaborators it drives: the assembly graph, `BidirectionalPath`, `PathContainer`
and `GraphCoverageMap`.

Conventions of the embedding

* An `EdgeId` is a natural number handle; the graph supplies `length`, `conjugate`
  and `int_id` for it.
* A `BidirectionalPath*` is an address into `State.heap`.  Every mutation of a path
  is performed on the heap and mirrored on the conjugate path found through the
  `conj` field of the object.
* `size_t` values are natural numbers below `2 ^ 64`; every `size_t` expression of the
  source that can leave that range (a subtraction, an addition of an `int` gap) is
  reduced with `toSizeT`.  Positions inside a path are kept as natural numbers: the
  `int`/`size_t` conversions the source applies to them are the identity for paths of
  fewer than `2 ^ 31` edges.
* Operations that abort in the implementation (popping more edges than a path holds)
  return `none`.
-/

namespace PathExtend

/-! ## Machine integers -/

/-- Two to the power 64, the number of `size_t` values. -/
def SIZE_T_MOD : Nat := 18446744073709551616

/-- Conversion of a mathematical integer to `size_t` (reduction modulo `2 ^ 64`). -/
def toSizeT (z : Int) : Nat := (z % 18446744073709551616).toNat

/-- Conversion of a `size_t` to a 32 bit `int` (two's complement truncation). -/
def toInt32 (n : Nat) : Int := ((n : Int) + 2147483648) % 4294967296 - 2147483648

/-! ## Graph interface -/

/-- Handle of a graph edge. -/
abbrev EdgeId := Nat

/-- Read-only view of the assembly graph consumed by the resolver:
`edges` is the sequence produced by `SmartEdgeBegin()` iteration. -/
structure Graph where
  edges : List EdgeId
  length : EdgeId → Nat
  conjugate : EdgeId → EdgeId
  int_id : EdgeId → Int

/-! ## BidirectionalPath -/

/-- Modelled from the spec: the class `BidirectionalPath` (its header is not part of the
sources).  `data` is the ordered edge sequence `e₀ … eₙ₋₁`; `gaps` holds the gaps
`g₁ … gₙ₋₁` of the positions `i ≥ 1` (so `gaps.length = data.length - 1`); `id` is the
stable unique path id; `conj` is the address of the conjugate path; the three flags are
`is_overlap`, `has_overlaped_begin` and `has_overlaped_end`. -/
structure BidirectionalPath where
  data : List EdgeId
  gaps : List Int
  id : Nat
  conj : Nat
  overlap : Bool
  has_overlaped_begin : Bool
  has_overlaped_end : Bool
deriving DecidableEq, Repr

instance : Inhabited BidirectionalPath := ⟨⟨[], [], 0, 0, false, false, false⟩⟩

namespace BidirectionalPath

/-- Modelled from the spec: `size()`, the number of edges. -/
def Size (p : BidirectionalPath) : Nat := p.data.length

/-- Modelled from the spec: `at(i)`, the edge at position `i`. -/
def At (p : BidirectionalPath) (i : Nat) : EdgeId := p.data.getD i 0

/-- Modelled from the spec: `gap_at(i)`, the gap in front of position `i ≥ 1`. -/
def GapAt (p : BidirectionalPath) (i : Nat) : Int :=
  match i with
  | 0 => 0
  | k + 1 => p.gaps.getD k 0

/-- Modelled from the spec: `head()`, the last edge of the path. -/
def Head (p : BidirectionalPath) : EdgeId := p.data.getLastD 0

/-- Modelled from the spec: `find_all(e)`, every position at which `e` occurs, in
ascending order. -/
def FindAll (p : BidirectionalPath) (e : EdgeId) : List Nat :=
  (List.range p.data.length).filter (fun i => decide (p.data.getD i 0 = e))

/-- Modelled from the spec: `operator==`: same size, same edges at every position and
the same gap at every position `i ≥ 1` (tolerance 0). -/
def Equal (p q : BidirectionalPath) : Bool :=
  decide (p.data = q.data) && decide (p.gaps = q.gaps)

/-- Modelled from the spec: `is_overlap` accessor `IsOverlap()`. -/
def IsOverlap (p : BidirectionalPath) : Bool := p.overlap

/-- Modelled from the spec: accessor `HasOverlapedBegin()`. -/
def HasOverlapedBegin (p : BidirectionalPath) : Bool := p.has_overlaped_begin

/-- Modelled from the spec: accessor `HasOverlapedEnd()`. -/
def HasOverlapedEnd (p : BidirectionalPath) : Bool := p.has_overlaped_end

end BidirectionalPath

/-- The total nucleotide length from position `i` to the end of the path, gaps included,
as a mathematical integer. -/
def lengthAtZ (g : Graph) (p : BidirectionalPath) (i : Nat) : Int :=
  (((p.data.drop i).map g.length).sum : Nat) + (p.gaps.drop i).sum

/-- Modelled from the spec: `length_at(i)`, returned as a `size_t`. -/
def LengthAt (g : Graph) (p : BidirectionalPath) (i : Nat) : Nat := toSizeT (lengthAtZ g p i)

/-- Modelled from the spec: `length()` is `length_at(0)`. -/
def Length (g : Graph) (p : BidirectionalPath) : Nat := LengthAt g p 0

/-! ## Heap, container and coverage map -/

/-- The resolver state: `heap` maps an address to the path object stored there,
`container` is the `PathContainer` (pairs of addresses of mutually conjugate paths),
`coverage_map` lists the addresses of the paths subscribed to the `GraphCoverageMap`,
`next_id` is the counter the path ids are drawn from. -/
structure State where
  heap : List BidirectionalPath
  container : List (Nat × Nat)
  coverage_map : List Nat
  next_id : Nat
deriving DecidableEq, Repr

namespace State

/-- Dereference a path address. -/
def path (st : State) (p : Nat) : BidirectionalPath := st.heap.getD p default

/-- Overwrite the object stored at address `p`. -/
def store (st : State) (p : Nat) (x : BidirectionalPath) : State :=
  { st with heap := st.heap.set p x }

/-- Address of the conjugate path (`GetConjPath()`). -/
def GetConjPath (st : State) (p : Nat) : Nat := (st.path p).conj

end State

/-- The two mirrored updates of `pop_back(n)`: the path at `p` loses its last `n` edges
and gaps, its conjugate loses its first `n` edges and gaps. -/
def popBackEdges (st : State) (p : Nat) (n : Nat) : State :=
  let x := st.path p
  let st1 := st.store p { x with data := x.data.take (x.data.length - n),
                                 gaps := x.gaps.take (x.data.length - n - 1) }
  let q := x.conj
  let y := st1.path q
  st1.store q { y with data := y.data.drop n, gaps := y.gaps.drop n }

/-- Modelled from the spec: `pop_back(n)`.  Removes the last `n` edges of the path at `p`
(with their gaps) and, mirrored, the first `n` edges of its conjugate; popping more edges
than the path holds is the fatal invariant violation. -/
def PopBack (st : State) (p : Nat) (n : Nat) : Option State :=
  if n > (st.path p).data.length then none else some (popBackEdges st p n)

/-- Modelled from the spec: `clear()`, remove all edges of the path and of its conjugate. -/
def Clear (st : State) (p : Nat) : State :=
  let x := st.path p
  let st1 := st.store p { x with data := [], gaps := [] }
  let q := x.conj
  let y := st1.path q
  st1.store q { y with data := [], gaps := [] }

/-- Modelled from the spec: `push_back(e, gap)`: append `e` to the path at `p` and, mirrored,
put `conj(e)` in front of its conjugate. -/
def PushBack (g : Graph) (st : State) (p : Nat) (e : EdgeId) (gap : Int) : State :=
  let x := st.path p
  let st1 := st.store p { x with data := x.data ++ [e],
                                 gaps := if x.data = [] then [] else x.gaps ++ [gap] }
  let q := x.conj
  let y := st1.path q
  st1.store q { y with data := g.conjugate e :: y.data,
                       gaps := if y.data = [] then [] else gap :: y.gaps }

/-- Modelled from the spec: `SetOverlap(v)` sets the `is_overlap` flag of the path. -/
def SetOverlap (st : State) (p : Nat) (v : Bool) : State :=
  st.store p { st.path p with overlap := v }

/-- Modelled from the spec: `SetOverlapedBeginTo(to)` marks the beginning of the path at `p`
as overlapped by the path `to`. -/
def SetOverlapedBeginTo (st : State) (p : Nat) (_to : Nat) : State :=
  st.store p { st.path p with has_overlaped_begin := true }

/-- Modelled from the spec: `SetOverlapedEndTo(to)` marks the end of the path at `p` as
overlapped by the path `to`. -/
def SetOverlapedEndTo (st : State) (p : Nat) (_to : Nat) : State :=
  st.store p { st.path p with has_overlaped_end := true }

/-- Modelled from the spec: `new BidirectionalPath(g, e)`, a fresh single-edge path with
the next path id; returns the new state and the address of the object. -/
def newPath (st : State) (e : EdgeId) : State × Nat :=
  ({ st with heap := st.heap ++ [⟨[e], [], st.next_id, st.heap.length, false, false, false⟩],
             next_id := st.next_id + 1 }, st.heap.length)

/-- Modelled from the spec: `PathContainer::AddPair(p, q)`: cross-link the two paths and
insert the pair. -/
def AddPair (st : State) (p q : Nat) : State :=
  let st1 := st.store p { st.path p with conj := q }
  let st2 := st1.store q { st1.path q with conj := p }
  { st2 with container := st2.container ++ [(p, q)] }

/-- Modelled from the spec: `GraphCoverageMap::Subscribe(path)`, idempotent per path. -/
def Subscribe (st : State) (p : Nat) : State :=
  if p ∈ st.coverage_map then st else { st with coverage_map := st.coverage_map ++ [p] }

/-- Modelled from the spec: `GraphCoverageMap::GetCoveringPaths(e)`, the set of subscribed
paths that currently contain `e`, as a `std::set` of addresses (ascending, no repeats). -/
def GetCoveringPaths (st : State) (e : EdgeId) : List Nat :=
  (List.range st.heap.length).filter
    (fun p => decide (p ∈ st.coverage_map) && decide (e ∈ (st.path p).data))

/-- Modelled from the spec: `GraphCoverageMap::GetCoverage(e)`, the number of entries of
`e`: one per occurrence of `e` in a subscribed path. -/
def GetCoverage (st : State) (e : EdgeId) : Nat :=
  (((List.range st.heap.length).filter (fun p => decide (p ∈ st.coverage_map))).map
    (fun p => (st.path p).data.count e)).sum

/-- Modelled from the spec: `GraphCoverageMap::IsCovered(e)`. -/
def IsCovered (st : State) (e : EdgeId) : Bool := decide (GetCoverage st e ≥ 1)

/-- Modelled from the spec: sorting a vector of paths with `PathIdCompare`, ascending
path id. -/
def sortByPathId (st : State) (v : List Nat) : List Nat :=
  v.insertionSort (fun a b => (st.path a).id ≤ (st.path b).id)

/-! ## SimpleOverlapRemover -/

/-- `EdgeLengthAndIdComparator::operator()`. -/
def EdgeLengthAndIdComparator (g : Graph) (e1 e2 : EdgeId) : Bool :=
  if g.length e1 < g.length e2 then true
  else if g.length e2 < g.length e1 then false
  else decide (g.int_id e1 < g.int_id e2)

/-- `SimpleOverlapRemover::GetSortedEdges`: every edge and its conjugate once, sorted with
`EdgeLengthAndIdComparator`. -/
def GetSortedEdges (g : Graph) : List EdgeId :=
  ((g.edges.flatMap (fun e => [e, g.conjugate e])).dedup).insertionSort
    (fun a b => EdgeLengthAndIdComparator g b a = false)

/-- The `while` loop of `ComparePaths`; `fuel` is `path1.Size() - cur_pos`, the number of
iterations left before `cur_pos` reaches the size of `path1`.  The inner `for` loop over
`poses2` stops at the first position greater than `last_pos2` (it either accepts that
position or breaks), which is `List.find?`. -/
def ComparePathsLoop (g : Graph) (path1 path2 : BidirectionalPath) (max_overlap : Nat) :
    Nat → Nat → Nat → Nat → Nat → Nat × Nat
  | 0, _, last_pos1, last_pos2, _ => (last_pos1, last_pos2)
  | fuel + 1, cur_pos, last_pos1, last_pos2, diff_len =>
    if diff_len > max_overlap then (last_pos1, last_pos2)
    else
      let currentEdge := path1.At cur_pos
      let skipped := toSizeT ((diff_len : Int) + (g.length currentEdge : Int) + path1.GapAt cur_pos)
      match (path2.FindAll currentEdge).find? (fun q => decide (q > last_pos2)) with
      | none => ComparePathsLoop g path1 path2 max_overlap fuel (cur_pos + 1) last_pos1 last_pos2 skipped
      | some q =>
        let diff_len2 := toSizeT ((LengthAt g path2 last_pos2 : Int) - (LengthAt g path2 q : Int)
                                    - (g.length (path2.At last_pos2) : Int))
        if diff_len2 > max_overlap then
          ComparePathsLoop g path1 path2 max_overlap fuel (cur_pos + 1) last_pos1 last_pos2 skipped
        else
          ComparePathsLoop g path1 path2 max_overlap fuel (cur_pos + 1) cur_pos q 0

/-- `SimpleOverlapRemover::ComparePaths`. -/
def ComparePaths (g : Graph) (start_pos1 start_pos2 : Nat) (path1 path2 : BidirectionalPath)
    (max_overlap : Nat) : Nat × Nat :=
  let cur_pos := (start_pos1 + 1) % 18446744073709551616
  ComparePathsLoop g path1 path2 max_overlap (path1.Size - cur_pos) cur_pos start_pos1 start_pos2 0

/-- `SimpleOverlapRemover::CutOverlaps`; the result is the returned flag and the state
after the cut, or `none` when a `PopBack` aborts. -/
def CutOverlaps (g : Graph) (st : State) (path1 first1 last1 size1 path2 first2 last2 size2 : Nat)
    (del_subpaths del_begins del_all : Bool) : Option (Bool × State) :=
  let p1 := st.path path1
  let p2 := st.path path2
  if first1 = 0 ∧ last1 = toSizeT ((size1 : Int) - 1) ∧ del_subpaths = true
      ∧ p1.HasOverlapedBegin = false ∧ p1.HasOverlapedEnd = false then
    some (true, Clear st path1)
  else if first2 = 0 ∧ last2 = toSizeT ((size2 : Int) - 1) ∧ del_subpaths = true
      ∧ p2.HasOverlapedBegin = false ∧ p2.HasOverlapedEnd = false then
    some (true, Clear st path2)
  else if first2 = 0 ∧ first1 = 0 ∧ del_begins = true then
    if Length g p1 < Length g p2 ∧ p1.HasOverlapedBegin = false then
      (PopBack st (st.GetConjPath path1) (toSizeT ((last1 : Int) + 1))).map (fun s => (true, s))
    else if p2.HasOverlapedBegin = false then
      (PopBack st (st.GetConjPath path2) (toSizeT ((last2 : Int) + 1))).map (fun s => (true, s))
    else some (true, st)
  else if (last1 = toSizeT ((size1 : Int) - 1) ∧ last2 = toSizeT ((size2 : Int) - 1))
      ∧ del_begins = true then
    if Length g p1 < Length g p2 ∧ p1.HasOverlapedEnd = false then
      (PopBack st path1 (toSizeT ((last1 : Int) + 1 - first1))).map (fun s => (true, s))
    else if p2.HasOverlapedEnd = false then
      (PopBack st path2 (toSizeT ((last2 : Int) + 1 - first2))).map (fun s => (true, s))
    else some (true, st)
  else if first2 = 0 ∧ del_all = true ∧ p2.HasOverlapedBegin = false then
    (PopBack st (st.GetConjPath path2) (toSizeT ((last2 : Int) + 1))).map (fun s => (true, s))
  else if last2 = toSizeT ((size2 : Int) - 1) ∧ del_all = true ∧ p2.HasOverlapedEnd = false then
    (PopBack st path2 (toSizeT ((last1 : Int) + 1 - first1))).map (fun s => (true, s))
  else if first1 = 0 ∧ del_all = true ∧ p1.HasOverlapedBegin = false then
    (PopBack st (st.GetConjPath path1) (toSizeT ((last1 : Int) + 1))).map (fun s => (true, s))
  else if last1 = toSizeT ((size1 : Int) - 1) ∧ del_all = true ∧ p1.HasOverlapedEnd = false then
    (PopBack st path1 (toSizeT ((last1 : Int) + 1 - first1))).map (fun s => (true, s))
  else some (false, st)

/-- `SimpleOverlapRemover::CompareAndCutFromPos`.  The diagnostics after a failed cut
(`common_length`, `DEBUG`) do not touch the state and are left out. -/
def CompareAndCutFromPos (g : Graph) (st : State) (path1 pos1 path2 pos2 : Nat) (max_overlap : Int)
    (delete_subpaths delete_begins delete_all : Bool) : Option State :=
  if pos1 ≥ (st.path path1).Size ∨ pos2 ≥ (st.path path2).Size then some st
  else
    let posRes := ComparePaths g pos1 pos2 (st.path path1) (st.path path2) (toSizeT max_overlap)
    let last1 := posRes.1
    let last2 := posRes.2
    let conj1 := st.GetConjPath path1
    let conj2 := st.GetConjPath path2
    let first1 := toSizeT (((st.path conj1).Size : Int) - pos1 - 1)
    let first2 := toSizeT (((st.path conj2).Size : Int) - pos2 - 1)
    let posRes2 := ComparePaths g first1 first2 (st.path conj1) (st.path conj2) (toSizeT max_overlap)
    let first2 := toSizeT (((st.path conj2).Size : Int) - posRes2.2 - 1)
    let first1 := toSizeT (((st.path conj1).Size : Int) - posRes2.1 - 1)
    (CutOverlaps g st path1 first1 last1 (st.path path1).Size path2 first2 last2 (st.path path2).Size
      delete_subpaths delete_begins delete_all).map (fun r => r.2)

/-- The inner `for` loop of `CompareAndCut` over the positions `poses2`. -/
def CompareAndCutInner (g : Graph) (path1 pos1 path2 : Nat) (max_overlap : Nat)
    (del_subpaths del_begins del_all : Bool) : List Nat → State → Option State
  | [], st => some st
  | pos2 :: rest, st =>
    (CompareAndCutFromPos g st path1 pos1 path2 pos2 (toInt32 max_overlap)
      del_subpaths del_begins del_all).bind
      (CompareAndCutInner g path1 pos1 path2 max_overlap del_subpaths del_begins del_all rest)

/-- The outer `for` loop of `CompareAndCut` over the positions `poses1`; `poses2` is
recomputed from the current `path2` at every iteration. -/
def CompareAndCutOuter (g : Graph) (edge : EdgeId) (path1 path2 : Nat) (max_overlap : Nat)
    (del_subpaths del_begins del_all : Bool) : List Nat → State → Option State
  | [], st => some st
  | pos1 :: rest, st =>
    (CompareAndCutInner g path1 pos1 path2 max_overlap del_subpaths del_begins del_all
      ((st.path path2).FindAll edge) st).bind
      (CompareAndCutOuter g edge path1 path2 max_overlap del_subpaths del_begins del_all rest)

/-- `SimpleOverlapRemover::CompareAndCut`. -/
def CompareAndCut (g : Graph) (st : State) (edge : EdgeId) (path1 path2 : Nat) (max_overlap : Nat)
    (del_subpaths del_begins del_all : Bool) : Option State :=
  CompareAndCutOuter g edge path1 path2 max_overlap del_subpaths del_begins del_all
    ((st.path path1).FindAll edge) st

/-- The loop over `vect_i1` in `RemoveSimilarPaths`: `path1` is fixed, the list holds the
remaining entries of `cov_vect`, the loop state is the resolver state together with the
local set `cov_paths`. -/
def RemoveSimilarInner (g : Graph) (edge : EdgeId) (max_overlap : Nat)
    (del_only_equal del_subpaths del_begins del_all : Bool) (path1 : Nat) :
    List Nat → State × List Nat → Option (State × List Nat)
  | [], s => some s
  | path2 :: rest, (st, cov_paths) =>
    if path2 ∉ cov_paths then
      RemoveSimilarInner g edge max_overlap del_only_equal del_subpaths del_begins del_all path1 rest
        (st, cov_paths)
    else if (st.path path1).Equal (st.path path2) = true then
      let st1 := if (st.path path2).IsOverlap = true then SetOverlap st path1 true else st
      let st2 := Clear st1 path2
      RemoveSimilarInner g edge max_overlap del_only_equal del_subpaths del_begins del_all path1 rest
        (st2, GetCoveringPaths st2 edge)
    else if g.length edge ≤ max_overlap ∨ (st.path path1).IsOverlap = true
        ∨ (st.path path2).IsOverlap = true ∨ del_only_equal = true then
      RemoveSimilarInner g edge max_overlap del_only_equal del_subpaths del_begins del_all path1 rest
        (st, cov_paths)
    else
      (CompareAndCut g st edge path1 path2 (toSizeT (toInt32 max_overlap))
        del_subpaths del_begins del_all).bind (fun st1 =>
      RemoveSimilarInner g edge max_overlap del_only_equal del_subpaths del_begins del_all path1 rest
        (st1, GetCoveringPaths st1 edge))

/-- The loop over `vect_i` in `RemoveSimilarPaths`; the list holds the entries of `cov_vect`
from `vect_i` on. -/
def RemoveSimilarOuter (g : Graph) (edge : EdgeId) (max_overlap : Nat)
    (del_only_equal del_subpaths del_begins del_all : Bool) :
    List Nat → State × List Nat → Option (State × List Nat)
  | [], s => some s
  | path1 :: rest, (st, cov_paths) =>
    if path1 ∉ cov_paths then
      RemoveSimilarOuter g edge max_overlap del_only_equal del_subpaths del_begins del_all rest
        (st, cov_paths)
    else
      (RemoveSimilarInner g edge max_overlap del_only_equal del_subpaths del_begins del_all path1 rest
        (st, cov_paths)).bind
        (RemoveSimilarOuter g edge max_overlap del_only_equal del_subpaths del_begins del_all rest)

/-- The body of the loop over the sorted edges in `RemoveSimilarPaths`. -/
def RemoveSimilarAtEdge (g : Graph) (max_overlap : Nat)
    (del_only_equal del_subpaths del_begins del_all : Bool) (st : State) (edge : EdgeId) :
    Option State :=
  let cov_paths := GetCoveringPaths st edge
  let cov_vect := sortByPathId st cov_paths
  (RemoveSimilarOuter g edge max_overlap del_only_equal del_subpaths del_begins del_all cov_vect
    (st, cov_paths)).map (fun s => s.1)

/-- The loop over the sorted edges in `RemoveSimilarPaths`. -/
def RemoveSimilarEdges (g : Graph) (max_overlap : Nat)
    (del_only_equal del_subpaths del_begins del_all : Bool) : List EdgeId → State → Option State
  | [], st => some st
  | edge :: rest, st =>
    (RemoveSimilarAtEdge g max_overlap del_only_equal del_subpaths del_begins del_all st edge).bind
      (RemoveSimilarEdges g max_overlap del_only_equal del_subpaths del_begins del_all rest)

/-- `SimpleOverlapRemover::RemoveSimilarPaths`. -/
def RemoveSimilarPaths (g : Graph) (st : State) (max_overlap : Nat)
    (del_only_equal del_subpaths del_begins del_all : Bool) : Option State :=
  RemoveSimilarEdges g max_overlap del_only_equal del_subpaths del_begins del_all
    (GetSortedEdges g) st

/-- The `for` loop of the extraction branch of `RemoveOverlap`; the counter is the number
of iterations left (`overlap_size - i`). -/
def RemoveOverlapLoop (g : Graph) (path1 conj2 conj_overlap : Nat) : Nat → State → Option State
  | 0, st => some st
  | n + 1, st =>
    let st1 := PushBack g st conj_overlap (g.conjugate (st.path path1).Head) 0
    (PopBack st1 path1 1).bind (fun st2 =>
    (PopBack st2 conj2 1).bind (fun st3 =>
    RemoveOverlapLoop g path1 conj2 conj_overlap n st3))

/-- `SimpleOverlapRemover::RemoveOverlap`. -/
def RemoveOverlap (g : Graph) (st : State) (path1 path2 : Nat) (overlap_size : Nat) :
    Option State :=
  let conj2 := st.GetConjPath path2
  if (st.path path1).IsOverlap = true ∧ overlap_size = (st.path path1).Size then
    (PopBack st conj2 overlap_size).map (fun s => SetOverlapedBeginTo s path2 path1)
  else if (st.path path2).IsOverlap = true ∧ (st.path path2).Size = overlap_size then
    (PopBack st path1 overlap_size).map (fun s => SetOverlapedEndTo s path1 path2)
  else if overlap_size < (st.path path2).Size ∧ overlap_size < (st.path path1).Size then
    let r1 := newPath st (st.path path1).Head
    let overlap := r1.2
    let r2 := newPath r1.1 (g.conjugate (st.path path1).Head)
    let conj_overlap := r2.2
    let st1 := AddPair r2.1 overlap conj_overlap
    (PopBack st1 path1 1).bind (fun st2 =>
    (PopBack st2 conj2 1).bind (fun st3 =>
    (RemoveOverlapLoop g path1 conj2 conj_overlap (overlap_size - 1) st3).map (fun st4 =>
      let st5 := Subscribe st4 overlap
      let st6 := SetOverlap st5 overlap true
      let st7 := Subscribe st6 conj_overlap
      let st8 := SetOverlapedEndTo st7 path1 overlap
      SetOverlapedBeginTo st8 path2 overlap)))
  else some st

/-- The rows of the cut policy table (design §4.6.2), read from the table: a row applies
when its condition holds together with the precondition it puts on a fixed path; for the
two `del_begins` rows the precondition is on the path chosen inside the row. -/
def CutPolicyRowApplies (st : State) (path1 first1 last1 path2 first2 last2 : Nat)
    (del_subpaths del_begins del_all : Bool) : Prop :=
  let p1 := st.path path1
  let p2 := st.path path2
  (first1 = 0 ∧ last1 + 1 = p1.Size ∧ del_subpaths = true
      ∧ p1.has_overlaped_begin = false ∧ p1.has_overlaped_end = false)
  ∨ (first2 = 0 ∧ last2 + 1 = p2.Size ∧ del_subpaths = true
      ∧ p2.has_overlaped_begin = false ∧ p2.has_overlaped_end = false)
  ∨ (first1 = 0 ∧ first2 = 0 ∧ del_begins = true)
  ∨ (last1 + 1 = p1.Size ∧ last2 + 1 = p2.Size ∧ del_begins = true)
  ∨ (first2 = 0 ∧ del_all = true ∧ p2.has_overlaped_begin = false)
  ∨ (last2 + 1 = p2.Size ∧ del_all = true ∧ p2.has_overlaped_end = false)
  ∨ (first1 = 0 ∧ del_all = true ∧ p1.has_overlaped_begin = false)
  ∨ (last1 + 1 = p1.Size ∧ del_all = true ∧ p1.has_overlaped_end = false)

instance (st : State) (path1 first1 last1 path2 first2 last2 : Nat)
    (del_subpaths del_begins del_all : Bool) :
    Decidable (CutPolicyRowApplies st path1 first1 last1 path2 first2 last2
      del_subpaths del_begins del_all) := by
  unfold CutPolicyRowApplies; infer_instance

/-! ## Comparator: accepted steps and skipped lengths -/

/-- One step at which `ComparePaths` advances `(last_pos1, last_pos2)`: the values before
the step (`prev1`, `prev2`) and after it (`pos1` is `cur_pos`, `pos2` the accepted
position of `path2`). -/
structure MatchStep where
  prev1 : Nat
  prev2 : Nat
  pos1 : Nat
  pos2 : Nat
deriving DecidableEq, Repr

/-- The loop of `ComparePaths` (`ComparePathsLoop`) instrumented to list its advancing
steps in order instead of returning the last positions. -/
def ComparePathsStepsLoop (g : Graph) (path1 path2 : BidirectionalPath) (max_overlap : Nat) :
    Nat → Nat → Nat → Nat → Nat → List MatchStep
  | 0, _, _, _, _ => []
  | fuel + 1, cur_pos, last_pos1, last_pos2, diff_len =>
    if diff_len > max_overlap then []
    else
      let currentEdge := path1.At cur_pos
      let skipped := toSizeT ((diff_len : Int) + (g.length currentEdge : Int) + path1.GapAt cur_pos)
      match (path2.FindAll currentEdge).find? (fun q => decide (q > last_pos2)) with
      | none =>
        ComparePathsStepsLoop g path1 path2 max_overlap fuel (cur_pos + 1) last_pos1 last_pos2 skipped
      | some q =>
        let diff_len2 := toSizeT ((LengthAt g path2 last_pos2 : Int) - (LengthAt g path2 q : Int)
                                    - (g.length (path2.At last_pos2) : Int))
        if diff_len2 > max_overlap then
          ComparePathsStepsLoop g path1 path2 max_overlap fuel (cur_pos + 1) last_pos1 last_pos2 skipped
        else
          ⟨last_pos1, last_pos2, cur_pos, q⟩ ::
            ComparePathsStepsLoop g path1 path2 max_overlap fuel (cur_pos + 1) cur_pos q 0

/-- The advancing steps of `ComparePaths(start_pos1, start_pos2, path1, path2, max_overlap)`. -/
def ComparePathsSteps (g : Graph) (start_pos1 start_pos2 : Nat) (path1 path2 : BidirectionalPath)
    (max_overlap : Nat) : List MatchStep :=
  let cur_pos := (start_pos1 + 1) % 18446744073709551616
  ComparePathsStepsLoop g path1 path2 max_overlap (path1.Size - cur_pos) cur_pos
    start_pos1 start_pos2 0

/-- The pair of positions reached after a list of steps that starts from `d`. -/
def lastMatch : List MatchStep → Nat × Nat → Nat × Nat
  | [], d => d
  | s :: rest, _ => lastMatch rest (s.pos1, s.pos2)

/-- Every step starts where the previous one ended, the first one at `d`. -/
def StepsChained : Nat × Nat → List MatchStep → Prop
  | _, [] => True
  | d, s :: rest => (s.prev1, s.prev2) = d ∧ StepsChained (s.pos1, s.pos2) rest

/-- Length plus gap of the positions of `p` strictly between `a` and `b`: what the
comparator skips in `path1` between two matches. -/
def skippedInPath1 (g : Graph) (p : BidirectionalPath) (a b : Nat) : Int :=
  ((List.range' (a + 1) (b - a - 1)).map (fun j => (g.length (p.At j) : Int) + p.GapAt j)).sum

/-- Nucleotide distance in `p` from the end of the edge at `a` to the start of the edge at
`b`: the lengths of the edges strictly between them and the gaps of the positions
`a + 1, …, b`. -/
def skippedInPath2 (g : Graph) (p : BidirectionalPath) (a b : Nat) : Int :=
  ((List.range' (a + 1) (b - a - 1)).map (fun j => (g.length (p.At j) : Int))).sum
    + ((List.range' (a + 1) (b - a)).map (fun j => p.GapAt j)).sum

/-- A step stays within the budget `max_overlap`: both skipped quantities are at most
`max_overlap` as `size_t` values, hence as integers whenever they do not exceed the
`size_t` range. -/
def StepWithinBudget (g : Graph) (path1 path2 : BidirectionalPath) (max_overlap : Nat)
    (s : MatchStep) : Prop :=
  s.prev1 < s.pos1 ∧ s.prev2 < s.pos2
  ∧ toSizeT (skippedInPath2 g path2 s.prev2 s.pos2) ≤ max_overlap
  ∧ toSizeT (skippedInPath1 g path1 s.prev1 s.pos1) ≤ max_overlap
  ∧ (skippedInPath2 g path2 s.prev2 s.pos2 < 18446744073709551616 →
      skippedInPath2 g path2 s.prev2 s.pos2 ≤ max_overlap)
  ∧ (skippedInPath1 g path1 s.prev1 s.pos1 < 18446744073709551616 →
      skippedInPath1 g path1 s.prev1 s.pos1 ≤ max_overlap)

/-! ## Well-formed pairs and the extraction invariant -/

/-- The paths at `path1` and `path2` are valid objects of two different pairs whose
conjugate links are established: each conjugate is a valid object different from its
path and points back to it. -/
def DistinctPairs (st : State) (path1 path2 : Nat) : Prop :=
  path1 < st.heap.length ∧ path2 < st.heap.length
  ∧ st.GetConjPath path1 < st.heap.length ∧ st.GetConjPath path2 < st.heap.length
  ∧ st.GetConjPath (st.GetConjPath path1) = path1
  ∧ st.GetConjPath (st.GetConjPath path2) = path2
  ∧ st.GetConjPath path1 ≠ path1 ∧ st.GetConjPath path2 ≠ path2
  ∧ path1 ≠ path2 ∧ path1 ≠ st.GetConjPath path2

instance (st : State) (path1 path2 : Nat) : Decidable (DistinctPairs st path1 path2) := by
  unfold DistinctPairs; infer_instance

/-- The state `s` inside the extraction branch of `RemoveOverlap(path1, path2, k)` started
in `st`, once `j ≥ 1` edges have been moved: the new pair sits at the two fresh addresses,
the overlap path holds the last `j` edges of the original `path1`, `path1` has lost its
last `j` edges and `path2` its first `j` edges (mirrored on the conjugates), and no other
object has changed. -/
def ExtractInv (g : Graph) (st : State) (path1 path2 : Nat) (j : Nat) (s : State) : Prop :=
  s.heap.length = st.heap.length + 2
  ∧ s.container = st.container ++ [(st.heap.length, st.heap.length + 1)]
  ∧ s.coverage_map = st.coverage_map
  ∧ s.path path1 = { st.path path1 with
      data := (st.path path1).data.take ((st.path path1).data.length - j),
      gaps := (st.path path1).gaps.take ((st.path path1).data.length - j - 1) }
  ∧ s.path (st.GetConjPath path1) = { st.path (st.GetConjPath path1) with
      data := (st.path (st.GetConjPath path1)).data.drop j,
      gaps := (st.path (st.GetConjPath path1)).gaps.drop j }
  ∧ s.path (st.GetConjPath path2) = { st.path (st.GetConjPath path2) with
      data := (st.path (st.GetConjPath path2)).data.take
        ((st.path (st.GetConjPath path2)).data.length - j),
      gaps := (st.path (st.GetConjPath path2)).gaps.take
        ((st.path (st.GetConjPath path2)).data.length - j - 1) }
  ∧ s.path path2 = { st.path path2 with
      data := (st.path path2).data.drop j, gaps := (st.path path2).gaps.drop j }
  ∧ s.path st.heap.length =
      ⟨(st.path path1).data.drop ((st.path path1).data.length - j), List.replicate (j - 1) 0,
        st.next_id, st.heap.length + 1, false, false, false⟩
  ∧ s.path (st.heap.length + 1) =
      ⟨(((st.path path1).data.drop ((st.path path1).data.length - j)).map g.conjugate).reverse,
        List.replicate (j - 1) 0, st.next_id + 1, st.heap.length, false, false, false⟩
  ∧ ∀ r, r < st.heap.length → r ≠ path1 → r ≠ st.GetConjPath path1 → r ≠ path2 →
      r ≠ st.GetConjPath path2 → s.path r = st.path r

/-! ## Conjugate consistency of a pair of paths -/

/-- The conjugate edge sequence `conj(eₙ₋₁), …, conj(e₀)` of `e₀, …, eₙ₋₁`. -/
def conjSeq (g : Graph) (l : List EdgeId) : List EdgeId := (l.map g.conjugate).reverse

/-- Two paths `a`, `b` of different pairs whose conjugates hold the conjugate edge
sequences, with zero gaps, no flag set and sizes that are `size_t` values. -/
structure TwinPaths (g : Graph) (st : State) (a b : Nat) : Prop where
  pairs : DistinctPairs st a b
  conj_a : (st.path (st.GetConjPath a)).data = conjSeq g (st.path a).data
  conj_b : (st.path (st.GetConjPath b)).data = conjSeq g (st.path b).data
  gaps_zero : ∀ r, r = a ∨ r = b ∨ r = st.GetConjPath a ∨ r = st.GetConjPath b →
    ∀ x ∈ (st.path r).gaps, x = 0
  no_flags : ∀ r, r = a ∨ r = b ∨ r = st.GetConjPath a ∨ r = st.GetConjPath b →
    (st.path r).overlap = false ∧ (st.path r).has_overlaped_begin = false
      ∧ (st.path r).has_overlaped_end = false
  size_a : (st.path a).Size < SIZE_T_MOD
  size_b : (st.path b).Size < SIZE_T_MOD

/-- The edges of `l` and their conjugates are pairwise distinct, `conj` is an involution on
them, and all of them have a positive length that is a `size_t` value. -/
structure DistinctEdges (g : Graph) (l : List EdgeId) : Prop where
  nodup : (l ++ l.map g.conjugate).Nodup
  invol : ∀ e ∈ l, g.conjugate (g.conjugate e) = e
  len_pos : ∀ e ∈ l ++ l.map g.conjugate, 0 < g.length e ∧ g.length e < SIZE_T_MOD

/-- The state of a pass in which the contained path `p2` and its conjugate have been
cleared while `p1`, its conjugate, the heap size and the subscriptions are as in `st`. -/
def SubpathDone (st : State) (p1 p2 : Nat) (s : State) : Prop :=
  s.heap.length = st.heap.length ∧ s.coverage_map = st.coverage_map
  ∧ (s.path p2).data = [] ∧ (s.path (st.GetConjPath p2)).data = []
  ∧ s.path p1 = st.path p1 ∧ s.path (st.GetConjPath p1) = st.path (st.GetConjPath p1)

/-- The state of a pass in which the path `p1` has lost its first `k` edges (and its
conjugate its last `k` edges) while `p2`, its conjugate, the heap size and the
subscriptions are as in `st`. -/
def PrefixDone (st : State) (p1 p2 k : Nat) (s : State) : Prop :=
  s.heap.length = st.heap.length ∧ s.coverage_map = st.coverage_map
  ∧ (s.path p1).data = (st.path p1).data.drop k
  ∧ (s.path (st.GetConjPath p1)).data
      = (st.path (st.GetConjPath p1)).data.take ((st.path (st.GetConjPath p1)).data.length - k)
  ∧ s.path p2 = st.path p2 ∧ s.path (st.GetConjPath p2) = st.path (st.GetConjPath p2)

/-- The conjugate links of the heap are mutual: the link of an object of the heap points
to an object of the heap whose link points back. -/
def LinkedHeap (st : State) : Prop :=
  ∀ r, r < st.heap.length →
    (st.path r).conj < st.heap.length ∧ (st.path (st.path r).conj).conj = r

/-- The state `t` differs from `s` only by cleared paths and by `is_overlap` flags that
have been set, and the path `p1` has not been cleared. -/
def Collapsed (p1 : Nat) (s t : State) : Prop :=
  t.heap.length = s.heap.length ∧ t.coverage_map = s.coverage_map
  ∧ (∀ r, (t.path r).conj = (s.path r).conj ∧ (t.path r).id = (s.path r).id)
  ∧ (∀ r, ((t.path r).data = (s.path r).data ∧ (t.path r).gaps = (s.path r).gaps)
      ∨ ((t.path r).data = [] ∧ (t.path r).gaps = []))
  ∧ (∀ r, (s.path r).overlap = true → (t.path r).overlap = true)
  ∧ (t.path p1).data = (s.path p1).data ∧ (t.path p1).gaps = (s.path p1).gaps

/-- Two subscribed duplicates `p1`, `p2` of a linked heap: same edges and gaps, `p1` has
the smaller path id, no third subscribed path has the same edges and gaps, and the
conjugate of `p1` has the smallest id among the subscribed paths with its edges and
gaps. -/
structure DuplicatePair (st : State) (p1 p2 : Nat) : Prop where
  linked : LinkedHeap st
  valid1 : p1 < st.heap.length
  valid2 : p2 < st.heap.length
  sub1 : p1 ∈ st.coverage_map
  sub2 : p2 ∈ st.coverage_map
  id_lt : (st.path p1).id < (st.path p2).id
  same_data : (st.path p1).data = (st.path p2).data
  same_gaps : (st.path p1).gaps = (st.path p2).gaps
  no_third : ∀ r ∈ st.coverage_map, (st.path r).data = (st.path p1).data →
    (st.path r).gaps = (st.path p1).gaps → r = p1 ∨ r = p2
  twin_first : ∀ r ∈ st.coverage_map, r ≠ st.GetConjPath p1 →
    (st.path r).data = (st.path (st.GetConjPath p1)).data →
    (st.path r).gaps = (st.path (st.GetConjPath p1)).gaps →
    (st.path (st.GetConjPath p1)).id < (st.path r).id

/-- Once `p2` is cleared, its `is_overlap` flag of the state `st0` is found on `p1`. -/
def FlagKept (st0 : State) (p1 p2 : Nat) (s : State) : Prop :=
  (s.path p2).data = [] → (st0.path p2).overlap = true → (s.path p1).overlap = true

/-- The loop over `vect_i1` of a pass that only handles exact duplicates (design §4.6:
`del_only_equal` — "skip any cut work; only handle exact-duplicate paths"): an entry
still covering the edge that equals `path1` hands its `is_overlap` flag to `path1` and is
cleared; nothing else is done. -/
def EqualOnlyInner (edge : EdgeId) (path1 : Nat) :
    List Nat → State × List Nat → State × List Nat
  | [], s => s
  | path2 :: rest, (st, cov_paths) =>
    if path2 ∈ cov_paths ∧ (st.path path1).Equal (st.path path2) = true then
      let st1 := if (st.path path2).IsOverlap = true then SetOverlap st path1 true else st
      let st2 := Clear st1 path2
      EqualOnlyInner edge path1 rest (st2, GetCoveringPaths st2 edge)
    else EqualOnlyInner edge path1 rest (st, cov_paths)

/-- The loop over `vect_i` of the pass that only handles exact duplicates. -/
def EqualOnlyOuter (edge : EdgeId) : List Nat → State × List Nat → State × List Nat
  | [], s => s
  | path1 :: rest, (st, cov_paths) =>
    if path1 ∈ cov_paths then
      EqualOnlyOuter edge rest (EqualOnlyInner edge path1 rest (st, cov_paths))
    else EqualOnlyOuter edge rest (st, cov_paths)

/-- The pass that only handles exact duplicates, over a list of edges. -/
def EqualOnlyEdges : List EdgeId → State → State
  | [], st => st
  | edge :: rest, st =>
    EqualOnlyEdges rest
      (EqualOnlyOuter edge (sortByPathId st (GetCoveringPaths st edge))
        (st, GetCoveringPaths st edge)).1

/-- Every path of `t` either has the edges and gaps it has in `s` or is empty; the heap
has the same objects and the container the same pairs. -/
def Untrimmed (s t : State) : Prop :=
  t.heap.length = s.heap.length ∧ t.container = s.container
  ∧ ∀ r, ((t.path r).data = (s.path r).data ∧ (t.path r).gaps = (s.path r).gaps)
      ∨ (t.path r).Size = 0

/-- The state `st'` after the extraction branch of `RemoveOverlap(path1, path2, k)` run in
`st`: a new pair at the two fresh addresses holds the last `k` edges of the original
`path1` and their conjugate sequence, the first of the two is flagged `is_overlap`, both
are subscribed; `path1` has lost its last `k` edges and is marked at its end, `path2` has
lost its first `k` edges and is marked at its beginning (mirrored on the conjugates); no
other object has changed. -/
def Extracted (g : Graph) (st : State) (path1 path2 k : Nat) (st' : State) : Prop :=
  st'.heap.length = st.heap.length + 2
  ∧ st'.container = st.container ++ [(st.heap.length, st.heap.length + 1)]
  ∧ (∀ r, r ∈ st'.coverage_map ↔
      r ∈ st.coverage_map ∨ r = st.heap.length ∨ r = st.heap.length + 1)
  ∧ st'.path path1 = { st.path path1 with
      data := (st.path path1).data.take ((st.path path1).data.length - k),
      gaps := (st.path path1).gaps.take ((st.path path1).data.length - k - 1),
      has_overlaped_end := true }
  ∧ st'.path (st.GetConjPath path1) = { st.path (st.GetConjPath path1) with
      data := (st.path (st.GetConjPath path1)).data.drop k,
      gaps := (st.path (st.GetConjPath path1)).gaps.drop k }
  ∧ st'.path (st.GetConjPath path2) = { st.path (st.GetConjPath path2) with
      data := (st.path (st.GetConjPath path2)).data.take
        ((st.path (st.GetConjPath path2)).data.length - k),
      gaps := (st.path (st.GetConjPath path2)).gaps.take
        ((st.path (st.GetConjPath path2)).data.length - k - 1) }
  ∧ st'.path path2 = { st.path path2 with
      data := (st.path path2).data.drop k, gaps := (st.path path2).gaps.drop k,
      has_overlaped_begin := true }
  ∧ st'.path st.heap.length =
      ⟨(st.path path1).data.drop ((st.path path1).data.length - k), List.replicate (k - 1) 0,
        st.next_id, st.heap.length + 1, true, false, false⟩
  ∧ st'.path (st.heap.length + 1) =
      ⟨(((st.path path1).data.drop ((st.path path1).data.length - k)).map g.conjugate).reverse,
        List.replicate (k - 1) 0, st.next_id + 1, st.heap.length, false, false, false⟩
  ∧ ∀ r, r ≠ path1 → r ≠ st.GetConjPath path1 → r ≠ path2 → r ≠ st.GetConjPath path2 →
      r ≠ st.heap.length → r ≠ st.heap.length + 1 → st'.path r = st.path r

/-- Modelled from the spec: `overlap_end_size(other)`, "the largest k such that the last k
edges of this equal the first k edges of other; 0 if none". -/
def OverlapEndSize (p q : BidirectionalPath) : Nat :=
  (((List.range (p.data.length + 1)).reverse).find?
    (fun k => decide (p.data.drop (p.data.length - k) = q.data.take k))).getD 0

/-- `SimpleOverlapRemover::HasAlreadyOverlapedEnd`. -/
def HasAlreadyOverlapedEnd (p : BidirectionalPath) : Bool :=
  !p.IsOverlap && p.HasOverlapedEnd

/-- `SimpleOverlapRemover::HasAlreadyOverlapedBegin`. -/
def HasAlreadyOverlapedBegin (p : BidirectionalPath) : Bool :=
  !p.IsOverlap && p.HasOverlapedBegin

/-- `SimpleOverlapRemover::IsSamePath`: `*path2 == *path1 or *path2 == *path1->GetConjPath()`. -/
def IsSamePath (st : State) (path1 path2 : Nat) : Bool :=
  (st.path path2).Equal (st.path path1)
    || (st.path path2).Equal (st.path (st.GetConjPath path1))

/-- The `for` loop of `FindAndRemovePathOverlap` over the covering paths; the loop state is
`(overlap_path, overlap_size)`, with `none` for the `NULL` pointer. -/
def FindOverlapLoop (st : State) (path1 : Nat) :
    List Nat → Option Nat × Nat → Option Nat × Nat
  | [], acc => acc
  | x :: rest, (overlap_path, overlap_size) =>
    if IsSamePath st x path1 = true ∨ HasAlreadyOverlapedBegin (st.path x) = true then
      FindOverlapLoop st path1 rest (overlap_path, overlap_size)
    else
      let over_size := OverlapEndSize (st.path path1) (st.path x)
      if over_size > overlap_size then FindOverlapLoop st path1 rest (some x, over_size)
      else if over_size = overlap_size
          ∧ overlap_path.all (fun y => decide ((st.path x).id < (st.path y).id)) = true then
        FindOverlapLoop st path1 rest (some x, overlap_size)
      else FindOverlapLoop st path1 rest (overlap_path, overlap_size)

/-- `SimpleOverlapRemover::FindAndRemovePathOverlap`.  The covering paths are visited in
the order of the `std::set` of pointers, ascending addresses; the parameter `max_overlap`
is not used by the source. -/
def FindAndRemovePathOverlap (g : Graph) (st : State) (path1 : Nat) (_max_overlap : Nat) :
    Option State :=
  let last : Int := toInt32 (st.path path1).Size - 1
  if last ≤ 0 ∨ GetCoverage st ((st.path path1).At (toSizeT last)) ≤ 1
      ∨ HasAlreadyOverlapedEnd (st.path path1) = true then some st
  else
    let paths := GetCoveringPaths st ((st.path path1).At (toSizeT last))
    let r := FindOverlapLoop st path1 paths (none, 0)
    match r.1 with
    | none => some st
    | some overlap_path =>
      if r.2 > 0 then RemoveOverlap g st path1 overlap_path r.2 else some st

/-- The call of `RemoveOverlap` that `FindAndRemovePathOverlap(path1)` makes, as the pair
`(path2, overlap_size)` of its arguments; `none` when it returns without the call. -/
def RemoveOverlapCall (st : State) (path1 : Nat) : Option (Nat × Nat) :=
  let last : Int := toInt32 (st.path path1).Size - 1
  if last ≤ 0 ∨ GetCoverage st ((st.path path1).At (toSizeT last)) ≤ 1
      ∨ HasAlreadyOverlapedEnd (st.path path1) = true then none
  else
    let paths := GetCoveringPaths st ((st.path path1).At (toSizeT last))
    let r := FindOverlapLoop st path1 paths (none, 0)
    match r.1 with
    | none => none
    | some overlap_path => if r.2 > 0 then some (overlap_path, r.2) else none

/-- A covering path that the loop of `FindAndRemovePathOverlap` does not skip. -/
def Eligible (st : State) (path1 x : Nat) : Prop :=
  IsSamePath st x path1 = false ∧ HasAlreadyOverlapedBegin (st.path x) = false

/-- The loop state `(overlap_path, overlap_size)` is the best eligible partner among the
entries of `l`: none if no entry is eligible, otherwise an eligible entry with the
largest `OverlapEndSize` and, among those, the smallest path id. -/
def BestPartner (st : State) (path1 : Nat) (l : List Nat) (acc : Option Nat × Nat) : Prop :=
  match acc.1 with
  | none => acc.2 = 0 ∧ ∀ x ∈ l, ¬ Eligible st path1 x
  | some y => y ∈ l ∧ Eligible st path1 y
      ∧ acc.2 = OverlapEndSize (st.path path1) (st.path y)
      ∧ (∀ x ∈ l, Eligible st path1 x →
          OverlapEndSize (st.path path1) (st.path x) ≤ acc.2)
      ∧ (∀ x ∈ l, Eligible st path1 x →
          OverlapEndSize (st.path path1) (st.path x) = acc.2 →
          (st.path y).id ≤ (st.path x).id)

/-- The `while` loop of `PathExtendResolver::RemoveMatePairEnd`; the counter is the loop
variable `pos`, positive in the second case. -/
def RemoveMatePairEndLoop (g : Graph) (path : Nat) (min_edge_len : Nat) :
    Nat → State → Option State
  | 0, st => some st
  | pos + 1, st =>
    if g.length ((st.path path).At (pos + 1)) < min_edge_len then
      (PopBack st path 1).bind (RemoveMatePairEndLoop g path min_edge_len pos)
    else some st

/-- `PathExtendResolver::RemoveMatePairEnd`. -/
def RemoveMatePairEnd (g : Graph) (st : State) (path : Nat) (min_edge_len : Nat) :
    Option State :=
  RemoveMatePairEndLoop g path min_edge_len (toInt32 (st.path path).Size - 1).toNat st

/-- The `for` loop of `PathExtendResolver::RemoveMatePairEnds` over the pairs of the
container (`PopBack` does not modify the container, so `paths.size()`, `paths.Get(i)` and
`paths.GetConjugate(i)` are those of the container at entry). -/
def RemoveMatePairEndsLoop (g : Graph) (min_edge_len : Nat) :
    List (Nat × Nat) → State → Option State
  | [], st => some st
  | pq :: rest, st =>
    (RemoveMatePairEnd g st pq.1 min_edge_len).bind (fun st1 =>
    (RemoveMatePairEnd g st1 pq.2 min_edge_len).bind
      (RemoveMatePairEndsLoop g min_edge_len rest))

/-- `PathExtendResolver::RemoveMatePairEnds`. -/
def RemoveMatePairEnds (g : Graph) (st : State) (min_edge_len : Nat) : Option State :=
  RemoveMatePairEndsLoop g min_edge_len st.container st

/-- The `for` loop of `SimpleOverlapRemover::RemoveOverlaps`: `i` is the loop variable and
`paths.size()` is read again at every iteration; `paths.Get(i)` and `paths.GetConjugate(i)`
are the two members of the pair at position `i`.  `fuel` bounds the number of iterations:
the result is `none` when the budget is used up before `i` reaches `paths.size()` (or when
a `PopBack` aborts). -/
def RemoveOverlapsLoop (g : Graph) (max_overlaped : Nat) : Nat → Nat → State → Option State
  | 0, i, st => if i < st.container.length then none else some st
  | fuel + 1, i, st =>
    if i < st.container.length then
      (FindAndRemovePathOverlap g st (st.container.getD i (0, 0)).1 max_overlaped).bind
        (fun st1 =>
      (FindAndRemovePathOverlap g st1 (st1.container.getD i (0, 0)).2 max_overlaped).bind
        (fun st2 =>
      RemoveOverlapsLoop g max_overlaped fuel (i + 1) st2))
    else some st

/-- `SimpleOverlapRemover::RemoveOverlaps`, run with a budget of `fuel` loop iterations. -/
def RemoveOverlaps (g : Graph) (st : State) (max_overlaped : Nat) (fuel : Nat) : Option State :=
  RemoveOverlapsLoop g max_overlaped fuel 0 st

/-- The addresses of the paths of the container, canonical paths and twins. -/
def containerPaths (st : State) : List Nat :=
  st.container.flatMap (fun pq => [pq.1, pq.2])

/-- The total number of edge occurrences over all paths of the container, canonical paths
and twins. -/
def TotalEdges (st : State) : Nat :=
  (st.container.map (fun pq => (st.path pq.1).Size + (st.path pq.2).Size)).sum

/-- Every pair `(P, Q)` of the container satisfies `P.edges = reverse (map conj Q.edges)`
and `P.gaps = reverse Q.gaps`. -/
def PairsSymmetric (g : Graph) (st : State) : Prop :=
  ∀ pq ∈ st.container, (st.path pq.1).data = conjSeq g (st.path pq.2).data
    ∧ (st.path pq.1).gaps = (st.path pq.2).gaps.reverse

/-- Conjugate consistency of a state (data model of the design): the conjugate links of
the heap are mutual and join two different objects, conjugate paths hold conjugate edge
sequences and reversed gaps, a path of `n ≥ 1` edges has `n - 1` gaps, the container lists
every object of the heap exactly once, and the second member of a pair is the conjugate
of the first. -/
structure Consistent (g : Graph) (st : State) : Prop where
  linked : ∀ r, r < st.heap.length → (st.path r).conj < st.heap.length
    ∧ (st.path (st.path r).conj).conj = r ∧ (st.path r).conj ≠ r
  edges : ∀ r, r < st.heap.length →
    (st.path (st.path r).conj).data = conjSeq g (st.path r).data
  gaps : ∀ r, r < st.heap.length → (st.path (st.path r).conj).gaps = (st.path r).gaps.reverse
  gaps_length : ∀ r, r < st.heap.length →
    (st.path r).gaps.length = (st.path r).data.length - 1
  pairs : ∀ pq ∈ st.container, pq.1 < st.heap.length ∧ (st.path pq.1).conj = pq.2
  owned : ∀ r, r < st.heap.length → r ∈ containerPaths st
  distinct : (containerPaths st).Nodup

/-- The state `t` arises from `s` by removing edges from paths and setting flags: same
objects, same container and coverage map, no path has grown, and conjugate consistency is
kept. -/
def Reduced (g : Graph) (s t : State) : Prop :=
  t.heap.length = s.heap.length ∧ t.container = s.container
  ∧ t.coverage_map = s.coverage_map
  ∧ (∀ r, (t.path r).Size ≤ (s.path r).Size)
  ∧ (Consistent g s → Consistent g t)

/-- The state `t` arises from the consistent state `s` by steps of the overlap removal:
it is consistent, the container has not lost a pair, the total edge count has not grown,
and every pair added to the container is paid for by at least one edge less. -/
def Resolved (g : Graph) (s t : State) : Prop :=
  Consistent g t ∧ s.container.length ≤ t.container.length
  ∧ TotalEdges t ≤ TotalEdges s
  ∧ t.container.length + TotalEdges t ≤ s.container.length + TotalEdges s

/-- The shape of a path container, apart from the edges the paths hold: every object has
a twin, which is another object whose twin it is; the gap list of a path has one entry for
each position after the first; every pair of the container is a path with its twin; every
object belongs to a pair, and to one only. -/
structure WellLinked (st : State) : Prop where
  linked : ∀ r, r < st.heap.length → (st.path r).conj < st.heap.length
    ∧ (st.path (st.path r).conj).conj = r ∧ (st.path r).conj ≠ r
  gaps_length : ∀ r, r < st.heap.length → (st.path r).gaps.length = (st.path r).data.length - 1
  pairs : ∀ pq ∈ st.container, pq.1 < st.heap.length ∧ (st.path pq.1).conj = pq.2
  owned : ∀ r, r < st.heap.length → r ∈ containerPaths st
  distinct : (containerPaths st).Nodup

/-! ## PathExtendResolver: the driver -/

/-- Modelled from the spec: the contig writer (`write_paths(container, filename)`, an
external collaborator): the files written so far, each with the state of the container
it was given. -/
abbrev ContigWriter := List (String × State)

/-- Modelled from the spec: `ContigWriter::writePaths(paths, filename)`. -/
def writePaths (writer : ContigWriter) (st : State) (filename : String) : ContigWriter :=
  writer ++ [(filename, st)]

/-- `PathExtendResolver::removeOverlaps`; `fuel` is the iteration budget of the
`RemoveOverlaps` pass, the result is the final state with the writer, or `none` when a
pass aborts. -/
def removeOverlaps (g : Graph) (st : State) (max_overlap : Nat) (writer : ContigWriter)
    (output_dir : String) (fuel : Nat) : Option (State × ContigWriter) :=
  let w0 := writePaths writer st (output_dir ++ "/before.fasta")
  (RemoveSimilarPaths g st max_overlap false true true false).bind (fun st1 =>
  let w1 := writePaths w0 st1 (output_dir ++ "/remove_similar.fasta")
  (RemoveOverlaps g st1 max_overlap fuel).bind (fun st2 =>
  let w2 := writePaths w1 st2 (output_dir ++ "/after_remove_overlaps.fasta")
  (RemoveSimilarPaths g st2 max_overlap true false false false).bind (fun st3 =>
  let w3 := writePaths w2 st3 (output_dir ++ "/remove_equal.fasta")
  (RemoveSimilarPaths g st3 max_overlap false true true true).map (fun st4 =>
  (st4, writePaths w3 st4 (output_dir ++ "/remove_all.fasta"))))))

/-- The canonical four-pass pipeline, written from the design (§4.6.4): the four passes
in order, each on the state the previous one left. -/
def fourPassPipeline (g : Graph) (st : State) (max_overlap : Nat) (fuel : Nat) : Option State :=
  (RemoveSimilarPaths g st max_overlap false true true false).bind (fun s1 =>
  (RemoveOverlaps g s1 max_overlap fuel).bind (fun s2 =>
  (RemoveSimilarPaths g s2 max_overlap true false false false).bind (fun s3 =>
  RemoveSimilarPaths g s3 max_overlap false true true true)))

/-- The loop of `PathExtendResolver::makeSimpleSeeds` over the edges of the graph;
`included` is the local set of edges.  Modelled from the spec: `InCycle(e, g)` is the
`in_cycle` of the graph provider, passed as a function.  The two path objects are created
in the order in which they are written. -/
def makeSimpleSeedsLoop (g : Graph) (InCycle : EdgeId → Bool) :
    List EdgeId → List EdgeId → State → State
  | [], _, st => st
  | e :: rest, included, st =>
    if g.int_id e ≤ 0 ∨ InCycle e = true then
      makeSimpleSeedsLoop g InCycle rest included st
    else if e ∉ included then
      let r1 := newPath st e
      let r2 := newPath r1.1 (g.conjugate e)
      makeSimpleSeedsLoop g InCycle rest (g.conjugate e :: e :: included)
        (AddPair r2.1 r1.2 r2.2)
    else makeSimpleSeedsLoop g InCycle rest included st

/-- `PathExtendResolver::makeSimpleSeeds`: the returned container, as a state without
coverage map; `next_id` is the value of the path id counter at the call. -/
def makeSimpleSeeds (g : Graph) (InCycle : EdgeId → Bool) (next_id : Nat) : State :=
  makeSimpleSeedsLoop g InCycle g.edges [] ⟨[], [], [], next_id⟩

/-- The loop of `PathExtendResolver::addUncoveredEdges` over the edges of the graph;
`included` is the local set of edges. -/
def addUncoveredEdgesLoop (g : Graph) : List EdgeId → List EdgeId → State → State
  | [], _, st => st
  | e :: rest, included, st =>
    if e ∉ included ∧ IsCovered st e = false then
      let r1 := newPath st e
      let r2 := newPath r1.1 (g.conjugate e)
      addUncoveredEdgesLoop g rest (g.conjugate e :: e :: included) (AddPair r2.1 r1.2 r2.2)
    else addUncoveredEdgesLoop g rest included st

/-- `PathExtendResolver::addUncoveredEdges`. -/
def addUncoveredEdges (g : Graph) (st : State) : State :=
  addUncoveredEdgesLoop g g.edges [] st

/-- The pair `pq` is the singleton path `(e)` with its twin `(conj e)`, linked to each
other. -/
def IsSeedPair (g : Graph) (st : State) (pq : Nat × Nat) (e : EdgeId) : Prop :=
  (st.path pq.1).data = [e] ∧ (st.path pq.2).data = [g.conjugate e]
  ∧ (st.path pq.1).conj = pq.2 ∧ (st.path pq.2).conj = pq.1

/-- No edge is the canonical or the twin edge of two seeds of the list. -/
def SeedsDisjoint (g : Graph) (seeds : List EdgeId) : Prop :=
  seeds.Pairwise (fun a b => b ≠ a ∧ b ≠ g.conjugate a ∧ g.conjugate b ≠ a
    ∧ g.conjugate b ≠ g.conjugate a)

/-- The edges at which a seed loop adds a pair: the edges of the list that pass the test
`ok` and are not in `included` when they are reached. -/
def selectSeeds (g : Graph) (ok : EdgeId → Bool) : List EdgeId → List EdgeId → List EdgeId
  | [], _ => []
  | e :: rest, included =>
    if ok e = true ∧ e ∉ included then
      e :: selectSeeds g ok rest (g.conjugate e :: e :: included)
    else selectSeeds g ok rest included

/-- The state after `AddPair(new BidirectionalPath(g, e), new BidirectionalPath(g, conj e))`. -/
def addSeedPair (g : Graph) (st : State) (e : EdgeId) : State :=
  AddPair (newPath (newPath st e).1 (g.conjugate e)).1 (newPath st e).2
    (newPath (newPath st e).1 (g.conjugate e)).2

/-- The state after adding the seed pairs of the edges of a list, in order. -/
def addSeeds (g : Graph) : List EdgeId → State → State
  | [], st => st
  | e :: rest, st => addSeeds g rest (addSeedPair g st e)

/-- The smaller handle of an edge and its conjugate: the representative of the pair
`{e, conj e}`. -/
def conjClass (g : Graph) (e : EdgeId) : EdgeId := min e (g.conjugate e)

/-- A relation between states that holds along every primitive step by which the passes
of the resolver change existing paths (set a flag, clear, pop) and along sequences of
such steps. -/
structure StepClosed (R : State → State → Prop) : Prop where
  stay : ∀ s, R s s
  seq : ∀ s t u, R s t → R t u → R s u
  setOverlap : ∀ s x v, R s (SetOverlap s x v)
  clear : ∀ s y, R s (Clear s y)
  popBack : ∀ s p n, R s (popBackEdges s p n)
  markBegin : ∀ s p t, R s (SetOverlapedBeginTo s p t)
  markEnd : ∀ s p t, R s (SetOverlapedEndTo s p t)

/-- The state `t` has the objects, the container and the coverage map of `s`, and every
path of `t` holds only edges that it holds in `s`. -/
def Shrinks (s t : State) : Prop :=
  t.heap.length = s.heap.length ∧ t.container = s.container
  ∧ t.coverage_map = s.coverage_map
  ∧ ∀ r e, e ∈ (t.path r).data → e ∈ (s.path r).data

/-- Coverage correctness: for every edge, the set of the coverage map for the edge is the
set of the container paths whose edge sequence contains the edge. -/
def CoverageCorrect (st : State) : Prop :=
  ∀ e r, r ∈ GetCoveringPaths st e ↔ (r ∈ containerPaths st ∧ e ∈ (st.path r).data)

/-! ## Weight counters -/

/-- Modelled from the spec: a paired-read library (`paired_library.hpp` is not part of the
sources).  `IdealPairedInfo e1 e2 dist` is the expected and `CountPairedInfo e1 e2 dist`
the observed count of read pairs that join `e1` and `e2` at the distance `dist`;
`GetSingleThreshold` is the threshold of the library.  Weights are rational numbers. -/
structure PairedInfoLibrary where
  IdealPairedInfo : EdgeId → EdgeId → Int → ℚ
  CountPairedInfo : EdgeId → EdgeId → Int → ℚ
  GetSingleThreshold : ℚ

/-- `EdgeWithPairedInfo`: the path position `e_` with its ideal weight `pi_`. -/
structure EdgeWithPairedInfo where
  e_ : Nat
  pi_ : ℚ

/-- The members of `WeightCounter` that the weight functions read: the libraries (each
analyzer wraps the library of the same index), the normalization switch and the
excluded-edges map (a `std::map` from path positions to weights). -/
structure WeightCounter where
  libs_ : List PairedInfoLibrary
  normalizeWeight_ : Bool
  excluded_edges_ : Nat → Option ℚ

/-- A division of weights; `none` stands for a division by zero. -/
def divide (a b : ℚ) : Option ℚ := if b = 0 then none else some (a / b)

/-- `ExtentionAnalyzer::FindCoveredEdges`: the positions `i = (int) Size - 1, …, 0` of the
path whose ideal weight `IdealPairedInfo(path[i], candidate, (int) LengthAt(i))` is
greater than zero, each with this weight.  Modelled from the spec: `math::gr(w, 0.)` is
the exact comparison `w > 0`. -/
def FindCoveredEdges (g : Graph) (lib : PairedInfoLibrary) (path : BidirectionalPath)
    (candidate : EdgeId) : List EdgeWithPairedInfo :=
  ((List.range (toInt32 path.Size).toNat).reverse).filterMap (fun i =>
    let w := lib.IdealPairedInfo (path.At i) candidate (toInt32 (LengthAt g path i))
    if w > 0 then some ⟨i, w⟩ else none)

namespace ReadCountWeightCounter

/-- The body of the loop of `ReadCountWeightCounter::CountSingleLib`: the new value of
`weight` after the entry `iter` of `coveredEdges`. -/
def CountSingleLibStep (g : Graph) (wc : WeightCounter) (lib : PairedInfoLibrary)
    (path : BidirectionalPath) (e : EdgeId) (additionalGapLength : Int) (weight : ℚ)
    (iter : EdgeWithPairedInfo) : Option ℚ :=
  if (wc.excluded_edges_ iter.e_).isSome = true then some weight
  else
    let w := lib.CountPairedInfo (path.At iter.e_) e
      (toInt32 (LengthAt g path iter.e_) + additionalGapLength)
    if wc.normalizeWeight_ = true then (divide w iter.pi_).map (fun w1 => weight + w1)
    else some (weight + w)

/-- The loop of `ReadCountWeightCounter::CountSingleLib` over `coveredEdges`. -/
def CountSingleLibLoop (g : Graph) (wc : WeightCounter) (lib : PairedInfoLibrary)
    (path : BidirectionalPath) (e : EdgeId) (additionalGapLength : Int)
    (coveredEdges : List EdgeWithPairedInfo) : Option ℚ :=
  coveredEdges.foldlM (CountSingleLibStep g wc lib path e additionalGapLength) 0

/-- `ReadCountWeightCounter::CountSingleLib`; `lib` is `libs_[libIndex]`. -/
def CountSingleLib (g : Graph) (wc : WeightCounter) (lib : PairedInfoLibrary)
    (path : BidirectionalPath) (e : EdgeId) (additionalGapLength : Int) : Option ℚ :=
  CountSingleLibLoop g wc lib path e additionalGapLength (FindCoveredEdges g lib path e)

/-- `ReadCountWeightCounter::CountWeight`. -/
def CountWeight (g : Graph) (wc : WeightCounter) (path : BidirectionalPath) (e : EdgeId)
    (gapLength : Int) : Option ℚ :=
  wc.libs_.foldlM (fun weight lib =>
    (CountSingleLib g wc lib path e gapLength).map (fun w => weight + w)) 0

end ReadCountWeightCounter

namespace PathCoverWeightCounter

/-- The part of the loop body of `PathCoverWeightCounter::CountSingleLib` that follows the
test of the excluded-edges map: the new values of `weight` and `idealWeight` for the
ideal weight `ideal_weight` of the position `pos`. -/
def CountSingleLibAdd (g : Graph) (wc : WeightCounter) (singleThreshold : ℚ)
    (lib : PairedInfoLibrary) (path : BidirectionalPath) (e : EdgeId)
    (additionalGapLength : Int) (acc : ℚ × ℚ) (pos : Nat) (ideal_weight : ℚ) : Option (ℚ × ℚ) :=
  let threshold :=
    if lib.GetSingleThreshold ≥ 0 then lib.GetSingleThreshold else singleThreshold
  let singleWeight := lib.CountPairedInfo (path.At pos) e
    (toInt32 (LengthAt g path pos) + additionalGapLength)
  (if wc.normalizeWeight_ = true then divide singleWeight ideal_weight
    else some singleWeight).map (fun singleWeight =>
      (if singleWeight ≥ threshold then acc.1 + ideal_weight else acc.1, acc.2 + ideal_weight))

/-- The body of the loop of `PathCoverWeightCounter::CountSingleLib`; the accumulator is
the pair (`weight`, `idealWeight`).  Modelled from the spec: `math::gr` and `math::ge` are
the exact comparisons. -/
def CountSingleLibStep (g : Graph) (wc : WeightCounter) (singleThreshold : ℚ)
    (lib : PairedInfoLibrary) (path : BidirectionalPath) (e : EdgeId)
    (additionalGapLength : Int) (acc : ℚ × ℚ) (iter : EdgeWithPairedInfo) : Option (ℚ × ℚ) :=
  match wc.excluded_edges_ iter.e_ with
  | some x =>
    if ¬ (x > 0) ∨ ¬ (iter.pi_ > 0) then some acc
    else CountSingleLibAdd g wc singleThreshold lib path e additionalGapLength acc iter.e_ x
  | none =>
    CountSingleLibAdd g wc singleThreshold lib path e additionalGapLength acc iter.e_ iter.pi_

/-- The loop of `PathCoverWeightCounter::CountSingleLib` over `coveredEdges`. -/
def CountSingleLibLoop (g : Graph) (wc : WeightCounter) (singleThreshold : ℚ)
    (lib : PairedInfoLibrary) (path : BidirectionalPath) (e : EdgeId)
    (additionalGapLength : Int) (coveredEdges : List EdgeWithPairedInfo) : Option (ℚ × ℚ) :=
  coveredEdges.foldlM (CountSingleLibStep g wc singleThreshold lib path e additionalGapLength)
    (0, 0)

/-- The return statement of `PathCoverWeightCounter::CountSingleLib`. -/
def CountSingleLibResult (acc : ℚ × ℚ) : Option ℚ :=
  if acc.2 > 0 then divide acc.1 acc.2 else some 0

/-- `PathCoverWeightCounter::CountSingleLib`; `lib` is `libs_[libIndex]`. -/
def CountSingleLib (g : Graph) (wc : WeightCounter) (singleThreshold : ℚ)
    (lib : PairedInfoLibrary) (path : BidirectionalPath) (e : EdgeId)
    (additionalGapLength : Int) : Option ℚ :=
  (CountSingleLibLoop g wc singleThreshold lib path e additionalGapLength
    (FindCoveredEdges g lib path e)).bind CountSingleLibResult

/-- `PathCoverWeightCounter::CountWeight`. -/
def CountWeight (g : Graph) (wc : WeightCounter) (singleThreshold : ℚ)
    (path : BidirectionalPath) (e : EdgeId) (gapLength : Int) : Option ℚ :=
  (wc.libs_.foldlM (fun weight lib =>
    (CountSingleLib g wc singleThreshold lib path e gapLength).map (fun w => weight + w)) 0).bind
    (fun weight => divide weight ((max wc.libs_.length 1 : Nat) : ℚ))

end PathCoverWeightCounter

/-- The entries that take part in the sums of `PathCoverWeightCounter::CountSingleLib`:
an entry whose position is not a key of the excluded-edges map, as it is; an entry whose
position is a key with a positive value, with that value as its ideal weight; an entry
whose position is a key with a value that is not positive is left out. -/
def PathCoverWeightCounter.EffectiveEdges (wc : WeightCounter)
    (coveredEdges : List EdgeWithPairedInfo) : List EdgeWithPairedInfo :=
  coveredEdges.filterMap (fun it =>
    match wc.excluded_edges_ it.e_ with
    | none => some it
    | some x => if x > 0 then some ⟨it.e_, x⟩ else none)

/-- The comparisons started by the inner `for` loop of `CompareAndCut`: the loop of
`CompareAndCutInner`, recording for every call of `CompareAndCutFromPos` that passes the
size guard (and so calls `ComparePaths`) the pair of start positions and the state in
which the call is made. -/
def CompareAndCutInnerCalls (g : Graph) (path1 pos1 path2 : Nat) (max_overlap : Nat)
    (del_subpaths del_begins del_all : Bool) : List Nat → State → List (Nat × Nat × State)
  | [], _ => []
  | pos2 :: rest, st =>
    let here : List (Nat × Nat × State) :=
      if pos1 ≥ (st.path path1).Size ∨ pos2 ≥ (st.path path2).Size then []
      else [(pos1, pos2, st)]
    match CompareAndCutFromPos g st path1 pos1 path2 pos2 (toInt32 max_overlap)
        del_subpaths del_begins del_all with
    | none => here
    | some st1 =>
      here ++ CompareAndCutInnerCalls g path1 pos1 path2 max_overlap del_subpaths del_begins
        del_all rest st1

/-- The comparisons started by the outer `for` loop of `CompareAndCut` (the loop of
`CompareAndCutOuter` with the record of `CompareAndCutInnerCalls`). -/
def CompareAndCutOuterCalls (g : Graph) (edge : EdgeId) (path1 path2 : Nat) (max_overlap : Nat)
    (del_subpaths del_begins del_all : Bool) : List Nat → State → List (Nat × Nat × State)
  | [], _ => []
  | pos1 :: rest, st =>
    CompareAndCutInnerCalls g path1 pos1 path2 max_overlap del_subpaths del_begins del_all
        ((st.path path2).FindAll edge) st
      ++ match CompareAndCutInner g path1 pos1 path2 max_overlap del_subpaths del_begins del_all
          ((st.path path2).FindAll edge) st with
        | none => []
        | some st1 =>
          CompareAndCutOuterCalls g edge path1 path2 max_overlap del_subpaths del_begins
            del_all rest st1

/-- The comparisons started by one call of `CompareAndCut`, in the order in which they
are made: start position in `path1`, start position in `path2`, state at the call. -/
def CompareAndCutCalls (g : Graph) (st : State) (edge : EdgeId) (path1 path2 : Nat)
    (max_overlap : Nat) (del_subpaths del_begins del_all : Bool) : List (Nat × Nat × State) :=
  CompareAndCutOuterCalls g edge path1 path2 max_overlap del_subpaths del_begins del_all
    ((st.path path1).FindAll edge) st

/-- No path is deleted from `s` to `t`: the container is the same and every path that
holds an edge in `s` holds an edge in `t`. -/
def KeepsNonEmpty (s t : State) : Prop :=
  t.container = s.container ∧ ∀ r, 1 ≤ (s.path r).Size → 1 ≤ (t.path r).Size

/-- The state `t` arises from `s` by clearing paths and setting flags only: every path of
`t` has the edges and gaps it has in `s` or is empty, and the container and the
subscriptions of the coverage map are the same. -/
def ClearOnly (s t : State) : Prop :=
  Untrimmed s t ∧ t.coverage_map = s.coverage_map

/-- The members of `PathsWeightCounter` that `CountPairInfo` reads: the library `lib_` and
the map `common_w_` from positions of the first path to registered common weights.
Modelled from the spec: `CountPairedInfoFromInterval e1 e2 dist` is the four-argument
overload `lib_.CountPairedInfo(e1, e2, dist, true)` of the library (its header is not part
of the sources). -/
structure PathsWeightCounter where
  lib_ : PairedInfoLibrary
  CountPairedInfoFromInterval : EdgeId → EdgeId → Int → ℚ
  common_w_ : Nat → Option ℚ

namespace PathsWeightCounter

/-- `PathsWeightCounter::FindPairInfo(e1, e2, dist, ideal_w, result_w)`, the overload for
two edges; the result is the pair `(ideal_w, result_w)`. -/
def FindPairInfoEdges (c : PathsWeightCounter) (e1 e2 : EdgeId) (dist : Nat) : ℚ × ℚ :=
  let ideal_w := c.lib_.IdealPairedInfo e1 e2 (toInt32 dist)
  if ideal_w = 0 then (ideal_w, 0)
  else
    let w := c.CountPairedInfoFromInterval e1 e2 (toInt32 dist)
    if w > 10 then (ideal_w, ideal_w) else (ideal_w, 0)

/-- The body of the inner loop of `PathsWeightCounter::FindPairInfo` for the positions
`i1` and `i2`; the loop state is the map `pi` and the sum `ideal_pi`. -/
def FindPairInfoStep (c : PathsWeightCounter) (g : Graph) (path1 path2 : BidirectionalPath)
    (i1 : Nat) (s : (Nat → Option ℚ) × ℚ) (i2 : Nat) : (Nat → Option ℚ) × ℚ :=
  let dist := toSizeT ((LengthAt g path1 i1 : Int) + (Length g path2 : Int)
    - (LengthAt g path2 i2 : Int))
  let r := FindPairInfoEdges c (path1.At i1) (path2.At i2) dist
  let pi1 : Nat → Option ℚ :=
    if s.1 i1 = none then Function.update s.1 i1 (some 0) else s.1
  (Function.update pi1 i1 (some ((pi1 i1).getD 0 + r.2)), s.2 + r.1)

/-- `PathsWeightCounter::FindPairInfo(path1, from1, to1, path2, from2, to2, pi, ideal_pi)`,
the overload for two paths, started with the given `pi` and `ideal_pi`. -/
def FindPairInfo (c : PathsWeightCounter) (g : Graph) (path1 : BidirectionalPath)
    (from1 to1 : Nat) (path2 : BidirectionalPath) (from2 to2 : Nat)
    (s : (Nat → Option ℚ) × ℚ) : (Nat → Option ℚ) × ℚ :=
  (List.range' from1 (to1 - from1)).foldl
    (fun s1 i1 => (List.range' from2 (to2 - from2)).foldl
      (FindPairInfoStep c g path1 path2 i1) s1) s

/-- The loop of `PathsWeightCounter::CountPairInfo` over the positions `from1 ≤ i < to1`;
the result is the pair `(result, all_common)`; `pi[i]` is 0 for a position without
entry. -/
def CountPairInfoSums (c : PathsWeightCounter) (pi : Nat → Option ℚ) (from1 to1 : Nat) :
    ℚ × ℚ :=
  (List.range' from1 (to1 - from1)).foldl
    (fun a i =>
      (a.1 + (pi i).getD 0,
        match c.common_w_ i with
        | some w => a.2 + w
        | none => a.2)) (0, 0)

/-- The denominator of the quotient in `CountPairInfo`: the value of `ideal_pi` after
`ideal_pi -= all_common`. -/
def CountPairInfoDenominator (c : PathsWeightCounter) (g : Graph) (path1 : BidirectionalPath)
    (from1 to1 : Nat) (path2 : BidirectionalPath) (from2 to2 : Nat) : ℚ :=
  (FindPairInfo c g path1 from1 to1 path2 from2 to2 (fun _ => none, 0)).2
    - (CountPairInfoSums c
        (FindPairInfo c g path1 from1 to1 path2 from2 to2 (fun _ => none, 0)).1 from1 to1).2

/-- `PathsWeightCounter::CountPairInfo(path1, from1, to1, path2, from2, to2)`; `none`
stands for a division by zero.  Modelled from the spec: `math::ge(a, 0.0)` is the exact
comparison `a ≥ 0`. -/
def CountPairInfo (c : PathsWeightCounter) (g : Graph) (path1 : BidirectionalPath)
    (from1 to1 : Nat) (path2 : BidirectionalPath) (from2 to2 : Nat) : Option ℚ :=
  let r := FindPairInfo c g path1 from1 to1 path2 from2 to2 (fun _ => none, 0)
  let sums := CountPairInfoSums c r.1 from1 to1
  let ideal_pi := r.2 - sums.2
  let result := sums.1 - sums.2
  (if ideal_pi ≥ 0 then divide result ideal_pi else some 0).map
    (fun total_result => if total_result ≥ 0 then total_result else 0)

end PathsWeightCounter

/-! ## Binary read streams (`binary_io.hpp`) -/

/-- `SeqPairedReadStream`: `file_reads` are the records of the file behind `stream_` and
`file_read_num` is the header of the file; `pos` is the position of `stream_`, in records
after the header; `read_num_` and `current_` are the members of the class.  A paired read
is the pair of its `first()` and `second()` single reads. -/
structure SeqPairedReadStream (α : Type) where
  file_reads : List (α × α)
  file_read_num : Nat
  pos : Nat
  read_num_ : Nat
  current_ : Nat

namespace SeqPairedReadStream

/-- `SeqPairedReadStream::eof`. -/
def eof {α : Type} (s : SeqPairedReadStream α) : Bool := decide (s.current_ ≥ s.read_num_)

/-- `SeqPairedReadStream::operator>>`: the record read and the stream after the call.
Modelled from the spec: `BinRead` reads the next record of the file; the result is `none`
when the file has no record left. -/
def extract {α : Type} (s : SeqPairedReadStream α) : Option ((α × α) × SeqPairedReadStream α) :=
  match s.file_reads[s.pos]? with
  | none => none
  | some r =>
    some (r, { s with pos := s.pos + 1, current_ := (s.current_ + 1) % 18446744073709551616 })

/-- `SeqPairedReadStream::reset`: back to the start of the file, the header is read
again. -/
def reset {α : Type} (s : SeqPairedReadStream α) : SeqPairedReadStream α :=
  { s with pos := 0, read_num_ := s.file_read_num, current_ := 0 }

/-- The constructor of `SeqPairedReadStream` on a file with the given header and records:
it opens the file and calls `reset()`. -/
def openStream {α : Type} (header : Nat) (records : List (α × α)) : SeqPairedReadStream α :=
  reset ⟨records, header, 0, 0, 0⟩

end SeqPairedReadStream

/-- `SeqSingleReadStreamWrapper`: the wrapped paired stream `stream_` (a reference in the
source; the wrapper is its only user here), the buffered paired read `current_read_` and
the flag `is_read_`. -/
structure SeqSingleReadStreamWrapper (α : Type) where
  stream_ : SeqPairedReadStream α
  current_read_ : α × α
  is_read_ : Bool

namespace SeqSingleReadStreamWrapper

/-- The constructor of `SeqSingleReadStreamWrapper`: `current_read_` is default
constructed, `is_read_` is `false`. -/
def wrap {α : Type} [Inhabited α] (stream : SeqPairedReadStream α) :
    SeqSingleReadStreamWrapper α :=
  ⟨stream, default, false⟩

/-- `SeqSingleReadStreamWrapper::eof`. -/
def eof {α : Type} (w : SeqSingleReadStreamWrapper α) : Bool := w.stream_.eof && !w.is_read_

/-- `SeqSingleReadStreamWrapper::operator>>`: the single read handed out and the wrapper
after the call; `none` when the wrapped stream has no record left. -/
def extract {α : Type} (w : SeqSingleReadStreamWrapper α) :
    Option (α × SeqSingleReadStreamWrapper α) :=
  if w.is_read_ = false then
    match w.stream_.extract with
    | none => none
    | some (r, s) => some (r.1, ⟨s, r, true⟩)
  else some (w.current_read_.2, { w with is_read_ := false })

/-- `SeqSingleReadStreamWrapper::reset`. -/
def reset {α : Type} (w : SeqSingleReadStreamWrapper α) : SeqSingleReadStreamWrapper α :=
  { w with stream_ := w.stream_.reset, is_read_ := false }

/-- The first `k` successive extractions: the single reads handed out, in order, and the
wrapper after the last one. -/
def extractN {α : Type} : Nat → SeqSingleReadStreamWrapper α →
    Option (List α × SeqSingleReadStreamWrapper α)
  | 0, w => some ([], w)
  | k + 1, w =>
    (extractN k w).bind (fun x => (extract x.2).map (fun y => (x.1 ++ [y.1], y.2)))

/-- The state of the wrapper that the next calls of `eof` and of `operator>>` depend on:
the wrapped stream, the flag, and the buffered paired read when the flag is set. -/
def sameBehaviour {α : Type} (w1 w2 : SeqSingleReadStreamWrapper α) : Prop :=
  w1.stream_ = w2.stream_ ∧ w1.is_read_ = w2.is_read_
  ∧ (w1.is_read_ = true → w1.current_read_ = w2.current_read_)

end SeqSingleReadStreamWrapper

/-- The local variables of `BinaryWriter::ToBinary` and the files behind `file_ds_`:
`buf i` is the buffer of file `i` (slot to read), `buf_sizes` and `current_buf_sizes` are
the two counter vectors, `file_header i` is the `size_t` at the start of file `i` and
`file_records i` are the reads written to it after the header. -/
structure ToBinaryState (α : Type) where
  read_count : Nat
  buf : Nat → Nat → α
  buf_sizes : Nat → Nat
  current_buf_sizes : Nat → Nat
  file_header : Nat → Nat
  file_records : Nat → List α

namespace BinaryWriter

/-- `BinaryWriter::FlushBuffer(buffer, file)`: every read of the buffer is written to the
file, in order. -/
def FlushBuffer {α : Type} (buffer : List α) (file : List α) : List α := file ++ buffer

/-- The state of `ToBinary` before the `while` loop: empty counters, buffers of default
constructed reads, and the header 0 written to every file. -/
def ToBinaryInit {α : Type} [Inhabited α] : ToBinaryState α :=
  ⟨0, fun _ _ => default, fun _ => 0, fun _ => 0, fun _ => 0, fun _ => []⟩

/-- The body of the `while` loop of `ToBinary` up to `++read_count`: the read `r` taken
from the stream is stored in the buffer `read_count % file_num_` at the slot
`current_buf_sizes[buf_index]`, and the three counters are incremented. -/
def ToBinaryStore {α : Type} (file_num : Nat) (s : ToBinaryState α) (r : α) : ToBinaryState α :=
  let buf_index := s.read_count % file_num
  let slot := s.current_buf_sizes buf_index
  { read_count := (s.read_count + 1) % 18446744073709551616,
    buf := Function.update s.buf buf_index (Function.update (s.buf buf_index) slot r),
    buf_sizes := Function.update s.buf_sizes buf_index
      ((s.buf_sizes buf_index + 1) % 18446744073709551616),
    current_buf_sizes := Function.update s.current_buf_sizes buf_index
      ((slot + 1) % 18446744073709551616),
    file_header := s.file_header,
    file_records := s.file_records }

/-- The `for` loop of `ToBinary` that runs when `read_count % reads_to_flush == 0`: every
buffer is flushed, with all its `buf_size` slots, and its current size is set to 0. -/
def FlushAll {α : Type} (file_num buf_size : Nat) (s : ToBinaryState α) : ToBinaryState α :=
  { s with
    current_buf_sizes := fun i => if i < file_num then 0 else s.current_buf_sizes i,
    file_records := fun i => if i < file_num then
        FlushBuffer ((List.range buf_size).map (s.buf i)) (s.file_records i)
      else s.file_records i }

/-- One iteration of the `while` loop of `ToBinary`, for the read `r` taken from the
stream.  The result is `none` for undefined behaviour: a remainder by zero, or a read
stored at a slot that is not a slot of the buffer. -/
def ToBinaryStep {α : Type} (file_num buf_size : Nat) (s : ToBinaryState α) (r : α) :
    Option (ToBinaryState α) :=
  let reads_to_flush := (buf_size * file_num) % 18446744073709551616
  if file_num = 0 then none
  else if s.current_buf_sizes (s.read_count % file_num) ≥ buf_size then none
  else
    let s1 := ToBinaryStore file_num s r
    if reads_to_flush = 0 then none
    else if s1.read_count % reads_to_flush = 0 then some (FlushAll file_num buf_size s1)
    else some s1

/-- The loop of `ToBinary` after the `while` loop: every buffer is cut to its current
size and flushed, and the number of reads of the file is written into its header. -/
def ToBinaryFinish {α : Type} [Inhabited α] (file_num buf_size : Nat) (s : ToBinaryState α) :
    ToBinaryState α :=
  { s with
    file_records := fun i => if i < file_num then
        FlushBuffer ((List.range (s.current_buf_sizes i)).map
          (fun j => if j < buf_size then s.buf i j else default)) (s.file_records i)
      else s.file_records i,
    file_header := fun i => if i < file_num then s.buf_sizes i else s.file_header i }

/-- `BinaryWriter::ToBinary(stream, buf_size)` for `file_num_` files.  Modelled from the
spec: the input stream is the sequence of the reads it yields until `eof()`. -/
def ToBinary {α : Type} [Inhabited α] (file_num buf_size : Nat) (stream : List α) :
    Option (ToBinaryState α) :=
  (stream.foldlM (ToBinaryStep file_num buf_size) ToBinaryInit).map
    (ToBinaryFinish file_num buf_size)

/-- The reads of `l` whose 0-based index is congruent to `i` modulo `file_num`, in the
order of `l`. -/
def readsOfFile {α : Type} (file_num i : Nat) (l : List α) : List α :=
  (l.enum.filter (fun p => decide (p.1 % file_num = i))).map Prod.snd

/-- The number of reads in the buffer of file `i` when `c` reads have been taken since
the last flush. -/
def inBuffer (file_num c i : Nat) : Nat := c / file_num + (if i < c % file_num then 1 else 0)

/-- The loop invariant of `ToBinary` after the reads `l`: the counters count the reads
taken and the reads of each file, and the reads of each file are those written to it,
followed by the filled slots of its buffer. -/
structure ToBinaryInv {α : Type} (file_num buf_size : Nat) (l : List α)
    (s : ToBinaryState α) : Prop where
  count : s.read_count = l.length
  sizes : ∀ i, i < file_num → s.buf_sizes i = (readsOfFile file_num i l).length
  current : ∀ i, i < file_num →
    s.current_buf_sizes i = inBuffer file_num (l.length % (buf_size * file_num)) i
  content : ∀ i, i < file_num →
    s.file_records i ++ (List.range (s.current_buf_sizes i)).map (s.buf i)
      = readsOfFile file_num i l

end BinaryWriter

/-- The statement that one call of `CutOverlaps` executes on its arguments: `Clear()` on a
path, `PopBack(n)` on a path, nothing with the result `true` (a `del_begins` row in which
both paths are protected), or nothing with the result `false` (the final `else`). -/
inductive CutAction where
  | clear (path : Nat)
  | popBack (path : Nat) (n : Nat)
  | keep
  | nothingDeleted
deriving DecidableEq, Repr

/-- The branch of the if-chain of `SimpleOverlapRemover::CutOverlaps` that is taken: the
conditions are those of `CutOverlaps`, in the same order, and each branch names the
statement it executes. -/
def CutOverlapsAction (g : Graph) (st : State)
    (path1 first1 last1 size1 path2 first2 last2 size2 : Nat)
    (del_subpaths del_begins del_all : Bool) : CutAction :=
  let p1 := st.path path1
  let p2 := st.path path2
  if first1 = 0 ∧ last1 = toSizeT ((size1 : Int) - 1) ∧ del_subpaths = true
      ∧ p1.HasOverlapedBegin = false ∧ p1.HasOverlapedEnd = false then
    CutAction.clear path1
  else if first2 = 0 ∧ last2 = toSizeT ((size2 : Int) - 1) ∧ del_subpaths = true
      ∧ p2.HasOverlapedBegin = false ∧ p2.HasOverlapedEnd = false then
    CutAction.clear path2
  else if first2 = 0 ∧ first1 = 0 ∧ del_begins = true then
    if Length g p1 < Length g p2 ∧ p1.HasOverlapedBegin = false then
      CutAction.popBack (st.GetConjPath path1) (toSizeT ((last1 : Int) + 1))
    else if p2.HasOverlapedBegin = false then
      CutAction.popBack (st.GetConjPath path2) (toSizeT ((last2 : Int) + 1))
    else CutAction.keep
  else if (last1 = toSizeT ((size1 : Int) - 1) ∧ last2 = toSizeT ((size2 : Int) - 1))
      ∧ del_begins = true then
    if Length g p1 < Length g p2 ∧ p1.HasOverlapedEnd = false then
      CutAction.popBack path1 (toSizeT ((last1 : Int) + 1 - first1))
    else if p2.HasOverlapedEnd = false then
      CutAction.popBack path2 (toSizeT ((last2 : Int) + 1 - first2))
    else CutAction.keep
  else if first2 = 0 ∧ del_all = true ∧ p2.HasOverlapedBegin = false then
    CutAction.popBack (st.GetConjPath path2) (toSizeT ((last2 : Int) + 1))
  else if last2 = toSizeT ((size2 : Int) - 1) ∧ del_all = true ∧ p2.HasOverlapedEnd = false then
    CutAction.popBack path2 (toSizeT ((last1 : Int) + 1 - first1))
  else if first1 = 0 ∧ del_all = true ∧ p1.HasOverlapedBegin = false then
    CutAction.popBack (st.GetConjPath path1) (toSizeT ((last1 : Int) + 1))
  else if last1 = toSizeT ((size1 : Int) - 1) ∧ del_all = true ∧ p1.HasOverlapedEnd = false then
    CutAction.popBack path1 (toSizeT ((last1 : Int) + 1 - first1))
  else CutAction.nothingDeleted

/-- The effect of the statement: the returned flag and the state after it, or `none` when
a `PopBack` aborts. -/
def CutAction.run (st : State) : CutAction → Option (Bool × State)
  | CutAction.clear path => some (true, Clear st path)
  | CutAction.popBack path n => (PopBack st path n).map (fun s => (true, s))
  | CutAction.keep => some (true, st)
  | CutAction.nothingDeleted => some (false, st)

/-- What the statement `A`, run in `st` with the outcome `res`, does to an argument path
`x` of `CutOverlaps` that has an overlap flag set: `A` is not a `Clear` of `x` or of its
twin; without `del_begins` and `del_all` the path is unchanged; with `has_overlaped_begin`
set the path is unchanged or `A` is a `PopBack(n)` on `x`, which removes its last `n`
edges and gaps; with `has_overlaped_end` set the path is unchanged or `A` is a
`PopBack(n)` on its twin, which removes its first `n` edges and gaps; with both flags set
the path is unchanged. -/
def FlagProtected (A : CutAction) (del_begins del_all : Bool) (st : State)
    (res : Bool × State) (x : Nat) : Prop :=
  ((st.path x).HasOverlapedBegin = true ∨ (st.path x).HasOverlapedEnd = true) →
    (∀ y, A = CutAction.clear y →
      y ≠ x ∧ y ≠ st.GetConjPath x ∧ res.2.path x = st.path x)
    ∧ (del_begins = false → del_all = false → res.2.path x = st.path x)
    ∧ ((st.path x).HasOverlapedBegin = true →
        res.2.path x = st.path x
        ∨ ∃ n, A = CutAction.popBack x n ∧ n ≤ (st.path x).Size
            ∧ res.2.path x = { st.path x with
                data := (st.path x).data.take ((st.path x).data.length - n),
                gaps := (st.path x).gaps.take ((st.path x).data.length - n - 1) })
    ∧ ((st.path x).HasOverlapedEnd = true →
        res.2.path x = st.path x
        ∨ ∃ n, A = CutAction.popBack (st.GetConjPath x) n
            ∧ n ≤ (st.path (st.GetConjPath x)).Size
            ∧ res.2.path x = { st.path x with
                data := (st.path x).data.drop n, gaps := (st.path x).gaps.drop n })
    ∧ ((st.path x).HasOverlapedBegin = true → (st.path x).HasOverlapedEnd = true →
        res.2.path x = st.path x)

/-! ## Concrete inputs -/

/-- A graph with the edges `1, 3, 5, …, 13` and their conjugates `2, 4, …, 14`
(`conjugate` swaps `2k-1` and `2k`); the edge `long` and its conjugate have length 5,
every other edge has length 1. -/
def exGraph (long : EdgeId) : Graph where
  edges := [1, 3, 5, 7, 9, 11, 13]
  length := fun e => if e = long ∨ e = (if long % 2 = 0 then long - 1 else long + 1) then 5 else 1
  conjugate := fun e => if e % 2 = 0 then e - 1 else e + 1
  int_id := fun e => (e : Int)

/-- A path object with the given edges, zero gaps and no flag set. -/
def exPath (d : List EdgeId) (id conj : Nat) : BidirectionalPath :=
  ⟨d, List.replicate (d.length - 1) 0, id, conj, false, false, false⟩

/-- The conjugate edge sequence of `d` in `exGraph`. -/
def exConj (d : List EdgeId) : List EdgeId := (d.map (exGraph 0).conjugate).reverse

/-- A container with the two pairs built from the edge sequences `d1` and `d2`: the
paths are stored at the addresses 0 and 2, their conjugates at 1 and 3, the path ids are
the addresses, and every path is subscribed to the coverage map. -/
def exState (d1 d2 : List EdgeId) : State :=
  { heap := [exPath d1 0 1, exPath (exConj d1) 1 0, exPath d2 2 3, exPath (exConj d2) 3 2],
    container := [(0, 1), (2, 3)], coverage_map := [0, 1, 2, 3], next_id := 4 }

/-- The state `exState [1, 3] [1, 5, 7, 9]` in which the beginning of the first path is
already marked as overlapped. -/
def exStateOverlapedBegin : State :=
  (exState [1, 3] [1, 5, 7, 9]).store 0 { exPath [1, 3] 0 1 with has_overlaped_begin := true }

/-- A container with three pairs that all hold the edge sequence `d` (conjugates hold the
conjugate sequence): the paths are stored at the addresses 0, 2 and 4, their conjugates
at 1, 3 and 5, the path ids are the addresses, and every path is subscribed. -/
def exStateTriple (d : List EdgeId) : State :=
  { heap := [exPath d 0 1, exPath (exConj d) 1 0, exPath d 2 3, exPath (exConj d) 3 2,
             exPath d 4 5, exPath (exConj d) 5 4],
    container := [(0, 1), (2, 3), (4, 5)], coverage_map := [0, 1, 2, 3, 4, 5], next_id := 6 }

/-- The state `exState [1, 3] [1, 3]` with two equal paths, in which the second path (at
address 2) carries the `is_overlap` flag. -/
def exStateDuplicates : State :=
  (exState [1, 3] [1, 3]).store 2 { exPath [1, 3] 2 3 with overlap := true }

/-- The state `exState [7, 9] [7, 9, 11]` in which the first path (at address 0) is an
overlap path: it carries the `is_overlap` flag. -/
def exStateOverlapFirst : State :=
  (exState [7, 9] [7, 9, 11]).store 0 { exPath [7, 9] 0 1 with overlap := true }

/-- The state `exState [1, 3, 7, 9] [7, 9]` in which the second path (at address 2) is an
overlap path: it carries the `is_overlap` flag. -/
def exStateOverlapSecond : State :=
  (exState [1, 3, 7, 9] [7, 9]).store 2 { exPath [7, 9] 2 3 with overlap := true }

/-- A container with the three pairs built from the edge sequences `d1`, `d2` and `d3`:
the paths are stored at the addresses 0, 2 and 4, their conjugates at 1, 3 and 5, the path
ids are the addresses, and every path is subscribed to the coverage map. -/
def exStateThree (d1 d2 d3 : List EdgeId) : State :=
  { heap := [exPath d1 0 1, exPath (exConj d1) 1 0, exPath d2 2 3, exPath (exConj d2) 3 2,
             exPath d3 4 5, exPath (exConj d3) 5 4],
    container := [(0, 1), (2, 3), (4, 5)], coverage_map := [0, 1, 2, 3, 4, 5], next_id := 6 }

/-- A graph with the single edge `1`, whose int_id is `0`. -/
def exGraphZeroId : Graph where
  edges := [1]
  length := fun _ => 1
  conjugate := fun e => if e % 2 = 0 then e - 1 else e + 1
  int_id := fun e => (e : Int) - 1

/-- A library whose ideal count is 1 at the distance 1 and 2 elsewhere, with the observed
count 6 everywhere and the threshold 0. -/
def exLibrary : PairedInfoLibrary where
  IdealPairedInfo := fun _ _ d => if d = 1 then 1 else 2
  CountPairedInfo := fun _ _ _ => 6
  GetSingleThreshold := 0

/-- A weight counter with the library `exLibrary`, normalization on and no excluded
position. -/
def exWeightCounter : WeightCounter where
  libs_ := [exLibrary]
  normalizeWeight_ := true
  excluded_edges_ := fun _ => none

/-- The weight counter `exWeightCounter` with the position 0 excluded with the value 1. -/
def exWeightCounterExcluded : WeightCounter where
  libs_ := [exLibrary]
  normalizeWeight_ := true
  excluded_edges_ := fun i => if i = 0 then some 1 else none

/-- The path `(1, 3, 7, 3)` with the gaps 6, -3 and 0: the edge `3` occurs at the positions
1 and 3, at the distances 6 and 5 from the end of the edge at position 0. -/
def exPathNegativeGap : BidirectionalPath :=
  ⟨[1, 3, 7, 3], [6, -3, 0], 2, 3, false, false, false⟩

/-- The state `exState [1, 3] [1, 3, 5, 7]` in which the end of the first path is marked
as overlapped by the second path. -/
def exStateOverlapedEnd : State :=
  SetOverlapedEndTo (exState [1, 3] [1, 3, 5, 7]) 0 2

/-- A counter over `exLibrary` whose interval count is 11 everywhere and in which the
common weight 1 is registered for the position 0. -/
def exPathsWeightCounter : PathsWeightCounter where
  lib_ := exLibrary
  CountPairedInfoFromInterval := fun _ _ _ => 11
  common_w_ := fun i => if i = 0 then some 1 else none

/-- A paired stream over a file that holds the two paired reads `(10, 11)` and
`(20, 21)`. -/
def exPairedStream : SeqPairedReadStream Nat :=
  SeqPairedReadStream.openStream 2 [(10, 11), (20, 21)]

/-! ## Machine integers and the heap: basic facts -/

theorem toSizeT_of_range (z : Int) (h0 : 0 ≤ z) (h1 : z < 18446744073709551616) :
    ((toSizeT z : Nat) : Int) = z := by
  unfold toSizeT
  rw [Int.emod_eq_of_lt h0 h1, Int.toNat_of_nonneg h0]

theorem toSizeT_natCast (n : Nat) (h : n < 18446744073709551616) : toSizeT (n : Int) = n := by
  have := toSizeT_of_range (n : Int) (by omega) (by omega)
  omega

theorem toSizeT_pred (n : Nat) (h0 : 0 < n) (h : n < 18446744073709551616) :
    toSizeT ((n : Int) - 1) = n - 1 := by
  have := toSizeT_of_range ((n : Int) - 1) (by omega) (by omega)
  omega

theorem toSizeT_succ (n : Nat) (h : n + 1 < 18446744073709551616) :
    toSizeT ((n : Int) + 1) = n + 1 := by
  have := toSizeT_of_range ((n : Int) + 1) (by omega) (by omega)
  omega

theorem toSizeT_span (a b : Nat) (hab : b ≤ a) (h : a + 1 < 18446744073709551616) :
    toSizeT ((a : Int) + 1 - b) = a + 1 - b := by
  have := toSizeT_of_range ((a : Int) + 1 - b) (by omega) (by omega)
  omega

namespace State

theorem path_store_eq (st : State) (p : Nat) (x : BidirectionalPath) (h : p < st.heap.length) :
    (st.store p x).path p = x := by
  simp [path, store, List.getD_eq_getElem?_getD, List.getElem?_set, h]

theorem path_store_ne (st : State) (p q : Nat) (x : BidirectionalPath) (h : q ≠ p) :
    (st.store p x).path q = st.path q := by
  simp [path, store, List.getD_eq_getElem?_getD, List.getElem?_set, Ne.symm h]

@[simp] theorem heap_length_store (st : State) (p : Nat) (x : BidirectionalPath) :
    (st.store p x).heap.length = st.heap.length := by
  simp [store]

@[simp] theorem coverage_map_store (st : State) (p : Nat) (x : BidirectionalPath) :
    (st.store p x).coverage_map = st.coverage_map := rfl

@[simp] theorem container_store (st : State) (p : Nat) (x : BidirectionalPath) :
    (st.store p x).container = st.container := rfl

end State

/-- State of every object after `Clear`. -/
theorem Clear_path (st : State) (p r : Nat) (hp : p < st.heap.length)
    (hq : (st.path p).conj < st.heap.length) :
    (Clear st p).path r =
      if r = p ∨ r = (st.path p).conj then { st.path r with data := [], gaps := [] }
      else st.path r := by
  unfold Clear
  by_cases hrq : r = (st.path p).conj
  · subst hrq
    rw [State.path_store_eq _ _ _ (by simpa using hq)]
    by_cases hqp : (st.path p).conj = p
    · rw [hqp, State.path_store_eq _ _ _ hp]; simp [hqp]
    · rw [State.path_store_ne _ _ _ _ hqp]; simp
  · rw [State.path_store_ne _ _ _ _ hrq]
    by_cases hrp : r = p
    · subst hrp; rw [State.path_store_eq _ _ _ hp]; simp
    · rw [State.path_store_ne _ _ _ _ hrp]; simp [hrp, hrq]

/-- State of every object after the two updates of `PopBack`, for a path whose conjugate
is another object. -/
theorem popBackEdges_path (st : State) (p n r : Nat) (hp : p < st.heap.length)
    (hq : (st.path p).conj < st.heap.length) (hne : (st.path p).conj ≠ p) :
    (popBackEdges st p n).path r =
      if r = p then { st.path p with data := (st.path p).data.take ((st.path p).data.length - n),
                                     gaps := (st.path p).gaps.take ((st.path p).data.length - n - 1) }
      else if r = (st.path p).conj then
        { st.path r with data := (st.path r).data.drop n, gaps := (st.path r).gaps.drop n }
      else st.path r := by
  unfold popBackEdges
  by_cases hrq : r = (st.path p).conj
  · subst hrq
    rw [State.path_store_eq _ _ _ (by simpa using hq), State.path_store_ne _ _ _ _ hne]
    simp [hne]
  · rw [State.path_store_ne _ _ _ _ hrq]
    by_cases hrp : r = p
    · subst hrp; rw [State.path_store_eq _ _ _ hp]; simp
    · rw [State.path_store_ne _ _ _ _ hrp]; simp [hrp, hrq]

/-! ## Cut policy (`CutOverlaps`) -/

/-- C7. Subpath rows of the cut policy, first match wins.  For two paths of different
pairs and spans with `first ≤ last < size`, with `del_subpaths` set: if the span of `path1`
is the whole of `path1` and `path1` has neither overlapped-begin nor overlapped-end flag,
`CutOverlaps` returns true after clearing `path1` (and its conjugate) and leaves `path2`
and its conjugate as they were; otherwise, if the span of `path2` is the whole of `path2`
and `path2` has neither flag, it returns true after clearing `path2` and leaves `path1`
and its conjugate as they were. -/
theorem CutOverlaps_subpath_rows (g : Graph) (st : State)
    (path1 first1 last1 path2 first2 last2 : Nat) (del_begins del_all : Bool)
    (h1 : path1 < st.heap.length) (h2 : path2 < st.heap.length)
    (hc1 : st.GetConjPath path1 < st.heap.length) (hc2 : st.GetConjPath path2 < st.heap.length)
    (hpairs : path2 ≠ path1 ∧ path2 ≠ st.GetConjPath path1 ∧ st.GetConjPath path2 ≠ path1
      ∧ st.GetConjPath path2 ≠ st.GetConjPath path1)
    (hspan1 : first1 ≤ last1 ∧ last1 < (st.path path1).Size)
    (hspan2 : first2 ≤ last2 ∧ last2 < (st.path path2).Size)
    (hsz1 : (st.path path1).Size < SIZE_T_MOD) (hsz2 : (st.path path2).Size < SIZE_T_MOD) :
    ((first1 = 0 ∧ last1 = (st.path path1).Size - 1
        ∧ (st.path path1).has_overlaped_begin = false ∧ (st.path path1).has_overlaped_end = false) →
      CutOverlaps g st path1 first1 last1 (st.path path1).Size path2 first2 last2 (st.path path2).Size
          true del_begins del_all = some (true, Clear st path1)
        ∧ ((Clear st path1).path path1).data = []
        ∧ ((Clear st path1).path (st.GetConjPath path1)).data = []
        ∧ (Clear st path1).path path2 = st.path path2
        ∧ (Clear st path1).path (st.GetConjPath path2) = st.path (st.GetConjPath path2))
    ∧ (¬ (first1 = 0 ∧ last1 = (st.path path1).Size - 1
        ∧ (st.path path1).has_overlaped_begin = false ∧ (st.path path1).has_overlaped_end = false) →
      (first2 = 0 ∧ last2 = (st.path path2).Size - 1
        ∧ (st.path path2).has_overlaped_begin = false ∧ (st.path path2).has_overlaped_end = false) →
      CutOverlaps g st path1 first1 last1 (st.path path1).Size path2 first2 last2 (st.path path2).Size
          true del_begins del_all = some (true, Clear st path2)
        ∧ ((Clear st path2).path path2).data = []
        ∧ ((Clear st path2).path (st.GetConjPath path2)).data = []
        ∧ (Clear st path2).path path1 = st.path path1
        ∧ (Clear st path2).path (st.GetConjPath path1) = st.path (st.GetConjPath path1)) := by
  obtain ⟨hp1, hp2, hp3, hp4⟩ := hpairs
  have e1 : toSizeT (((st.path path1).Size : Int) - 1) = (st.path path1).Size - 1 :=
    toSizeT_pred _ (by omega) hsz1
  have e2 : toSizeT (((st.path path2).Size : Int) - 1) = (st.path path2).Size - 1 :=
    toSizeT_pred _ (by omega) hsz2
  unfold State.GetConjPath at *
  constructor
  · intro h
    refine ⟨?_, ?_, ?_, ?_, ?_⟩
    · unfold CutOverlaps
      simp only [e1, BidirectionalPath.HasOverlapedBegin, BidirectionalPath.HasOverlapedEnd]
      rw [if_pos ⟨h.1, h.2.1, trivial, h.2.2.1, h.2.2.2⟩]
    · rw [Clear_path st path1 path1 h1 hc1]; simp
    · rw [Clear_path st path1 _ h1 hc1]; simp
    · rw [Clear_path st path1 path2 h1 hc1]; simp [hp1, hp2]
    · rw [Clear_path st path1 _ h1 hc1]; simp [hp3, hp4]
  · intro hn h
    refine ⟨?_, ?_, ?_, ?_, ?_⟩
    · unfold CutOverlaps
      simp only [e1, e2, BidirectionalPath.HasOverlapedBegin, BidirectionalPath.HasOverlapedEnd]
      rw [if_neg (fun hh => hn ⟨hh.1, hh.2.1, hh.2.2.2.1, hh.2.2.2.2⟩),
        if_pos ⟨h.1, h.2.1, trivial, h.2.2.1, h.2.2.2⟩]
    · rw [Clear_path st path2 path2 h2 hc2]; simp
    · rw [Clear_path st path2 _ h2 hc2]; simp
    · rw [Clear_path st path2 path1 h2 hc2]; simp [Ne.symm hp1, Ne.symm hp3]
    · rw [Clear_path st path2 _ h2 hc2]; simp [Ne.symm hp2, Ne.symm hp4]

/-- Witness of C7 on the container with the paths `(3, 5, 7)` and `(1, 3, 5, 7, 9)`. -/
theorem CutOverlaps_subpath_rows_witness :
    CutOverlaps (exGraph 5) (exState [3, 5, 7] [1, 3, 5, 7, 9]) 0 0 2 3 2 1 3 5 true false false
        = some (true, Clear (exState [3, 5, 7] [1, 3, 5, 7, 9]) 0)
      ∧ ((Clear (exState [3, 5, 7] [1, 3, 5, 7, 9]) 0).path 0).data = [] :=
  have h := (CutOverlaps_subpath_rows (exGraph 5) (exState [3, 5, 7] [1, 3, 5, 7, 9]) 0 0 2 2 1 3
    false false (by decide) (by decide) (by decide) (by decide) (by decide) (by decide) (by decide)
    (by decide) (by decide)).1 (by decide)
  ⟨h.1, h.2.1⟩

/-- Effect of a checked `PopBack` on a path whose conjugate is another object. -/
theorem PopBack_eq_some (st : State) (p n : Nat) (hn : n ≤ (st.path p).data.length) :
    PopBack st p n = some (popBackEdges st p n) := by
  unfold PopBack
  rw [if_neg (by omega)]

/-- C8, amended.  The `del_begins` rows.  When no subpath row fires, `del_begins` is set
and both spans touch the start: `path1` loses its first `last1 + 1` edges if it is strictly
shorter (by `Length`) than `path2` and has no overlapped begin; otherwise `path2` loses its
first `last2 + 1` edges if it has no overlapped begin, also when it is the longer path or
the lengths are equal; otherwise nothing is modified.  When the spans do not both touch
the start and both touch the end, the same holds with the overlapped-end flags and with
`last + 1 - first` edges removed from the back.  The path that is not trimmed and its
conjugate are unchanged, and the call returns true in every case. -/
theorem CutOverlaps_del_begins_rows (g : Graph) (st : State)
    (path1 first1 last1 path2 first2 last2 : Nat) (del_subpaths del_all : Bool)
    (hc1 : st.GetConjPath path1 < st.heap.length) (hc2 : st.GetConjPath path2 < st.heap.length)
    (h1 : path1 < st.heap.length) (h2 : path2 < st.heap.length)
    (hcc1 : st.GetConjPath (st.GetConjPath path1) = path1)
    (hcc2 : st.GetConjPath (st.GetConjPath path2) = path2)
    (hne1 : st.GetConjPath path1 ≠ path1) (hne2 : st.GetConjPath path2 ≠ path2)
    (hpairs : path2 ≠ path1 ∧ path2 ≠ st.GetConjPath path1 ∧ st.GetConjPath path2 ≠ path1
      ∧ st.GetConjPath path2 ≠ st.GetConjPath path1)
    (hsize1 : (st.path (st.GetConjPath path1)).Size = (st.path path1).Size)
    (hsize2 : (st.path (st.GetConjPath path2)).Size = (st.path path2).Size)
    (hspan1 : first1 ≤ last1 ∧ last1 < (st.path path1).Size)
    (hspan2 : first2 ≤ last2 ∧ last2 < (st.path path2).Size)
    (hsz1 : (st.path path1).Size < SIZE_T_MOD) (hsz2 : (st.path path2).Size < SIZE_T_MOD)
    (hno1 : ¬ (first1 = 0 ∧ last1 = (st.path path1).Size - 1 ∧ del_subpaths = true
      ∧ (st.path path1).has_overlaped_begin = false ∧ (st.path path1).has_overlaped_end = false))
    (hno2 : ¬ (first2 = 0 ∧ last2 = (st.path path2).Size - 1 ∧ del_subpaths = true
      ∧ (st.path path2).has_overlaped_begin = false ∧ (st.path path2).has_overlaped_end = false)) :
    ((first1 = 0 ∧ first2 = 0) →
      ∃ st', CutOverlaps g st path1 first1 last1 (st.path path1).Size path2 first2 last2
          (st.path path2).Size del_subpaths true del_all = some (true, st')
        ∧ (if Length g (st.path path1) < Length g (st.path path2)
              ∧ (st.path path1).has_overlaped_begin = false then
            (st'.path path1).data = (st.path path1).data.drop (last1 + 1)
              ∧ st'.path path2 = st.path path2
              ∧ st'.path (st.GetConjPath path2) = st.path (st.GetConjPath path2)
          else if (st.path path2).has_overlaped_begin = false then
            (st'.path path2).data = (st.path path2).data.drop (last2 + 1)
              ∧ st'.path path1 = st.path path1
              ∧ st'.path (st.GetConjPath path1) = st.path (st.GetConjPath path1)
          else st' = st))
    ∧ (¬ (first1 = 0 ∧ first2 = 0) →
        (last1 = (st.path path1).Size - 1 ∧ last2 = (st.path path2).Size - 1) →
      ∃ st', CutOverlaps g st path1 first1 last1 (st.path path1).Size path2 first2 last2
          (st.path path2).Size del_subpaths true del_all = some (true, st')
        ∧ (if Length g (st.path path1) < Length g (st.path path2)
              ∧ (st.path path1).has_overlaped_end = false then
            (st'.path path1).data
                = (st.path path1).data.take ((st.path path1).Size - (last1 + 1 - first1))
              ∧ st'.path path2 = st.path path2
              ∧ st'.path (st.GetConjPath path2) = st.path (st.GetConjPath path2)
          else if (st.path path2).has_overlaped_end = false then
            (st'.path path2).data
                = (st.path path2).data.take ((st.path path2).Size - (last2 + 1 - first2))
              ∧ st'.path path1 = st.path path1
              ∧ st'.path (st.GetConjPath path1) = st.path (st.GetConjPath path1)
          else st' = st)) := by
  obtain ⟨hp1, hp2, hp3, hp4⟩ := hpairs
  have e1 : toSizeT (((st.path path1).Size : Int) - 1) = (st.path path1).Size - 1 :=
    toSizeT_pred _ (by omega) hsz1
  have e2 : toSizeT (((st.path path2).Size : Int) - 1) = (st.path path2).Size - 1 :=
    toSizeT_pred _ (by omega) hsz2
  have s1 : toSizeT ((last1 : Int) + 1) = last1 + 1 :=
    toSizeT_succ _ (by unfold SIZE_T_MOD at hsz1; omega)
  have s2 : toSizeT ((last2 : Int) + 1) = last2 + 1 :=
    toSizeT_succ _ (by unfold SIZE_T_MOD at hsz2; omega)
  have d1 : toSizeT ((last1 : Int) + 1 - first1) = last1 + 1 - first1 :=
    toSizeT_span _ _ (by omega) (by unfold SIZE_T_MOD at hsz1; omega)
  have d2 : toSizeT ((last2 : Int) + 1 - first2) = last2 + 1 - first2 :=
    toSizeT_span _ _ (by omega) (by unfold SIZE_T_MOD at hsz2; omega)
  unfold State.GetConjPath at *
  unfold BidirectionalPath.Size at *
  constructor
  · intro hf
    unfold CutOverlaps
    simp only [e1, e2, BidirectionalPath.HasOverlapedBegin, BidirectionalPath.HasOverlapedEnd,
      BidirectionalPath.Size, State.GetConjPath]
    rw [if_neg hno1, if_neg hno2, if_pos ⟨hf.2, hf.1, trivial⟩]
    by_cases ha : Length g (st.path path1) < Length g (st.path path2)
        ∧ (st.path path1).has_overlaped_begin = false
    · rw [if_pos ha, s1, PopBack_eq_some _ _ _ (by omega)]
      refine ⟨_, rfl, ?_⟩
      rw [if_pos ha]
      refine ⟨?_, ?_, ?_⟩
      · rw [popBackEdges_path _ _ _ _ hc1 (by omega) (by omega), if_neg (Ne.symm hne1),
          if_pos hcc1.symm]
      · rw [popBackEdges_path _ _ _ _ hc1 (by omega) (by omega), if_neg hp2, hcc1, if_neg hp1]
      · rw [popBackEdges_path _ _ _ _ hc1 (by omega) (by omega), if_neg hp4, hcc1, if_neg hp3]
    · rw [if_neg ha]
      by_cases hb : (st.path path2).has_overlaped_begin = false
      · rw [if_pos hb, s2, PopBack_eq_some _ _ _ (by omega)]
        refine ⟨_, rfl, ?_⟩
        rw [if_neg ha, if_pos hb]
        refine ⟨?_, ?_, ?_⟩
        · rw [popBackEdges_path _ _ _ _ hc2 (by omega) (by omega), if_neg (Ne.symm hne2),
            if_pos hcc2.symm]
        · rw [popBackEdges_path _ _ _ _ hc2 (by omega) (by omega), if_neg (Ne.symm hp3), hcc2,
            if_neg (Ne.symm hp1)]
        · rw [popBackEdges_path _ _ _ _ hc2 (by omega) (by omega), if_neg (Ne.symm hp4), hcc2,
            if_neg (Ne.symm hp2)]
      · rw [if_neg hb]
        exact ⟨st, rfl, by rw [if_neg ha, if_neg hb]⟩
  · intro hnf hl
    unfold CutOverlaps
    simp only [e1, e2, BidirectionalPath.HasOverlapedBegin, BidirectionalPath.HasOverlapedEnd,
      BidirectionalPath.Size, State.GetConjPath]
    rw [if_neg hno1, if_neg hno2, if_neg (fun h => hnf ⟨h.2.1, h.1⟩), if_pos ⟨hl, trivial⟩]
    by_cases ha : Length g (st.path path1) < Length g (st.path path2)
        ∧ (st.path path1).has_overlaped_end = false
    · rw [if_pos ha, d1, PopBack_eq_some _ _ _ (by omega)]
      refine ⟨_, rfl, ?_⟩
      rw [if_pos ha]
      refine ⟨?_, ?_, ?_⟩
      · rw [popBackEdges_path _ _ _ _ h1 hc1 hne1, if_pos rfl]
      · rw [popBackEdges_path _ _ _ _ h1 hc1 hne1, if_neg hp1, if_neg hp2]
      · rw [popBackEdges_path _ _ _ _ h1 hc1 hne1, if_neg hp3, if_neg hp4]
    · rw [if_neg ha]
      by_cases hb : (st.path path2).has_overlaped_end = false
      · rw [if_pos hb, d2, PopBack_eq_some _ _ _ (by omega)]
        refine ⟨_, rfl, ?_⟩
        rw [if_neg ha, if_pos hb]
        refine ⟨?_, ?_, ?_⟩
        · rw [popBackEdges_path _ _ _ _ h2 hc2 hne2, if_pos rfl]
        · rw [popBackEdges_path _ _ _ _ h2 hc2 hne2, if_neg (Ne.symm hp1), if_neg (Ne.symm hp3)]
        · rw [popBackEdges_path _ _ _ _ h2 hc2 hne2, if_neg (Ne.symm hp2), if_neg (Ne.symm hp4)]
      · rw [if_neg hb]
        exact ⟨st, rfl, by rw [if_neg ha, if_neg hb]⟩

/-- Witness of the amended C8 on the paths `(1, 3, 5, 7)` and `(1, 3, 9, 11, 5)` sharing
the first two edges. -/
theorem CutOverlaps_del_begins_rows_witness :
    ∃ st', CutOverlaps (exGraph 5) (exState [1, 3, 5, 7] [1, 3, 9, 11, 5]) 0 0 1 4 2 0 1 5
        false true false = some (true, st')
      ∧ (st'.path 0).data = [5, 7] ∧ (st'.path 2).data = [1, 3, 9, 11, 5] := by
  obtain ⟨st', h, hif⟩ := (CutOverlaps_del_begins_rows (exGraph 5)
    (exState [1, 3, 5, 7] [1, 3, 9, 11, 5]) 0 0 1 2 0 1 false false
    (by decide) (by decide) (by decide) (by decide) (by decide) (by decide) (by decide) (by decide)
    (by decide) (by decide) (by decide) (by decide) (by decide) (by decide) (by decide)
    (by decide) (by decide)).1 (by decide)
  rw [if_pos (by decide)] at hif
  exact ⟨st', h, hif.1, by rw [hif.2.1]; rfl⟩

/-- Counterexample to C8 as stated: the first path `(1, 3)` is the shorter one but its
beginning is already overlapped, and `CutOverlaps` trims the longer path `(1, 5, 7, 9)`. -/
theorem CutOverlaps_del_begins_trims_longer :
    Length (exGraph 5) (exStateOverlapedBegin.path 0) < Length (exGraph 5) (exStateOverlapedBegin.path 2)
      ∧ (CutOverlaps (exGraph 5) exStateOverlapedBegin 0 0 0 2 2 0 0 4 false true false).map
          (fun r => (r.1, (r.2.path 0).data, (r.2.path 2).data))
        = some (true, [1, 3], [5, 7, 9]) := by
  decide

/-- C9 (code defect).  On the paths `(1, 3, 5, 7, 9)` and `(11, 3, 7)` with the spans
`[1..3]` and `[1..2]`, the row "span2 touches end" of `CutOverlaps` pops
`last1 + 1 - first1 = 3` edges from the back of the second path and empties it, where
popping the `last2 + 1 - first2 = 2` edges of its matched span leaves `(11)`; the spans
are the ones `CompareAndCutFromPos` computes for the shared edge `3` with tolerance 1. -/
theorem CutOverlaps_span2_end_pops_span1_size :
    (CutOverlaps (exGraph 3) (exState [1, 3, 5, 7, 9] [11, 3, 7]) 0 1 3 5 2 1 2 3 false false true).map
        (fun r => (r.1, (r.2.path 2).data)) = some (true, [])
      ∧ (PopBack (exState [1, 3, 5, 7, 9] [11, 3, 7]) 2 (2 + 1 - 1)).map (fun s => (s.path 2).data)
        = some [11]
      ∧ (CompareAndCutFromPos (exGraph 3) (exState [1, 3, 5, 7, 9] [11, 3, 7]) 0 1 2 1 1
          false false true).map (fun s => (s.path 2).data) = some [] := by
  decide

/-- C10. Default row of the cut policy.  With `del_subpaths`, `del_begins` and `del_all`
all false `CutOverlaps` returns false and the state it returns is the state it was given,
for all paths and spans; more generally the same holds, for spans inside their paths,
whenever no row of the policy table applies. -/
theorem CutOverlaps_default_row (g : Graph) (st : State)
    (path1 first1 last1 size1 path2 first2 last2 size2 : Nat)
    (del_subpaths del_begins del_all : Bool) :
    CutOverlaps g st path1 first1 last1 size1 path2 first2 last2 size2 false false false
      = some (false, st)
    ∧ (last1 < (st.path path1).Size → last2 < (st.path path2).Size →
        (st.path path1).Size < SIZE_T_MOD → (st.path path2).Size < SIZE_T_MOD →
        ¬ CutPolicyRowApplies st path1 first1 last1 path2 first2 last2
            del_subpaths del_begins del_all →
        CutOverlaps g st path1 first1 last1 (st.path path1).Size path2 first2 last2
            (st.path path2).Size del_subpaths del_begins del_all = some (false, st)) := by
  refine ⟨by simp [CutOverlaps], ?_⟩
  intro hl1 hl2 hsz1 hsz2 hno
  have e1 : toSizeT (((st.path path1).Size : Int) - 1) = (st.path path1).Size - 1 :=
    toSizeT_pred _ (by omega) hsz1
  have e2 : toSizeT (((st.path path2).Size : Int) - 1) = (st.path path2).Size - 1 :=
    toSizeT_pred _ (by omega) hsz2
  have t1 : last1 = (st.path path1).Size - 1 ↔ last1 + 1 = (st.path path1).Size := by omega
  have t2 : last2 = (st.path path2).Size - 1 ↔ last2 + 1 = (st.path path2).Size := by omega
  unfold CutPolicyRowApplies at hno
  simp only [not_or] at hno
  obtain ⟨n1, n2, n3, n4, n5, n6, n7, n8⟩ := hno
  unfold CutOverlaps
  simp only [e1, e2, t1, t2, BidirectionalPath.HasOverlapedBegin, BidirectionalPath.HasOverlapedEnd]
  rw [if_neg n1, if_neg n2, if_neg (fun h => n3 ⟨h.2.1, h.1, h.2.2⟩),
    if_neg (fun h => n4 ⟨h.1.1, h.1.2, h.2⟩), if_neg n5, if_neg n6, if_neg n7, if_neg n8]

/-- Witness of C10: with only `del_begins` set, the spans `[1..2]` and `[1..1]` of the
paths `(1, 3, 5, 7, 9)` and `(11, 3, 7)` match no row. -/
theorem CutOverlaps_default_row_witness :
    CutOverlaps (exGraph 3) (exState [1, 3, 5, 7, 9] [11, 3, 7]) 0 1 2 5 2 1 1 3 false true false
      = some (false, exState [1, 3, 5, 7, 9] [11, 3, 7]) :=
  (CutOverlaps_default_row (exGraph 3) (exState [1, 3, 5, 7, 9] [11, 3, 7]) 0 1 2 5 2 1 1 3
    false true false).2 (by decide) (by decide) (by decide) (by decide) (by decide)

/-! ## Comparator (`ComparePaths`) -/

theorem toSizeT_cast (a : Int) : ((toSizeT a : Nat) : Int) = a % 18446744073709551616 := by
  unfold toSizeT
  omega

theorem toSizeT_add_left (a b : Int) : toSizeT ((toSizeT a : Int) + b) = toSizeT (a + b) := by
  have h1 := toSizeT_cast ((toSizeT a : Int) + b)
  have h2 := toSizeT_cast (a + b)
  have h3 := toSizeT_cast a
  omega

theorem toSizeT_sub_sub (a b c : Int) :
    toSizeT ((toSizeT a : Int) - (toSizeT b : Int) - c) = toSizeT (a - b - c) := by
  have h1 := toSizeT_cast ((toSizeT a : Int) - (toSizeT b : Int) - c)
  have h2 := toSizeT_cast (a - b - c)
  have h3 := toSizeT_cast a
  have h4 := toSizeT_cast b
  omega

theorem le_of_toSizeT_le (x : Int) (M : Nat) (h : toSizeT x ≤ M) (hx : x < 18446744073709551616) :
    x ≤ M := by
  have h1 := toSizeT_cast x
  omega

theorem GapAt_succ (p : BidirectionalPath) (k : Nat) : p.GapAt (k + 1) = p.gaps.getD k 0 := rfl

/-- `lengthAtZ` unfolds one position at a time. -/
theorem lengthAtZ_step (g : Graph) (p : BidirectionalPath) (i : Nat) (hi : i < p.Size) :
    lengthAtZ g p i = (g.length (p.At i) : Int) + p.GapAt (i + 1) + lengthAtZ g p (i + 1) := by
  unfold BidirectionalPath.Size at hi
  rw [GapAt_succ]
  unfold lengthAtZ BidirectionalPath.At
  have hd : p.data.drop i = p.data.getD i 0 :: p.data.drop (i + 1) := by
    rw [List.getD_eq_getElem _ _ hi]
    exact List.drop_eq_getElem_cons hi
  rw [hd]
  by_cases hg : i < p.gaps.length
  · have hgd : p.gaps.drop i = p.gaps.getD i 0 :: p.gaps.drop (i + 1) := by
      rw [List.getD_eq_getElem _ _ hg]
      exact List.drop_eq_getElem_cons hg
    rw [hgd]
    simp only [List.map_cons, List.sum_cons]
    push_cast
    ring
  · have h1 : p.gaps.drop i = [] := List.drop_eq_nil_of_le (by omega)
    have h2 : p.gaps.drop (i + 1) = [] := List.drop_eq_nil_of_le (by omega)
    have h3 : p.gaps.getD i 0 = 0 := by
      rw [List.getD_eq_getElem?_getD, List.getElem?_eq_none (by omega)]; rfl
    rw [h1, h2, h3]
    simp only [List.map_cons, List.sum_cons, List.sum_nil]
    push_cast
    ring


theorem mem_FindAll (p : BidirectionalPath) (e : EdgeId) (i : Nat) :
    i ∈ p.FindAll e ↔ i < p.Size ∧ p.At i = e := by
  simp [BidirectionalPath.FindAll, BidirectionalPath.Size, BidirectionalPath.At]

/-- The difference of two `lengthAtZ` values is the skipped distance plus the first edge. -/
theorem lengthAtZ_sub (g : Graph) (p : BidirectionalPath) (a n : Nat) (h : a + n + 1 ≤ p.Size) :
    lengthAtZ g p a - lengthAtZ g p (a + n + 1) - (g.length (p.At a) : Int)
      = skippedInPath2 g p a (a + n + 1) := by
  induction n with
  | zero =>
    rw [lengthAtZ_step g p a (by omega)]
    simp [skippedInPath2]
  | succ n ih =>
    have ih := ih (by omega)
    rw [lengthAtZ_step g p (a + n + 1) (by omega)] at ih
    unfold skippedInPath2 at ih ⊢
    have e1 : a + (n + 1) + 1 - a - 1 = (a + n + 1 - a - 1) + 1 := by omega
    have e2 : a + (n + 1) + 1 - a = (a + n + 1 - a) + 1 := by omega
    rw [e1, e2, List.range'_concat, List.range'_concat]
    simp only [List.map_append, List.sum_append, List.map_cons, List.map_nil, List.sum_cons,
      List.sum_nil]
    have e3 : a + 1 + 1 * (a + n + 1 - a - 1) = a + n + 1 := by omega
    have e4 : a + 1 + 1 * (a + n + 1 - a) = a + n + 1 + 1 := by omega
    rw [e3, e4]
    have e5 : a + (n + 1) + 1 = a + n + 1 + 1 := by omega
    rw [e5]
    linarith

theorem skippedInPath1_succ (g : Graph) (p : BidirectionalPath) (a b : Nat) (h : a < b) :
    skippedInPath1 g p a (b + 1) = skippedInPath1 g p a b + (g.length (p.At b) : Int) + p.GapAt b := by
  unfold skippedInPath1
  have e1 : b + 1 - a - 1 = (b - a - 1) + 1 := by omega
  rw [e1, List.range'_concat]
  have e3 : a + 1 + 1 * (b - a - 1) = b := by omega
  simp only [List.map_append, List.sum_append, List.map_cons, List.map_nil, List.sum_cons,
    List.sum_nil, e3]
  ring

theorem skippedInPath1_self (g : Graph) (p : BidirectionalPath) (a : Nat) :
    skippedInPath1 g p a (a + 1) = 0 := by
  simp [skippedInPath1]

theorem ComparePathsLoop_eq_lastMatch (g : Graph) (p1 p2 : BidirectionalPath) (M : Nat) :
    ∀ (fuel cur l1 l2 d : Nat),
      ComparePathsLoop g p1 p2 M fuel cur l1 l2 d
        = lastMatch (ComparePathsStepsLoop g p1 p2 M fuel cur l1 l2 d) (l1, l2) := by
  intro fuel
  induction fuel with
  | zero => intro cur l1 l2 d; rfl
  | succ n ih =>
    intro cur l1 l2 d
    unfold ComparePathsLoop ComparePathsStepsLoop
    by_cases hd : d > M
    · simp only [if_pos hd]; rfl
    · simp only [if_neg hd]
      cases hf : (p2.FindAll (p1.At cur)).find? (fun q => decide (q > l2)) with
      | none => simp only [ih]
      | some q =>
        simp only []
        split
        · exact ih _ _ _ _
        · rw [ih]; rfl

theorem ComparePathsStepsLoop_chained (g : Graph) (p1 p2 : BidirectionalPath) (M : Nat) :
    ∀ (fuel cur l1 l2 d : Nat),
      StepsChained (l1, l2) (ComparePathsStepsLoop g p1 p2 M fuel cur l1 l2 d) := by
  intro fuel
  induction fuel with
  | zero => intro cur l1 l2 d; trivial
  | succ n ih =>
    intro cur l1 l2 d
    unfold ComparePathsStepsLoop
    by_cases hd : d > M
    · simp only [if_pos hd]; trivial
    · simp only [if_neg hd]
      cases hf : (p2.FindAll (p1.At cur)).find? (fun q => decide (q > l2)) with
      | none => exact ih _ _ _ _
      | some q =>
        simp only []
        split
        · exact ih _ _ _ _
        · exact ⟨rfl, ih _ _ _ _⟩

theorem ComparePathsStepsLoop_budget (g : Graph) (p1 p2 : BidirectionalPath) (M : Nat) :
    ∀ (fuel cur l1 l2 d : Nat), l1 < cur → cur + fuel ≤ p1.Size → l2 < p2.Size →
      d = toSizeT (skippedInPath1 g p1 l1 cur) →
      ∀ s ∈ ComparePathsStepsLoop g p1 p2 M fuel cur l1 l2 d,
        StepWithinBudget g p1 p2 M s ∧ s.pos1 < p1.Size ∧ s.pos2 < p2.Size := by
  intro fuel
  induction fuel with
  | zero => intro cur l1 l2 d _ _ _ _ s hs; simp [ComparePathsStepsLoop] at hs
  | succ n ih =>
    intro cur l1 l2 d hl hc h2 hd s hs
    unfold ComparePathsStepsLoop at hs
    by_cases hdM : d > M
    · simp only [if_pos hdM] at hs; simp at hs
    · simp only [if_neg hdM] at hs
      have hskip : toSizeT ((d : Int) + (g.length (p1.At cur) : Int) + p1.GapAt cur)
          = toSizeT (skippedInPath1 g p1 l1 (cur + 1)) := by
        rw [skippedInPath1_succ g p1 l1 cur hl, hd, add_assoc, toSizeT_add_left, add_assoc]
      cases hf : (p2.FindAll (p1.At cur)).find? (fun q => decide (q > l2)) with
      | none =>
        rw [hf] at hs
        exact ih _ _ _ _ (by omega) (by omega) h2 hskip s hs
      | some q =>
        rw [hf] at hs
        simp only [] at hs
        have hq1 : q > l2 := by simpa using List.find?_some hf
        have hq2 : q ∈ p2.FindAll (p1.At cur) := List.mem_of_find?_eq_some hf
        have hq3 : q < p2.Size := ((mem_FindAll _ _ _).1 hq2).1
        split at hs
        · exact ih _ _ _ _ (by omega) (by omega) h2 hskip s hs
        · rename_i hd2
          rcases List.mem_cons.1 hs with rfl | hs
          · have hdist : toSizeT (skippedInPath2 g p2 l2 q) ≤ M := by
              have e : q = l2 + (q - l2 - 1) + 1 := by omega
              have := lengthAtZ_sub g p2 l2 (q - l2 - 1) (by omega)
              rw [← e] at this
              rw [← this]
              unfold LengthAt at hd2
              rw [toSizeT_sub_sub] at hd2
              omega
            have hsk : toSizeT (skippedInPath1 g p1 l1 cur) ≤ M := by omega
            exact ⟨⟨hl, hq1, hdist, hsk, fun h => le_of_toSizeT_le _ _ hdist h,
              fun h => le_of_toSizeT_le _ _ hsk h⟩, by show cur < p1.Size; omega, hq3⟩
          · exact ih _ _ _ _ (by omega) (by omega) hq3
              (by rw [skippedInPath1_self]; rfl) s hs

theorem ComparePathsLoop_range (g : Graph) (p1 p2 : BidirectionalPath) (M : Nat) (a b : Nat) :
    ∀ (fuel cur l1 l2 d : Nat), l1 < cur → cur + fuel ≤ p1.Size → l2 < p2.Size →
      a ≤ l1 → b ≤ l2 →
      a ≤ (ComparePathsLoop g p1 p2 M fuel cur l1 l2 d).1
        ∧ (ComparePathsLoop g p1 p2 M fuel cur l1 l2 d).1 < p1.Size
        ∧ b ≤ (ComparePathsLoop g p1 p2 M fuel cur l1 l2 d).2
        ∧ (ComparePathsLoop g p1 p2 M fuel cur l1 l2 d).2 < p2.Size := by
  intro fuel
  induction fuel with
  | zero =>
    intro cur l1 l2 d hl hc h2 ha hb
    exact ⟨ha, by show l1 < p1.Size; omega, hb, h2⟩
  | succ n ih =>
    intro cur l1 l2 d hl hc h2 ha hb
    unfold ComparePathsLoop
    by_cases hdM : d > M
    · simp only [if_pos hdM]
      exact ⟨ha, by omega, hb, h2⟩
    · simp only [if_neg hdM]
      cases hf : (p2.FindAll (p1.At cur)).find? (fun q => decide (q > l2)) with
      | none => exact ih _ _ _ _ (by omega) (by omega) h2 ha hb
      | some q =>
        simp only []
        have hq1 : q > l2 := by simpa using List.find?_some hf
        have hq3 : q < p2.Size :=
          ((mem_FindAll _ _ _).1 (List.mem_of_find?_eq_some hf)).1
        split
        · exact ih _ _ _ _ (by omega) (by omega) h2 ha hb
        · exact ih _ _ _ _ (by omega) (by omega) hq3 (by omega) (by omega)

theorem GapAt_eq_zero (p : BidirectionalPath) (h : ∀ x ∈ p.gaps, x = 0) (j : Nat) :
    p.GapAt j = 0 := by
  cases j with
  | zero => rfl
  | succ k =>
    rw [GapAt_succ, List.getD_eq_getElem?_getD]
    cases hk : p.gaps[k]? with
    | none => rfl
    | some x => exact h x (List.mem_iff_getElem?.2 ⟨k, hk⟩)

/-- The first occurrence after `l2` of an edge that occurs exactly once in `p`. -/
theorem find_FindAll_unique (p : BidirectionalPath) (e : EdgeId) (q l2 : Nat)
    (hq : q < p.Size) (hat : p.At q = e) (hl : l2 < q)
    (huniq : ∀ i, i < p.Size → p.At i = e → i = q) :
    (p.FindAll e).find? (fun x => decide (x > l2)) = some q := by
  cases hf : (p.FindAll e).find? (fun x => decide (x > l2)) with
  | none =>
    have := List.find?_eq_none.1 hf q ((mem_FindAll _ _ _).2 ⟨hq, hat⟩)
    simp at this; omega
  | some x =>
    have hx := (mem_FindAll _ _ _).1 (List.mem_of_find?_eq_some hf)
    rw [huniq x hx.1 hx.2]

theorem find_FindAll_absent (p : BidirectionalPath) (e : EdgeId) (l2 : Nat)
    (h : ∀ i, i < p.Size → p.At i ≠ e) :
    (p.FindAll e).find? (fun x => decide (x > l2)) = none := by
  rw [List.find?_eq_none]
  intro x hx
  exact absurd ((mem_FindAll _ _ _).1 hx).2 (h x ((mem_FindAll _ _ _).1 hx).1)

/-- With zero gaps the distance between neighbouring positions is zero. -/
theorem diff_len2_neighbour (g : Graph) (p : BidirectionalPath) (a : Nat) (h : a + 1 < p.Size)
    (hg : ∀ x ∈ p.gaps, x = 0) :
    toSizeT ((LengthAt g p a : Int) - (LengthAt g p (a + 1) : Int) - (g.length (p.At a) : Int)) = 0 := by
  unfold LengthAt
  rw [toSizeT_sub_sub]
  have := lengthAtZ_sub g p a 0 (by omega)
  simp only [Nat.add_zero] at this
  rw [this]
  simp [skippedInPath2, GapAt_eq_zero p hg]
  rfl

/-- A run of iterations in which every edge of `path1` is found in `path2` at the position
next to the previous match (offset `k` between the two paths). -/
theorem ComparePathsLoop_lockstep (g : Graph) (p1 p2 : BidirectionalPath) (M k : Nat)
    (hg : ∀ x ∈ p2.gaps, x = 0) :
    ∀ (f1 f2 cur l1 l2 d : Nat), d ≤ M → l2 + k + 1 = cur →
      (∀ j, cur ≤ j → j < cur + f1 →
        j - k < p2.Size ∧ p2.At (j - k) = p1.At j
          ∧ ∀ i, i < p2.Size → p2.At i = p1.At j → i = j - k) →
      ComparePathsLoop g p1 p2 M (f1 + f2) cur l1 l2 d
        = ComparePathsLoop g p1 p2 M f2 (cur + f1)
            (if f1 = 0 then l1 else cur + f1 - 1) (if f1 = 0 then l2 else cur + f1 - 1 - k)
            (if f1 = 0 then d else 0) := by
  intro f1
  induction f1 with
  | zero => intro f2 cur l1 l2 d _ _ _; simp
  | succ n ih =>
    intro f2 cur l1 l2 d hd hl hall
    have hcur := hall cur (le_refl _) (by omega)
    have hfind := find_FindAll_unique p2 (p1.At cur) (cur - k) l2 hcur.1 hcur.2.1 (by omega)
      hcur.2.2
    have e : n + 1 + f2 = (n + f2) + 1 := by omega
    rw [e]
    have hq : cur - k = l2 + 1 := by omega
    have step : ComparePathsLoop g p1 p2 M (n + f2 + 1) cur l1 l2 d
        = ComparePathsLoop g p1 p2 M (n + f2) (cur + 1) cur (l2 + 1) 0 := by
      conv_lhs => unfold ComparePathsLoop
      rw [if_neg (by omega)]
      simp only [hfind]
      rw [hq, diff_len2_neighbour g p2 l2 (by rw [← hq]; exact hcur.1) hg, if_neg (by omega)]
    rw [step, ih f2 (cur + 1) cur (l2 + 1) 0 (by omega) (by omega)
      (fun j hj1 hj2 => hall j (by omega) (by omega))]
    have e2 : cur + 1 + n = cur + (n + 1) := by omega
    rw [e2]
    by_cases hn : n = 0
    · subst hn; simp
      congr 1
      exact hq.symm
    · simp only [hn, if_false, Nat.add_eq_zero, one_ne_zero, and_false]

/-- C6. Comparator bound.  For valid start positions `ComparePaths` returns
`(last1, last2)` with `start_pos1 ≤ last1 < size(path1)` and
`start_pos2 ≤ last2 < size(path2)`; the result is the end of the chain of advancing steps
listed by `ComparePathsSteps`, and every advancing step stays within the budget: the
nucleotide distance skipped in `path2` between the previous and the new `last2`, and the
accumulated length plus gap of the positions of `path1` skipped since the previous match,
are at most `max_overlap` (as `size_t` values, hence as integers unless they exceed the
`size_t` range). -/
theorem ComparePaths_bound (g : Graph) (path1 path2 : BidirectionalPath)
    (start_pos1 start_pos2 max_overlap : Nat)
    (h1 : start_pos1 < path1.Size) (h2 : start_pos2 < path2.Size)
    (hsz : path1.Size < SIZE_T_MOD) :
    start_pos1 ≤ (ComparePaths g start_pos1 start_pos2 path1 path2 max_overlap).1
    ∧ (ComparePaths g start_pos1 start_pos2 path1 path2 max_overlap).1 < path1.Size
    ∧ start_pos2 ≤ (ComparePaths g start_pos1 start_pos2 path1 path2 max_overlap).2
    ∧ (ComparePaths g start_pos1 start_pos2 path1 path2 max_overlap).2 < path2.Size
    ∧ ComparePaths g start_pos1 start_pos2 path1 path2 max_overlap
        = lastMatch (ComparePathsSteps g start_pos1 start_pos2 path1 path2 max_overlap)
            (start_pos1, start_pos2)
    ∧ StepsChained (start_pos1, start_pos2)
        (ComparePathsSteps g start_pos1 start_pos2 path1 path2 max_overlap)
    ∧ ∀ s ∈ ComparePathsSteps g start_pos1 start_pos2 path1 path2 max_overlap,
        StepWithinBudget g path1 path2 max_overlap s := by
  have hcur : (start_pos1 + 1) % 18446744073709551616 = start_pos1 + 1 := by
    unfold SIZE_T_MOD at hsz; omega
  have hr := ComparePathsLoop_range g path1 path2 max_overlap start_pos1 start_pos2
    (path1.Size - (start_pos1 + 1)) (start_pos1 + 1) start_pos1 start_pos2 0
    (by omega) (by omega) h2 (le_refl _) (le_refl _)
  unfold ComparePaths ComparePathsSteps
  simp only [hcur]
  refine ⟨hr.1, hr.2.1, hr.2.2.1, hr.2.2.2, ComparePathsLoop_eq_lastMatch _ _ _ _ _ _ _ _ _,
    ComparePathsStepsLoop_chained _ _ _ _ _ _ _ _ _, ?_⟩
  intro s hs
  exact (ComparePathsStepsLoop_budget g path1 path2 max_overlap _ _ _ _ _ (by omega) (by omega) h2
    (by rw [skippedInPath1_self]; rfl) s hs).1

/-- Witness of C6 on the paths `(1, 3, 5, 7, 9)` and `(1, 3, 7, 9)` with tolerance 10. -/
theorem ComparePaths_bound_witness :
    0 ≤ (ComparePaths (exGraph 5) 0 0 (exPath [1, 3, 5, 7, 9] 0 1) (exPath [1, 3, 7, 9] 2 3) 10).1
    ∧ (ComparePaths (exGraph 5) 0 0 (exPath [1, 3, 5, 7, 9] 0 1) (exPath [1, 3, 7, 9] 2 3) 10).1 < 5
    ∧ (ComparePaths (exGraph 5) 0 0 (exPath [1, 3, 5, 7, 9] 0 1) (exPath [1, 3, 7, 9] 2 3) 10).2 < 4
    ∧ ∀ s ∈ ComparePathsSteps (exGraph 5) 0 0 (exPath [1, 3, 5, 7, 9] 0 1) (exPath [1, 3, 7, 9] 2 3) 10,
        StepWithinBudget (exGraph 5) (exPath [1, 3, 5, 7, 9] 0 1) (exPath [1, 3, 7, 9] 2 3) 10 s :=
  have h := ComparePaths_bound (exGraph 5) (exPath [1, 3, 5, 7, 9] 0 1) (exPath [1, 3, 7, 9] 2 3)
    0 0 10 (by decide) (by decide) (by decide)
  ⟨h.1, h.2.1, h.2.2.2.1, h.2.2.2.2.2.2⟩

/-- In a path without repeated edges a position is determined by its edge. -/
theorem At_inj_of_nodup (p : BidirectionalPath) (h : p.data.Nodup) (i j : Nat)
    (hi : i < p.Size) (hj : j < p.Size) (he : p.At i = p.At j) : i = j := by
  unfold BidirectionalPath.Size at hi hj
  unfold BidirectionalPath.At at he
  rw [List.getD_eq_getElem _ _ hi, List.getD_eq_getElem _ _ hj] at he
  exact (List.Nodup.getElem_inj_iff h).1 he

theorem At_eraseIdx_lt (p q : BidirectionalPath) (k i : Nat) (h : q.data = p.data.eraseIdx k)
    (hi : i < k) : q.At i = p.At i := by
  unfold BidirectionalPath.At
  rw [List.getD_eq_getElem?_getD, List.getD_eq_getElem?_getD, h, List.getElem?_eraseIdx_of_lt _ _ _ hi]

theorem At_eraseIdx_ge (p q : BidirectionalPath) (k i : Nat) (h : q.data = p.data.eraseIdx k)
    (hi : k ≤ i) : q.At i = p.At (i + 1) := by
  unfold BidirectionalPath.At
  rw [List.getD_eq_getElem?_getD, List.getD_eq_getElem?_getD, h, List.getElem?_eraseIdx_of_ge _ _ _ hi]

theorem Size_eraseIdx (p q : BidirectionalPath) (k : Nat) (h : q.data = p.data.eraseIdx k)
    (hk : k < p.Size) : q.Size = p.Size - 1 := by
  unfold BidirectionalPath.Size at *
  rw [h, List.length_eraseIdx, if_pos hk]

/-- C5. Tolerant match.  Let `path1` have `n ≥ 3` pairwise distinct edges and zero gaps,
let `1 ≤ p ≤ n - 2` and let `path2` be `path1` with the edge `c` at position `p` removed
(zero gaps).  Then `ComparePaths(0, 0, path1, path2, M)` returns `(n - 1, n - 2)` when
`length(c) ≤ M` and `(p - 1, p - 1)` when `length(c) > M`. -/
theorem ComparePaths_tolerant_match (g : Graph) (path1 path2 : BidirectionalPath) (p M : Nat)
    (hnodup : path1.data.Nodup)
    (hg1 : ∀ x ∈ path1.gaps, x = 0) (hg2 : ∀ x ∈ path2.gaps, x = 0)
    (hn : 3 ≤ path1.Size) (hp1 : 1 ≤ p) (hp2 : p ≤ path1.Size - 2)
    (h2 : path2.data = path1.data.eraseIdx p)
    (hlen : g.length (path1.At p) < SIZE_T_MOD) :
    ComparePaths g 0 0 path1 path2 M
      = if g.length (path1.At p) ≤ M then (path1.Size - 1, path1.Size - 2) else (p - 1, p - 1) := by
  have hs2 : path2.Size = path1.Size - 1 := Size_eraseIdx path1 path2 p h2 (by omega)
  -- phase 1: the positions before `p` are matched one to one
  have ph1 := ComparePathsLoop_lockstep g path1 path2 M 0 hg2 (p - 1) (path1.Size - p) 1 0 0 0
    (by omega) (by omega) (by
      intro j hj1 hj2
      refine ⟨by omega, At_eraseIdx_lt path1 path2 p j h2 (by omega), ?_⟩
      intro i hi he
      by_cases hip : i < p
      · rw [At_eraseIdx_lt path1 path2 p i h2 hip] at he
        exact At_inj_of_nodup path1 hnodup i j (by omega) (by omega) he
      · rw [At_eraseIdx_ge path1 path2 p i h2 (by omega)] at he
        have := At_inj_of_nodup path1 hnodup (i + 1) j (by omega) (by omega) he
        omega)
  have e1 : (if p - 1 = 0 then 0 else 1 + (p - 1) - 1) = p - 1 := by split <;> omega
  have e2 : (if p - 1 = 0 then 0 else 1 + (p - 1) - 1 - 0) = p - 1 := by split <;> omega
  have e3 : (if p - 1 = 0 then (0 : Nat) else 0) = 0 := by split <;> rfl
  have e4 : 1 + (p - 1) = p := by omega
  rw [e1, e2, e3, e4] at ph1
  -- the removed edge is not found
  have habsent : (path2.FindAll (path1.At p)).find? (fun x => decide (x > p - 1)) = none := by
    apply find_FindAll_absent
    intro i hi he
    by_cases hip : i < p
    · rw [At_eraseIdx_lt path1 path2 p i h2 hip] at he
      have := At_inj_of_nodup path1 hnodup i p (by omega) (by omega) he
      omega
    · rw [At_eraseIdx_ge path1 path2 p i h2 (by omega)] at he
      have := At_inj_of_nodup path1 hnodup (i + 1) p (by omega) (by omega) he
      omega
  have hskip : toSizeT (((0 : Nat) : Int) + (g.length (path1.At p) : Int) + path1.GapAt p)
      = g.length (path1.At p) := by
    rw [GapAt_eq_zero path1 hg1]
    simp only [Nat.cast_zero, zero_add, add_zero]
    exact toSizeT_natCast _ hlen
  have ph2 : ComparePathsLoop g path1 path2 M (path1.Size - p) p (p - 1) (p - 1) 0
      = ComparePathsLoop g path1 path2 M (path1.Size - p - 1) (p + 1) (p - 1) (p - 1)
          (g.length (path1.At p)) := by
    have e : path1.Size - p = (path1.Size - p - 1) + 1 := by omega
    rw [e]
    conv_lhs => unfold ComparePathsLoop
    rw [if_neg (by omega)]
    simp only [habsent, hskip]
    rfl
  have hcur : (0 + 1) % 18446744073709551616 = 1 := by norm_num
  have hfuel : path1.Size - 1 = (p - 1) + (path1.Size - p) := by omega
  unfold ComparePaths
  simp only [hcur]
  rw [hfuel, ph1, ph2]
  by_cases hM : g.length (path1.At p) ≤ M
  · rw [if_pos hM]
    -- phase 3: the positions after `p` are matched with offset one
    have ph3 := ComparePathsLoop_lockstep g path1 path2 M 1 hg2 (path1.Size - p - 1) 0 (p + 1)
      (p - 1) (p - 1) (g.length (path1.At p)) hM (by omega) (by
        intro j hj1 hj2
        refine ⟨by omega, ?_, ?_⟩
        · rw [At_eraseIdx_ge path1 path2 p (j - 1) h2 (by omega)]
          congr 1; omega
        · intro i hi he
          by_cases hip : i < p
          · rw [At_eraseIdx_lt path1 path2 p i h2 hip] at he
            have := At_inj_of_nodup path1 hnodup i j (by omega) (by omega) he
            omega
          · rw [At_eraseIdx_ge path1 path2 p i h2 (by omega)] at he
            have := At_inj_of_nodup path1 hnodup (i + 1) j (by omega) (by omega) he
            omega)
    rw [Nat.add_zero] at ph3
    rw [ph3, if_neg (by omega), if_neg (by omega)]
    unfold ComparePathsLoop
    congr 1 <;> omega
  · rw [if_neg hM]
    have e : path1.Size - p - 1 = (path1.Size - p - 2) + 1 := by omega
    rw [e]
    unfold ComparePathsLoop
    rw [if_pos (by omega)]

/-- Witness of C5: `(1, 3, 5, 7, 9)` against `(1, 3, 7, 9)`, the missing edge has length
5; tolerance 10 gives `(4, 3)`, tolerance 3 gives `(1, 1)`. -/
theorem ComparePaths_tolerant_match_witness :
    ComparePaths (exGraph 5) 0 0 (exPath [1, 3, 5, 7, 9] 0 1) (exPath [1, 3, 7, 9] 2 3) 10 = (4, 3)
    ∧ ComparePaths (exGraph 5) 0 0 (exPath [1, 3, 5, 7, 9] 0 1) (exPath [1, 3, 7, 9] 2 3) 3 = (1, 1) :=
  ⟨ComparePaths_tolerant_match (exGraph 5) (exPath [1, 3, 5, 7, 9] 0 1) (exPath [1, 3, 7, 9] 2 3) 2 10
      (by decide) (by decide) (by decide) (by decide) (by decide) (by decide) (by decide)
      (by decide),
   ComparePaths_tolerant_match (exGraph 5) (exPath [1, 3, 5, 7, 9] 0 1) (exPath [1, 3, 7, 9] 2 3) 2 3
      (by decide) (by decide) (by decide) (by decide) (by decide) (by decide) (by decide)
      (by decide)⟩

/-! ## Shared-tail extraction (`RemoveOverlap`) -/

theorem newPath_path (st : State) (e : EdgeId) (r : Nat) :
    (newPath st e).1.path r =
      if r = st.heap.length then ⟨[e], [], st.next_id, st.heap.length, false, false, false⟩
      else st.path r := by
  unfold newPath State.path
  simp only [List.getD_eq_getElem?_getD]
  by_cases h : r = st.heap.length
  · subst h; simp
  · rw [if_neg h]
    by_cases h2 : r < st.heap.length
    · rw [List.getElem?_append_left h2]
    · rw [List.getElem?_eq_none (by simp; omega), List.getElem?_eq_none (by omega)]

theorem AddPair_path (st : State) (p q r : Nat) (hp : p < st.heap.length)
    (hq : q < st.heap.length) (hne : q ≠ p) :
    (AddPair st p q).path r =
      if r = p then { st.path p with conj := q }
      else if r = q then { st.path q with conj := p }
      else st.path r := by
  unfold AddPair
  show ((st.store p _).store q _).path r = _
  by_cases hrq : r = q
  · subst hrq
    rw [State.path_store_eq _ _ _ (by simpa using hq), State.path_store_ne _ _ _ _ hne,
      if_neg hne, if_pos rfl]
  · rw [State.path_store_ne _ _ _ _ hrq]
    by_cases hrp : r = p
    · subst hrp; rw [State.path_store_eq _ _ _ hp, if_pos rfl]
    · rw [State.path_store_ne _ _ _ _ hrp, if_neg hrp, if_neg hrq]

theorem PushBack_path (g : Graph) (st : State) (p r : Nat) (e : EdgeId) (gap : Int)
    (hp : p < st.heap.length) (hq : (st.path p).conj < st.heap.length)
    (hne : (st.path p).conj ≠ p) :
    (PushBack g st p e gap).path r =
      if r = p then { st.path p with data := (st.path p).data ++ [e],
                                     gaps := if (st.path p).data = [] then []
                                             else (st.path p).gaps ++ [gap] }
      else if r = (st.path p).conj then
        { st.path r with data := g.conjugate e :: (st.path r).data,
                         gaps := if (st.path r).data = [] then [] else gap :: (st.path r).gaps }
      else st.path r := by
  unfold PushBack
  by_cases hrq : r = (st.path p).conj
  · subst hrq
    rw [State.path_store_eq _ _ _ (by simpa using hq), State.path_store_ne _ _ _ _ hne]
    simp [hne]
  · rw [State.path_store_ne _ _ _ _ hrq]
    by_cases hrp : r = p
    · subst hrp; rw [State.path_store_eq _ _ _ hp]; simp
    · rw [State.path_store_ne _ _ _ _ hrp]; simp [hrp, hrq]

@[simp] theorem popBackEdges_heap_length (st : State) (p n : Nat) :
    (popBackEdges st p n).heap.length = st.heap.length := by
  simp [popBackEdges]

@[simp] theorem popBackEdges_container (st : State) (p n : Nat) :
    (popBackEdges st p n).container = st.container := rfl

@[simp] theorem popBackEdges_coverage_map (st : State) (p n : Nat) :
    (popBackEdges st p n).coverage_map = st.coverage_map := rfl

@[simp] theorem PushBack_heap_length (g : Graph) (st : State) (p : Nat) (e : EdgeId) (gap : Int) :
    (PushBack g st p e gap).heap.length = st.heap.length := by
  simp [PushBack]

@[simp] theorem PushBack_container (g : Graph) (st : State) (p : Nat) (e : EdgeId) (gap : Int) :
    (PushBack g st p e gap).container = st.container := rfl

@[simp] theorem PushBack_coverage_map (g : Graph) (st : State) (p : Nat) (e : EdgeId) (gap : Int) :
    (PushBack g st p e gap).coverage_map = st.coverage_map := rfl

theorem DistinctPairs.facts {st : State} {path1 path2 : Nat} (h : DistinctPairs st path1 path2) :
    path1 < st.heap.length ∧ path2 < st.heap.length
    ∧ (st.path path1).conj < st.heap.length ∧ (st.path path2).conj < st.heap.length
    ∧ (st.path (st.path path1).conj).conj = path1 ∧ (st.path (st.path path2).conj).conj = path2
    ∧ (st.path path1).conj ≠ path1 ∧ (st.path path2).conj ≠ path2
    ∧ path1 ≠ path2 ∧ path1 ≠ (st.path path2).conj
    ∧ (st.path path1).conj ≠ path2 ∧ (st.path path1).conj ≠ (st.path path2).conj := by
  unfold DistinctPairs State.GetConjPath at h
  obtain ⟨h1, h2, h3, h4, h5, h6, h7, h8, h9, h10⟩ := h
  refine ⟨h1, h2, h3, h4, h5, h6, h7, h8, h9, h10, ?_, ?_⟩
  · intro hc; apply h10; rw [← hc, h5]
  · intro hc; apply h9; rw [← h5, ← h6, hc]

theorem Head_take (l : List EdgeId) (m : Nat) (hm : m < l.length) :
    (l.take (m + 1)).getLastD 0 = l.getD m 0 := by
  rw [List.take_succ, List.getElem?_eq_getElem hm, Option.toList, List.getLastD_concat,
    List.getD_eq_getElem _ _ hm]

theorem drop_pred (l : List EdgeId) (m : Nat) (hm : m < l.length) :
    l.drop m = l.getD m 0 :: l.drop (m + 1) := by
  rw [List.getD_eq_getElem _ _ hm]; exact List.drop_eq_getElem_cons hm

/-- One iteration of the extraction loop moves one more edge. -/
theorem ExtractInv_step (g : Graph) (st : State) (path1 path2 j : Nat) (s : State)
    (hp : DistinctPairs st path1 path2)
    (hinv : ∀ e ∈ (st.path path1).data, g.conjugate (g.conjugate e) = e)
    (hj : 1 ≤ j) (hj1 : j + 1 ≤ (st.path path1).data.length)
    (hj2 : j + 1 ≤ (st.path (st.GetConjPath path2)).data.length)
    (h : ExtractInv g st path1 path2 j s) :
    ∃ s', (PopBack (PushBack g s (st.heap.length + 1) (g.conjugate (s.path path1).Head) 0)
              path1 1).bind (fun st2 => PopBack st2 (st.GetConjPath path2) 1) = some s'
      ∧ ExtractInv g st path1 path2 (j + 1) s' := by
  obtain ⟨f1, f2, f3, f4, f5, f6, f7, f8, f9, f10, f11, f12⟩ := hp.facts
  unfold ExtractInv at h ⊢
  unfold State.GetConjPath at *
  obtain ⟨i1, i2, i3, i4, i5, i6, i7, i8, i9, i10⟩ := h
  have hN1 : st.heap.length + 1 < s.heap.length := by omega
  have hN : st.heap.length < s.heap.length := by omega
  -- the pushed edge
  have hhead : (s.path path1).Head
      = (st.path path1).data.getD ((st.path path1).data.length - j - 1) 0 := by
    unfold BidirectionalPath.Head
    rw [i4]
    have e : ((st.path path1).data.length - j - 1) + 1 = (st.path path1).data.length - j := by
      omega
    have := Head_take (st.path path1).data ((st.path path1).data.length - j - 1) (by omega)
    rw [e] at this
    exact this
  have hmem : (st.path path1).data.getD ((st.path path1).data.length - j - 1) 0
      ∈ (st.path path1).data := by
    rw [List.getD_eq_getElem _ _ (by omega)]; exact List.getElem_mem _
  have hdrop := drop_pred (st.path path1).data ((st.path path1).data.length - j - 1) (by omega)
  have e1 : (st.path path1).data.length - j - 1 + 1 = (st.path path1).data.length - j := by omega
  rw [e1] at hdrop
  have hne_drop : (st.path path1).data.drop ((st.path path1).data.length - j) ≠ [] := by
    intro hc
    have := congrArg List.length hc
    simp at this; omega
  have hc9 : (s.path (st.heap.length + 1)).conj = st.heap.length := by rw [i9]
  have hc4 : (s.path path1).conj = (st.path path1).conj := by rw [i4]
  have hc6 : (s.path (st.path path2).conj).conj = path2 := by rw [i6]; exact f6
  have hl4 : (s.path path1).data.length = (st.path path1).data.length - j := by
    rw [i4]; simp
  have hl6 : (s.path (st.path path2).conj).data.length
      = (st.path (st.path path2).conj).data.length - j := by
    rw [i6]; simp
  -- first operation
  set e' := g.conjugate (s.path path1).Head with he'
  have A : ∀ r, (PushBack g s (st.heap.length + 1) e' 0).path r =
      if r = st.heap.length + 1 then
        { s.path (st.heap.length + 1) with
          data := (s.path (st.heap.length + 1)).data ++ [e'],
          gaps := if (s.path (st.heap.length + 1)).data = [] then []
                  else (s.path (st.heap.length + 1)).gaps ++ [0] }
      else if r = st.heap.length then
        { s.path r with data := g.conjugate e' :: (s.path r).data,
                        gaps := if (s.path r).data = [] then [] else 0 :: (s.path r).gaps }
      else s.path r := by
    intro r
    have := PushBack_path g s (st.heap.length + 1) r e' 0 hN1 (by rw [hc9]; exact hN)
      (by rw [hc9]; omega)
    rw [hc9] at this
    exact this
  set s1 := PushBack g s (st.heap.length + 1) e' 0 with hs1
  have hs1len : s1.heap.length = st.heap.length + 2 := by rw [hs1]; simp; exact i1
  have hA1 : s1.path path1 = s.path path1 := by
    rw [A, if_neg (by omega), if_neg (by omega)]
  have hlen1 : 1 ≤ (s1.path path1).data.length := by
    rw [hA1, hl4]; omega
  rw [PopBack_eq_some _ _ _ hlen1]
  have B : ∀ r, (popBackEdges s1 path1 1).path r =
      if r = path1 then
        { s.path path1 with
          data := (s.path path1).data.take ((s.path path1).data.length - 1),
          gaps := (s.path path1).gaps.take ((s.path path1).data.length - 1 - 1) }
      else if r = (st.path path1).conj then
        { s1.path r with data := (s1.path r).data.drop 1, gaps := (s1.path r).gaps.drop 1 }
      else s1.path r := by
    intro r
    have := popBackEdges_path s1 path1 1 r (by omega) (by rw [hA1, hc4]; omega)
      (by rw [hA1, hc4]; exact f7)
    rw [hA1, hc4] at this
    exact this
  set s2 := popBackEdges s1 path1 1 with hs2
  have hs2len : s2.heap.length = st.heap.length + 2 := by rw [hs2]; simp; exact hs1len
  have hB2 : s2.path (st.path path2).conj = s.path (st.path path2).conj := by
    rw [B, if_neg (Ne.symm f10), if_neg (Ne.symm f12), A, if_neg (by omega), if_neg (by omega)]
  have hlen2 : 1 ≤ (s2.path (st.path path2).conj).data.length := by
    rw [hB2, hl6]; omega
  simp only [Option.bind]
  rw [PopBack_eq_some _ _ _ hlen2]
  have C : ∀ r, (popBackEdges s2 (st.path path2).conj 1).path r =
      if r = (st.path path2).conj then
        { s.path (st.path path2).conj with
          data := (s.path (st.path path2).conj).data.take
            ((s.path (st.path path2).conj).data.length - 1),
          gaps := (s.path (st.path path2).conj).gaps.take
            ((s.path (st.path path2).conj).data.length - 1 - 1) }
      else if r = path2 then
        { s2.path r with data := (s2.path r).data.drop 1, gaps := (s2.path r).gaps.drop 1 }
      else s2.path r := by
    intro r
    have := popBackEdges_path s2 (st.path path2).conj 1 r (by omega) (by rw [hB2, hc6]; omega)
      (by rw [hB2, hc6]; exact Ne.symm f8)
    rw [hB2, hc6] at this
    exact this
  refine ⟨_, rfl, ?_⟩
  refine ⟨by simp [hs2, hs1]; omega, by simp [hs2, hs1]; exact i2, by simp [hs2, hs1]; exact i3,
    ?_, ?_, ?_, ?_, ?_, ?_, ?_⟩
  · -- path1
    rw [C, if_neg f10, if_neg f9, B, if_pos rfl, hl4, i4]
    simp only [List.take_take, BidirectionalPath.mk.injEq, and_true, true_and]
    constructor
    · congr 1; omega
    · congr 1; omega
  · -- conj1
    rw [C, if_neg f12, if_neg f11, B, if_neg f7, if_pos rfl, A,
      if_neg (by omega), if_neg (by omega), i5]
    simp only [List.drop_drop, BidirectionalPath.mk.injEq, and_true, true_and]
  · -- conj2
    rw [C, if_pos rfl, hl6, i6]
    simp only [List.take_take, BidirectionalPath.mk.injEq, and_true, true_and]
    constructor
    · congr 1; omega
    · congr 1; omega
  · -- path2
    rw [C, if_neg (Ne.symm f8), if_pos rfl, B, if_neg (Ne.symm f9),
      if_neg (Ne.symm f11), A, if_neg (by omega), if_neg (by omega), i7]
    simp only [List.drop_drop, BidirectionalPath.mk.injEq, and_true, true_and]
  · -- the overlap path
    rw [C, if_neg (by omega), if_neg (by omega), B, if_neg (by omega),
      if_neg (by omega), A, if_neg (by omega), if_pos rfl, i8]
    simp only [BidirectionalPath.mk.injEq, and_true, true_and, if_neg hne_drop]
    refine ⟨?_, ?_⟩
    · rw [he', hhead, hinv _ hmem]
      have e2 : (st.path path1).data.length - (j + 1) = (st.path path1).data.length - j - 1 := by
        omega
      rw [e2, hdrop]
    · have e3 : j + 1 - 1 = (j - 1) + 1 := by omega
      rw [e3, List.replicate_succ]
  · -- its conjugate
    rw [C, if_neg (by omega), if_neg (by omega), B, if_neg (by omega),
      if_neg (by omega), A, if_pos rfl, i9]
    have hne2 : (List.map g.conjugate
        (List.drop ((st.path path1).data.length - j) (st.path path1).data)).reverse ≠ [] := by
      simpa using hne_drop
    simp only [BidirectionalPath.mk.injEq, and_true, true_and, if_neg hne2]
    refine ⟨?_, ?_⟩
    · have e2 : (st.path path1).data.length - (j + 1) = (st.path path1).data.length - j - 1 := by
        omega
      rw [e2, hdrop, he', hhead]
      simp
    · have e3 : j + 1 - 1 = (j - 1) + 1 := by omega
      rw [e3, List.replicate_succ']
  · -- frame
    intro r hr hr1 hr2 hr3 hr4
    rw [C, if_neg hr4, if_neg hr3, B, if_neg hr1, if_neg hr2, A,
      if_neg (by omega), if_neg (by omega)]
    exact i10 r hr hr1 hr2 hr3 hr4

theorem drop_length_pred (l : List EdgeId) (h : 1 ≤ l.length) :
    l.drop (l.length - 1) = [l.getLastD 0] := by
  have h1 := drop_pred l (l.length - 1) (by omega)
  have e : l.length - 1 + 1 = l.length := by omega
  rw [e, List.drop_length] at h1
  rw [h1]
  have h2 := Head_take l (l.length - 1) (by omega)
  rw [e, List.take_length] at h2
  rw [h2]

/-- The extraction loop moves the remaining edges one by one. -/
theorem RemoveOverlapLoop_spec (g : Graph) (st : State) (path1 path2 : Nat)
    (hp : DistinctPairs st path1 path2)
    (hinv : ∀ e ∈ (st.path path1).data, g.conjugate (g.conjugate e) = e) :
    ∀ (m j : Nat) (s : State), 1 ≤ j → j + m ≤ (st.path path1).data.length →
      j + m ≤ (st.path (st.GetConjPath path2)).data.length →
      ExtractInv g st path1 path2 j s →
      ∃ s', RemoveOverlapLoop g path1 (st.GetConjPath path2) (st.heap.length + 1) m s = some s'
        ∧ ExtractInv g st path1 path2 (j + m) s' := by
  intro m
  induction m with
  | zero => intro j s _ _ _ h; exact ⟨s, rfl, h⟩
  | succ n ih =>
    intro j s hj h1 h2 h
    obtain ⟨s1, hs1, hi1⟩ := ExtractInv_step g st path1 path2 j s hp hinv hj (by omega) (by omega) h
    obtain ⟨s2, hs2, hi2⟩ := ih (j + 1) s1 (by omega) (by omega) (by omega) hi1
    refine ⟨s2, ?_, by rw [show j + (n + 1) = j + 1 + n by omega]; exact hi2⟩
    unfold RemoveOverlapLoop
    simp only []
    rw [← Option.bind_assoc, hs1]
    exact hs2

/-- The state after the two allocations, `AddPair` and the first two pops. -/
theorem ExtractInv_init (g : Graph) (st : State) (path1 path2 : Nat)
    (hp : DistinctPairs st path1 path2)
    (h1 : 1 ≤ (st.path path1).data.length)
    (h2 : 1 ≤ (st.path (st.GetConjPath path2)).data.length) :
    ∃ s, (PopBack (AddPair (newPath (newPath st (st.path path1).Head).1
              (g.conjugate (st.path path1).Head)).1 st.heap.length (st.heap.length + 1))
            path1 1).bind (fun st2 => PopBack st2 (st.GetConjPath path2) 1) = some s
      ∧ ExtractInv g st path1 path2 1 s := by
  obtain ⟨f1, f2, f3, f4, f5, f6, f7, f8, f9, f10, f11, f12⟩ := hp.facts
  unfold ExtractInv
  unfold State.GetConjPath at *
  have hn1 := newPath_path st (st.path path1).Head
  set r1 := (newPath st (st.path path1).Head).1 with hr1
  have hr1len : r1.heap.length = st.heap.length + 1 := by simp [hr1, newPath]
  have hr1id : r1.next_id = st.next_id + 1 := by simp [hr1, newPath]
  have hn2 := newPath_path r1 (g.conjugate (st.path path1).Head)
  set r2 := (newPath r1 (g.conjugate (st.path path1).Head)).1 with hr2
  have hr2len : r2.heap.length = st.heap.length + 2 := by simp [hr2, newPath, hr1len]
  have A := fun r => AddPair_path r2 st.heap.length (st.heap.length + 1) r (by omega) (by omega)
    (by omega)
  set s0 := AddPair r2 st.heap.length (st.heap.length + 1) with hs0
  have hs0len : s0.heap.length = st.heap.length + 2 := by
    simp [hs0, AddPair]; exact hr2len
  have hold : ∀ r, r < st.heap.length → s0.path r = st.path r := by
    intro r hr
    rw [A, if_neg (by omega), if_neg (by omega), hn2, if_neg (by omega), hn1, if_neg (by omega)]
  have hlen1 : 1 ≤ (s0.path path1).data.length := by rw [hold _ f1]; exact h1
  rw [PopBack_eq_some _ _ _ hlen1]
  have B : ∀ r, (popBackEdges s0 path1 1).path r =
      if r = path1 then
        { st.path path1 with
          data := (st.path path1).data.take ((st.path path1).data.length - 1),
          gaps := (st.path path1).gaps.take ((st.path path1).data.length - 1 - 1) }
      else if r = (st.path path1).conj then
        { s0.path r with data := (s0.path r).data.drop 1, gaps := (s0.path r).gaps.drop 1 }
      else s0.path r := by
    intro r
    have := popBackEdges_path s0 path1 1 r (by omega) (by rw [hold _ f1]; omega)
      (by rw [hold _ f1]; exact f7)
    rw [hold _ f1] at this
    exact this
  set s1 := popBackEdges s0 path1 1 with hs1
  have hs1len : s1.heap.length = st.heap.length + 2 := by rw [hs1]; simp; exact hs0len
  have hB2 : s1.path (st.path path2).conj = st.path (st.path path2).conj := by
    rw [B, if_neg (Ne.symm f10), if_neg (Ne.symm f12), hold _ f4]
  have hlen2 : 1 ≤ (s1.path (st.path path2).conj).data.length := by rw [hB2]; exact h2
  simp only [Option.bind]
  rw [PopBack_eq_some _ _ _ hlen2]
  have C : ∀ r, (popBackEdges s1 (st.path path2).conj 1).path r =
      if r = (st.path path2).conj then
        { st.path (st.path path2).conj with
          data := (st.path (st.path path2).conj).data.take
            ((st.path (st.path path2).conj).data.length - 1),
          gaps := (st.path (st.path path2).conj).gaps.take
            ((st.path (st.path path2).conj).data.length - 1 - 1) }
      else if r = path2 then
        { s1.path r with data := (s1.path r).data.drop 1, gaps := (s1.path r).gaps.drop 1 }
      else s1.path r := by
    intro r
    have := popBackEdges_path s1 (st.path path2).conj 1 r (by omega) (by rw [hB2, f6]; omega)
      (by rw [hB2, f6]; exact Ne.symm f8)
    rw [hB2, f6] at this
    exact this
  refine ⟨_, rfl, ?_⟩
  refine ⟨by simp [hs1]; exact hs0len, by simp [hs1, hs0, AddPair, hr2, hr1, newPath], 
    by simp [hs1, hs0, AddPair, hr2, hr1, newPath], ?_, ?_, ?_, ?_, ?_, ?_, ?_⟩
  · rw [C, if_neg f10, if_neg f9, B, if_pos rfl]
  · rw [C, if_neg f12, if_neg f11, B, if_neg f7, if_pos rfl, hold _ f3]
  · rw [C, if_pos rfl]
  · rw [C, if_neg (Ne.symm f8), if_pos rfl, B, if_neg (Ne.symm f9), if_neg (Ne.symm f11),
      hold _ f2]
  · rw [C, if_neg (by omega), if_neg (by omega), B, if_neg (by omega), if_neg (by omega), A,
      if_pos rfl, hn2, if_neg (by omega), hn1, if_pos rfl, drop_length_pred _ h1]
    rfl
  · rw [C, if_neg (by omega), if_neg (by omega), B, if_neg (by omega), if_neg (by omega), A,
      if_neg (by omega), if_pos rfl, hn2, if_pos hr1len.symm, drop_length_pred _ h1, hr1len, hr1id]
    rfl
  · intro r hr hr1' hr2' hr3 hr4
    rw [C, if_neg hr4, if_neg hr3, B, if_neg hr1', if_neg hr2', hold _ hr]

theorem Subscribe_path (st : State) (p r : Nat) : (Subscribe st p).path r = st.path r := by
  unfold Subscribe; split <;> rfl

theorem Subscribe_heap (st : State) (p : Nat) : (Subscribe st p).heap = st.heap := by
  unfold Subscribe; split <;> rfl

theorem Subscribe_container (st : State) (p : Nat) :
    (Subscribe st p).container = st.container := by
  unfold Subscribe; split <;> rfl

theorem mem_Subscribe (st : State) (p r : Nat) :
    r ∈ (Subscribe st p).coverage_map ↔ r ∈ st.coverage_map ∨ r = p := by
  unfold Subscribe
  split
  · constructor
    · intro h; exact Or.inl h
    · rintro (h | h)
      · exact h
      · subst h; assumption
  · simp

/-- C4. Shared-tail extraction.  For two paths of different pairs (conjugate links
established, `conj` an involution on the edges of `path1`) and `0 < k < size(path1)`,
`k < size(path2)`, `RemoveOverlap(paths, path1, path2, k)` appends exactly one pair to the
container, made of two fresh objects; the canonical path of the pair holds the `k`
trailing edges of the original `path1` in their order, has `is_overlap` set, and is
subscribed with its conjugate; afterwards `path1` is its original sequence without its
last `k` edges, `path2` its original sequence without its first `k` edges,
`path1.has_overlaped_end` and `path2.has_overlaped_begin` are set.  (This holds in
particular when the last `k` edges of `path1` are the first `k` edges of `path2`.) -/
theorem RemoveOverlap_extracts (g : Graph) (st : State) (path1 path2 k : Nat)
    (hp : DistinctPairs st path1 path2)
    (hinv : ∀ e ∈ (st.path path1).data, g.conjugate (g.conjugate e) = e)
    (htwin : (st.path (st.GetConjPath path2)).Size = (st.path path2).Size)
    (hk : 0 < k) (hk1 : k < (st.path path1).Size) (hk2 : k < (st.path path2).Size) :
    ∃ st', RemoveOverlap g st path1 path2 k = some st'
      ∧ st'.container = st.container ++ [(st.heap.length, st.heap.length + 1)]
      ∧ st'.heap.length = st.heap.length + 2
      ∧ (st'.path st.heap.length).data
          = (st.path path1).data.drop ((st.path path1).Size - k)
      ∧ (st'.path st.heap.length).overlap = true
      ∧ (st'.path st.heap.length).conj = st.heap.length + 1
      ∧ (st'.path (st.heap.length + 1)).conj = st.heap.length
      ∧ (st'.path (st.heap.length + 1)).data
          = (((st.path path1).data.drop ((st.path path1).Size - k)).map g.conjugate).reverse
      ∧ st.heap.length ∈ st'.coverage_map ∧ st.heap.length + 1 ∈ st'.coverage_map
      ∧ (st'.path path1).data = (st.path path1).data.take ((st.path path1).Size - k)
      ∧ (st'.path path2).data = (st.path path2).data.drop k
      ∧ (st'.path path1).has_overlaped_end = true
      ∧ (st'.path path2).has_overlaped_begin = true := by
  obtain ⟨f1, f2, f3, f4, f5, f6, f7, f8, f9, f10, f11, f12⟩ := hp.facts
  unfold BidirectionalPath.Size at *
  obtain ⟨s0, hs0, hi0⟩ := ExtractInv_init g st path1 path2 hp (by omega) (by omega)
  obtain ⟨s1, hs1, hi1⟩ := RemoveOverlapLoop_spec g st path1 path2 hp hinv (k - 1) 1 s0
    (le_refl _) (by omega) (by omega) hi0
  have ek : 1 + (k - 1) = k := by omega
  rw [ek] at hi1
  unfold ExtractInv at hi1
  obtain ⟨i1, i2, i3, i4, i5, i6, i7, i8, i9, i10⟩ := hi1
  obtain ⟨sa, ha, hb⟩ := Option.bind_eq_some.1 hs0
  have e1 : (newPath st (st.path path1).Head).2 = st.heap.length := rfl
  have e2 : (newPath (newPath st (st.path path1).Head).1
      (g.conjugate (st.path path1).Head)).2 = st.heap.length + 1 := by
    simp [newPath]
  unfold RemoveOverlap
  simp only [BidirectionalPath.Size]
  rw [if_neg (by omega), if_neg (by omega), if_pos ⟨hk2, hk1⟩]
  simp only [e1, e2]
  rw [ha]
  simp only [Option.bind]
  rw [hb]
  simp only [hs1, Option.map]
  refine ⟨_, rfl, ?_⟩
  have hlen5 : (Subscribe s1 st.heap.length).heap.length = st.heap.length + 2 := by
    rw [Subscribe_heap]; exact i1
  refine ⟨?_, ?_, ?_, ?_, ?_, ?_, ?_, ?_, ?_, ?_, ?_, ?_, ?_⟩
  · simp only [SetOverlapedBeginTo, SetOverlapedEndTo, SetOverlap, State.container_store,
      Subscribe_container]
    exact i2
  · simp only [SetOverlapedBeginTo, SetOverlapedEndTo, SetOverlap, State.heap_length_store,
      Subscribe_heap]
    exact i1
  · unfold SetOverlapedBeginTo SetOverlapedEndTo
    rw [State.path_store_ne _ _ _ _ (by omega), State.path_store_ne _ _ _ _ (by omega),
      Subscribe_path]
    unfold SetOverlap
    rw [State.path_store_eq _ _ _ (by omega), Subscribe_path, i8]
  · unfold SetOverlapedBeginTo SetOverlapedEndTo
    rw [State.path_store_ne _ _ _ _ (by omega), State.path_store_ne _ _ _ _ (by omega),
      Subscribe_path]
    unfold SetOverlap
    rw [State.path_store_eq _ _ _ (by omega)]
  · unfold SetOverlapedBeginTo SetOverlapedEndTo
    rw [State.path_store_ne _ _ _ _ (by omega), State.path_store_ne _ _ _ _ (by omega),
      Subscribe_path]
    unfold SetOverlap
    rw [State.path_store_eq _ _ _ (by omega), Subscribe_path, i8]
  · unfold SetOverlapedBeginTo SetOverlapedEndTo
    rw [State.path_store_ne _ _ _ _ (by omega), State.path_store_ne _ _ _ _ (by omega),
      Subscribe_path]
    unfold SetOverlap
    rw [State.path_store_ne _ _ _ _ (by omega), Subscribe_path, i9]
  · unfold SetOverlapedBeginTo SetOverlapedEndTo
    rw [State.path_store_ne _ _ _ _ (by omega), State.path_store_ne _ _ _ _ (by omega),
      Subscribe_path]
    unfold SetOverlap
    rw [State.path_store_ne _ _ _ _ (by omega), Subscribe_path, i9]
  · simp only [SetOverlapedBeginTo, SetOverlapedEndTo, SetOverlap, State.coverage_map_store,
      mem_Subscribe]
    exact Or.inl (Or.inr trivial)
  · simp only [SetOverlapedBeginTo, SetOverlapedEndTo, SetOverlap, State.coverage_map_store,
      mem_Subscribe]
    exact Or.inr trivial
  · unfold SetOverlapedBeginTo
    rw [State.path_store_ne _ _ _ _ f9]
    unfold SetOverlapedEndTo
    rw [State.path_store_eq _ _ _ (by
      simp only [SetOverlap, State.heap_length_store, Subscribe_heap]; omega)]
    simp only [Subscribe_path, SetOverlap]
    rw [State.path_store_ne _ _ _ _ (by omega), Subscribe_path, i4]
  · unfold SetOverlapedBeginTo
    rw [State.path_store_eq _ _ _ (by
      simp only [SetOverlapedEndTo, SetOverlap, State.heap_length_store, Subscribe_heap]; omega)]
    unfold SetOverlapedEndTo
    rw [State.path_store_ne _ _ _ _ (Ne.symm f9)]
    simp only [Subscribe_path, SetOverlap]
    rw [State.path_store_ne _ _ _ _ (by omega), Subscribe_path, i7]
  · unfold SetOverlapedBeginTo
    rw [State.path_store_ne _ _ _ _ f9]
    unfold SetOverlapedEndTo
    rw [State.path_store_eq _ _ _ (by
      simp only [SetOverlap, State.heap_length_store, Subscribe_heap]; omega)]
  · unfold SetOverlapedBeginTo
    rw [State.path_store_eq _ _ _ (by
      simp only [SetOverlapedEndTo, SetOverlap, State.heap_length_store, Subscribe_heap]; omega)]

/-- Witness of C4: `(1, 3, 5, 7, 9)` and `(7, 9, 11)` with overlap size 2 give the overlap
path `(7, 9)` and leave `(1, 3, 5)` and `(11)`. -/
theorem RemoveOverlap_extracts_witness :
    ∃ st', RemoveOverlap (exGraph 5) (exState [1, 3, 5, 7, 9] [7, 9, 11]) 0 2 2 = some st'
      ∧ (st'.path 4).data = [7, 9] ∧ (st'.path 4).overlap = true
      ∧ (st'.path 0).data = [1, 3, 5] ∧ (st'.path 2).data = [11]
      ∧ (st'.path 0).has_overlaped_end = true ∧ (st'.path 2).has_overlaped_begin = true := by
  obtain ⟨st', h, _, _, h3, h4, _, _, _, _, _, h10, h11, h12, h13⟩ :=
    RemoveOverlap_extracts (exGraph 5) (exState [1, 3, 5, 7, 9] [7, 9, 11]) 0 2 2
      (by decide) (by decide) (by decide) (by decide) (by decide) (by decide)
  exact ⟨st', h, h3, h4, h10, h11, h12, h13⟩

/-! ## The loops of `RemoveSimilarPaths` -/

/-! ### Covering paths -/

theorem mem_GetCoveringPaths (st : State) (e : EdgeId) (r : Nat) :
    r ∈ GetCoveringPaths st e ↔
      r < st.heap.length ∧ r ∈ st.coverage_map ∧ e ∈ (st.path r).data := by
  simp [GetCoveringPaths]

theorem nodup_GetCoveringPaths (st : State) (e : EdgeId) : (GetCoveringPaths st e).Nodup := by
  unfold GetCoveringPaths
  exact List.Nodup.filter _ (List.nodup_range _)

theorem mem_sortByPathId (st : State) (v : List Nat) (r : Nat) :
    r ∈ sortByPathId st v ↔ r ∈ v := by
  unfold sortByPathId
  exact (List.perm_insertionSort _ v).mem_iff

theorem nodup_sortByPathId (st : State) (v : List Nat) (h : v.Nodup) :
    (sortByPathId st v).Nodup := by
  unfold sortByPathId
  exact (List.perm_insertionSort _ v).nodup_iff.2 h

/-! ### The loops of `RemoveSimilarPaths` when nothing is compared -/

theorem RemoveSimilarInner_skip (g : Graph) (edge : EdgeId) (M : Nat) (f1 f2 f3 f4 : Bool)
    (path1 : Nat) (s : State) (cov : List Nat) :
    ∀ l : List Nat, (∀ y ∈ l, y ∉ cov) →
      RemoveSimilarInner g edge M f1 f2 f3 f4 path1 l (s, cov) = some (s, cov) := by
  intro l
  induction l with
  | nil => intro _; rfl
  | cons y rest ih =>
    intro h
    unfold RemoveSimilarInner
    rw [if_pos (h y (List.mem_cons_self _ _))]
    exact ih (fun z hz => h z (List.mem_cons_of_mem _ hz))

theorem RemoveSimilarOuter_skip (g : Graph) (edge : EdgeId) (M : Nat) (f1 f2 f3 f4 : Bool)
    (s : State) (cov : List Nat) (hcov : ∀ x y, x ∈ cov → y ∈ cov → x = y) :
    ∀ l : List Nat, l.Nodup →
      RemoveSimilarOuter g edge M f1 f2 f3 f4 l (s, cov) = some (s, cov) := by
  intro l
  induction l with
  | nil => intro _; rfl
  | cons x rest ih =>
    intro h
    have hx := (List.nodup_cons.1 h)
    unfold RemoveSimilarOuter
    by_cases hm : x ∈ cov
    · rw [if_neg (not_not.2 hm)]
      rw [RemoveSimilarInner_skip g edge M f1 f2 f3 f4 x s cov rest
        (fun y hy hyc => hx.1 (by rw [hcov x y hm hyc]; exact hy))]
      exact ih hx.2
    · rw [if_pos hm]
      exact ih hx.2

theorem RemoveSimilarAtEdge_skip (g : Graph) (M : Nat) (f1 f2 f3 f4 : Bool) (s : State)
    (edge : EdgeId)
    (hcov : ∀ x y, x ∈ GetCoveringPaths s edge → y ∈ GetCoveringPaths s edge → x = y) :
    RemoveSimilarAtEdge g M f1 f2 f3 f4 s edge = some s := by
  unfold RemoveSimilarAtEdge
  simp only []
  rw [RemoveSimilarOuter_skip g edge M f1 f2 f3 f4 s _ hcov _
    (nodup_sortByPathId _ _ (nodup_GetCoveringPaths _ _))]
  rfl

/-- The inner loop when exactly one later entry `b` is covered: only the pair
`(path1, b)` is compared; `t` is the state after that comparison. -/
theorem RemoveSimilarInner_one (g : Graph) (edge : EdgeId) (M : Nat) (f1 f2 f3 f4 : Bool)
    (a b : Nat) (s t : State) (cov : List Nat)
    (hcov : ∀ x, x ∈ cov → x = a ∨ x = b) (hb : b ∈ cov)
    (heq : (s.path a).Equal (s.path b) = false)
    (hgo : ¬ (g.length edge ≤ M ∨ (s.path a).IsOverlap = true
      ∨ (s.path b).IsOverlap = true ∨ f1 = true))
    (hcut : CompareAndCut g s edge a b (toSizeT (toInt32 M)) f2 f3 f4 = some t)
    (hsub : ∀ x, x ∈ GetCoveringPaths t edge → x = a ∨ x = b) :
    ∀ l : List Nat, l.Nodup → a ∉ l → b ∈ l →
      RemoveSimilarInner g edge M f1 f2 f3 f4 a l (s, cov)
        = some (t, GetCoveringPaths t edge) := by
  intro l
  induction l with
  | nil => intro _ _ h; simp at h
  | cons y rest ih =>
    intro hnd ha hbl
    have hy := List.nodup_cons.1 hnd
    unfold RemoveSimilarInner
    by_cases hyb : y = b
    · subst hyb
      rw [if_neg (not_not.2 hb), if_neg (by rw [heq]; simp), if_neg hgo, hcut]
      simp only [Option.bind]
      apply RemoveSimilarInner_skip
      intro z hz hzc
      rcases hsub z hzc with h | h
      · exact ha (by rw [← h]; exact List.mem_cons_of_mem _ hz)
      · exact hy.1 (by rw [← h]; exact hz)
    · have hyc : y ∉ cov := by
        intro hc
        rcases hcov y hc with h | h
        · exact ha (by rw [← h]; exact List.mem_cons_self _ _)
        · exact hyb h
      rw [if_pos hyc]
      exact ih hy.2 (fun h => ha (List.mem_cons_of_mem _ h))
        (by rcases List.mem_cons.1 hbl with h | h; exact absurd h.symm hyb; exact h)

/-- The loops at an edge covered by exactly two paths `a` and `b` that are compared in
whichever order their ids put them: if both comparisons lead to the state `t`, in which at
most one path covers the edge, the loops end in `t`. -/
theorem RemoveSimilarOuter_pair (g : Graph) (edge : EdgeId) (M : Nat) (f1 f2 f3 f4 : Bool)
    (a b : Nat) (s t : State) (cov : List Nat) (hab : a ≠ b)
    (hcov : ∀ x, x ∈ cov → x = a ∨ x = b) (ha : a ∈ cov) (hb : b ∈ cov)
    (heq : (s.path a).Equal (s.path b) = false) (heq2 : (s.path b).Equal (s.path a) = false)
    (hgo : ¬ (g.length edge ≤ M ∨ (s.path a).IsOverlap = true
      ∨ (s.path b).IsOverlap = true ∨ f1 = true))
    (hcut : CompareAndCut g s edge a b (toSizeT (toInt32 M)) f2 f3 f4 = some t)
    (hcut2 : CompareAndCut g s edge b a (toSizeT (toInt32 M)) f2 f3 f4 = some t)
    (hsub : ∀ x, x ∈ GetCoveringPaths t edge → x = a ∨ x = b)
    (hsingle : ∀ x y, x ∈ GetCoveringPaths t edge → y ∈ GetCoveringPaths t edge → x = y) :
    ∀ l : List Nat, l.Nodup → a ∈ l → b ∈ l →
      RemoveSimilarOuter g edge M f1 f2 f3 f4 l (s, cov)
        = some (t, GetCoveringPaths t edge) := by
  intro l
  induction l with
  | nil => intro _ h; simp at h
  | cons x rest ih =>
    intro hnd hal hbl
    have hx := List.nodup_cons.1 hnd
    unfold RemoveSimilarOuter
    by_cases hxa : x = a
    · subst hxa
      rw [if_neg (not_not.2 ha)]
      have hbr : b ∈ rest := by
        rcases List.mem_cons.1 hbl with h | h
        · exact absurd h.symm hab
        · exact h
      rw [RemoveSimilarInner_one g edge M f1 f2 f3 f4 x b s t cov hcov hb heq hgo hcut hsub rest
        hx.2 hx.1 hbr]
      simp only [Option.bind]
      exact RemoveSimilarOuter_skip g edge M f1 f2 f3 f4 t _ hsingle rest hx.2
    · by_cases hxb : x = b
      · subst hxb
        rw [if_neg (not_not.2 hb)]
        have har : a ∈ rest := by
          rcases List.mem_cons.1 hal with h | h
          · exact absurd h hab
          · exact h
        rw [RemoveSimilarInner_one g edge M f1 f2 f3 f4 x a s t cov
          (fun z hz => (hcov z hz).symm) ha heq2
          (fun h => hgo (by tauto)) hcut2 (fun z hz => (hsub z hz).symm) rest hx.2 hx.1 har]
        simp only [Option.bind]
        exact RemoveSimilarOuter_skip g edge M f1 f2 f3 f4 t _ hsingle rest hx.2
      · have hxc : x ∉ cov := fun hc => by
          rcases hcov x hc with h | h
          · exact hxa h
          · exact hxb h
        rw [if_pos hxc]
        exact ih hx.2
          (by rcases List.mem_cons.1 hal with h | h; exact absurd h.symm hxa; exact h)
          (by rcases List.mem_cons.1 hbl with h | h; exact absurd h.symm hxb; exact h)

theorem RemoveSimilarAtEdge_pair (g : Graph) (edge : EdgeId) (M : Nat) (f1 f2 f3 f4 : Bool)
    (a b : Nat) (s t : State) (hab : a ≠ b)
    (hcov : ∀ x, x ∈ GetCoveringPaths s edge → x = a ∨ x = b)
    (ha : a ∈ GetCoveringPaths s edge) (hb : b ∈ GetCoveringPaths s edge)
    (heq : (s.path a).Equal (s.path b) = false) (heq2 : (s.path b).Equal (s.path a) = false)
    (hgo : ¬ (g.length edge ≤ M ∨ (s.path a).IsOverlap = true
      ∨ (s.path b).IsOverlap = true ∨ f1 = true))
    (hcut : CompareAndCut g s edge a b (toSizeT (toInt32 M)) f2 f3 f4 = some t)
    (hcut2 : CompareAndCut g s edge b a (toSizeT (toInt32 M)) f2 f3 f4 = some t)
    (hsub : ∀ x, x ∈ GetCoveringPaths t edge → x = a ∨ x = b)
    (hsingle : ∀ x y, x ∈ GetCoveringPaths t edge → y ∈ GetCoveringPaths t edge → x = y) :
    RemoveSimilarAtEdge g M f1 f2 f3 f4 s edge = some t := by
  unfold RemoveSimilarAtEdge
  simp only []
  rw [RemoveSimilarOuter_pair g edge M f1 f2 f3 f4 a b s t _ hab hcov ha hb heq heq2 hgo hcut hcut2
    hsub hsingle _ (nodup_sortByPathId _ _ (nodup_GetCoveringPaths _ _))
    ((mem_sortByPathId _ _ _).2 ha) ((mem_sortByPathId _ _ _).2 hb)]
  rfl

/-- The loop over the edges for a pass that stays in `Init` until some edge takes it to
`Final`, where it remains. -/
theorem RemoveSimilarEdges_reach (g : Graph) (M : Nat) (f1 f2 f3 f4 : Bool)
    (Init Final : State → Prop)
    (hfinal : ∀ s e, Final s → ∃ s', RemoveSimilarAtEdge g M f1 f2 f3 f4 s e = some s' ∧ Final s')
    (hinit : ∀ s e, Init s →
      ∃ s', RemoveSimilarAtEdge g M f1 f2 f3 f4 s e = some s' ∧ (Init s' ∨ Final s')) :
    ∀ (edges : List EdgeId) (s : State),
      (Final s → ∃ s', RemoveSimilarEdges g M f1 f2 f3 f4 edges s = some s' ∧ Final s')
      ∧ (Init s → ∃ s', RemoveSimilarEdges g M f1 f2 f3 f4 edges s = some s'
          ∧ (Init s' ∨ Final s'))
      ∧ (Init s → ∀ e0 ∈ edges,
          (∀ s0, Init s0 → ∃ s', RemoveSimilarAtEdge g M f1 f2 f3 f4 s0 e0 = some s' ∧ Final s') →
          ∃ s', RemoveSimilarEdges g M f1 f2 f3 f4 edges s = some s' ∧ Final s') := by
  intro edges
  induction edges with
  | nil =>
    intro s
    refine ⟨fun h => ⟨s, rfl, h⟩, fun h => ⟨s, rfl, Or.inl h⟩, fun _ e0 he0 => by simp at he0⟩
  | cons e rest ih =>
    intro s
    refine ⟨?_, ?_, ?_⟩
    · intro h
      obtain ⟨s1, h1, hf1⟩ := hfinal s e h
      obtain ⟨s2, h2, hf2⟩ := (ih s1).1 hf1
      exact ⟨s2, by unfold RemoveSimilarEdges; rw [h1]; exact h2, hf2⟩
    · intro h
      obtain ⟨s1, h1, hf1⟩ := hinit s e h
      rcases hf1 with hi | hf
      · obtain ⟨s2, h2, hf2⟩ := (ih s1).2.1 hi
        exact ⟨s2, by unfold RemoveSimilarEdges; rw [h1]; exact h2, hf2⟩
      · obtain ⟨s2, h2, hf2⟩ := (ih s1).1 hf
        exact ⟨s2, by unfold RemoveSimilarEdges; rw [h1]; exact h2, Or.inr hf2⟩
    · intro h e0 he0 htrig
      rcases List.mem_cons.1 he0 with hhead | htail
      · subst hhead
        obtain ⟨s1, h1, hf1⟩ := htrig s h
        obtain ⟨s2, h2, hf2⟩ := (ih s1).1 hf1
        exact ⟨s2, by unfold RemoveSimilarEdges; rw [h1]; exact h2, hf2⟩
      · obtain ⟨s1, h1, hf1⟩ := hinit s e h
        rcases hf1 with hi | hf
        · obtain ⟨s2, h2, hf2⟩ := (ih s1).2.2 hi e0 htail htrig
          exact ⟨s2, by unfold RemoveSimilarEdges; rw [h1]; exact h2, hf2⟩
        · obtain ⟨s2, h2, hf2⟩ := (ih s1).1 hf
          exact ⟨s2, by unfold RemoveSimilarEdges; rw [h1]; exact h2, hf2⟩

/-! ## Comparison along a common segment -/

/-- A run of iterations in which every edge of `path1` is found in `path2` at the position
right after the previous match. -/
theorem ComparePathsLoop_run (g : Graph) (p1 p2 : BidirectionalPath) (M : Nat)
    (hg : ∀ x ∈ p2.gaps, x = 0) :
    ∀ (f1 f2 cur l1 l2 d : Nat), d ≤ M →
      (∀ t, t < f1 →
        l2 + 1 + t < p2.Size ∧ p2.At (l2 + 1 + t) = p1.At (cur + t)
          ∧ ∀ i, i < p2.Size → p2.At i = p1.At (cur + t) → i = l2 + 1 + t) →
      ComparePathsLoop g p1 p2 M (f1 + f2) cur l1 l2 d
        = ComparePathsLoop g p1 p2 M f2 (cur + f1)
            (if f1 = 0 then l1 else cur + f1 - 1) (if f1 = 0 then l2 else l2 + f1)
            (if f1 = 0 then d else 0) := by
  intro f1
  induction f1 with
  | zero => intro f2 cur l1 l2 d _ _; simp
  | succ n ih =>
    intro f2 cur l1 l2 d hd hall
    have hcur := hall 0 (by omega)
    simp only [Nat.add_zero] at hcur
    have hfind := find_FindAll_unique p2 (p1.At cur) (l2 + 1) l2 hcur.1 hcur.2.1 (by omega)
      hcur.2.2
    have e : n + 1 + f2 = (n + f2) + 1 := by omega
    rw [e]
    have step : ComparePathsLoop g p1 p2 M (n + f2 + 1) cur l1 l2 d
        = ComparePathsLoop g p1 p2 M (n + f2) (cur + 1) cur (l2 + 1) 0 := by
      conv_lhs => unfold ComparePathsLoop
      rw [if_neg (by omega)]
      simp only [hfind]
      rw [diff_len2_neighbour g p2 l2 hcur.1 hg, if_neg (by omega)]
    rw [step, ih f2 (cur + 1) cur (l2 + 1) 0 (by omega)
      (fun t ht => by
        have := hall (t + 1) (by omega)
        have e1 : l2 + 1 + (t + 1) = l2 + 1 + 1 + t := by omega
        have e2 : cur + (t + 1) = cur + 1 + t := by omega
        rw [e1, e2] at this
        exact this)]
    have e2 : cur + 1 + n = cur + (n + 1) := by omega
    rw [e2]
    by_cases hn : n = 0
    · subst hn; simp
    · simp only [hn, if_false, Nat.add_eq_zero, one_ne_zero, and_false]
      congr 1
      omega

/-- An edge of `path1` that does not occur in `path2` and is longer than the tolerance ends
the comparison. -/
theorem ComparePathsLoop_stop (g : Graph) (p1 p2 : BidirectionalPath) (M : Nat)
    (fuel cur l1 l2 d : Nat) (hd : d ≤ M)
    (habs : ∀ i, i < p2.Size → p2.At i ≠ p1.At cur)
    (hlen : M < toSizeT ((d : Int) + (g.length (p1.At cur) : Int) + p1.GapAt cur)) :
    ComparePathsLoop g p1 p2 M (fuel + 1) cur l1 l2 d = (l1, l2) := by
  unfold ComparePathsLoop
  rw [if_neg (by omega)]
  simp only [find_FindAll_absent p2 (p1.At cur) l2 habs]
  cases fuel with
  | zero => rfl
  | succ n => unfold ComparePathsLoop; rw [if_pos hlen]

theorem getD_append_mid (X S Y : List EdgeId) (i : Nat) (hi : i < S.length) :
    (X ++ S ++ Y).getD (X.length + i) 0 = S.getD i 0 := by
  rw [List.getD_eq_getElem?_getD, List.getD_eq_getElem?_getD, List.append_assoc,
    List.getElem?_append_right (by omega), List.getElem?_append_left (by omega)]
  congr 2; omega

theorem getD_append_after (X S Y : List EdgeId) (y : EdgeId) (hy : Y.head? = some y) :
    (X ++ S ++ Y).getD (X.length + S.length) 0 = y := by
  cases Y with
  | nil => simp at hy
  | cons z rest =>
    simp at hy
    subst hy
    rw [List.getD_eq_getElem?_getD, List.getElem?_append_right (by simp)]
    simp

/-- Comparison of two paths along a common segment `S`: started at the same position of
`S` in both, the comparator runs to the end of `S` in both paths when `path1` ends there or
continues with an edge that is not in `path2` and is longer than the tolerance. -/
theorem ComparePaths_common_segment (g : Graph) (pa pb : BidirectionalPath)
    (X1 S X2 Y1 Y2 : List EdgeId) (t M : Nat)
    (ha : pa.data = X1 ++ S ++ X2) (hb : pb.data = Y1 ++ S ++ Y2)
    (hnd : pb.data.Nodup) (hga : ∀ x ∈ pa.gaps, x = 0) (hgb : ∀ x ∈ pb.gaps, x = 0)
    (ht : t < S.length) (hsz : pa.Size < SIZE_T_MOD)
    (hstop : ∀ x, X2.head? = some x → x ∉ pb.data ∧ M < g.length x ∧ g.length x < SIZE_T_MOD) :
    ComparePaths g (X1.length + t) (Y1.length + t) pa pb M
      = (X1.length + S.length - 1, Y1.length + S.length - 1) := by
  have hsa : pa.Size = X1.length + S.length + X2.length := by
    unfold BidirectionalPath.Size; rw [ha]; simp; omega
  have hsb : pb.Size = Y1.length + S.length + Y2.length := by
    unfold BidirectionalPath.Size; rw [hb]; simp; omega
  have hAtA : ∀ i, i < S.length → pa.At (X1.length + i) = S.getD i 0 := by
    intro i hi; unfold BidirectionalPath.At; rw [ha]; exact getD_append_mid _ _ _ _ hi
  have hAtB : ∀ i, i < S.length → pb.At (Y1.length + i) = S.getD i 0 := by
    intro i hi; unfold BidirectionalPath.At; rw [hb]; exact getD_append_mid _ _ _ _ hi
  have hcur : (X1.length + t + 1) % 18446744073709551616 = X1.length + t + 1 := by
    unfold SIZE_T_MOD at hsz; omega
  unfold ComparePaths
  simp only [hcur]
  have hfuel : pa.Size - (X1.length + t + 1) = (S.length - t - 1) + X2.length := by omega
  rw [hfuel, ComparePathsLoop_run g pa pb M hgb (S.length - t - 1) X2.length (X1.length + t + 1)
    (X1.length + t) (Y1.length + t) 0 (by omega) (by
      intro u hu
      have e1 : Y1.length + t + 1 + u = Y1.length + (t + 1 + u) := by omega
      have e2 : X1.length + t + 1 + u = X1.length + (t + 1 + u) := by omega
      rw [e1, e2, hAtA _ (by omega), hAtB _ (by omega)]
      refine ⟨by omega, rfl, ?_⟩
      intro i hi he
      rw [← hAtB _ (by omega)] at he
      exact At_inj_of_nodup pb hnd i _ hi (by omega) he)]
  have e1 : (if S.length - t - 1 = 0 then X1.length + t
      else X1.length + t + 1 + (S.length - t - 1) - 1) = X1.length + S.length - 1 := by
    split <;> omega
  have e2 : (if S.length - t - 1 = 0 then Y1.length + t
      else Y1.length + t + (S.length - t - 1)) = Y1.length + S.length - 1 := by
    split <;> omega
  have e3 : (if S.length - t - 1 = 0 then (0 : Nat) else 0) = 0 := by split <;> rfl
  have e4 : X1.length + t + 1 + (S.length - t - 1) = X1.length + S.length := by omega
  rw [e1, e2, e3, e4]
  cases hX : X2 with
  | nil => rfl
  | cons x rest =>
    have hx := hstop x (by rw [hX]; rfl)
    have hAt : pa.At (X1.length + S.length) = x := by
      unfold BidirectionalPath.At; rw [ha]
      exact getD_append_after _ _ _ _ (by rw [hX]; rfl)
    simp only [List.length_cons]
    apply ComparePathsLoop_stop
    · omega
    · intro i hi he
      rw [hAt] at he
      apply hx.1
      rw [← he]
      unfold BidirectionalPath.At
      unfold BidirectionalPath.Size at hi
      rw [List.getD_eq_getElem _ _ hi]
      exact List.getElem_mem _
    · rw [hAt, GapAt_eq_zero pa hga]
      simp only [Nat.cast_zero, zero_add, add_zero]
      rw [toSizeT_natCast _ hx.2.2]
      exact hx.2.1

theorem eq_singleton_of_nodup (l : List Nat) (i : Nat) (hnd : l.Nodup)
    (hmem : ∀ x, x ∈ l ↔ x = i) : l = [i] := by
  cases l with
  | nil => exact absurd ((hmem i).2 rfl) (List.not_mem_nil _)
  | cons a t =>
    have ha : a = i := (hmem a).1 (List.mem_cons_self _ _)
    cases t with
    | nil => rw [ha]
    | cons b t2 =>
      have hb : b = i := (hmem b).1 (List.mem_cons_of_mem _ (List.mem_cons_self _ _))
      have := (List.nodup_cons.1 hnd).1
      rw [ha, ← hb] at this
      exact absurd (List.mem_cons_self _ _) this

/-- In a path without repeated edges `FindAll` returns the single position of the edge. -/
theorem FindAll_of_nodup (p : BidirectionalPath) (e : EdgeId) (i : Nat) (hnd : p.data.Nodup)
    (hi : i < p.Size) (hat : p.At i = e) : p.FindAll e = [i] := by
  apply eq_singleton_of_nodup
  · unfold BidirectionalPath.FindAll
    exact List.Nodup.filter _ (List.nodup_range _)
  · intro x
    rw [mem_FindAll]
    constructor
    · rintro ⟨hx, hxe⟩
      exact At_inj_of_nodup p hnd x i hx hi (by rw [hxe, hat])
    · rintro rfl
      exact ⟨hi, hat⟩

/-- `CompareAndCut` when the edge occurs once in each path. -/
theorem CompareAndCut_single (g : Graph) (st : State) (e : EdgeId) (a b i j M : Nat)
    (f2 f3 f4 : Bool)
    (ha : (st.path a).FindAll e = [i]) (hb : (st.path b).FindAll e = [j]) :
    CompareAndCut g st e a b M f2 f3 f4
      = CompareAndCutFromPos g st a i b j (toInt32 M) f2 f3 f4 := by
  unfold CompareAndCut
  rw [ha]
  unfold CompareAndCutOuter
  rw [hb]
  unfold CompareAndCutInner
  cases h : CompareAndCutFromPos g st a i b j (toInt32 M) f2 f3 f4 with
  | none => rfl
  | some s => simp [CompareAndCutInner, CompareAndCutOuter]

/-- `CompareAndCutFromPos` once the results of its two comparisons are known. -/
theorem CompareAndCutFromPos_eval (g : Graph) (st : State) (a i b j : Nat) (f2 f3 f4 : Bool)
    (l1 l2 r1 r2 : Nat)
    (hi : i < (st.path a).Size) (hj : j < (st.path b).Size)
    (hsa : (st.path (st.GetConjPath a)).Size = (st.path a).Size)
    (hsb : (st.path (st.GetConjPath b)).Size = (st.path b).Size)
    (hsza : (st.path a).Size < SIZE_T_MOD) (hszb : (st.path b).Size < SIZE_T_MOD)
    (hfwd : ComparePaths g i j (st.path a) (st.path b) 0 = (l1, l2))
    (hbwd : ComparePaths g ((st.path a).Size - i - 1) ((st.path b).Size - j - 1)
      (st.path (st.GetConjPath a)) (st.path (st.GetConjPath b)) 0 = (r1, r2))
    (hr1 : r1 < (st.path a).Size) (hr2 : r2 < (st.path b).Size) :
    CompareAndCutFromPos g st a i b j (toInt32 0) f2 f3 f4
      = (CutOverlaps g st a ((st.path a).Size - r1 - 1) l1 (st.path a).Size
          b ((st.path b).Size - r2 - 1) l2 (st.path b).Size f2 f3 f4).map (fun r => r.2) := by
  unfold SIZE_T_MOD at hsza hszb
  have e0 : toSizeT (toInt32 0) = 0 := by decide
  have ea : toSizeT (((st.path (st.GetConjPath a)).Size : Int) - (i : Int) - 1)
      = (st.path a).Size - i - 1 := by
    rw [hsa]
    have := toSizeT_of_range (((st.path a).Size : Int) - (i : Int) - 1) (by omega) (by omega)
    omega
  have eb : toSizeT (((st.path (st.GetConjPath b)).Size : Int) - (j : Int) - 1)
      = (st.path b).Size - j - 1 := by
    rw [hsb]
    have := toSizeT_of_range (((st.path b).Size : Int) - (j : Int) - 1) (by omega) (by omega)
    omega
  have ea2 : toSizeT (((st.path (st.GetConjPath a)).Size : Int) - (r1 : Int) - 1)
      = (st.path a).Size - r1 - 1 := by
    rw [hsa]
    have := toSizeT_of_range (((st.path a).Size : Int) - (r1 : Int) - 1) (by omega) (by omega)
    omega
  have eb2 : toSizeT (((st.path (st.GetConjPath b)).Size : Int) - (r2 : Int) - 1)
      = (st.path b).Size - r2 - 1 := by
    rw [hsb]
    have := toSizeT_of_range (((st.path b).Size : Int) - (r2 : Int) - 1) (by omega) (by omega)
    omega
  unfold CompareAndCutFromPos
  rw [if_neg (by omega)]
  simp only [e0, ea, eb, hfwd, hbwd, ea2, eb2]

/-! ## Conjugate sequences -/

theorem conjSeq_append (g : Graph) (l1 l2 : List EdgeId) :
    conjSeq g (l1 ++ l2) = conjSeq g l2 ++ conjSeq g l1 := by
  simp [conjSeq]

theorem conjSeq_length (g : Graph) (l : List EdgeId) : (conjSeq g l).length = l.length := by
  simp [conjSeq]

theorem mem_conjSeq (g : Graph) (l : List EdgeId) (x : EdgeId) :
    x ∈ conjSeq g l ↔ ∃ e ∈ l, g.conjugate e = x := by
  simp [conjSeq]

theorem conjSeq_conjSeq (g : Graph) (l : List EdgeId)
    (h : ∀ e ∈ l, g.conjugate (g.conjugate e) = e) : conjSeq g (conjSeq g l) = l := by
  unfold conjSeq
  rw [List.map_reverse, List.reverse_reverse, List.map_map]
  conv_rhs => rw [← List.map_id l]
  apply List.map_congr_left
  intro e he
  exact h e he

theorem conjSeq_getD (g : Graph) (l : List EdgeId) (j : Nat) (hj : j < l.length) :
    (conjSeq g l).getD (l.length - 1 - j) 0 = g.conjugate (l.getD j 0) := by
  unfold conjSeq
  rw [List.getD_eq_getElem _ _ (by simp; omega), List.getD_eq_getElem _ _ hj,
    List.getElem_reverse]
  simp only [List.getElem_map, List.length_map]
  congr 2
  omega

namespace DistinctEdges

theorem nodup_left {g : Graph} {l : List EdgeId} (h : DistinctEdges g l) : l.Nodup :=
  (List.nodup_append.1 h.nodup).1

theorem nodup_conjSeq {g : Graph} {l : List EdgeId} (h : DistinctEdges g l) :
    (conjSeq g l).Nodup :=
  List.nodup_reverse.2 (List.nodup_append.1 h.nodup).2.1

theorem not_mem_conjSeq {g : Graph} {l : List EdgeId} (h : DistinctEdges g l) {x : EdgeId}
    (hx : x ∈ l) : x ∉ conjSeq g l := by
  intro hc
  have := (List.nodup_append.1 h.nodup).2.2
  exact this hx (by simpa [conjSeq] using hc)

/-- The conjugate sequence has distinct edges as well. -/
theorem conjugate_seq {g : Graph} {l : List EdgeId} (h : DistinctEdges g l) :
    DistinctEdges g (conjSeq g l) := by
  have hmap : (conjSeq g l).map g.conjugate = l.reverse := by
    unfold conjSeq
    rw [List.map_reverse, List.map_map]
    congr 1
    conv_rhs => rw [← List.map_id l]
    apply List.map_congr_left
    intro e he
    exact h.invol e he
  refine ⟨?_, ?_, ?_⟩
  · rw [hmap]
    have hp : (conjSeq g l ++ l.reverse).Perm (l ++ l.map g.conjugate) := by
      unfold conjSeq
      exact (List.perm_append_comm).trans
        (List.Perm.append (List.reverse_perm _) (List.reverse_perm _))
    exact hp.nodup_iff.2 h.nodup
  · intro e he
    obtain ⟨x, hx, rfl⟩ := (mem_conjSeq g l e).1 he
    rw [h.invol x hx]
  · intro e he
    rw [hmap] at he
    apply h.len_pos
    rcases List.mem_append.1 he with h1 | h1
    · exact List.mem_append_right _ (by simpa [conjSeq] using h1)
    · exact List.mem_append_left _ (List.mem_reverse.1 h1)

end DistinctEdges

theorem DistinctPairs.swap {st : State} {a b : Nat} (h : DistinctPairs st a b) :
    DistinctPairs st b a := by
  obtain ⟨f1, f2, f3, f4, f5, f6, f7, f8, f9, f10, f11, f12⟩ := h.facts
  unfold DistinctPairs State.GetConjPath
  exact ⟨f2, f1, f4, f3, f6, f5, f8, f7, Ne.symm f9, Ne.symm f11⟩

theorem DistinctPairs.twins {st : State} {a b : Nat} (h : DistinctPairs st a b) :
    DistinctPairs st (st.GetConjPath a) (st.GetConjPath b) := by
  obtain ⟨f1, f2, f3, f4, f5, f6, f7, f8, f9, f10, f11, f12⟩ := h.facts
  unfold DistinctPairs State.GetConjPath
  refine ⟨f3, f4, by rw [f5]; exact f1, by rw [f6]; exact f2, by rw [f5], by rw [f6],
    by rw [f5]; exact Ne.symm f7, by rw [f6]; exact Ne.symm f8, f12, by rw [f6]; exact f11⟩

namespace TwinPaths

theorem swapped {g : Graph} {st : State} {a b : Nat} (h : TwinPaths g st a b) :
    TwinPaths g st b a :=
  ⟨h.pairs.swap, h.conj_b, h.conj_a, fun r hr => h.gaps_zero r (by tauto),
    fun r hr => h.no_flags r (by tauto), h.size_b, h.size_a⟩

theorem conjugates {g : Graph} {st : State} {a b : Nat} (h : TwinPaths g st a b)
    (ha : ∀ e ∈ (st.path a).data, g.conjugate (g.conjugate e) = e)
    (hb : ∀ e ∈ (st.path b).data, g.conjugate (g.conjugate e) = e) :
    TwinPaths g st (st.GetConjPath a) (st.GetConjPath b) := by
  obtain ⟨f1, f2, f3, f4, f5, f6, f7, f8, f9, f10, f11, f12⟩ := h.pairs.facts
  have e5 : st.GetConjPath (st.GetConjPath a) = a := f5
  have e6 : st.GetConjPath (st.GetConjPath b) = b := f6
  refine ⟨h.pairs.twins, ?_, ?_, ?_, ?_, ?_, ?_⟩
  · rw [e5, h.conj_a, conjSeq_conjSeq g _ ha]
  · rw [e6, h.conj_b, conjSeq_conjSeq g _ hb]
  · intro r hr; rw [e5, e6] at hr; exact h.gaps_zero r (by tauto)
  · intro r hr; rw [e5, e6] at hr; exact h.no_flags r (by tauto)
  · unfold BidirectionalPath.Size; rw [h.conj_a, conjSeq_length]; exact h.size_a
  · unfold BidirectionalPath.Size; rw [h.conj_b, conjSeq_length]; exact h.size_b

theorem size_conj_a {g : Graph} {st : State} {a b : Nat} (h : TwinPaths g st a b) :
    (st.path (st.GetConjPath a)).Size = (st.path a).Size := by
  unfold BidirectionalPath.Size; rw [h.conj_a, conjSeq_length]

theorem size_conj_b {g : Graph} {st : State} {a b : Nat} (h : TwinPaths g st a b) :
    (st.path (st.GetConjPath b)).Size = (st.path b).Size := by
  unfold BidirectionalPath.Size; rw [h.conj_b, conjSeq_length]

end TwinPaths

/-- First row of `CutOverlaps`. -/
theorem CutOverlaps_row1 (g : Graph) (st : State) (p1 l1 p2 f2 l2 s2 : Nat) (db da : Bool)
    (hl : l1 + 1 = (st.path p1).Size) (hsz : (st.path p1).Size < SIZE_T_MOD)
    (hb : (st.path p1).has_overlaped_begin = false)
    (he : (st.path p1).has_overlaped_end = false) :
    CutOverlaps g st p1 0 l1 (st.path p1).Size p2 f2 l2 s2 true db da
      = some (true, Clear st p1) := by
  have e1 : toSizeT (((st.path p1).Size : Int) - 1) = (st.path p1).Size - 1 :=
    toSizeT_pred _ (by omega) hsz
  unfold CutOverlaps
  simp only [e1, BidirectionalPath.HasOverlapedBegin, BidirectionalPath.HasOverlapedEnd]
  rw [if_pos ⟨trivial, by omega, trivial, hb, he⟩]

/-- Second row of `CutOverlaps`, reached when the span of `path1` is not the whole path. -/
theorem CutOverlaps_row2 (g : Graph) (st : State) (p1 f1 l1 p2 l2 : Nat) (db da : Bool)
    (h1 : ¬ (f1 = 0 ∧ l1 + 1 = (st.path p1).Size)) (hl1 : l1 < (st.path p1).Size)
    (hsz1 : (st.path p1).Size < SIZE_T_MOD)
    (hl : l2 + 1 = (st.path p2).Size) (hsz : (st.path p2).Size < SIZE_T_MOD)
    (hb : (st.path p2).has_overlaped_begin = false)
    (he : (st.path p2).has_overlaped_end = false) :
    CutOverlaps g st p1 f1 l1 (st.path p1).Size p2 0 l2 (st.path p2).Size true db da
      = some (true, Clear st p2) := by
  have e1 : toSizeT (((st.path p1).Size : Int) - 1) = (st.path p1).Size - 1 :=
    toSizeT_pred _ (by omega) hsz1
  have e2 : toSizeT (((st.path p2).Size : Int) - 1) = (st.path p2).Size - 1 :=
    toSizeT_pred _ (by omega) hsz
  unfold CutOverlaps
  simp only [e1, e2, BidirectionalPath.HasOverlapedBegin, BidirectionalPath.HasOverlapedEnd]
  rw [if_neg (fun h => h1 ⟨h.1, by omega⟩), if_pos ⟨trivial, by omega, trivial, hb, he⟩]

/-! ## `CompareAndCut` on a contained path -/

theorem head_mem {l : List EdgeId} {x : EdgeId} (h : l.head? = some x) : x ∈ l := by
  cases l with
  | nil => simp at h
  | cons a t => simp at h; subst h; exact List.mem_cons_self _ _

theorem exists_getD_of_mem {l : List EdgeId} {e : EdgeId} (h : e ∈ l) :
    ∃ j, j < l.length ∧ l.getD j 0 = e := by
  obtain ⟨j, hj, hje⟩ := List.mem_iff_getElem.1 h
  exact ⟨j, hj, by rw [List.getD_eq_getElem _ _ hj]; exact hje⟩

/-- `CompareAndCut` on a path `a` and a contiguous proper sub-run `b` of it, `a` first:
the second subpath row clears `b`. -/
theorem CompareAndCut_subrun_big_small (g : Graph) (st : State) (a b : Nat) (e : EdgeId)
    (X Y : List EdgeId) (f3 f4 : Bool) (h : TwinPaths g st a b)
    (hA : (st.path a).data = X ++ (st.path b).data ++ Y) (hproper : X ≠ [] ∨ Y ≠ [])
    (hE : DistinctEdges g (st.path a).data) (he : e ∈ (st.path b).data) :
    CompareAndCut g st e a b 0 true f3 f4 = some (Clear st b) := by
  obtain ⟨j, hj, hje⟩ := exists_getD_of_mem he
  have hndA : (st.path a).data.Nodup := hE.nodup_left
  have hndB : (st.path b).data.Nodup := by
    have := hndA; rw [hA] at this
    exact (List.nodup_append.1 (List.nodup_append.1 this).1).2.1
  have hsA : (st.path a).Size = X.length + (st.path b).data.length + Y.length := by
    unfold BidirectionalPath.Size; rw [hA]; simp; omega
  have hsB : (st.path b).Size = (st.path b).data.length := rfl
  have hAi : (st.path a).At (X.length + j) = e := by
    unfold BidirectionalPath.At; rw [hA, getD_append_mid _ _ _ _ hj]; exact hje
  have hlenXY : 0 < X.length + Y.length := by
    rcases hproper with hx | hy
    · have := List.length_pos.2 hx; omega
    · have := List.length_pos.2 hy; omega
  rw [CompareAndCut_single g st e a b (X.length + j) j 0 true f3 f4
    (FindAll_of_nodup _ e _ hndA (by omega) hAi)
    (FindAll_of_nodup _ e _ hndB hj hje)]
  -- forward comparison
  have hfwd := ComparePaths_common_segment g (st.path a) (st.path b) X (st.path b).data Y [] []
    j 0 hA (by simp) hndB (h.gaps_zero a (by tauto)) (h.gaps_zero b (by tauto)) hj h.size_a
    (by
      intro x hx
      have hxY := head_mem hx
      refine ⟨?_, (hE.len_pos x ?_).1, (hE.len_pos x ?_).2⟩
      · intro hxB
        have := hndA; rw [hA] at this
        exact (List.nodup_append.1 this).2.2 (List.mem_append_right _ hxB) hxY
      · rw [hA]; simp; tauto
      · rw [hA]; simp; tauto)
  simp only [List.length_nil, zero_add] at hfwd
  -- backward comparison on the conjugates
  have hcA : (st.path (st.GetConjPath a)).data
      = conjSeq g Y ++ conjSeq g (st.path b).data ++ conjSeq g X := by
    rw [h.conj_a, hA, conjSeq_append, conjSeq_append, List.append_assoc]
  have hndcA : (conjSeq g Y ++ conjSeq g (st.path b).data ++ conjSeq g X).Nodup := by
    rw [← hcA, h.conj_a]; exact hE.nodup_conjSeq
  have hbwd := ComparePaths_common_segment g (st.path (st.GetConjPath a))
    (st.path (st.GetConjPath b)) (conjSeq g Y) (conjSeq g (st.path b).data) (conjSeq g X) [] []
    ((st.path b).data.length - 1 - j) 0 hcA (by rw [h.conj_b]; simp)
    (by rw [h.conj_b]; exact (List.nodup_append.1 (List.nodup_append.1 hndcA).1).2.1)
    (h.gaps_zero _ (by tauto)) (h.gaps_zero _ (by tauto))
    (by rw [conjSeq_length]; omega) (by rw [h.size_conj_a]; exact h.size_a)
    (by
      intro x hx
      have hxX := head_mem hx
      have hxl : x ∈ (st.path a).data ++ (st.path a).data.map g.conjugate := by
        apply List.mem_append_right
        have : x ∈ conjSeq g (st.path a).data := by
          rw [← h.conj_a, hcA]; exact List.mem_append_right _ hxX
        simpa [conjSeq] using this
      refine ⟨?_, (hE.len_pos x hxl).1, (hE.len_pos x hxl).2⟩
      intro hxB
      rw [h.conj_b] at hxB
      exact (List.nodup_append.1 hndcA).2.2 (List.mem_append_right _ hxB) hxX)
  simp only [List.length_nil, zero_add, conjSeq_length] at hbwd
  have es1 : (st.path a).Size - (X.length + j) - 1 = Y.length + ((st.path b).data.length - 1 - j) := by
    omega
  have es2 : (st.path b).Size - j - 1 = (st.path b).data.length - 1 - j := by omega
  rw [← es1, ← es2] at hbwd
  rw [CompareAndCutFromPos_eval g st a (X.length + j) b j true f3 f4 _ _ _ _ (by omega) hj
    h.size_conj_a h.size_conj_b h.size_a h.size_b hfwd hbwd (by omega) (by omega)]
  have ef2 : (st.path b).Size - ((st.path b).data.length - 1) - 1 = 0 := by omega
  rw [ef2, CutOverlaps_row2 g st a _ _ b _ f3 f4 (by omega) (by omega) h.size_a (by omega)
    h.size_b (h.no_flags b (by tauto)).2.1 (h.no_flags b (by tauto)).2.2]
  rfl

/-- `CompareAndCut` on a contiguous sub-run `b` and the path `a` that contains it, `b`
first: the first subpath row clears `b`. -/
theorem CompareAndCut_subrun_small_big (g : Graph) (st : State) (a b : Nat) (e : EdgeId)
    (X Y : List EdgeId) (f3 f4 : Bool) (h : TwinPaths g st a b)
    (hA : (st.path a).data = X ++ (st.path b).data ++ Y)
    (hE : DistinctEdges g (st.path a).data) (he : e ∈ (st.path b).data) :
    CompareAndCut g st e b a 0 true f3 f4 = some (Clear st b) := by
  obtain ⟨j, hj, hje⟩ := exists_getD_of_mem he
  have hndA : (st.path a).data.Nodup := hE.nodup_left
  have hndB : (st.path b).data.Nodup := by
    have := hndA; rw [hA] at this
    exact (List.nodup_append.1 (List.nodup_append.1 this).1).2.1
  have hsA : (st.path a).Size = X.length + (st.path b).data.length + Y.length := by
    unfold BidirectionalPath.Size; rw [hA]; simp; omega
  have hsB : (st.path b).Size = (st.path b).data.length := rfl
  have hAi : (st.path a).At (X.length + j) = e := by
    unfold BidirectionalPath.At; rw [hA, getD_append_mid _ _ _ _ hj]; exact hje
  rw [CompareAndCut_single g st e b a j (X.length + j) 0 true f3 f4
    (FindAll_of_nodup _ e _ hndB hj hje)
    (FindAll_of_nodup _ e _ hndA (by omega) hAi)]
  have hfwd := ComparePaths_common_segment g (st.path b) (st.path a) [] (st.path b).data [] X Y
    j 0 (by simp) hA hndA (h.gaps_zero b (by tauto)) (h.gaps_zero a (by tauto)) hj h.size_b
    (by intro x hx; simp at hx)
  simp only [List.length_nil, zero_add] at hfwd
  have hcA : (st.path (st.GetConjPath a)).data
      = conjSeq g Y ++ conjSeq g (st.path b).data ++ conjSeq g X := by
    rw [h.conj_a, hA, conjSeq_append, conjSeq_append, List.append_assoc]
  have hbwd := ComparePaths_common_segment g (st.path (st.GetConjPath b))
    (st.path (st.GetConjPath a)) [] (conjSeq g (st.path b).data) [] (conjSeq g Y) (conjSeq g X)
    ((st.path b).data.length - 1 - j) 0 (by rw [h.conj_b]; simp) hcA
    (by rw [h.conj_a]; exact hE.nodup_conjSeq)
    (h.gaps_zero _ (by tauto)) (h.gaps_zero _ (by tauto))
    (by rw [conjSeq_length]; omega) (by rw [h.size_conj_b]; exact h.size_b)
    (by intro x hx; simp at hx)
  simp only [List.length_nil, zero_add, conjSeq_length] at hbwd
  have es1 : (st.path a).Size - (X.length + j) - 1 = Y.length + ((st.path b).data.length - 1 - j) := by
    omega
  have es2 : (st.path b).Size - j - 1 = (st.path b).data.length - 1 - j := by omega
  rw [← es1, ← es2] at hbwd
  rw [CompareAndCutFromPos_eval g st b j a (X.length + j) true f3 f4 _ _ _ _ hj (by omega)
    h.size_conj_b h.size_conj_a h.size_b h.size_a hfwd hbwd (by omega) (by omega)]
  have ef2 : (st.path b).Size - ((st.path b).data.length - 1) - 1 = 0 := by omega
  rw [ef2, CutOverlaps_row1 g st b _ a _ _ _ f3 f4 (by omega) h.size_b
    (h.no_flags b (by tauto)).2.1 (h.no_flags b (by tauto)).2.2]
  rfl

@[simp] theorem Clear_heap_length (st : State) (p : Nat) :
    (Clear st p).heap.length = st.heap.length := by
  simp [Clear]

@[simp] theorem Clear_coverage_map (st : State) (p : Nat) :
    (Clear st p).coverage_map = st.coverage_map := rfl

theorem toSizeT_toInt32_zero : toSizeT (toInt32 0) = 0 := by decide

theorem mem_GetSortedEdges (g : Graph) (x : EdgeId) :
    x ∈ GetSortedEdges g ↔ ∃ e ∈ g.edges, x = e ∨ x = g.conjugate e := by
  unfold GetSortedEdges
  rw [(List.perm_insertionSort _ _).mem_iff, List.mem_dedup, List.mem_flatMap]
  simp

/-- The covering paths of an edge when exactly the four paths of two pairs are
subscribed. -/
theorem mem_cover_two_pairs (g : Graph) (st s : State) (p1 p2 : Nat) (e : EdgeId) (x : Nat)
    (h : TwinPaths g st p1 p2)
    (hcm : ∀ r, r ∈ st.coverage_map ↔
      r = p1 ∨ r = p2 ∨ r = st.GetConjPath p1 ∨ r = st.GetConjPath p2)
    (hlen : s.heap.length = st.heap.length) (hscm : s.coverage_map = st.coverage_map) :
    x ∈ GetCoveringPaths s e ↔
      (x = p1 ∨ x = p2 ∨ x = st.GetConjPath p1 ∨ x = st.GetConjPath p2)
        ∧ e ∈ (s.path x).data := by
  obtain ⟨f1, f2, f3, f4, -⟩ := h.pairs.facts
  rw [mem_GetCoveringPaths, hlen, hscm, hcm]
  constructor
  · rintro ⟨_, h1, h2⟩; exact ⟨h1, h2⟩
  · rintro ⟨h1, h2⟩
    refine ⟨?_, h1, h2⟩
    unfold State.GetConjPath at h1
    rcases h1 with rfl | rfl | rfl | rfl <;> assumption

/-! ## Subpath deletion end to end -/

/-- Exactly the four paths of the two pairs are subscribed. -/
theorem cover_four_conj {st : State} {p1 p2 : Nat}
    (hp : DistinctPairs st p1 p2)
    (hcm : ∀ r, r ∈ st.coverage_map ↔
      r = p1 ∨ r = p2 ∨ r = st.GetConjPath p1 ∨ r = st.GetConjPath p2) :
    ∀ r, r ∈ st.coverage_map ↔
      r = st.GetConjPath p1 ∨ r = st.GetConjPath p2
        ∨ r = st.GetConjPath (st.GetConjPath p1) ∨ r = st.GetConjPath (st.GetConjPath p2) := by
  obtain ⟨f1, f2, f3, f4, f5, f6, -⟩ := hp.facts
  intro r
  have e5 : st.GetConjPath (st.GetConjPath p1) = p1 := f5
  have e6 : st.GetConjPath (st.GetConjPath p2) = p2 := f6
  rw [hcm, e5, e6]
  constructor
  · rintro (h | h | h | h)
    · exact Or.inr (Or.inr (Or.inl h))
    · exact Or.inr (Or.inr (Or.inr h))
    · exact Or.inl h
    · exact Or.inr (Or.inl h)
  · rintro (h | h | h | h)
    · exact Or.inr (Or.inr (Or.inl h))
    · exact Or.inr (Or.inr (Or.inr h))
    · exact Or.inl h
    · exact Or.inr (Or.inl h)

theorem SubpathDone.cover {g : Graph} {st s : State} {p1 p2 : Nat} (h : TwinPaths g st p1 p2)
    (hcm : ∀ r, r ∈ st.coverage_map ↔
      r = p1 ∨ r = p2 ∨ r = st.GetConjPath p1 ∨ r = st.GetConjPath p2)
    (hF : SubpathDone st p1 p2 s) (e : EdgeId) (x : Nat) (hx : x ∈ GetCoveringPaths s e) :
    (x = p1 ∧ e ∈ (st.path p1).data)
      ∨ (x = st.GetConjPath p1 ∧ e ∈ conjSeq g (st.path p1).data) := by
  obtain ⟨hl, hc, hp2, hq2, hp1, hq1⟩ := hF
  rw [mem_cover_two_pairs g st s p1 p2 e x h hcm hl hc] at hx
  obtain ⟨hx1, hx2⟩ := hx
  rcases hx1 with rfl | rfl | rfl | rfl
  · left; rw [hp1] at hx2; exact ⟨rfl, hx2⟩
  · rw [hp2] at hx2; exact absurd hx2 (List.not_mem_nil _)
  · right; rw [hq1, h.conj_a] at hx2; exact ⟨rfl, hx2⟩
  · rw [hq2] at hx2; exact absurd hx2 (List.not_mem_nil _)

theorem SubpathDone.single {g : Graph} {st s : State} {p1 p2 : Nat} (h : TwinPaths g st p1 p2)
    (hcm : ∀ r, r ∈ st.coverage_map ↔
      r = p1 ∨ r = p2 ∨ r = st.GetConjPath p1 ∨ r = st.GetConjPath p2)
    (hE : DistinctEdges g (st.path p1).data)
    (hF : SubpathDone st p1 p2 s) (e : EdgeId) (x y : Nat)
    (hx : x ∈ GetCoveringPaths s e) (hy : y ∈ GetCoveringPaths s e) : x = y := by
  rcases hF.cover h hcm e x hx with ⟨rfl, h1⟩ | ⟨rfl, h1⟩ <;>
    rcases hF.cover h hcm e y hy with ⟨rfl, h2⟩ | ⟨rfl, h2⟩
  · rfl
  · exact absurd h2 (hE.not_mem_conjSeq h1)
  · exact absurd h1 (hE.not_mem_conjSeq h2)
  · rfl

theorem SubpathDone_Clear {st : State} {p1 p2 : Nat} (hp : DistinctPairs st p1 p2) :
    SubpathDone st p1 p2 (Clear st p2) := by
  obtain ⟨f1, f2, f3, f4, f5, f6, f7, f8, f9, f10, f11, f12⟩ := hp.facts
  unfold SubpathDone State.GetConjPath
  refine ⟨by simp, by simp, ?_, ?_, ?_, ?_⟩
  · rw [Clear_path st p2 _ f2 f4, if_pos (Or.inl rfl)]
  · rw [Clear_path st p2 _ f2 f4, if_pos (Or.inr rfl)]
  · rw [Clear_path st p2 _ f2 f4, if_neg (by
      intro hc; rcases hc with hc | hc
      · exact f9 hc
      · exact f10 hc)]
  · rw [Clear_path st p2 _ f2 f4, if_neg (by
      intro hc; rcases hc with hc | hc
      · exact f11 hc
      · exact f12 hc)]

theorem SubpathDone_Clear_conj {st : State} {p1 p2 : Nat} (hp : DistinctPairs st p1 p2) :
    SubpathDone st p1 p2 (Clear st (st.GetConjPath p2)) := by
  obtain ⟨f1, f2, f3, f4, f5, f6, f7, f8, f9, f10, f11, f12⟩ := hp.facts
  unfold SubpathDone State.GetConjPath
  have hv : (st.path (st.path p2).conj).conj < st.heap.length := by rw [f6]; exact f2
  refine ⟨by simp, by simp, ?_, ?_, ?_, ?_⟩
  · rw [Clear_path st _ _ f4 hv, f6, if_pos (Or.inr rfl)]
  · rw [Clear_path st _ _ f4 hv, if_pos (Or.inl rfl)]
  · rw [Clear_path st _ _ f4 hv, f6, if_neg (by
      intro hc; rcases hc with hc | hc
      · exact f10 hc
      · exact f9 hc)]
  · rw [Clear_path st _ _ f4 hv, f6, if_neg (by
      intro hc; rcases hc with hc | hc
      · exact f12 hc
      · exact f11 hc)]

/-- The conjugate pair is done when the pair is. -/
theorem SubpathDone.of_conj {st s : State} {p1 p2 : Nat} (hp : DistinctPairs st p1 p2)
    (h : SubpathDone st (st.GetConjPath p1) (st.GetConjPath p2) s) : SubpathDone st p1 p2 s := by
  obtain ⟨f1, f2, f3, f4, f5, f6, -⟩ := hp.facts
  have e5 : st.GetConjPath (st.GetConjPath p1) = p1 := f5
  have e6 : st.GetConjPath (st.GetConjPath p2) = p2 := f6
  unfold SubpathDone at h ⊢
  rw [e5, e6] at h
  obtain ⟨h1, h2, h3, h4, h5, h6⟩ := h
  exact ⟨h1, h2, h4, h3, h6, h5⟩

/-- Visiting an edge of the contained path `p2` clears `p2`. -/
theorem RemoveSimilarAtEdge_subrun (g : Graph) (st : State) (p1 p2 : Nat) (X Y : List EdgeId)
    (e : EdgeId) (h : TwinPaths g st p1 p2)
    (hcm : ∀ r, r ∈ st.coverage_map ↔
      r = p1 ∨ r = p2 ∨ r = st.GetConjPath p1 ∨ r = st.GetConjPath p2)
    (hA : (st.path p1).data = X ++ (st.path p2).data ++ Y) (hproper : X ≠ [] ∨ Y ≠ [])
    (hE : DistinctEdges g (st.path p1).data) (he : e ∈ (st.path p2).data) :
    RemoveSimilarAtEdge g 0 false true false false st e = some (Clear st p2) := by
  obtain ⟨f1, f2, f3, f4, f5, f6, f7, f8, f9, f10, f11, f12⟩ := h.pairs.facts
  have heA : e ∈ (st.path p1).data := by
    rw [hA]; exact List.mem_append_left _ (List.mem_append_right _ he)
  have hnc : e ∉ conjSeq g (st.path p1).data := hE.not_mem_conjSeq heA
  have hnc2 : e ∉ conjSeq g (st.path p2).data := by
    intro hc
    obtain ⟨x, hx, hxe⟩ := (mem_conjSeq _ _ _).1 hc
    apply hnc
    exact (mem_conjSeq _ _ _).2 ⟨x, by
      rw [hA]; exact List.mem_append_left _ (List.mem_append_right _ hx), hxe⟩
  have hneAB : (st.path p1).data ≠ (st.path p2).data := by
    intro hc
    have := congrArg List.length hc
    rw [hA] at this
    simp at this
    rcases hproper with hx | hy
    · have := List.length_pos.2 hx; omega
    · have := List.length_pos.2 hy; omega
  have hdone := SubpathDone_Clear h.pairs
  apply RemoveSimilarAtEdge_pair g e 0 false true false false p1 p2 st (Clear st p2) f9
  · intro x hx
    obtain ⟨hx1, hx2⟩ := (mem_cover_two_pairs g st st p1 p2 e x h hcm rfl rfl).1 hx
    rcases hx1 with rfl | rfl | rfl | rfl
    · exact Or.inl rfl
    · exact Or.inr rfl
    · rw [h.conj_a] at hx2; exact absurd hx2 hnc
    · rw [h.conj_b] at hx2; exact absurd hx2 hnc2
  · exact (mem_cover_two_pairs g st st p1 p2 e p1 h hcm rfl rfl).2 ⟨Or.inl rfl, heA⟩
  · exact (mem_cover_two_pairs g st st p1 p2 e p2 h hcm rfl rfl).2 ⟨Or.inr (Or.inl rfl), he⟩
  · simp [BidirectionalPath.Equal, hneAB]
  · simp [BidirectionalPath.Equal, Ne.symm hneAB]
  · intro hc
    rcases hc with hc | hc | hc | hc
    · have := (hE.len_pos e (List.mem_append_left _ heA)).1; omega
    · rw [BidirectionalPath.IsOverlap, (h.no_flags p1 (Or.inl rfl)).1] at hc
      exact Bool.false_ne_true hc
    · rw [BidirectionalPath.IsOverlap, (h.no_flags p2 (Or.inr (Or.inl rfl))).1] at hc
      exact Bool.false_ne_true hc
    · exact Bool.false_ne_true hc
  · rw [toSizeT_toInt32_zero]
    exact CompareAndCut_subrun_big_small g st p1 p2 e X Y false false h hA hproper hE he
  · rw [toSizeT_toInt32_zero]
    exact CompareAndCut_subrun_small_big g st p1 p2 e X Y false false h hA hE he
  · intro x hx
    rcases hdone.cover h hcm e x hx with ⟨rfl, _⟩ | ⟨rfl, h1⟩
    · exact Or.inl rfl
    · exact absurd h1 hnc
  · exact hdone.single h hcm hE e

/-- An edge that is neither in the contained path nor in its conjugate is covered by at
most one path. -/
theorem cover_single_outside (g : Graph) (st : State) (p1 p2 : Nat)
    (e : EdgeId) (h : TwinPaths g st p1 p2)
    (hcm : ∀ r, r ∈ st.coverage_map ↔
      r = p1 ∨ r = p2 ∨ r = st.GetConjPath p1 ∨ r = st.GetConjPath p2)
    (hE : DistinctEdges g (st.path p1).data)
    (heB : e ∉ (st.path p2).data) (heQ : e ∉ conjSeq g (st.path p2).data) :
    ∀ x y, x ∈ GetCoveringPaths st e → y ∈ GetCoveringPaths st e → x = y := by
  intro x y hx hy
  obtain ⟨hx1, hx2⟩ := (mem_cover_two_pairs g st st p1 p2 e x h hcm rfl rfl).1 hx
  obtain ⟨hy1, hy2⟩ := (mem_cover_two_pairs g st st p1 p2 e y h hcm rfl rfl).1 hy
  rcases hx1 with rfl | rfl | rfl | rfl
  · rcases hy1 with rfl | rfl | rfl | rfl
    · rfl
    · exact absurd hy2 heB
    · rw [h.conj_a] at hy2; exact absurd hy2 (hE.not_mem_conjSeq hx2)
    · rw [h.conj_b] at hy2; exact absurd hy2 heQ
  · exact absurd hx2 heB
  · rcases hy1 with rfl | rfl | rfl | rfl
    · rw [h.conj_a] at hx2; exact absurd hx2 (hE.not_mem_conjSeq hy2)
    · exact absurd hy2 heB
    · rfl
    · rw [h.conj_b] at hy2; exact absurd hy2 heQ
  · rw [h.conj_b] at hx2; exact absurd hx2 heQ

/-- One edge of the pass on a container with a path and a contiguous proper sub-run. -/
theorem RemoveSimilarAtEdge_subrun_step (g : Graph) (st : State) (p1 p2 : Nat)
    (X Y : List EdgeId) (e : EdgeId) (h : TwinPaths g st p1 p2)
    (hcm : ∀ r, r ∈ st.coverage_map ↔
      r = p1 ∨ r = p2 ∨ r = st.GetConjPath p1 ∨ r = st.GetConjPath p2)
    (hA : (st.path p1).data = X ++ (st.path p2).data ++ Y) (hproper : X ≠ [] ∨ Y ≠ [])
    (hE : DistinctEdges g (st.path p1).data) :
    ∃ s', RemoveSimilarAtEdge g 0 false true false false st e = some s'
      ∧ (s' = st ∨ SubpathDone st p1 p2 s') := by
  have hBA : ∀ x, x ∈ (st.path p2).data → x ∈ (st.path p1).data := by
    intro x hx; rw [hA]; exact List.mem_append_left _ (List.mem_append_right _ hx)
  by_cases heB : e ∈ (st.path p2).data
  · exact ⟨_, RemoveSimilarAtEdge_subrun g st p1 p2 X Y e h hcm hA hproper hE heB,
      Or.inr (SubpathDone_Clear h.pairs)⟩
  · by_cases heQ : e ∈ conjSeq g (st.path p2).data
    · have hTc := h.conjugates hE.invol (fun x hx => hE.invol x (hBA x hx))
      have hAc : (st.path (st.GetConjPath p1)).data
          = conjSeq g Y ++ (st.path (st.GetConjPath p2)).data ++ conjSeq g X := by
        rw [h.conj_a, h.conj_b, hA, conjSeq_append, conjSeq_append, List.append_assoc]
      have hEc : DistinctEdges g (st.path (st.GetConjPath p1)).data := by
        rw [h.conj_a]; exact hE.conjugate_seq
      have hproperc : conjSeq g Y ≠ [] ∨ conjSeq g X ≠ [] := by
        rcases hproper with hx | hy
        · right; intro hc; apply hx
          have := congrArg List.length hc; rw [conjSeq_length] at this
          exact List.length_eq_zero.1 this
        · left; intro hc; apply hy
          have := congrArg List.length hc; rw [conjSeq_length] at this
          exact List.length_eq_zero.1 this
      exact ⟨_, RemoveSimilarAtEdge_subrun g st _ _ _ _ e hTc (cover_four_conj h.pairs hcm)
        hAc hproperc hEc (by rw [h.conj_b]; exact heQ),
        Or.inr (SubpathDone_Clear_conj h.pairs)⟩
    · exact ⟨st, RemoveSimilarAtEdge_skip g 0 false true false false st e
        (cover_single_outside g st p1 p2 e h hcm hE heB heQ), Or.inl rfl⟩

/-- C2. Subpath deletion end to end.  The container holds, with their conjugates, only
the paths `p1` and `p2` (all four subscribed, zero gaps, no flags); the edge sequence of
`p2` is a contiguous proper sub-run of that of `p1` (`p1 = X ++ p2 ++ Y` with `X` or `Y`
non-empty); the edges of `p1` and their conjugates are pairwise distinct, of positive
length, and the edges of `p2` are edges of the graph.  Then
`RemoveSimilarPaths(0, false, true, false, false)` returns with `p2` of size 0 and `p1`
unchanged.  The path ids are arbitrary, so this holds whichever path has the smaller id. -/
theorem RemoveSimilarPaths_subpath_deletion (g : Graph) (st : State) (p1 p2 : Nat)
    (X Y : List EdgeId)
    (h : TwinPaths g st p1 p2)
    (hcm : ∀ r, r ∈ st.coverage_map ↔
      r = p1 ∨ r = p2 ∨ r = st.GetConjPath p1 ∨ r = st.GetConjPath p2)
    (hA : (st.path p1).data = X ++ (st.path p2).data ++ Y) (hproper : X ≠ [] ∨ Y ≠ [])
    (hE : DistinctEdges g (st.path p1).data)
    (hgraph : ∀ e ∈ (st.path p2).data, e ∈ g.edges ∨ g.conjugate e ∈ g.edges) :
    ∃ st', RemoveSimilarPaths g st 0 false true false false = some st'
      ∧ (st'.path p2).Size = 0 ∧ (st'.path p1).data = (st.path p1).data
      ∧ st'.path p1 = st.path p1 := by
  have hBA : ∀ x, x ∈ (st.path p2).data → x ∈ (st.path p1).data := by
    intro x hx; rw [hA]; exact List.mem_append_left _ (List.mem_append_right _ hx)
  have hreach := RemoveSimilarEdges_reach g 0 false true false false (fun s => s = st)
    (SubpathDone st p1 p2)
    (fun s e hF => ⟨s, RemoveSimilarAtEdge_skip g 0 false true false false s e
      (hF.single h hcm hE e), hF⟩)
    (fun s e hs => by
      subst hs
      exact RemoveSimilarAtEdge_subrun_step g s p1 p2 X Y e h hcm hA hproper hE)
    (GetSortedEdges g) st
  unfold RemoveSimilarPaths
  by_cases hB : (st.path p2).data = []
  · obtain ⟨s', h1, h2⟩ := hreach.2.1 rfl
    refine ⟨s', h1, ?_⟩
    rcases h2 with h2 | h2
    · subst h2
      exact ⟨by unfold BidirectionalPath.Size; rw [hB]; rfl, rfl, rfl⟩
    · obtain ⟨_, _, hp2, _, hp1, _⟩ := h2
      exact ⟨by unfold BidirectionalPath.Size; rw [hp2]; rfl, by rw [hp1], hp1⟩
  · obtain ⟨e0, he0⟩ := List.exists_mem_of_ne_nil _ hB
    have hmem : e0 ∈ GetSortedEdges g := by
      rw [mem_GetSortedEdges]
      rcases hgraph e0 he0 with hg | hg
      · exact ⟨e0, hg, Or.inl rfl⟩
      · exact ⟨g.conjugate e0, hg, Or.inr (hE.invol e0 (hBA e0 he0)).symm⟩
    obtain ⟨s', h1, h2⟩ := hreach.2.2 rfl e0 hmem (fun s0 hs0 => by
      subst hs0
      exact ⟨_, RemoveSimilarAtEdge_subrun g s0 p1 p2 X Y e0 h hcm hA hproper hE he0,
        SubpathDone_Clear h.pairs⟩)
    obtain ⟨_, _, hp2, _, hp1, _⟩ := h2
    exact ⟨s', h1, by unfold BidirectionalPath.Size; rw [hp2]; rfl, by rw [hp1], hp1⟩

/-- The container with the paths `(1, 3, 5, 7, 9)` and `(3, 5, 7)` is well formed. -/
theorem exState_subpath_twins : TwinPaths (exGraph 5) (exState [1, 3, 5, 7, 9] [3, 5, 7]) 0 2 :=
  ⟨by decide, by decide, by decide,
    fun r hr => by rcases hr with rfl | rfl | rfl | rfl <;> decide,
    fun r hr => by rcases hr with rfl | rfl | rfl | rfl <;> decide,
    by decide, by decide⟩

/-- Witness of C2: the paths `(1, 3, 5, 7, 9)` and `(3, 5, 7)`. -/
theorem RemoveSimilarPaths_subpath_deletion_witness :
    ∃ st', RemoveSimilarPaths (exGraph 5) (exState [1, 3, 5, 7, 9] [3, 5, 7]) 0
        false true false false = some st'
      ∧ (st'.path 2).Size = 0 ∧ (st'.path 0).data = [1, 3, 5, 7, 9] := by
  obtain ⟨st', h1, h2, h3, _⟩ := RemoveSimilarPaths_subpath_deletion (exGraph 5)
    (exState [1, 3, 5, 7, 9] [3, 5, 7]) 0 2 [1] [9] exState_subpath_twins
    (by intro r; simp [exState, State.GetConjPath, State.path, exPath]; omega)
    (by decide) (by decide) ⟨by decide, by decide, by decide⟩ (by decide)
  exact ⟨st', h1, h2, h3⟩

/-! ## Shared-prefix trimming end to end -/

theorem DistinctEdges.perm {g : Graph} {l1 l2 : List EdgeId} (hp : l1.Perm l2)
    (h : DistinctEdges g l1) : DistinctEdges g l2 := by
  refine ⟨?_, ?_, ?_⟩
  · exact (List.Perm.append hp (hp.map g.conjugate)).nodup_iff.1 h.nodup
  · intro e he; exact h.invol e (hp.mem_iff.2 he)
  · intro e he
    exact h.len_pos e ((List.Perm.append hp (hp.map g.conjugate)).mem_iff.2 he)

theorem DistinctEdges.sublist {g : Graph} {l1 l2 : List EdgeId} (hs : l2.Sublist l1)
    (h : DistinctEdges g l1) : DistinctEdges g l2 := by
  refine ⟨?_, ?_, ?_⟩
  · exact List.Nodup.sublist (List.Sublist.append hs (hs.map g.conjugate)) h.nodup
  · intro e he; exact h.invol e (hs.subset he)
  · intro e he
    exact h.len_pos e ((List.Sublist.append hs (hs.map g.conjugate)).subset he)

/-- With zero gaps the length of a path is the sum of the lengths of its edges. -/
theorem Length_eq_sum (g : Graph) (p : BidirectionalPath) (hg : ∀ x ∈ p.gaps, x = 0) :
    Length g p = toSizeT (((p.data.map g.length).sum : Nat) : Int) := by
  unfold Length LengthAt lengthAtZ
  have : (p.gaps.drop 0).sum = 0 := by
    rw [List.drop_zero]
    apply List.sum_eq_zero
    exact hg
  rw [this, List.drop_zero, add_zero]

/-- A path and its conjugate have the same length when conjugation preserves the length
of the edges. -/
theorem Length_conj (g : Graph) (p q : BidirectionalPath)
    (hq : q.data = conjSeq g p.data) (hgp : ∀ x ∈ p.gaps, x = 0) (hgq : ∀ x ∈ q.gaps, x = 0)
    (hlen : ∀ e ∈ p.data, g.length (g.conjugate e) = g.length e) :
    Length g q = Length g p := by
  rw [Length_eq_sum g p hgp, Length_eq_sum g q hgq, hq]
  unfold conjSeq
  rw [List.map_reverse, List.sum_reverse, List.map_map]
  congr 3
  apply List.map_congr_left
  intro e he
  exact hlen e he

/-- The `del_begins` row for spans touching the start, `path1` strictly shorter. -/
theorem CutOverlaps_begins_first (g : Graph) (st : State) (p1 l1 s1 p2 l2 s2 : Nat) (da : Bool)
    (hl : l1 + 1 < SIZE_T_MOD)
    (hlt : Length g (st.path p1) < Length g (st.path p2))
    (hb : (st.path p1).has_overlaped_begin = false) :
    CutOverlaps g st p1 0 l1 s1 p2 0 l2 s2 false true da
      = (PopBack st (st.GetConjPath p1) (l1 + 1)).map (fun s => (true, s)) := by
  unfold CutOverlaps
  simp only [BidirectionalPath.HasOverlapedBegin, BidirectionalPath.HasOverlapedEnd]
  rw [if_neg (by simp), if_neg (by simp), if_pos ⟨trivial, trivial, trivial⟩, if_pos ⟨hlt, hb⟩,
    toSizeT_succ _ hl]

/-- The `del_begins` row for spans touching the start, `path1` not shorter. -/
theorem CutOverlaps_begins_second (g : Graph) (st : State) (p1 l1 s1 p2 l2 s2 : Nat) (da : Bool)
    (hl : l2 + 1 < SIZE_T_MOD)
    (hlt : ¬ Length g (st.path p1) < Length g (st.path p2))
    (hb : (st.path p2).has_overlaped_begin = false) :
    CutOverlaps g st p1 0 l1 s1 p2 0 l2 s2 false true da
      = (PopBack st (st.GetConjPath p2) (l2 + 1)).map (fun s => (true, s)) := by
  unfold CutOverlaps
  simp only [BidirectionalPath.HasOverlapedBegin, BidirectionalPath.HasOverlapedEnd]
  rw [if_neg (by simp), if_neg (by simp), if_pos ⟨trivial, trivial, trivial⟩, if_neg (fun h => hlt h.1),
    if_pos hb, toSizeT_succ _ hl]

/-- The `del_begins` row for spans touching the end, `path1` strictly shorter. -/
theorem CutOverlaps_ends_first (g : Graph) (st : State) (p1 f1 p2 f2 : Nat) (da : Bool)
    (hs1 : 0 < (st.path p1).Size) (hs2 : 0 < (st.path p2).Size)
    (hsz1 : (st.path p1).Size < SIZE_T_MOD) (hsz2 : (st.path p2).Size < SIZE_T_MOD)
    (hf : ¬ (f2 = 0 ∧ f1 = 0)) (hf1 : f1 < (st.path p1).Size)
    (hlt : Length g (st.path p1) < Length g (st.path p2))
    (hb : (st.path p1).has_overlaped_end = false) :
    CutOverlaps g st p1 f1 ((st.path p1).Size - 1) (st.path p1).Size
        p2 f2 ((st.path p2).Size - 1) (st.path p2).Size false true da
      = (PopBack st p1 ((st.path p1).Size - f1)).map (fun s => (true, s)) := by
  have e1 : toSizeT (((st.path p1).Size : Int) - 1) = (st.path p1).Size - 1 :=
    toSizeT_pred _ hs1 hsz1
  have e2 : toSizeT (((st.path p2).Size : Int) - 1) = (st.path p2).Size - 1 :=
    toSizeT_pred _ hs2 hsz2
  have e3 : toSizeT ((((st.path p1).Size - 1 : Nat) : Int) + 1 - (f1 : Int))
      = (st.path p1).Size - f1 := by
    have := toSizeT_span ((st.path p1).Size - 1) f1 (by omega) (by unfold SIZE_T_MOD at hsz1; omega)
    rw [this]; omega
  unfold CutOverlaps
  simp only [BidirectionalPath.HasOverlapedBegin, BidirectionalPath.HasOverlapedEnd, e1, e2]
  rw [if_neg (by simp), if_neg (by simp), if_neg (fun h => hf ⟨h.1, h.2.1⟩),
    if_pos ⟨⟨trivial, trivial⟩, trivial⟩, if_pos ⟨hlt, hb⟩, e3]

/-- The `del_begins` row for spans touching the end, `path1` not shorter. -/
theorem CutOverlaps_ends_second (g : Graph) (st : State) (p1 f1 p2 f2 : Nat) (da : Bool)
    (hs1 : 0 < (st.path p1).Size) (hs2 : 0 < (st.path p2).Size)
    (hsz1 : (st.path p1).Size < SIZE_T_MOD) (hsz2 : (st.path p2).Size < SIZE_T_MOD)
    (hf : ¬ (f2 = 0 ∧ f1 = 0)) (hf2 : f2 < (st.path p2).Size)
    (hlt : ¬ Length g (st.path p1) < Length g (st.path p2))
    (hb : (st.path p2).has_overlaped_end = false) :
    CutOverlaps g st p1 f1 ((st.path p1).Size - 1) (st.path p1).Size
        p2 f2 ((st.path p2).Size - 1) (st.path p2).Size false true da
      = (PopBack st p2 ((st.path p2).Size - f2)).map (fun s => (true, s)) := by
  have e1 : toSizeT (((st.path p1).Size : Int) - 1) = (st.path p1).Size - 1 :=
    toSizeT_pred _ hs1 hsz1
  have e2 : toSizeT (((st.path p2).Size : Int) - 1) = (st.path p2).Size - 1 :=
    toSizeT_pred _ hs2 hsz2
  have e3 : toSizeT ((((st.path p2).Size - 1 : Nat) : Int) + 1 - (f2 : Int))
      = (st.path p2).Size - f2 := by
    have := toSizeT_span ((st.path p2).Size - 1) f2 (by omega) (by unfold SIZE_T_MOD at hsz2; omega)
    rw [this]; omega
  unfold CutOverlaps
  simp only [BidirectionalPath.HasOverlapedBegin, BidirectionalPath.HasOverlapedEnd, e1, e2]
  rw [if_neg (by simp), if_neg (by simp), if_neg (fun h => hf ⟨h.1, h.2.1⟩),
    if_pos ⟨⟨trivial, trivial⟩, trivial⟩, if_neg (fun h => hlt h.1), if_pos hb, e3]

/-- `CompareAndCut` on two paths with the common prefix `C` and otherwise distinct edges:
both matched spans are the prefix. -/
theorem CompareAndCut_prefix_spans (g : Graph) (st : State) (a b : Nat) (e : EdgeId)
    (C X Y : List EdgeId) (f2 f3 f4 : Bool) (h : TwinPaths g st a b)
    (hA : (st.path a).data = C ++ X) (hB : (st.path b).data = C ++ Y)
    (hE : DistinctEdges g (C ++ X ++ Y)) (he : e ∈ C) :
    CompareAndCut g st e a b 0 f2 f3 f4
      = (CutOverlaps g st a 0 (C.length - 1) (st.path a).Size b 0 (C.length - 1)
          (st.path b).Size f2 f3 f4).map (fun r => r.2) := by
  obtain ⟨j, hj, hje⟩ := exists_getD_of_mem he
  have hEA : DistinctEdges g (C ++ X) := hE.sublist (List.sublist_append_left _ _)
  have hEB : DistinctEdges g (C ++ Y) :=
    hE.sublist (by
      rw [List.append_assoc]
      exact List.Sublist.append_left (List.sublist_append_right X Y) C)
  have hndA : (st.path a).data.Nodup := by rw [hA]; exact hEA.nodup_left
  have hndB : (st.path b).data.Nodup := by rw [hB]; exact hEB.nodup_left
  have hsA : (st.path a).Size = C.length + X.length := by
    unfold BidirectionalPath.Size; rw [hA]; simp
  have hsB : (st.path b).Size = C.length + Y.length := by
    unfold BidirectionalPath.Size; rw [hB]; simp
  have hAj : (st.path a).At j = e := by
    unfold BidirectionalPath.At
    rw [hA, List.getD_eq_getElem?_getD, List.getElem?_append_left hj, ← List.getD_eq_getElem?_getD]
    exact hje
  have hBj : (st.path b).At j = e := by
    unfold BidirectionalPath.At
    rw [hB, List.getD_eq_getElem?_getD, List.getElem?_append_left hj, ← List.getD_eq_getElem?_getD]
    exact hje
  rw [CompareAndCut_single g st e a b j j 0 f2 f3 f4
    (FindAll_of_nodup _ e _ hndA (by omega) hAj)
    (FindAll_of_nodup _ e _ hndB (by omega) hBj)]
  have hfwd := ComparePaths_common_segment g (st.path a) (st.path b) [] C X [] Y
    j 0 (by rw [hA]; simp) (by rw [hB]; simp) hndB (h.gaps_zero a (by tauto))
    (h.gaps_zero b (by tauto)) hj h.size_a
    (by
      intro x hx
      have hxX := head_mem hx
      have hxl : x ∈ C ++ X ++ Y := List.mem_append_left _ (List.mem_append_right _ hxX)
      refine ⟨?_, (hE.len_pos x (List.mem_append_left _ hxl)).1,
        (hE.len_pos x (List.mem_append_left _ hxl)).2⟩
      rw [hB]
      intro hc
      have hnd := hE.nodup_left
      rcases List.mem_append.1 hc with hc | hc
      · exact (List.nodup_append.1 (List.nodup_append.1 hnd).1).2.2 hc hxX
      · exact (List.nodup_append.1 hnd).2.2 (List.mem_append_right _ hxX) hc)
  simp only [List.length_nil, zero_add] at hfwd
  have hcA : (st.path (st.GetConjPath a)).data = conjSeq g X ++ conjSeq g C ++ [] := by
    rw [h.conj_a, hA, conjSeq_append, List.append_nil]
  have hcB : (st.path (st.GetConjPath b)).data = conjSeq g Y ++ conjSeq g C ++ [] := by
    rw [h.conj_b, hB, conjSeq_append, List.append_nil]
  have hbwd := ComparePaths_common_segment g (st.path (st.GetConjPath a))
    (st.path (st.GetConjPath b)) (conjSeq g X) (conjSeq g C) [] (conjSeq g Y) []
    (C.length - 1 - j) 0 hcA hcB
    (by rw [h.conj_b, hB]; exact hEB.nodup_conjSeq)
    (h.gaps_zero _ (by tauto)) (h.gaps_zero _ (by tauto))
    (by rw [conjSeq_length]; omega) (by rw [h.size_conj_a]; exact h.size_a)
    (by intro x hx; simp at hx)
  simp only [conjSeq_length] at hbwd
  have es1 : (st.path a).Size - j - 1 = X.length + (C.length - 1 - j) := by omega
  have es2 : (st.path b).Size - j - 1 = Y.length + (C.length - 1 - j) := by omega
  rw [← es1, ← es2] at hbwd
  rw [CompareAndCutFromPos_eval g st a j b j f2 f3 f4 _ _ _ _ (by omega) (by omega)
    h.size_conj_a h.size_conj_b h.size_a h.size_b hfwd hbwd (by omega) (by omega)]
  have ef1 : (st.path a).Size - (X.length + C.length - 1) - 1 = 0 := by omega
  have ef2 : (st.path b).Size - (Y.length + C.length - 1) - 1 = 0 := by omega
  rw [ef1, ef2]

/-- `CompareAndCut` on two paths with the common suffix `S` and otherwise distinct edges:
both matched spans are the suffix. -/
theorem CompareAndCut_suffix_spans (g : Graph) (st : State) (a b : Nat) (e : EdgeId)
    (S X Y : List EdgeId) (f2 f3 f4 : Bool) (h : TwinPaths g st a b)
    (hA : (st.path a).data = X ++ S) (hB : (st.path b).data = Y ++ S)
    (hE : DistinctEdges g (X ++ Y ++ S)) (he : e ∈ S) :
    CompareAndCut g st e a b 0 f2 f3 f4
      = (CutOverlaps g st a X.length ((st.path a).Size - 1) (st.path a).Size
          b Y.length ((st.path b).Size - 1) (st.path b).Size f2 f3 f4).map (fun r => r.2) := by
  obtain ⟨j, hj, hje⟩ := exists_getD_of_mem he
  have hEA : DistinctEdges g (X ++ S) :=
    hE.sublist (List.Sublist.append_right (List.sublist_append_left _ _) _)
  have hEB : DistinctEdges g (Y ++ S) :=
    hE.sublist (List.Sublist.append_right (List.sublist_append_right _ _) _)
  have hndA : (st.path a).data.Nodup := by rw [hA]; exact hEA.nodup_left
  have hndB : (st.path b).data.Nodup := by rw [hB]; exact hEB.nodup_left
  have hsA : (st.path a).Size = X.length + S.length := by
    unfold BidirectionalPath.Size; rw [hA]; simp
  have hsB : (st.path b).Size = Y.length + S.length := by
    unfold BidirectionalPath.Size; rw [hB]; simp
  have hA' : (st.path a).data = X ++ S ++ [] := by rw [hA, List.append_nil]
  have hB' : (st.path b).data = Y ++ S ++ [] := by rw [hB, List.append_nil]
  have hAj : (st.path a).At (X.length + j) = e := by
    unfold BidirectionalPath.At; rw [hA', getD_append_mid _ _ _ _ hj]; exact hje
  have hBj : (st.path b).At (Y.length + j) = e := by
    unfold BidirectionalPath.At; rw [hB', getD_append_mid _ _ _ _ hj]; exact hje
  rw [CompareAndCut_single g st e a b (X.length + j) (Y.length + j) 0 f2 f3 f4
    (FindAll_of_nodup _ e _ hndA (by omega) hAj)
    (FindAll_of_nodup _ e _ hndB (by omega) hBj)]
  have hfwd := ComparePaths_common_segment g (st.path a) (st.path b) X S [] Y []
    j 0 hA' hB' hndB (h.gaps_zero a (by tauto)) (h.gaps_zero b (by tauto)) hj h.size_a
    (by intro x hx; simp at hx)
  have hcA : (st.path (st.GetConjPath a)).data = [] ++ conjSeq g S ++ conjSeq g X := by
    rw [h.conj_a, hA, conjSeq_append, List.nil_append]
  have hcB : (st.path (st.GetConjPath b)).data = [] ++ conjSeq g S ++ conjSeq g Y := by
    rw [h.conj_b, hB, conjSeq_append, List.nil_append]
  have hndc : (conjSeq g S ++ conjSeq g Y ++ conjSeq g X).Nodup := by
    have := hE.nodup_conjSeq
    rw [conjSeq_append, conjSeq_append, ← List.append_assoc] at this
    exact this
  have hbwd := ComparePaths_common_segment g (st.path (st.GetConjPath a))
    (st.path (st.GetConjPath b)) [] (conjSeq g S) (conjSeq g X) [] (conjSeq g Y)
    (S.length - 1 - j) 0 hcA hcB
    (by rw [h.conj_b, hB]; exact hEB.nodup_conjSeq)
    (h.gaps_zero _ (by tauto)) (h.gaps_zero _ (by tauto))
    (by rw [conjSeq_length]; omega) (by rw [h.size_conj_a]; exact h.size_a)
    (by
      intro x hx
      have hxX := head_mem hx
      have hxl : x ∈ (X ++ Y ++ S) ++ (X ++ Y ++ S).map g.conjugate := by
        apply List.mem_append_right
        obtain ⟨y, hy, hyx⟩ := (mem_conjSeq _ _ _).1 hxX
        exact List.mem_map.2 ⟨y, List.mem_append_left _ (List.mem_append_left _ hy), hyx⟩
      refine ⟨?_, (hE.len_pos x hxl).1, (hE.len_pos x hxl).2⟩
      rw [hcB, List.nil_append]
      intro hc
      exact (List.nodup_append.1 hndc).2.2 hc hxX)
  simp only [List.length_nil, zero_add, conjSeq_length] at hbwd
  have es1 : (st.path a).Size - (X.length + j) - 1 = S.length - 1 - j := by omega
  have es2 : (st.path b).Size - (Y.length + j) - 1 = S.length - 1 - j := by omega
  have hbwd : ComparePaths g ((st.path a).Size - (X.length + j) - 1)
      ((st.path b).Size - (Y.length + j) - 1) (st.path (st.GetConjPath a))
      (st.path (st.GetConjPath b)) 0 = (S.length - 1, S.length - 1) := by
    rw [es1, es2]; exact hbwd
  rw [CompareAndCutFromPos_eval g st a (X.length + j) b (Y.length + j) f2 f3 f4 _ _ _ _
    (by omega) (by omega)
    h.size_conj_a h.size_conj_b h.size_a h.size_b hfwd hbwd (by omega) (by omega)]
  have ef1 : (st.path a).Size - (S.length - 1) - 1 = X.length := by omega
  have ef2 : (st.path b).Size - (S.length - 1) - 1 = Y.length := by omega
  have el1 : X.length + S.length - 1 = (st.path a).Size - 1 := by omega
  have el2 : Y.length + S.length - 1 = (st.path b).Size - 1 := by omega
  rw [ef1, ef2, el1, el2]

/-- Membership facts for two edge sequences `C ++ X` and `C ++ Y` with distinct edges. -/
theorem prefix_edges_facts {g : Graph} {C X Y : List EdgeId} (hE : DistinctEdges g (C ++ X ++ Y)) :
    (∀ e, e ∈ C → e ∉ X) ∧ (∀ e, e ∈ C → e ∉ Y) ∧ (∀ e, e ∈ X → e ∉ Y)
    ∧ (∀ e, e ∈ C ++ X ++ Y → e ∉ conjSeq g (C ++ X ++ Y))
    ∧ (∀ e, e ∈ conjSeq g C → e ∉ conjSeq g X) ∧ (∀ e, e ∈ conjSeq g C → e ∉ conjSeq g Y)
    ∧ (∀ e, e ∈ conjSeq g X → e ∉ conjSeq g Y) := by
  have hnd := hE.nodup_left
  have hndc := hE.nodup_conjSeq
  rw [conjSeq_append, conjSeq_append] at hndc
  have h1 := List.nodup_append.1 hnd
  have h2 := List.nodup_append.1 h1.1
  have c1 := List.nodup_append.1 hndc
  have c2 := List.nodup_append.1 c1.2.1
  refine ⟨fun e h => h2.2.2 h, fun e h hy => h1.2.2 (List.mem_append_left _ h) hy,
    fun e h hy => h1.2.2 (List.mem_append_right _ h) hy, fun e h => hE.not_mem_conjSeq h,
    fun e h hx => c2.2.2 hx h, fun e h hy => c1.2.2 hy (List.mem_append_right _ h),
    fun e h hy => c1.2.2 hy (List.mem_append_left _ h)⟩

theorem mem_conjSeq_sub (g : Graph) {l1 l2 : List EdgeId} (hs : ∀ e, e ∈ l1 → e ∈ l2)
    {e : EdgeId} (h : e ∈ conjSeq g l1) : e ∈ conjSeq g l2 := by
  obtain ⟨x, hx, hxe⟩ := (mem_conjSeq _ _ _).1 h
  exact (mem_conjSeq _ _ _).2 ⟨x, hs x hx, hxe⟩

theorem PrefixDone_popBack {g : Graph} {st : State} {p1 p2 : Nat} (k : Nat)
    (h : TwinPaths g st p1 p2) :
    PrefixDone st p1 p2 k (popBackEdges st (st.GetConjPath p1) k) := by
  obtain ⟨f1, f2, f3, f4, f5, f6, f7, f8, f9, f10, f11, f12⟩ := h.pairs.facts
  unfold PrefixDone State.GetConjPath
  have hv : (st.path (st.path p1).conj).conj < st.heap.length := by rw [f5]; exact f1
  have hne : (st.path (st.path p1).conj).conj ≠ (st.path p1).conj := by
    rw [f5]; exact Ne.symm f7
  refine ⟨by simp, by simp, ?_, ?_, ?_, ?_⟩
  · rw [popBackEdges_path st _ k _ f3 hv hne, if_neg (Ne.symm f7), f5, if_pos rfl]
  · rw [popBackEdges_path st _ k _ f3 hv hne, if_pos rfl]
  · rw [popBackEdges_path st _ k _ f3 hv hne, if_neg (Ne.symm f11), f5, if_neg (Ne.symm f9)]
  · rw [popBackEdges_path st _ k _ f3 hv hne, if_neg (Ne.symm f12), f5, if_neg (Ne.symm f10)]

/-- Where an edge lies when it is covered in a state with the prefix removed. -/
theorem PrefixDone.cover_cases {g : Graph} {st s : State} {p1 p2 : Nat} {C X Y : List EdgeId}
    (h : TwinPaths g st p1 p2)
    (hcm : ∀ r, r ∈ st.coverage_map ↔
      r = p1 ∨ r = p2 ∨ r = st.GetConjPath p1 ∨ r = st.GetConjPath p2)
    (hA : (st.path p1).data = C ++ X) (hB : (st.path p2).data = C ++ Y)
    (hF : PrefixDone st p1 p2 C.length s) (e : EdgeId) (x : Nat)
    (hx : x ∈ GetCoveringPaths s e) :
    (x = p1 ∧ e ∈ X) ∨ (x = p2 ∧ e ∈ C ++ Y)
      ∨ (x = st.GetConjPath p1 ∧ e ∈ conjSeq g X)
      ∨ (x = st.GetConjPath p2 ∧ e ∈ conjSeq g (C ++ Y)) := by
  obtain ⟨hl, hc, hp1, hq1, hp2, hq2⟩ := hF
  rw [mem_cover_two_pairs g st s p1 p2 e x h hcm hl hc] at hx
  obtain ⟨hx1, hx2⟩ := hx
  rcases hx1 with rfl | rfl | rfl | rfl
  · left
    rw [hp1, hA, List.drop_left] at hx2
    exact ⟨rfl, hx2⟩
  · right; left
    rw [hp2, hB] at hx2
    exact ⟨rfl, hx2⟩
  · right; right; left
    rw [hq1, h.conj_a, hA, conjSeq_append] at hx2
    have e1 : (conjSeq g X ++ conjSeq g C).length - C.length = (conjSeq g X).length := by
      simp [conjSeq_length]
    rw [e1, List.take_left] at hx2
    exact ⟨rfl, hx2⟩
  · right; right; right
    rw [hq2, h.conj_b, hB] at hx2
    exact ⟨rfl, hx2⟩

theorem PrefixDone.cover_unique {g : Graph} {st s : State} {p1 p2 : Nat} {C X Y : List EdgeId}
    (h : TwinPaths g st p1 p2)
    (hcm : ∀ r, r ∈ st.coverage_map ↔
      r = p1 ∨ r = p2 ∨ r = st.GetConjPath p1 ∨ r = st.GetConjPath p2)
    (hA : (st.path p1).data = C ++ X) (hB : (st.path p2).data = C ++ Y)
    (hE : DistinctEdges g (C ++ X ++ Y))
    (hF : PrefixDone st p1 p2 C.length s) (e : EdgeId) (x y : Nat)
    (hx : x ∈ GetCoveringPaths s e) (hy : y ∈ GetCoveringPaths s e) : x = y := by
  obtain ⟨d1, d2, d3, d4, d5, d6, d7⟩ := prefix_edges_facts hE
  have hXE : ∀ z, z ∈ X → z ∈ C ++ X ++ Y := fun z hz =>
    List.mem_append_left _ (List.mem_append_right _ hz)
  have hCYE : ∀ z, z ∈ C ++ Y → z ∈ C ++ X ++ Y := fun z hz => by
    rcases List.mem_append.1 hz with hz | hz
    · exact List.mem_append_left _ (List.mem_append_left _ hz)
    · exact List.mem_append_right _ hz
  have hXCY : ∀ z, z ∈ X → z ∉ C ++ Y := fun z hz hc => by
    rcases List.mem_append.1 hc with hc | hc
    · exact d1 z hc hz
    · exact d3 z hz hc
  have hcXCY : ∀ z, z ∈ conjSeq g X → z ∉ conjSeq g (C ++ Y) := fun z hz hc => by
    rw [conjSeq_append] at hc
    rcases List.mem_append.1 hc with hc | hc
    · exact d7 z hz hc
    · exact d5 z hc hz
  rcases hF.cover_cases h hcm hA hB e x hx with ⟨rfl, h1⟩ | ⟨rfl, h1⟩ | ⟨rfl, h1⟩ | ⟨rfl, h1⟩ <;>
    rcases hF.cover_cases h hcm hA hB e y hy with ⟨rfl, h2⟩ | ⟨rfl, h2⟩ | ⟨rfl, h2⟩ | ⟨rfl, h2⟩
  · rfl
  · exact absurd h2 (hXCY e h1)
  · exact absurd (mem_conjSeq_sub g hXE h2) (d4 e (hXE e h1))
  · exact absurd (mem_conjSeq_sub g hCYE h2) (d4 e (hXE e h1))
  · exact absurd h1 (hXCY e h2)
  · rfl
  · exact absurd (mem_conjSeq_sub g hXE h2) (d4 e (hCYE e h1))
  · exact absurd (mem_conjSeq_sub g hCYE h2) (d4 e (hCYE e h1))
  · exact absurd (mem_conjSeq_sub g hXE h1) (d4 e (hXE e h2))
  · exact absurd (mem_conjSeq_sub g hXE h1) (d4 e (hCYE e h2))
  · rfl
  · exact absurd h2 (hcXCY e h1)
  · exact absurd (mem_conjSeq_sub g hCYE h1) (d4 e (hXE e h2))
  · exact absurd (mem_conjSeq_sub g hCYE h1) (d4 e (hCYE e h2))
  · exact absurd h1 (hcXCY e h2)
  · rfl

theorem map_snd_map_pair (o : Option State) :
    (o.map (fun s => (true, s))).map (fun r => r.2) = o := by
  cases o <;> rfl

/-- Visiting an edge of the common prefix trims the shorter path `p1`. -/
theorem RemoveSimilarAtEdge_prefix_edge (g : Graph) (st : State) (p1 p2 : Nat) (C X Y : List EdgeId)
    (e : EdgeId) (h : TwinPaths g st p1 p2)
    (hcm : ∀ r, r ∈ st.coverage_map ↔
      r = p1 ∨ r = p2 ∨ r = st.GetConjPath p1 ∨ r = st.GetConjPath p2)
    (hA : (st.path p1).data = C ++ X) (hB : (st.path p2).data = C ++ Y)
    (hX : X ≠ []) (hE : DistinctEdges g (C ++ X ++ Y))
    (hlt : Length g (st.path p1) < Length g (st.path p2)) (he : e ∈ C) :
    RemoveSimilarAtEdge g 0 false false true false st e
      = some (popBackEdges st (st.GetConjPath p1) C.length) := by
  obtain ⟨f1, f2, f3, f4, f5, f6, f7, f8, f9, f10, f11, f12⟩ := h.pairs.facts
  obtain ⟨d1, d2, d3, d4, d5, d6, d7⟩ := prefix_edges_facts hE
  have hk : 1 ≤ C.length := List.length_pos.2 (List.ne_nil_of_mem he)
  have heE : e ∈ C ++ X ++ Y := List.mem_append_left _ (List.mem_append_left _ he)
  have hsA : (st.path p1).Size = C.length + X.length := by
    unfold BidirectionalPath.Size; rw [hA]; simp
  have hszA := h.size_a
  have hdone := PrefixDone_popBack C.length h
  have hpop : PopBack st (st.GetConjPath p1) (C.length - 1 + 1)
      = some (popBackEdges st (st.GetConjPath p1) C.length) := by
    have e1 : C.length - 1 + 1 = C.length := by omega
    rw [e1]
    apply PopBack_eq_some
    rw [h.conj_a, conjSeq_length, hA]; simp
  have hneAB : (st.path p1).data ≠ (st.path p2).data := by
    rw [hA, hB]
    intro hc
    have hXY := List.append_cancel_left hc
    obtain ⟨x, hx⟩ := List.exists_mem_of_ne_nil _ hX
    exact d3 x hx (by rw [← hXY]; exact hx)
  apply RemoveSimilarAtEdge_pair g e 0 false false true false p1 p2 st _ f9
  · intro x hx
    obtain ⟨hx1, hx2⟩ := (mem_cover_two_pairs g st st p1 p2 e x h hcm rfl rfl).1 hx
    rcases hx1 with rfl | rfl | rfl | rfl
    · exact Or.inl rfl
    · exact Or.inr rfl
    · rw [h.conj_a, hA] at hx2
      exact absurd (mem_conjSeq_sub g (fun z hz => List.mem_append_left _ hz) hx2) (d4 e heE)
    · rw [h.conj_b, hB] at hx2
      refine absurd (mem_conjSeq_sub g (fun z hz => ?_) hx2) (d4 e heE)
      rcases List.mem_append.1 hz with hz | hz
      · exact List.mem_append_left _ (List.mem_append_left _ hz)
      · exact List.mem_append_right _ hz
  · exact (mem_cover_two_pairs g st st p1 p2 e p1 h hcm rfl rfl).2
      ⟨Or.inl rfl, by rw [hA]; exact List.mem_append_left _ he⟩
  · exact (mem_cover_two_pairs g st st p1 p2 e p2 h hcm rfl rfl).2
      ⟨Or.inr (Or.inl rfl), by rw [hB]; exact List.mem_append_left _ he⟩
  · simp [BidirectionalPath.Equal, hneAB]
  · simp [BidirectionalPath.Equal, Ne.symm hneAB]
  · intro hc
    rcases hc with hc | hc | hc | hc
    · have := (hE.len_pos e (List.mem_append_left _ heE)).1; omega
    · rw [BidirectionalPath.IsOverlap, (h.no_flags p1 (Or.inl rfl)).1] at hc
      exact Bool.false_ne_true hc
    · rw [BidirectionalPath.IsOverlap, (h.no_flags p2 (Or.inr (Or.inl rfl))).1] at hc
      exact Bool.false_ne_true hc
    · exact Bool.false_ne_true hc
  · rw [toSizeT_toInt32_zero, CompareAndCut_prefix_spans g st p1 p2 e C X Y false true false h
      hA hB hE he, CutOverlaps_begins_first g st p1 _ _ p2 _ _ false
      (by unfold SIZE_T_MOD at *; omega) hlt (h.no_flags p1 (Or.inl rfl)).2.1,
      map_snd_map_pair, hpop]
  · have hE2 : DistinctEdges g (C ++ Y ++ X) :=
      hE.perm (by
        rw [List.append_assoc, List.append_assoc]
        exact List.Perm.append_left C List.perm_append_comm)
    rw [toSizeT_toInt32_zero, CompareAndCut_prefix_spans g st p2 p1 e C Y X false true false
      h.swapped hB hA hE2 he, CutOverlaps_begins_second g st p2 _ _ p1 _ _ false
      (by unfold SIZE_T_MOD at *; omega) (by omega) (h.no_flags p1 (Or.inl rfl)).2.1,
      map_snd_map_pair, hpop]
  · intro x hx
    rcases hdone.cover_cases h hcm hA hB e x hx with ⟨rfl, _⟩ | ⟨rfl, _⟩ | ⟨rfl, h1⟩ | ⟨rfl, h1⟩
    · exact Or.inl rfl
    · exact Or.inr rfl
    · exact absurd (mem_conjSeq_sub g (fun z hz =>
        List.mem_append_left _ (List.mem_append_right _ hz)) h1) (d4 e heE)
    · refine absurd (mem_conjSeq_sub g (fun z hz => ?_) h1) (d4 e heE)
      rcases List.mem_append.1 hz with hz | hz
      · exact List.mem_append_left _ (List.mem_append_left _ hz)
      · exact List.mem_append_right _ hz
  · exact hdone.cover_unique h hcm hA hB hE e

/-- Visiting a conjugate edge of the common prefix trims the conjugate of the shorter
path at its end, which is the same trimming of `p1`. -/
theorem RemoveSimilarAtEdge_prefix_conj (g : Graph) (st : State) (p1 p2 : Nat)
    (C X Y : List EdgeId) (e : EdgeId) (h : TwinPaths g st p1 p2)
    (hcm : ∀ r, r ∈ st.coverage_map ↔
      r = p1 ∨ r = p2 ∨ r = st.GetConjPath p1 ∨ r = st.GetConjPath p2)
    (hA : (st.path p1).data = C ++ X) (hB : (st.path p2).data = C ++ Y)
    (hX : X ≠ []) (hE : DistinctEdges g (C ++ X ++ Y))
    (hlen : ∀ x ∈ C ++ X ++ Y, g.length (g.conjugate x) = g.length x)
    (hlt : Length g (st.path p1) < Length g (st.path p2)) (he : e ∈ conjSeq g C) :
    RemoveSimilarAtEdge g 0 false false true false st e
      = some (popBackEdges st (st.GetConjPath p1) C.length) := by
  obtain ⟨d1, d2, d3, d4, d5, d6, d7⟩ := prefix_edges_facts hE
  have hAE : ∀ x, x ∈ (st.path p1).data → x ∈ C ++ X ++ Y := fun x hx => by
    rw [hA] at hx; exact List.mem_append_left _ hx
  have hBE : ∀ x, x ∈ (st.path p2).data → x ∈ C ++ X ++ Y := fun x hx => by
    rw [hB] at hx
    rcases List.mem_append.1 hx with hx | hx
    · exact List.mem_append_left _ (List.mem_append_left _ hx)
    · exact List.mem_append_right _ hx
  have hT : TwinPaths g st (st.GetConjPath p1) (st.GetConjPath p2) :=
    h.conjugates (fun x hx => hE.invol x (hAE x hx)) (fun x hx => hE.invol x (hBE x hx))
  obtain ⟨f1, f2, f3, f4, f5, f6, f7, f8, f9, f10, f11, f12⟩ := hT.pairs.facts
  have hAq : (st.path (st.GetConjPath p1)).data = conjSeq g X ++ conjSeq g C := by
    rw [h.conj_a, hA, conjSeq_append]
  have hBq : (st.path (st.GetConjPath p2)).data = conjSeq g Y ++ conjSeq g C := by
    rw [h.conj_b, hB, conjSeq_append]
  have hEc : DistinctEdges g (conjSeq g Y ++ conjSeq g X ++ conjSeq g C) := by
    have := hE.conjugate_seq
    rw [conjSeq_append, conjSeq_append, ← List.append_assoc] at this
    exact this
  have hEq : DistinctEdges g (conjSeq g X ++ conjSeq g Y ++ conjSeq g C) :=
    hEc.perm (List.Perm.append_right _ List.perm_append_comm)
  have heE : e ∈ conjSeq g (C ++ X ++ Y) :=
    mem_conjSeq_sub g (fun z hz => List.mem_append_left _ (List.mem_append_left _ hz)) he
  have hCpos : 0 < C.length := by
    have : 0 < (conjSeq g C).length := List.length_pos.2 (List.ne_nil_of_mem he)
    rwa [conjSeq_length] at this
  have hXpos : 0 < X.length := List.length_pos.2 hX
  have hsA : (st.path (st.GetConjPath p1)).Size = X.length + C.length := by
    unfold BidirectionalPath.Size; rw [hAq]; simp [conjSeq_length]
  have hsB : (st.path (st.GetConjPath p2)).Size = Y.length + C.length := by
    unfold BidirectionalPath.Size; rw [hBq]; simp [conjSeq_length]
  have hszA := hT.size_a
  have hszB := hT.size_b
  have hdone := PrefixDone_popBack C.length h
  have hpop : PopBack st (st.GetConjPath p1)
      ((st.path (st.GetConjPath p1)).Size - (conjSeq g X).length)
      = some (popBackEdges st (st.GetConjPath p1) C.length) := by
    have e1 : (st.path (st.GetConjPath p1)).Size - (conjSeq g X).length = C.length := by
      rw [hsA, conjSeq_length]; omega
    rw [e1]
    apply PopBack_eq_some
    rw [hAq]; simp [conjSeq_length]
  have hltq : Length g (st.path (st.GetConjPath p1)) < Length g (st.path (st.GetConjPath p2)) := by
    rw [Length_conj g (st.path p1) _ h.conj_a (h.gaps_zero p1 (Or.inl rfl))
        (h.gaps_zero _ (Or.inr (Or.inr (Or.inl rfl)))) (fun x hx => hlen x (hAE x hx)),
      Length_conj g (st.path p2) _ h.conj_b (h.gaps_zero p2 (Or.inr (Or.inl rfl)))
        (h.gaps_zero _ (Or.inr (Or.inr (Or.inr rfl)))) (fun x hx => hlen x (hBE x hx))]
    exact hlt
  have hneAB : (st.path (st.GetConjPath p1)).data ≠ (st.path (st.GetConjPath p2)).data := by
    rw [hAq, hBq]
    intro hc
    have hXY := List.append_cancel_right hc
    have hXc : conjSeq g X ≠ [] := by
      intro h0
      have := congrArg List.length h0
      rw [conjSeq_length] at this
      simp at this
      exact hX this
    obtain ⟨x, hx⟩ := List.exists_mem_of_ne_nil _ hXc
    exact d7 x hx (by rw [← hXY]; exact hx)
  have hflag := h.no_flags (st.GetConjPath p1) (Or.inr (Or.inr (Or.inl rfl)))
  have hflag2 := h.no_flags (st.GetConjPath p2) (Or.inr (Or.inr (Or.inr rfl)))
  apply RemoveSimilarAtEdge_pair g e 0 false false true false (st.GetConjPath p1)
    (st.GetConjPath p2) st _ f9
  · intro x hx
    obtain ⟨hx1, hx2⟩ := (mem_cover_two_pairs g st st p1 p2 e x h hcm rfl rfl).1 hx
    rcases hx1 with rfl | rfl | rfl | rfl
    · exact absurd heE (d4 e (hAE e hx2))
    · exact absurd heE (d4 e (hBE e hx2))
    · exact Or.inl rfl
    · exact Or.inr rfl
  · exact (mem_cover_two_pairs g st st p1 p2 e _ h hcm rfl rfl).2
      ⟨Or.inr (Or.inr (Or.inl rfl)), by rw [hAq]; exact List.mem_append_right _ he⟩
  · exact (mem_cover_two_pairs g st st p1 p2 e _ h hcm rfl rfl).2
      ⟨Or.inr (Or.inr (Or.inr rfl)), by rw [hBq]; exact List.mem_append_right _ he⟩
  · simp [BidirectionalPath.Equal, hneAB]
  · simp [BidirectionalPath.Equal, Ne.symm hneAB]
  · intro hc
    rcases hc with hc | hc | hc | hc
    · obtain ⟨x, hx, hxe⟩ := (mem_conjSeq _ _ _).1 heE
      have := (hE.len_pos e (List.mem_append_right _ (List.mem_map.2 ⟨x, hx, hxe⟩))).1
      omega
    · rw [BidirectionalPath.IsOverlap, hflag.1] at hc
      exact Bool.false_ne_true hc
    · rw [BidirectionalPath.IsOverlap, hflag2.1] at hc
      exact Bool.false_ne_true hc
    · exact Bool.false_ne_true hc
  · rw [toSizeT_toInt32_zero, CompareAndCut_suffix_spans g st _ _ e (conjSeq g C) (conjSeq g X)
      (conjSeq g Y) false true false hT hAq hBq hEq he,
      CutOverlaps_ends_first g st _ _ _ _ false (by omega) (by omega) hszA hszB
      (by rw [conjSeq_length, conjSeq_length]; omega) (by rw [conjSeq_length]; omega)
      hltq hflag.2.2, map_snd_map_pair, hpop]
  · have hEq2 : DistinctEdges g (conjSeq g Y ++ conjSeq g X ++ conjSeq g C) := hEc
    rw [toSizeT_toInt32_zero, CompareAndCut_suffix_spans g st _ _ e (conjSeq g C) (conjSeq g Y)
      (conjSeq g X) false true false hT.swapped hBq hAq hEq2 he,
      CutOverlaps_ends_second g st _ _ _ _ false (by omega) (by omega) hszB hszA
      (by rw [conjSeq_length, conjSeq_length]; omega) (by rw [conjSeq_length]; omega)
      (by omega) hflag.2.2, map_snd_map_pair, hpop]
  · intro x hx
    rcases hdone.cover_cases h hcm hA hB e x hx with ⟨rfl, h1⟩ | ⟨rfl, h1⟩ | ⟨rfl, _⟩ | ⟨rfl, _⟩
    · exact absurd heE (d4 e (List.mem_append_left _ (List.mem_append_right _ h1)))
    · exact absurd heE (d4 e (hBE e (by rw [hB]; exact h1)))
    · exact Or.inl rfl
    · exact Or.inr rfl
  · exact hdone.cover_unique h hcm hA hB hE e

/-- Before the trimming, an edge outside the common prefix and outside its conjugate is
covered by at most one path. -/
theorem cover_unique_outside_common {g : Graph} {st : State} {p1 p2 : Nat}
    {C X Y : List EdgeId} (h : TwinPaths g st p1 p2)
    (hcm : ∀ r, r ∈ st.coverage_map ↔
      r = p1 ∨ r = p2 ∨ r = st.GetConjPath p1 ∨ r = st.GetConjPath p2)
    (hA : (st.path p1).data = C ++ X) (hB : (st.path p2).data = C ++ Y)
    (hE : DistinctEdges g (C ++ X ++ Y)) (e : EdgeId)
    (heC : e ∉ C) (heQ : e ∉ conjSeq g C) (x y : Nat)
    (hx : x ∈ GetCoveringPaths st e) (hy : y ∈ GetCoveringPaths st e) : x = y := by
  obtain ⟨d1, d2, d3, d4, d5, d6, d7⟩ := prefix_edges_facts hE
  have hXE : ∀ z, z ∈ X → z ∈ C ++ X ++ Y := fun z hz =>
    List.mem_append_left _ (List.mem_append_right _ hz)
  have hYE : ∀ z, z ∈ Y → z ∈ C ++ X ++ Y := fun z hz => List.mem_append_right _ hz
  have hcases : ∀ z, z ∈ GetCoveringPaths st e →
      (z = p1 ∧ e ∈ X) ∨ (z = p2 ∧ e ∈ Y) ∨ (z = st.GetConjPath p1 ∧ e ∈ conjSeq g X)
        ∨ (z = st.GetConjPath p2 ∧ e ∈ conjSeq g Y) := by
    intro z hz
    obtain ⟨hz1, hz2⟩ := (mem_cover_two_pairs g st st p1 p2 e z h hcm rfl rfl).1 hz
    rcases hz1 with rfl | rfl | rfl | rfl
    · rw [hA] at hz2
      exact Or.inl ⟨rfl, (List.mem_append.1 hz2).resolve_left heC⟩
    · rw [hB] at hz2
      exact Or.inr (Or.inl ⟨rfl, (List.mem_append.1 hz2).resolve_left heC⟩)
    · rw [h.conj_a, hA, conjSeq_append] at hz2
      exact Or.inr (Or.inr (Or.inl ⟨rfl, (List.mem_append.1 hz2).resolve_right heQ⟩))
    · rw [h.conj_b, hB, conjSeq_append] at hz2
      exact Or.inr (Or.inr (Or.inr ⟨rfl, (List.mem_append.1 hz2).resolve_right heQ⟩))
  rcases hcases x hx with ⟨rfl, h1⟩ | ⟨rfl, h1⟩ | ⟨rfl, h1⟩ | ⟨rfl, h1⟩ <;>
    rcases hcases y hy with ⟨rfl, h2⟩ | ⟨rfl, h2⟩ | ⟨rfl, h2⟩ | ⟨rfl, h2⟩
  · rfl
  · exact absurd h2 (d3 e h1)
  · exact absurd (mem_conjSeq_sub g hXE h2) (d4 e (hXE e h1))
  · exact absurd (mem_conjSeq_sub g hYE h2) (d4 e (hXE e h1))
  · exact absurd h1 (d3 e h2)
  · rfl
  · exact absurd (mem_conjSeq_sub g hXE h2) (d4 e (hYE e h1))
  · exact absurd (mem_conjSeq_sub g hYE h2) (d4 e (hYE e h1))
  · exact absurd (mem_conjSeq_sub g hXE h1) (d4 e (hXE e h2))
  · exact absurd (mem_conjSeq_sub g hXE h1) (d4 e (hYE e h2))
  · rfl
  · exact absurd h2 (d7 e h1)
  · exact absurd (mem_conjSeq_sub g hYE h1) (d4 e (hXE e h2))
  · exact absurd (mem_conjSeq_sub g hYE h1) (d4 e (hYE e h2))
  · exact absurd h1 (d7 e h2)
  · rfl

/-- One edge of the pass on the initial container: it either leaves the container as it
is or performs the trimming. -/
theorem RemoveSimilarAtEdge_prefix_step (g : Graph) (st : State) (p1 p2 : Nat)
    (C X Y : List EdgeId) (e : EdgeId) (h : TwinPaths g st p1 p2)
    (hcm : ∀ r, r ∈ st.coverage_map ↔
      r = p1 ∨ r = p2 ∨ r = st.GetConjPath p1 ∨ r = st.GetConjPath p2)
    (hA : (st.path p1).data = C ++ X) (hB : (st.path p2).data = C ++ Y)
    (hX : X ≠ []) (hE : DistinctEdges g (C ++ X ++ Y))
    (hlen : ∀ x ∈ C ++ X ++ Y, g.length (g.conjugate x) = g.length x)
    (hlt : Length g (st.path p1) < Length g (st.path p2)) :
    ∃ s', RemoveSimilarAtEdge g 0 false false true false st e = some s'
      ∧ (s' = st ∨ PrefixDone st p1 p2 C.length s') := by
  by_cases heC : e ∈ C
  · exact ⟨_, RemoveSimilarAtEdge_prefix_edge g st p1 p2 C X Y e h hcm hA hB hX hE hlt heC,
      Or.inr (PrefixDone_popBack C.length h)⟩
  · by_cases heQ : e ∈ conjSeq g C
    · exact ⟨_, RemoveSimilarAtEdge_prefix_conj g st p1 p2 C X Y e h hcm hA hB hX hE hlen hlt heQ,
        Or.inr (PrefixDone_popBack C.length h)⟩
    · exact ⟨st, RemoveSimilarAtEdge_skip g 0 false false true false st e
        (cover_unique_outside_common h hcm hA hB hE e heC heQ), Or.inl rfl⟩

/-- C3. Shared-prefix trimming end to end.  The container holds, with their conjugates,
only the paths `p1 = C ++ X` and `p2 = C ++ Y` (all four subscribed, zero gaps, no flags)
with a common prefix `C` of `k ≥ 1` edges and `X` non-empty, so `k < size(p1)`; the edges
of `C`, `X`, `Y` and their conjugates are pairwise distinct and of positive length, an
edge and its conjugate have the same length, the edges of `C` are edges of the graph and
`Length(p1) < Length(p2)` (which makes `Y` non-empty).  Then
`RemoveSimilarPaths(0, false, false, true, false)` returns, `p1` is its original sequence
without the first `k` edges, that is `X`, and `p2` is unchanged.  There is no hypothesis
on the path ids or on the order in which the edges are visited. -/
theorem RemoveSimilarPaths_prefix_trimming (g : Graph) (st : State) (p1 p2 : Nat)
    (C X Y : List EdgeId) (h : TwinPaths g st p1 p2)
    (hcm : ∀ r, r ∈ st.coverage_map ↔
      r = p1 ∨ r = p2 ∨ r = st.GetConjPath p1 ∨ r = st.GetConjPath p2)
    (hA : (st.path p1).data = C ++ X) (hB : (st.path p2).data = C ++ Y)
    (hC : C ≠ []) (hX : X ≠ []) (hE : DistinctEdges g (C ++ X ++ Y))
    (hlen : ∀ x ∈ C ++ X ++ Y, g.length (g.conjugate x) = g.length x)
    (hlt : Length g (st.path p1) < Length g (st.path p2))
    (hgraph : ∀ e ∈ C, e ∈ g.edges ∨ g.conjugate e ∈ g.edges) :
    ∃ st', RemoveSimilarPaths g st 0 false false true false = some st'
      ∧ (st'.path p1).data = (st.path p1).data.drop C.length
      ∧ (st'.path p1).data = X
      ∧ st'.path p2 = st.path p2 := by
  have hreach := RemoveSimilarEdges_reach g 0 false false true false (fun s => s = st)
    (PrefixDone st p1 p2 C.length)
    (fun s e hF => ⟨s, RemoveSimilarAtEdge_skip g 0 false false true false s e
      (hF.cover_unique h hcm hA hB hE e), hF⟩)
    (fun s e hs => by
      subst hs
      exact RemoveSimilarAtEdge_prefix_step g s p1 p2 C X Y e h hcm hA hB hX hE hlen hlt)
    (GetSortedEdges g) st
  unfold RemoveSimilarPaths
  obtain ⟨e0, he0⟩ := List.exists_mem_of_ne_nil _ hC
  have hmem : e0 ∈ GetSortedEdges g := by
    rw [mem_GetSortedEdges]
    rcases hgraph e0 he0 with hg | hg
    · exact ⟨e0, hg, Or.inl rfl⟩
    · exact ⟨g.conjugate e0, hg, Or.inr (hE.invol e0
        (List.mem_append_left _ (List.mem_append_left _ he0))).symm⟩
  obtain ⟨s', h1, h2⟩ := hreach.2.2 rfl e0 hmem (fun s0 hs0 => by
    subst hs0
    exact ⟨_, RemoveSimilarAtEdge_prefix_edge g s0 p1 p2 C X Y e0 h hcm hA hB hX hE hlt he0,
      PrefixDone_popBack C.length h⟩)
  obtain ⟨_, _, hp1, _, hp2, _⟩ := h2
  exact ⟨s', h1, hp1, by rw [hp1, hA, List.drop_left], hp2⟩

/-- The container with the paths `(1, 3, 5, 7)` and `(1, 3, 9, 11, 13)` is well formed. -/
theorem exState_prefix_twins :
    TwinPaths (exGraph 9) (exState [1, 3, 5, 7] [1, 3, 9, 11, 13]) 0 2 :=
  ⟨by decide, by decide, by decide,
    fun r hr => by rcases hr with rfl | rfl | rfl | rfl <;> decide,
    fun r hr => by rcases hr with rfl | rfl | rfl | rfl <;> decide,
    by decide, by decide⟩

/-- Witness of C3: `P1 = (1, 3, 5, 7)` and `P2 = (1, 3, 9, 11, 13)` share the prefix
`(1, 3)`; the pass leaves `P1 = (5, 7)` and `P2` as it was. -/
theorem RemoveSimilarPaths_prefix_trimming_witness :
    ∃ st', RemoveSimilarPaths (exGraph 9) (exState [1, 3, 5, 7] [1, 3, 9, 11, 13]) 0
        false false true false = some st'
      ∧ (st'.path 0).data = [5, 7] ∧ (st'.path 2).data = [1, 3, 9, 11, 13] := by
  obtain ⟨st', h1, _, h3, h4⟩ := RemoveSimilarPaths_prefix_trimming (exGraph 9)
    (exState [1, 3, 5, 7] [1, 3, 9, 11, 13]) 0 2 [1, 3] [5, 7] [9, 11, 13] exState_prefix_twins
    (by intro r; simp [exState, State.GetConjPath, State.path, exPath]; omega)
    (by decide) (by decide) (by decide) (by decide) ⟨by decide, by decide, by decide⟩
    (by decide) (by decide) (by decide)
  exact ⟨st', h1, h3, by rw [h4]; decide⟩

/-! ## Exact-duplicate collapse -/

theorem Collapsed.refl (p1 : Nat) (s : State) : Collapsed p1 s s :=
  ⟨rfl, rfl, fun _ => ⟨rfl, rfl⟩, fun _ => Or.inl ⟨rfl, rfl⟩, fun _ h => h, rfl, rfl⟩

theorem Collapsed.trans {p1 : Nat} {s t u : State} (h1 : Collapsed p1 s t)
    (h2 : Collapsed p1 t u) : Collapsed p1 s u := by
  obtain ⟨a1, a2, a3, a4, a5, a6, a7⟩ := h1
  obtain ⟨b1, b2, b3, b4, b5, b6, b7⟩ := h2
  refine ⟨b1.trans a1, b2.trans a2, fun r => ⟨(b3 r).1.trans (a3 r).1, (b3 r).2.trans (a3 r).2⟩,
    fun r => ?_, fun r h => b5 r (a5 r h), b6.trans a6, b7.trans a7⟩
  rcases b4 r with ⟨h1, h2⟩ | h
  · rcases a4 r with ⟨h3, h4⟩ | ⟨h3, h4⟩
    · exact Or.inl ⟨h1.trans h3, h2.trans h4⟩
    · exact Or.inr ⟨h1.trans h3, h2.trans h4⟩
  · exact Or.inr h

/-- A cleared path stays cleared. -/
theorem Collapsed.cleared {p1 : Nat} {s t : State} (h : Collapsed p1 s t) (r : Nat)
    (hr : (s.path r).data = []) : (t.path r).data = [] := by
  rcases h.2.2.2.1 r with ⟨h1, _⟩ | ⟨h1, _⟩
  · rw [h1, hr]
  · exact h1

/-- A path that still holds an edge holds its edges and gaps of the earlier state. -/
theorem Collapsed.kept {p1 : Nat} {s t : State} (h : Collapsed p1 s t) (r : Nat) (e : EdgeId)
    (hr : e ∈ (t.path r).data) :
    (t.path r).data = (s.path r).data ∧ (t.path r).gaps = (s.path r).gaps := by
  rcases h.2.2.2.1 r with h1 | ⟨h1, _⟩
  · exact h1
  · rw [h1] at hr; simp at hr

theorem Collapsed_SetOverlap (p1 : Nat) (s : State) (x : Nat) (hx : x < s.heap.length) :
    Collapsed p1 s (SetOverlap s x true) := by
  have key : ∀ r, ((SetOverlap s x true).path r).conj = (s.path r).conj
      ∧ ((SetOverlap s x true).path r).id = (s.path r).id
      ∧ ((SetOverlap s x true).path r).data = (s.path r).data
      ∧ ((SetOverlap s x true).path r).gaps = (s.path r).gaps
      ∧ ((s.path r).overlap = true → ((SetOverlap s x true).path r).overlap = true) := by
    intro r
    unfold SetOverlap
    by_cases hr : r = x
    · subst hr
      rw [State.path_store_eq _ _ _ hx]
      exact ⟨rfl, rfl, rfl, rfl, fun _ => rfl⟩
    · rw [State.path_store_ne _ _ _ _ hr]
      exact ⟨rfl, rfl, rfl, rfl, fun h => h⟩
  refine ⟨by simp [SetOverlap], by simp [SetOverlap], fun r => ⟨(key r).1, (key r).2.1⟩,
    fun r => Or.inl ⟨(key r).2.2.1, (key r).2.2.2.1⟩, fun r => (key r).2.2.2.2,
    (key p1).2.2.1, (key p1).2.2.2.1⟩

theorem Collapsed_Clear (p1 : Nat) (s : State) (y : Nat) (hy : y < s.heap.length)
    (hq : (s.path y).conj < s.heap.length) (h1 : y ≠ p1) (h2 : (s.path y).conj ≠ p1) :
    Collapsed p1 s (Clear s y) := by
  have key : ∀ r, (Clear s y).path r =
      if r = y ∨ r = (s.path y).conj then { s.path r with data := [], gaps := [] }
      else s.path r := fun r => Clear_path s y r hy hq
  refine ⟨Clear_heap_length _ _, Clear_coverage_map _ _, fun r => ?_, fun r => ?_, fun r h => ?_,
    ?_, ?_⟩
  · rw [key r]; split <;> exact ⟨rfl, rfl⟩
  · rw [key r]; split
    · exact Or.inr ⟨rfl, rfl⟩
    · exact Or.inl ⟨rfl, rfl⟩
  · rw [key r]; split <;> exact h
  · rw [key p1, if_neg (by intro hc; rcases hc with hc | hc; exact h1 hc.symm; exact h2 hc.symm)]
  · rw [key p1, if_neg (by intro hc; rcases hc with hc | hc; exact h1 hc.symm; exact h2 hc.symm)]

theorem SetOverlap_path (s : State) (x r : Nat) (v : Bool) (hx : x < s.heap.length) :
    (SetOverlap s x v).path r = if r = x then { s.path r with overlap := v } else s.path r := by
  unfold SetOverlap
  by_cases hr : r = x
  · subst hr; rw [State.path_store_eq _ _ _ hx, if_pos rfl]
  · rw [State.path_store_ne _ _ _ _ hr, if_neg hr]

/-- The equal branch of the inner loop of `RemoveSimilarPaths` for a later entry `y` that
equals `path1 = x`: the duplicate with the smallest id is not the one cleared, the entry
`y` is, and the flag of `p2` reaches `p1` unless `p2` is cleared through its conjugate. -/
theorem collapse_step (st0 : State) (p1 p2 : Nat) (D : DuplicatePair st0 p1 p2) (s : State)
    (hs : Collapsed p1 st0 s) (edge : EdgeId) (x y : Nat) (hxv : x < st0.heap.length)
    (hxs : x ∈ st0.coverage_map) (hyx : y ≠ x) (hid : (st0.path x).id ≤ (st0.path y).id)
    (hyc : y ∈ GetCoveringPaths s edge) (heq : (s.path x).Equal (s.path y) = true) :
    Collapsed p1 s (Clear (if (s.path y).IsOverlap = true then SetOverlap s x true else s) y)
    ∧ ((Clear (if (s.path y).IsOverlap = true then SetOverlap s x true else s) y).path y).data = []
    ∧ (edge ∉ (st0.path (st0.GetConjPath p2)).data → FlagKept st0 p1 p2 s →
        FlagKept st0 p1 p2
          (Clear (if (s.path y).IsOverlap = true then SetOverlap s x true else s) y)) := by
  have hs0 := hs
  obtain ⟨c1, c2, c3, c4, c5, c6, c7⟩ := hs
  obtain ⟨hyv, hysub, hye⟩ := (mem_GetCoveringPaths s edge y).1 hyc
  have hxv1 : x < s.heap.length := by rw [c1]; exact hxv
  have hyv0 : y < st0.heap.length := by rw [← c1]; exact hyv
  have heq1 : (s.path x).data = (s.path y).data ∧ (s.path x).gaps = (s.path y).gaps := by
    simpa [BidirectionalPath.Equal] using heq
  have hky := hs0.kept y edge hye
  have hkx := hs0.kept x edge (by rw [heq1.1]; exact hye)
  have hxy0 : (st0.path x).data = (st0.path y).data ∧ (st0.path x).gaps = (st0.path y).gaps :=
    ⟨by rw [← hkx.1, ← hky.1]; exact heq1.1, by rw [← hkx.2, ← hky.2]; exact heq1.2⟩
  obtain ⟨hl1, hl2⟩ := D.linked y hyv0
  -- the state after the flag propagation
  have hS1 : ∀ r, (if (s.path y).IsOverlap = true then SetOverlap s x true else s).path r
      = if (s.path y).IsOverlap = true ∧ r = x then { s.path r with overlap := true }
        else s.path r := by
    intro r
    by_cases hov : (s.path y).IsOverlap = true
    · rw [if_pos hov, SetOverlap_path s x r true hxv1]
      by_cases hr : r = x
      · rw [if_pos hr, if_pos ⟨hov, hr⟩]
      · rw [if_neg hr, if_neg (fun h => hr h.2)]
    · rw [if_neg hov, if_neg (fun h => hov h.1)]
  have hS1len : (if (s.path y).IsOverlap = true then SetOverlap s x true else s).heap.length
      = s.heap.length := by
    split
    · simp [SetOverlap]
    · rfl
  have hS1c : Collapsed p1 s (if (s.path y).IsOverlap = true then SetOverlap s x true else s) := by
    split
    · exact Collapsed_SetOverlap p1 s x hxv1
    · exact Collapsed.refl p1 s
  have hconj1 : ((if (s.path y).IsOverlap = true then SetOverlap s x true else s).path y).conj
      = (st0.path y).conj := by
    rw [hS1c.2.2.1 y |>.1, (c3 y).1]
  -- the cleared entry is neither `p1` nor its conjugate
  have hy1 : y ≠ p1 := by
    intro hc
    subst hc
    rcases D.no_third x hxs hxy0.1 hxy0.2 with h | h
    · exact hyx h.symm
    · subst h; have := D.id_lt; omega
  have hy2 : (st0.path y).conj ≠ p1 := by
    intro hc
    rw [hc] at hl2
    have hyq : y = st0.GetConjPath p1 := hl2.symm
    have := D.twin_first x hxs (by rw [← hyq]; exact Ne.symm hyx)
      (by rw [← hyq]; exact hxy0.1) (by rw [← hyq]; exact hxy0.2)
    rw [← hyq] at this
    omega
  have hC2 := Collapsed_Clear p1
    (if (s.path y).IsOverlap = true then SetOverlap s x true else s) y
    (by rw [hS1len]; exact hyv) (by rw [hconj1, hS1len, c1]; exact hl1) hy1
    (by rw [hconj1]; exact hy2)
  have hC := hS1c.trans hC2
  refine ⟨hC, ?_, ?_⟩
  · rw [Clear_path _ y y (by rw [hS1len]; exact hyv) (by rw [hconj1, hS1len, c1]; exact hl1),
      if_pos (Or.inl rfl)]
  · intro hE hJ hd hov
    by_cases h2 : (s.path p2).data = []
    · exact hC.2.2.2.2.1 p1 (hJ h2 hov)
    · rw [Clear_path _ y p2 (by rw [hS1len]; exact hyv) (by rw [hconj1, hS1len, c1]; exact hl1),
        hconj1] at hd
      by_cases hp2y : p2 = y
      · -- `p2` is cleared by the comparison with `p1`
        have hx1 : x = p1 := by
          rcases D.no_third x hxs (by rw [hxy0.1, ← hp2y, D.same_data])
            (by rw [hxy0.2, ← hp2y, D.same_gaps]) with h | h
          · exact h
          · exact absurd (hp2y.symm.trans h.symm) hyx
        have hovy : (s.path y).IsOverlap = true := by
          rw [← hp2y]; exact c5 p2 hov
        rw [Clear_path _ y p1 (by rw [hS1len]; exact hyv) (by rw [hconj1, hS1len, c1]; exact hl1),
          hconj1, if_neg (by
            intro hc
            rcases hc with hc | hc
            · exact hy1 hc.symm
            · exact hy2 hc.symm), hS1 p1, if_pos ⟨hovy, hx1.symm⟩]
      · by_cases hp2q : p2 = (st0.path y).conj
        · exfalso
          rw [← hp2q] at hl2
          apply hE
          have : st0.GetConjPath p2 = y := hl2
          rw [this, ← hky.1]
          exact hye
        · rw [if_neg (by
            intro hc
            rcases hc with hc | hc
            · exact hp2y hc
            · exact hp2q hc), hS1 p2] at hd
          exfalso
          apply h2
          split at hd <;> exact hd

/-- The inner loop of `RemoveSimilarPaths` in the `del_only_equal` mode: it returns, only
clears paths and sets `is_overlap` flags, never clears `p1`, and with `path1 = p1` and
`p2` among the later entries it leaves `p2` cleared. -/
theorem RemoveSimilarInner_collapse (g : Graph) (edge : EdgeId) (M : Nat) (f2 f3 f4 : Bool)
    (st0 : State) (p1 p2 : Nat) (D : DuplicatePair st0 p1 p2) (x : Nat)
    (hxv : x < st0.heap.length) (hxs : x ∈ st0.coverage_map) :
    ∀ (rest : List Nat) (s : State), Collapsed p1 st0 s →
      (∀ y ∈ rest, y ≠ x ∧ (st0.path x).id ≤ (st0.path y).id) →
      ∃ s', RemoveSimilarInner g edge M true f2 f3 f4 x rest (s, GetCoveringPaths s edge)
          = some (s', GetCoveringPaths s' edge)
        ∧ Collapsed p1 s s'
        ∧ (x = p1 → p2 ∈ rest → edge ∈ (st0.path p1).data → (s'.path p2).data = [])
        ∧ (edge ∉ (st0.path (st0.GetConjPath p2)).data → FlagKept st0 p1 p2 s →
            FlagKept st0 p1 p2 s') := by
  intro rest
  induction rest with
  | nil =>
    intro s _ _
    exact ⟨s, rfl, Collapsed.refl _ _, fun _ h => absurd h (List.not_mem_nil _), fun _ h => h⟩
  | cons y rest ih =>
    intro s hs hord
    have hrest : ∀ z ∈ rest, z ≠ x ∧ (st0.path x).id ≤ (st0.path z).id :=
      fun z hz => hord z (List.mem_cons_of_mem _ hz)
    obtain ⟨hyx, hid⟩ := hord y (List.mem_cons_self _ _)
    -- when `p2` is the entry `y` and is not dealt with, it has been cleared before
    have hp2clear : y ∉ GetCoveringPaths s edge → p2 = y → edge ∈ (st0.path p1).data →
        (s.path p2).data = [] := by
      intro hyc hp2 he
      subst hp2
      rcases hs.2.2.2.1 p2 with ⟨h1, _⟩ | ⟨h1, _⟩
      · exfalso
        apply hyc
        rw [mem_GetCoveringPaths]
        exact ⟨by rw [hs.1]; exact D.valid2, by rw [hs.2.1]; exact D.sub2,
          by rw [h1, ← D.same_data]; exact he⟩
      · exact h1
    unfold RemoveSimilarInner
    by_cases hyc : y ∈ GetCoveringPaths s edge
    · rw [if_neg (not_not.2 hyc)]
      by_cases heq : (s.path x).Equal (s.path y) = true
      · rw [if_pos heq]
        dsimp only
        obtain ⟨k1, k2, k3⟩ := collapse_step st0 p1 p2 D s hs edge x y hxv hxs hyx hid hyc heq
        obtain ⟨s', r1, r2, r3, r4⟩ := ih _ (hs.trans k1) hrest
        refine ⟨s', r1, k1.trans r2, ?_, fun hE hJ => r4 hE (k3 hE hJ)⟩
        intro hx hp2 he
        rcases List.mem_cons.1 hp2 with h | h
        · exact r2.cleared p2 (by rw [h]; exact k2)
        · exact r3 hx h he
      · rw [if_neg heq, if_pos (Or.inr (Or.inr (Or.inr rfl)))]
        obtain ⟨s', r1, r2, r3, r4⟩ := ih s hs hrest
        refine ⟨s', r1, r2, ?_, r4⟩
        intro hx hp2 he
        rcases List.mem_cons.1 hp2 with h | h
        · exfalso
          apply heq
          obtain ⟨_, _, hye⟩ := (mem_GetCoveringPaths s edge y).1 hyc
          have hk := hs.kept y edge hye
          rw [hx, ← h]
          rw [← h] at hk
          simp [BidirectionalPath.Equal, hs.2.2.2.2.2.1, hs.2.2.2.2.2.2, hk.1, hk.2,
            D.same_data, D.same_gaps]
        · exact r3 hx h he
    · rw [if_pos hyc]
      obtain ⟨s', r1, r2, r3, r4⟩ := ih s hs hrest
      refine ⟨s', r1, r2, ?_, r4⟩
      intro hx hp2 he
      rcases List.mem_cons.1 hp2 with h | h
      · exact r2.cleared p2 (hp2clear hyc h he)
      · exact r3 hx h he

/-- Sorting by path id yields a list with ascending ids. -/
theorem pairwise_sortByPathId (st : State) (v : List Nat) :
    (sortByPathId st v).Pairwise (fun a b => (st.path a).id ≤ (st.path b).id) := by
  unfold sortByPathId
  have hT : IsTotal Nat (fun a b => (st.path a).id ≤ (st.path b).id) :=
    ⟨fun a b => Nat.le_total _ _⟩
  have hR : IsTrans Nat (fun a b => (st.path a).id ≤ (st.path b).id) :=
    ⟨fun a b c h1 h2 => Nat.le_trans h1 h2⟩
  exact List.sorted_insertionSort (fun a b => (st.path a).id ≤ (st.path b).id) v

/-- The outer loop of `RemoveSimilarPaths` in the `del_only_equal` mode. -/
theorem RemoveSimilarOuter_collapse (g : Graph) (edge : EdgeId) (M : Nat) (f2 f3 f4 : Bool)
    (st0 : State) (p1 p2 : Nat) (D : DuplicatePair st0 p1 p2) :
    ∀ (L : List Nat) (s : State), Collapsed p1 st0 s →
      (∀ x ∈ L, x < st0.heap.length ∧ x ∈ st0.coverage_map) → L.Nodup →
      L.Pairwise (fun a b => (st0.path a).id ≤ (st0.path b).id) →
      ∃ s', RemoveSimilarOuter g edge M true f2 f3 f4 L (s, GetCoveringPaths s edge)
          = some (s', GetCoveringPaths s' edge)
        ∧ Collapsed p1 s s'
        ∧ (p1 ∈ L → p2 ∈ L → edge ∈ (st0.path p1).data → (s'.path p2).data = [])
        ∧ (edge ∉ (st0.path (st0.GetConjPath p2)).data → FlagKept st0 p1 p2 s →
            FlagKept st0 p1 p2 s') := by
  intro L
  induction L with
  | nil =>
    intro s _ _ _ _
    exact ⟨s, rfl, Collapsed.refl _ _, fun h => absurd h (List.not_mem_nil _), fun _ h => h⟩
  | cons x rest ih =>
    intro s hs hmem hnd hsorted
    obtain ⟨hxr, hndr⟩ := List.nodup_cons.1 hnd
    obtain ⟨hxle, hsr⟩ := List.pairwise_cons.1 hsorted
    obtain ⟨hxv, hxs⟩ := hmem x (List.mem_cons_self _ _)
    have hmemr : ∀ z ∈ rest, z < st0.heap.length ∧ z ∈ st0.coverage_map :=
      fun z hz => hmem z (List.mem_cons_of_mem _ hz)
    have hne : p1 ≠ p2 := by
      intro hc
      have := D.id_lt
      rw [hc] at this
      exact Nat.lt_irrefl _ this
    -- `p2` is not in front of `p1`
    have hfront : p2 = x → p1 ∈ rest → False := by
      intro h2 h1
      have := hxle p1 h1
      have := D.id_lt
      rw [h2] at this
      omega
    unfold RemoveSimilarOuter
    by_cases hxc : x ∈ GetCoveringPaths s edge
    · rw [if_neg (not_not.2 hxc)]
      obtain ⟨s1, i1, i2, i3, i4⟩ := RemoveSimilarInner_collapse g edge M f2 f3 f4 st0 p1 p2 D x
        hxv hxs rest s hs (fun y hy => ⟨fun h => hxr (h ▸ hy), hxle y hy⟩)
      rw [i1]
      simp only [Option.bind]
      obtain ⟨s', o1, o2, o3, o4⟩ := ih s1 (hs.trans i2) hmemr hndr hsr
      refine ⟨s', o1, i2.trans o2, ?_, fun hE hJ => o4 hE (i4 hE hJ)⟩
      intro h1 h2 he
      rcases List.mem_cons.1 h1 with h1 | h1
      · rcases List.mem_cons.1 h2 with h2 | h2
        · exact absurd (h1.trans h2.symm) hne
        · exact o2.cleared p2 (i3 h1.symm h2 he)
      · rcases List.mem_cons.1 h2 with h2 | h2
        · exact absurd h1 (fun h => hfront h2 h)
        · exact o3 h1 h2 he
    · rw [if_pos hxc]
      obtain ⟨s', o1, o2, o3, o4⟩ := ih s hs hmemr hndr hsr
      refine ⟨s', o1, o2, ?_, o4⟩
      intro h1 h2 he
      rcases List.mem_cons.1 h1 with h1 | h1
      · exfalso
        apply hxc
        rw [mem_GetCoveringPaths, ← h1]
        exact ⟨by rw [hs.1]; exact D.valid1, by rw [hs.2.1]; exact D.sub1,
          by rw [hs.2.2.2.2.2.1]; exact he⟩
      · rcases List.mem_cons.1 h2 with h2 | h2
        · exact absurd h1 (fun h => hfront h2 h)
        · exact o3 h1 h2 he

/-- The body of the loop over the edges in the `del_only_equal` mode. -/
theorem RemoveSimilarAtEdge_collapse (g : Graph) (edge : EdgeId) (M : Nat) (f2 f3 f4 : Bool)
    (st0 : State) (p1 p2 : Nat) (D : DuplicatePair st0 p1 p2) (s : State)
    (hs : Collapsed p1 st0 s) :
    ∃ s', RemoveSimilarAtEdge g M true f2 f3 f4 s edge = some s'
      ∧ Collapsed p1 s s'
      ∧ (edge ∈ (st0.path p1).data → (s'.path p2).data = [])
      ∧ (edge ∉ (st0.path (st0.GetConjPath p2)).data → FlagKept st0 p1 p2 s →
          FlagKept st0 p1 p2 s') := by
  have hsorted : (sortByPathId s (GetCoveringPaths s edge)).Pairwise
      (fun a b => (st0.path a).id ≤ (st0.path b).id) := by
    refine (pairwise_sortByPathId s _).imp ?_
    intro a b hab
    rw [← (hs.2.2.1 a).2, ← (hs.2.2.1 b).2]
    exact hab
  obtain ⟨s', o1, o2, o3, o4⟩ := RemoveSimilarOuter_collapse g edge M f2 f3 f4 st0 p1 p2 D
    (sortByPathId s (GetCoveringPaths s edge)) s hs
    (fun x hx => by
      obtain ⟨h1, h2, _⟩ := (mem_GetCoveringPaths s edge x).1 ((mem_sortByPathId _ _ _).1 hx)
      exact ⟨by rw [← hs.1]; exact h1, by rw [← hs.2.1]; exact h2⟩)
    (nodup_sortByPathId _ _ (nodup_GetCoveringPaths _ _)) hsorted
  refine ⟨s', ?_, o2, ?_, o4⟩
  · unfold RemoveSimilarAtEdge
    simp only []
    rw [o1]
    rfl
  · intro he
    by_cases hd : (s.path p2).data = []
    · exact o2.cleared p2 hd
    · have hk : (s.path p2).data = (st0.path p2).data := by
        rcases hs.2.2.2.1 p2 with ⟨h1, _⟩ | ⟨h1, _⟩
        · exact h1
        · exact absurd h1 hd
      refine o3 ((mem_sortByPathId _ _ _).2 ?_) ((mem_sortByPathId _ _ _).2 ?_) he
      · rw [mem_GetCoveringPaths]
        exact ⟨by rw [hs.1]; exact D.valid1, by rw [hs.2.1]; exact D.sub1,
          by rw [hs.2.2.2.2.2.1]; exact he⟩
      · rw [mem_GetCoveringPaths]
        exact ⟨by rw [hs.1]; exact D.valid2, by rw [hs.2.1]; exact D.sub2,
          by rw [hk, ← D.same_data]; exact he⟩

/-- After `p2` is cleared the flag fact is stable. -/
theorem FlagKept.stable {st0 s t : State} {p1 p2 : Nat} (hJ : FlagKept st0 p1 p2 s)
    (hd : (s.path p2).data = []) (h : Collapsed p1 s t) : FlagKept st0 p1 p2 t :=
  fun _ hov => h.2.2.2.2.1 p1 (hJ hd hov)

/-- The loop over the edges in the `del_only_equal` mode. -/
theorem RemoveSimilarEdges_collapse (g : Graph) (M : Nat) (f2 f3 f4 : Bool)
    (st0 : State) (p1 p2 : Nat) (D : DuplicatePair st0 p1 p2) :
    ∀ (l : List EdgeId) (s : State), Collapsed p1 st0 s →
      ∃ s', RemoveSimilarEdges g M true f2 f3 f4 l s = some s'
        ∧ Collapsed p1 s s'
        ∧ ((∃ e ∈ l, e ∈ (st0.path p1).data) → (s'.path p2).data = [])
        ∧ ((∀ e ∈ l, e ∉ (st0.path (st0.GetConjPath p2)).data) → FlagKept st0 p1 p2 s →
            FlagKept st0 p1 p2 s') := by
  intro l
  induction l with
  | nil =>
    intro s _
    exact ⟨s, rfl, Collapsed.refl _ _, fun ⟨e, he, _⟩ => absurd he (List.not_mem_nil _),
      fun _ h => h⟩
  | cons e rest ih =>
    intro s hs
    obtain ⟨s1, a1, a2, a3, a4⟩ := RemoveSimilarAtEdge_collapse g e M f2 f3 f4 st0 p1 p2 D s hs
    obtain ⟨s', r1, r2, r3, r4⟩ := ih s1 (hs.trans a2)
    refine ⟨s', ?_, a2.trans r2, ?_, ?_⟩
    · unfold RemoveSimilarEdges
      rw [a1]
      exact r1
    · rintro ⟨e0, he0, hin⟩
      rcases List.mem_cons.1 he0 with h | h
      · exact r2.cleared p2 (a3 (h ▸ hin))
      · exact r3 ⟨e0, h, hin⟩
    · intro hE hJ
      exact r4 (fun z hz => hE z (List.mem_cons_of_mem _ hz))
        (a4 (hE e (List.mem_cons_self _ _)) hJ)

theorem RemoveSimilarEdges_append (g : Graph) (M : Nat) (f1 f2 f3 f4 : Bool)
    (l1 l2 : List EdgeId) :
    ∀ s, RemoveSimilarEdges g M f1 f2 f3 f4 (l1 ++ l2) s
      = (RemoveSimilarEdges g M f1 f2 f3 f4 l1 s).bind (RemoveSimilarEdges g M f1 f2 f3 f4 l2) := by
  induction l1 with
  | nil => intro s; rfl
  | cons e rest ih =>
    intro s
    have e1 : RemoveSimilarEdges g M f1 f2 f3 f4 (e :: rest ++ l2) s
        = (RemoveSimilarAtEdge g M f1 f2 f3 f4 s e).bind
            (RemoveSimilarEdges g M f1 f2 f3 f4 (rest ++ l2)) := rfl
    have e2 : RemoveSimilarEdges g M f1 f2 f3 f4 (e :: rest) s
        = (RemoveSimilarAtEdge g M f1 f2 f3 f4 s e).bind
            (RemoveSimilarEdges g M f1 f2 f3 f4 rest) := rfl
    rw [e1, e2]
    cases RemoveSimilarAtEdge g M f1 f2 f3 f4 s e with
    | none => rfl
    | some s1 => exact ih s1

theorem sum_map_single (f : Nat → Nat) (a : Nat) :
    ∀ L : List Nat, L.Nodup → a ∈ L → f a = 1 → (∀ r ∈ L, r ≠ a → f r = 0) →
      (L.map f).sum = 1 := by
  intro L
  induction L with
  | nil => intro _ h; simp at h
  | cons x rest ih =>
    intro hnd ha hfa hz
    obtain ⟨hx, hr⟩ := List.nodup_cons.1 hnd
    rw [List.map_cons, List.sum_cons]
    by_cases hxa : x = a
    · subst hxa
      have : (rest.map f).sum = 0 := by
        apply List.sum_eq_zero
        intro v hv
        obtain ⟨r, hr1, hr2⟩ := List.mem_map.1 hv
        rw [← hr2]
        exact hz r (List.mem_cons_of_mem _ hr1) (fun h => hx (h ▸ hr1))
      rw [this, hfa]
    · have har : a ∈ rest := by
        rcases List.mem_cons.1 ha with h | h
        · exact absurd h.symm hxa
        · exact h
      rw [hz x (List.mem_cons_self _ _) hxa, ih hr har hfa
        (fun r h1 h2 => hz r (List.mem_cons_of_mem _ h1) h2)]

/-- After the collapse every edge of the surviving duplicate has coverage 1 when no
third subscribed path holds an edge of it and no edge occurs twice in it. -/
theorem GetCoverage_collapsed (st0 s : State) (p1 p2 : Nat) (D : DuplicatePair st0 p1 p2)
    (hs : Collapsed p1 st0 s) (hd : (s.path p2).data = [])
    (hnd : (st0.path p1).data.Nodup)
    (h3 : ∀ r ∈ st0.coverage_map, r ≠ p1 → r ≠ p2 →
      ∀ e ∈ (st0.path p1).data, e ∉ (st0.path r).data)
    (e : EdgeId) (he : e ∈ (st0.path p1).data) : GetCoverage s e = 1 := by
  unfold GetCoverage
  apply sum_map_single (fun p => (s.path p).data.count e) p1
  · exact List.Nodup.filter _ (List.nodup_range _)
  · rw [List.mem_filter, List.mem_range, hs.1, hs.2.1]
    exact ⟨D.valid1, by simpa using D.sub1⟩
  · show (s.path p1).data.count e = 1
    rw [hs.2.2.2.2.2.1]
    exact List.count_eq_one_of_mem hnd he
  · intro r hr hne
    show (s.path r).data.count e = 0
    rw [List.mem_filter, hs.2.1] at hr
    have hrs : r ∈ st0.coverage_map := by simpa using hr.2
    apply List.count_eq_zero.2
    by_cases hr2 : r = p2
    · rw [hr2, hd]; simp
    · rcases hs.2.2.2.1 r with ⟨h1, _⟩ | ⟨h1, _⟩
      · rw [h1]; exact h3 r hrs hne hr2 e he
      · rw [h1]; simp

/-- C1, amended.  Exact-duplicate collapse.  `p1` and `p2` are subscribed paths of a heap
with mutual conjugate links, with the same edges and gaps, `path_id(p1) < path_id(p2)`,
no third subscribed path has these edges and gaps, and the conjugate of `p1` has the
smallest id among the subscribed paths with its edges and gaps.  `e0` is an edge of the
two paths in the sorted edge list, `l1` an initial part of that list containing `e0`.
Then `RemoveSimilarPaths(M, true, f2, f3, f4)` returns, `p2` has size 0, `p1` keeps its
edges and gaps; if no edge of `l1` lies on the conjugate of `p2` (an edge of the duplicates
is visited before any edge of the opposite strand), `p1.is_overlap` is set whenever
`p2.is_overlap` was set; and if no third subscribed path holds an edge of the sequence and
no edge occurs twice in it, every edge of the sequence has coverage 1. -/
theorem RemoveSimilarPaths_duplicate_collapse (g : Graph) (st : State) (M : Nat)
    (f2 f3 f4 : Bool) (p1 p2 : Nat) (e0 : EdgeId) (l1 l2 : List EdgeId)
    (D : DuplicatePair st p1 p2) (he0 : e0 ∈ (st.path p1).data)
    (hsplit : GetSortedEdges g = l1 ++ l2) (hl1 : e0 ∈ l1) :
    ∃ st', RemoveSimilarPaths g st M true f2 f3 f4 = some st'
      ∧ (st'.path p2).Size = 0
      ∧ (st'.path p1).data = (st.path p1).data ∧ (st'.path p1).gaps = (st.path p1).gaps
      ∧ ((∀ e ∈ l1, e ∉ (st.path (st.GetConjPath p2)).data) →
          (st.path p2).IsOverlap = true → (st'.path p1).IsOverlap = true)
      ∧ ((st.path p1).data.Nodup →
          (∀ r ∈ st.coverage_map, r ≠ p1 → r ≠ p2 →
            ∀ e ∈ (st.path p1).data, e ∉ (st.path r).data) →
          ∀ e ∈ (st.path p1).data, GetCoverage st' e = 1) := by
  obtain ⟨s1, a1, a2, a3, a4⟩ := RemoveSimilarEdges_collapse g M f2 f3 f4 st p1 p2 D l1 st
    (Collapsed.refl p1 st)
  obtain ⟨s', b1, b2, _, _⟩ := RemoveSimilarEdges_collapse g M f2 f3 f4 st p1 p2 D l2 s1 a2
  have hd1 : (s1.path p2).data = [] := a3 ⟨e0, hl1, he0⟩
  have hd : (s'.path p2).data = [] := b2.cleared p2 hd1
  have hC := a2.trans b2
  refine ⟨s', ?_, ?_, hC.2.2.2.2.2.1, hC.2.2.2.2.2.2, ?_, ?_⟩
  · unfold RemoveSimilarPaths
    rw [hsplit, RemoveSimilarEdges_append, a1]
    exact b1
  · unfold BidirectionalPath.Size
    rw [hd]; rfl
  · intro hE hov
    have hJ0 : FlagKept st p1 p2 st := by
      intro h0 _
      rw [← D.same_data] at h0
      rw [h0] at he0
      simp at he0
    exact (a4 hE hJ0).stable hd1 b2 hd hov
  · intro hnd h3 e he
    exact GetCoverage_collapsed st s' p1 p2 D hC hd hnd h3 e he

/-- The two equal paths of `exStateDuplicates` form a duplicate pair. -/
theorem exStateDuplicates_pair : DuplicatePair exStateDuplicates 0 2 :=
  ⟨by
      intro r hr
      have : r < 4 := hr
      interval_cases r <;> decide,
    by decide, by decide, by decide, by decide, by decide, by decide, by decide,
    by decide, by decide⟩

/-- Witness of C1, amended: two equal paths `(1, 3)`, the second flagged `is_overlap`;
the edge 1 is visited first. -/
theorem RemoveSimilarPaths_duplicate_collapse_witness :
    ∃ st', RemoveSimilarPaths (exGraph 13) exStateDuplicates 0 true false false false = some st'
      ∧ (st'.path 2).Size = 0 ∧ (st'.path 0).data = [1, 3]
      ∧ (st'.path 0).IsOverlap = true
      ∧ GetCoverage st' 1 = 1 ∧ GetCoverage st' 3 = 1 := by
  obtain ⟨st', h1, h2, h3, _, h5, h6⟩ := RemoveSimilarPaths_duplicate_collapse (exGraph 13)
    exStateDuplicates 0 false false false 0 2 1 [1] [2, 3, 4, 5, 6, 7, 8, 9, 10, 11, 12, 13, 14]
    exStateDuplicates_pair (by decide) (by decide) (by decide)
  have h7 := h6 (by decide) (by decide)
  exact ⟨st', h1, h2, h3, h5 (by decide) (by decide), h7 1 (by decide), h7 3 (by decide)⟩

/-- Counterexample to C1 as stated: three equal subscribed paths `(1, 3)` at the addresses 0, 2, 4
with the ids 0, 2, 4 (and their conjugates).  The paths at 2 and 4 are distinct, have the
same edges and gaps, cover the common graph edge 1, and the path at 2 has the smaller id;
after `RemoveSimilarPaths(0, true, false, false, false)` both are cleared (by the path at
0), so the path at 2 does not keep its edge sequence. -/
theorem RemoveSimilarPaths_third_duplicate_clears_both :
    2 ∈ (exStateTriple [1, 3]).coverage_map ∧ 4 ∈ (exStateTriple [1, 3]).coverage_map
    ∧ ((exStateTriple [1, 3]).path 2).id < ((exStateTriple [1, 3]).path 4).id
    ∧ ((exStateTriple [1, 3]).path 2).data = ((exStateTriple [1, 3]).path 4).data
    ∧ ((exStateTriple [1, 3]).path 2).gaps = ((exStateTriple [1, 3]).path 4).gaps
    ∧ 1 ∈ (exGraph 13).edges ∧ 1 ∈ ((exStateTriple [1, 3]).path 2).data
    ∧ ∃ st', RemoveSimilarPaths (exGraph 13) (exStateTriple [1, 3]) 0 true false false false
        = some st'
      ∧ (st'.path 4).Size = 0 ∧ (st'.path 2).Size = 0
      ∧ (st'.path 2).data ≠ ((exStateTriple [1, 3]).path 2).data := by
  refine ⟨by decide, by decide, by decide, by decide, by decide, by decide, by decide,
    _, rfl, ?_, ?_, ?_⟩ <;> decide

/-! ## The pass that only handles exact duplicates -/

theorem State.path_store (st : State) (p r : Nat) (x : BidirectionalPath) :
    (st.store p x).path r = if r = p ∧ p < st.heap.length then x else st.path r := by
  by_cases hr : r = p
  · subst hr
    by_cases hp : r < st.heap.length
    · rw [State.path_store_eq _ _ _ hp, if_pos ⟨rfl, hp⟩]
    · rw [if_neg (fun h => hp h.2)]
      simp only [State.path, State.store, List.getD_eq_getElem?_getD, List.getElem?_set]
      rw [if_pos trivial, if_neg hp, List.getElem?_eq_none (by omega)]
  · rw [State.path_store_ne _ _ _ _ hr, if_neg (fun h => hr h.1)]

theorem Untrimmed.same (s : State) : Untrimmed s s :=
  ⟨rfl, rfl, fun _ => Or.inl ⟨rfl, rfl⟩⟩

theorem Untrimmed.chain {s t u : State} (h1 : Untrimmed s t) (h2 : Untrimmed t u) :
    Untrimmed s u := by
  refine ⟨h2.1.trans h1.1, h2.2.1.trans h1.2.1, fun r => ?_⟩
  rcases h2.2.2 r with ⟨a, b⟩ | h
  · rcases h1.2.2 r with ⟨c, d⟩ | h'
    · exact Or.inl ⟨a.trans c, b.trans d⟩
    · right
      unfold BidirectionalPath.Size at *
      rw [a]; exact h'
  · exact Or.inr h

theorem Untrimmed_SetOverlap (s : State) (x : Nat) (v : Bool) :
    Untrimmed s (SetOverlap s x v) := by
  refine ⟨by simp [SetOverlap], rfl, fun r => Or.inl ?_⟩
  unfold SetOverlap
  rw [State.path_store]
  split <;> [skip; exact ⟨rfl, rfl⟩]
  rename_i h
  rw [h.1]
  exact ⟨rfl, rfl⟩

theorem Untrimmed_Clear (s : State) (y : Nat) : Untrimmed s (Clear s y) := by
  refine ⟨Clear_heap_length _ _, rfl, fun r => ?_⟩
  unfold Clear
  simp only []
  rw [State.path_store]
  split
  · exact Or.inr rfl
  · rw [State.path_store]
    split
    · exact Or.inr rfl
    · exact Or.inl ⟨rfl, rfl⟩

theorem RemoveSimilarInner_equal_only (g : Graph) (edge : EdgeId) (M : Nat) (f2 f3 f4 : Bool)
    (path1 : Nat) :
    ∀ (rest : List Nat) (s : State) (cov : List Nat),
      RemoveSimilarInner g edge M true f2 f3 f4 path1 rest (s, cov)
        = some (EqualOnlyInner edge path1 rest (s, cov))
      ∧ Untrimmed s (EqualOnlyInner edge path1 rest (s, cov)).1 := by
  intro rest
  induction rest with
  | nil => intro s cov; exact ⟨rfl, Untrimmed.same s⟩
  | cons y rest ih =>
    intro s cov
    by_cases hy : y ∈ cov
    · by_cases heq : (s.path path1).Equal (s.path y) = true
      · have e1 : RemoveSimilarInner g edge M true f2 f3 f4 path1 (y :: rest) (s, cov)
            = RemoveSimilarInner g edge M true f2 f3 f4 path1 rest
                (Clear (if (s.path y).IsOverlap = true then SetOverlap s path1 true else s) y,
                  GetCoveringPaths
                    (Clear (if (s.path y).IsOverlap = true then SetOverlap s path1 true else s) y)
                    edge) := by
          conv_lhs => unfold RemoveSimilarInner
          rw [if_neg (not_not.2 hy), if_pos heq]
        have e2 : EqualOnlyInner edge path1 (y :: rest) (s, cov)
            = EqualOnlyInner edge path1 rest
                (Clear (if (s.path y).IsOverlap = true then SetOverlap s path1 true else s) y,
                  GetCoveringPaths
                    (Clear (if (s.path y).IsOverlap = true then SetOverlap s path1 true else s) y)
                    edge) := by
          conv_lhs => unfold EqualOnlyInner
          rw [if_pos ⟨hy, heq⟩]
        rw [e1, e2]
        refine ⟨(ih _ _).1, Untrimmed.chain ?_ (ih _ _).2⟩
        refine Untrimmed.chain ?_ (Untrimmed_Clear _ _)
        split
        · exact Untrimmed_SetOverlap _ _ _
        · exact Untrimmed.same _
      · have e1 : RemoveSimilarInner g edge M true f2 f3 f4 path1 (y :: rest) (s, cov)
            = RemoveSimilarInner g edge M true f2 f3 f4 path1 rest (s, cov) := by
          conv_lhs => unfold RemoveSimilarInner
          rw [if_neg (not_not.2 hy), if_neg heq, if_pos (Or.inr (Or.inr (Or.inr rfl)))]
        have e2 : EqualOnlyInner edge path1 (y :: rest) (s, cov)
            = EqualOnlyInner edge path1 rest (s, cov) := by
          conv_lhs => unfold EqualOnlyInner
          rw [if_neg (fun h => heq h.2)]
        rw [e1, e2]
        exact ih s cov
    · have e1 : RemoveSimilarInner g edge M true f2 f3 f4 path1 (y :: rest) (s, cov)
          = RemoveSimilarInner g edge M true f2 f3 f4 path1 rest (s, cov) := by
        conv_lhs => unfold RemoveSimilarInner
        rw [if_pos hy]
      have e2 : EqualOnlyInner edge path1 (y :: rest) (s, cov)
          = EqualOnlyInner edge path1 rest (s, cov) := by
        conv_lhs => unfold EqualOnlyInner
        rw [if_neg (fun h => hy h.1)]
      rw [e1, e2]
      exact ih s cov

theorem RemoveSimilarOuter_equal_only (g : Graph) (edge : EdgeId) (M : Nat) (f2 f3 f4 : Bool) :
    ∀ (L : List Nat) (s : State) (cov : List Nat),
      RemoveSimilarOuter g edge M true f2 f3 f4 L (s, cov)
        = some (EqualOnlyOuter edge L (s, cov))
      ∧ Untrimmed s (EqualOnlyOuter edge L (s, cov)).1 := by
  intro L
  induction L with
  | nil => intro s cov; exact ⟨rfl, Untrimmed.same s⟩
  | cons x rest ih =>
    intro s cov
    by_cases hx : x ∈ cov
    · have e1 : RemoveSimilarOuter g edge M true f2 f3 f4 (x :: rest) (s, cov)
          = (RemoveSimilarInner g edge M true f2 f3 f4 x rest (s, cov)).bind
              (RemoveSimilarOuter g edge M true f2 f3 f4 rest) := by
        conv_lhs => unfold RemoveSimilarOuter
        rw [if_neg (not_not.2 hx)]
      have e2 : EqualOnlyOuter edge (x :: rest) (s, cov)
          = EqualOnlyOuter edge rest (EqualOnlyInner edge x rest (s, cov)) := by
        conv_lhs => unfold EqualOnlyOuter
        rw [if_pos hx]
      rw [e1, e2, (RemoveSimilarInner_equal_only g edge M f2 f3 f4 x rest s cov).1]
      simp only [Option.bind]
      exact ⟨(ih _ _).1,
        (RemoveSimilarInner_equal_only g edge M f2 f3 f4 x rest s cov).2.chain (ih _ _).2⟩
    · have e1 : RemoveSimilarOuter g edge M true f2 f3 f4 (x :: rest) (s, cov)
          = RemoveSimilarOuter g edge M true f2 f3 f4 rest (s, cov) := by
        conv_lhs => unfold RemoveSimilarOuter
        rw [if_pos hx]
      have e2 : EqualOnlyOuter edge (x :: rest) (s, cov)
          = EqualOnlyOuter edge rest (s, cov) := by
        conv_lhs => unfold EqualOnlyOuter
        rw [if_neg hx]
      rw [e1, e2]
      exact ih s cov

theorem RemoveSimilarEdges_equal_only (g : Graph) (M : Nat) (f2 f3 f4 : Bool) :
    ∀ (l : List EdgeId) (s : State),
      RemoveSimilarEdges g M true f2 f3 f4 l s = some (EqualOnlyEdges l s)
      ∧ Untrimmed s (EqualOnlyEdges l s) := by
  intro l
  induction l with
  | nil => intro s; exact ⟨rfl, Untrimmed.same s⟩
  | cons e rest ih =>
    intro s
    have h := RemoveSimilarOuter_equal_only g e M f2 f3 f4
      (sortByPathId s (GetCoveringPaths s e)) s (GetCoveringPaths s e)
    have e1 : RemoveSimilarEdges g M true f2 f3 f4 (e :: rest) s
        = ((RemoveSimilarOuter g e M true f2 f3 f4 (sortByPathId s (GetCoveringPaths s e))
            (s, GetCoveringPaths s e)).map (fun r => r.1)).bind
            (RemoveSimilarEdges g M true f2 f3 f4 rest) := rfl
    have e2 : EqualOnlyEdges (e :: rest) s
        = EqualOnlyEdges rest (EqualOnlyOuter e (sortByPathId s (GetCoveringPaths s e))
            (s, GetCoveringPaths s e)).1 := rfl
    rw [e1, e2, h.1]
    simp only [Option.map, Option.bind]
    exact ⟨(ih _).1, h.2.chain (ih _).2⟩

/-- C11. `del_only_equal` does no cut work.  For every state (container, coverage map),
every `M` and all values of the other three flags, `RemoveSimilarPaths(M, true, s, b, a)`
returns, and what it returns is the result of the pass that only tests the covering paths
for equality and clears duplicates: it does not depend on `M` or on the three flags and
`CompareAndCut` has no part in it.  In the result every path has exactly its original
edges and gaps or has size 0, and the heap and the container hold the same objects. -/
theorem RemoveSimilarPaths_del_only_equal (g : Graph) (st : State) (M : Nat) (f2 f3 f4 : Bool) :
    RemoveSimilarPaths g st M true f2 f3 f4 = some (EqualOnlyEdges (GetSortedEdges g) st)
    ∧ (EqualOnlyEdges (GetSortedEdges g) st).heap.length = st.heap.length
    ∧ (EqualOnlyEdges (GetSortedEdges g) st).container = st.container
    ∧ ∀ r, (((EqualOnlyEdges (GetSortedEdges g) st).path r).data = (st.path r).data
          ∧ ((EqualOnlyEdges (GetSortedEdges g) st).path r).gaps = (st.path r).gaps)
        ∨ ((EqualOnlyEdges (GetSortedEdges g) st).path r).Size = 0 := by
  have h := RemoveSimilarEdges_equal_only g M f2 f3 f4 (GetSortedEdges g) st
  exact ⟨h.1, h.2.1, h.2.2.1, h.2.2.2⟩

/-! ## The branches of `RemoveOverlap` -/

theorem State.path_out_of_range (st : State) (r : Nat) (h : st.heap.length ≤ r) :
    st.path r = default := by
  simp [State.path, List.getD_eq_getElem?_getD, List.getElem?_eq_none h]

theorem SetOverlapedBeginTo_path (s : State) (p t r : Nat) :
    (SetOverlapedBeginTo s p t).path r
      = if r = p ∧ p < s.heap.length then { s.path p with has_overlaped_begin := true }
        else s.path r := by
  unfold SetOverlapedBeginTo
  rw [State.path_store]

theorem SetOverlapedEndTo_path (s : State) (p t r : Nat) :
    (SetOverlapedEndTo s p t).path r
      = if r = p ∧ p < s.heap.length then { s.path p with has_overlaped_end := true }
        else s.path r := by
  unfold SetOverlapedEndTo
  rw [State.path_store]

/-- The first branch of `RemoveOverlap`. -/
theorem RemoveOverlap_reuse_first (g : Graph) (st : State) (path1 path2 k : Nat)
    (h1 : (st.path path1).IsOverlap = true) (hk : k = (st.path path1).Size)
    (hk2 : k ≤ (st.path (st.GetConjPath path2)).Size) :
    RemoveOverlap g st path1 path2 k
      = some (SetOverlapedBeginTo (popBackEdges st (st.GetConjPath path2) k) path2 path1) := by
  unfold RemoveOverlap
  simp only []
  rw [if_pos ⟨h1, hk⟩, PopBack_eq_some _ _ _ hk2]
  rfl

/-- The second branch of `RemoveOverlap`. -/
theorem RemoveOverlap_reuse_second (g : Graph) (st : State) (path1 path2 k : Nat)
    (h1 : ¬ ((st.path path1).IsOverlap = true ∧ k = (st.path path1).Size))
    (h2 : (st.path path2).IsOverlap = true) (hk : (st.path path2).Size = k)
    (hk1 : k ≤ (st.path path1).Size) :
    RemoveOverlap g st path1 path2 k
      = some (SetOverlapedEndTo (popBackEdges st path1 k) path1 path2) := by
  unfold RemoveOverlap
  simp only []
  rw [if_neg h1, if_pos ⟨h2, hk⟩, PopBack_eq_some _ _ _ hk1]
  rfl

/-- The last branch of `RemoveOverlap`: nothing is done. -/
theorem RemoveOverlap_nothing (g : Graph) (st : State) (path1 path2 k : Nat)
    (h1 : ¬ ((st.path path1).IsOverlap = true ∧ k = (st.path path1).Size))
    (h2 : ¬ ((st.path path2).IsOverlap = true ∧ (st.path path2).Size = k))
    (h3 : ¬ (k < (st.path path2).Size ∧ k < (st.path path1).Size)) :
    RemoveOverlap g st path1 path2 k = some st := by
  unfold RemoveOverlap
  simp only []
  rw [if_neg h1, if_neg h2, if_neg h3]

/-- The extraction branch of `RemoveOverlap`. -/
theorem RemoveOverlap_extract (g : Graph) (st : State) (path1 path2 k : Nat)
    (hp : DistinctPairs st path1 path2)
    (hinv : ∀ e ∈ (st.path path1).data, g.conjugate (g.conjugate e) = e)
    (htwin : (st.path (st.GetConjPath path2)).Size = (st.path path2).Size)
    (hk : 0 < k) (hk1 : k < (st.path path1).Size) (hk2 : k < (st.path path2).Size) :
    ∃ st', RemoveOverlap g st path1 path2 k = some st' ∧ Extracted g st path1 path2 k st' := by
  obtain ⟨f1, f2, f3, f4, f5, f6, f7, f8, f9, f10, f11, f12⟩ := hp.facts
  unfold BidirectionalPath.Size at *
  obtain ⟨s0, hs0, hi0⟩ := ExtractInv_init g st path1 path2 hp (by omega) (by omega)
  obtain ⟨s1, hs1, hi1⟩ := RemoveOverlapLoop_spec g st path1 path2 hp hinv (k - 1) 1 s0
    (le_refl _) (by omega) (by omega) hi0
  have ek : 1 + (k - 1) = k := by omega
  rw [ek] at hi1
  unfold ExtractInv at hi1
  obtain ⟨i1, i2, i3, i4, i5, i6, i7, i8, i9, i10⟩ := hi1
  obtain ⟨sa, ha, hb⟩ := Option.bind_eq_some.1 hs0
  have e1 : (newPath st (st.path path1).Head).2 = st.heap.length := rfl
  have e2 : (newPath (newPath st (st.path path1).Head).1
      (g.conjugate (st.path path1).Head)).2 = st.heap.length + 1 := by
    simp [newPath]
  unfold RemoveOverlap
  simp only [BidirectionalPath.Size]
  rw [if_neg (by omega), if_neg (by omega), if_pos ⟨hk2, hk1⟩]
  simp only [e1, e2]
  rw [ha]
  simp only [Option.bind]
  rw [hb]
  simp only [hs1, Option.map]
  refine ⟨_, rfl, ?_⟩
  -- the object at `r` after the five final updates
  have hP : ∀ r, (SetOverlapedBeginTo (SetOverlapedEndTo (Subscribe (SetOverlap
      (Subscribe s1 st.heap.length) st.heap.length true) (st.heap.length + 1)) path1
      st.heap.length) path2 st.heap.length).path r
      = if r = path2 then { s1.path path2 with has_overlaped_begin := true }
        else if r = path1 then { s1.path path1 with has_overlaped_end := true }
        else if r = st.heap.length then { s1.path st.heap.length with overlap := true }
        else s1.path r := by
    intro r
    have hl1 : (Subscribe s1 st.heap.length).heap.length = st.heap.length + 2 := by
      rw [Subscribe_heap]; exact i1
    have hl2 : (Subscribe (SetOverlap (Subscribe s1 st.heap.length) st.heap.length true)
        (st.heap.length + 1)).heap.length = st.heap.length + 2 := by
      rw [Subscribe_heap]; simp only [SetOverlap, State.heap_length_store]; exact hl1
    have hl3 : (SetOverlapedEndTo (Subscribe (SetOverlap (Subscribe s1 st.heap.length)
        st.heap.length true) (st.heap.length + 1)) path1 st.heap.length).heap.length
        = st.heap.length + 2 := by
      simp only [SetOverlapedEndTo, State.heap_length_store]; exact hl2
    have hY : ∀ r, (Subscribe (SetOverlap (Subscribe s1 st.heap.length) st.heap.length true)
        (st.heap.length + 1)).path r
        = if r = st.heap.length then { s1.path st.heap.length with overlap := true }
          else s1.path r := by
      intro r
      rw [Subscribe_path]
      unfold SetOverlap
      rw [State.path_store]
      simp only [Subscribe_path]
      by_cases hr : r = st.heap.length
      · rw [if_pos ⟨hr, by rw [hl1]; omega⟩, if_pos hr]
      · rw [if_neg (fun h => hr h.1), if_neg hr]
    rw [SetOverlapedBeginTo_path, SetOverlapedEndTo_path, SetOverlapedEndTo_path, hY, hY, hY]
    by_cases hr2 : r = path2
    · subst hr2
      rw [if_pos ⟨rfl, by rw [hl3]; omega⟩, if_pos rfl, if_neg (fun h => f9 h.1.symm),
        if_neg (by omega)]
    · rw [if_neg (fun h => hr2 h.1), if_neg hr2]
      by_cases hr1 : r = path1
      · subst hr1
        rw [if_pos ⟨rfl, by rw [hl2]; omega⟩, if_pos rfl, if_neg (by omega)]
      · rw [if_neg (fun h => hr1 h.1), if_neg hr1]
  refine ⟨?_, ?_, ?_, ?_, ?_, ?_, ?_, ?_, ?_, ?_⟩
  · simp only [SetOverlapedBeginTo, SetOverlapedEndTo, SetOverlap, State.heap_length_store,
      Subscribe_heap]
    exact i1
  · simp only [SetOverlapedBeginTo, SetOverlapedEndTo, SetOverlap, State.container_store,
      Subscribe_container]
    exact i2
  · intro r
    simp only [SetOverlapedBeginTo, SetOverlapedEndTo, SetOverlap, State.coverage_map_store,
      mem_Subscribe, i3]
    tauto
  · rw [hP, if_neg f9, if_pos rfl, i4]
  · have g3 : st.GetConjPath path1 < st.heap.length := f3
    have g7 : st.GetConjPath path1 ≠ path1 := f7
    have g11 : st.GetConjPath path1 ≠ path2 := f11
    rw [hP, if_neg g11, if_neg g7, if_neg (by omega), i5]
  · have g4 : st.GetConjPath path2 < st.heap.length := f4
    have g8 : st.GetConjPath path2 ≠ path2 := f8
    have g10 : st.GetConjPath path2 ≠ path1 := fun h => f10 h.symm
    rw [hP, if_neg g8, if_neg g10, if_neg (by omega), i6]
  · rw [hP, if_pos rfl, i7]
  · rw [hP, if_neg (by omega), if_neg (by omega), if_pos rfl, i8]
  · rw [hP, if_neg (by omega), if_neg (by omega), if_neg (by omega), i9]
  · intro r h1 h2 h3 h4 h5 h6
    rw [hP, if_neg h3, if_neg h1, if_neg h5]
    by_cases hr : r < st.heap.length
    · exact i10 r hr h1 h2 h3 h4
    · rw [State.path_out_of_range s1 r (by rw [i1]; omega),
        State.path_out_of_range st r (by omega)]

/-- C13. `RemoveOverlap`, reuse of an existing overlap path.  `path1` and `path2` are paths
of different pairs with established conjugate links, the conjugate of `path2` has the size
of `path2`, and `k` is at most both sizes.  If `path1.is_overlap` and `k = size(path1)`,
`RemoveOverlap` returns with `path2` without its first `k` edges (and their gaps),
`path2.has_overlaped_begin` set, `path1` unchanged and no path added (same container, same
heap).  Otherwise, if `path2.is_overlap` and `k = size(path2)`, it returns with `path1`
without its last `k` edges, `path1.has_overlaped_end` set, `path2` unchanged and no path
added. -/
theorem RemoveOverlap_reuses_overlap_path (g : Graph) (st : State) (path1 path2 k : Nat)
    (hp : DistinctPairs st path1 path2)
    (htwin : (st.path (st.GetConjPath path2)).Size = (st.path path2).Size)
    (hk1 : k ≤ (st.path path1).Size) (hk2 : k ≤ (st.path path2).Size) :
    ((st.path path1).IsOverlap = true ∧ k = (st.path path1).Size →
      ∃ st', RemoveOverlap g st path1 path2 k = some st'
        ∧ (st'.path path2).data = (st.path path2).data.drop k
        ∧ (st'.path path2).gaps = (st.path path2).gaps.drop k
        ∧ (st'.path path2).has_overlaped_begin = true
        ∧ st'.path path1 = st.path path1
        ∧ st'.container = st.container ∧ st'.heap.length = st.heap.length)
    ∧ (¬ ((st.path path1).IsOverlap = true ∧ k = (st.path path1).Size) →
      (st.path path2).IsOverlap = true ∧ k = (st.path path2).Size →
      ∃ st', RemoveOverlap g st path1 path2 k = some st'
        ∧ (st'.path path1).data = (st.path path1).data.take ((st.path path1).Size - k)
        ∧ (st'.path path1).has_overlaped_end = true
        ∧ st'.path path2 = st.path path2
        ∧ st'.container = st.container ∧ st'.heap.length = st.heap.length) := by
  obtain ⟨f1, f2, f3, f4, f5, f6, f7, f8, f9, f10, f11, f12⟩ := hp.facts
  have g4 : st.GetConjPath path2 < st.heap.length := f4
  have hlen : ∀ p n, (popBackEdges st p n).heap.length = st.heap.length := by
    intro p n; simp [popBackEdges]
  constructor
  · rintro ⟨h1, hk⟩
    refine ⟨_, RemoveOverlap_reuse_first g st path1 path2 k h1 hk (by rw [htwin]; exact hk2), ?_⟩
    have hpop := popBackEdges_path st (st.GetConjPath path2) k
    have hc : (st.path (st.GetConjPath path2)).conj = path2 := f6
    have g8 : path2 ≠ st.GetConjPath path2 := Ne.symm f8
    have g10 : path1 ≠ st.GetConjPath path2 := f10
    refine ⟨?_, ?_, ?_, ?_, ?_, ?_⟩
    · rw [SetOverlapedBeginTo_path, if_pos ⟨rfl, by rw [hlen]; exact f2⟩,
        hpop path2 g4 (by rw [hc]; exact f2) (by rw [hc]; exact Ne.symm f8),
        if_neg g8, if_pos hc.symm]
    · rw [SetOverlapedBeginTo_path, if_pos ⟨rfl, by rw [hlen]; exact f2⟩,
        hpop path2 g4 (by rw [hc]; exact f2) (by rw [hc]; exact Ne.symm f8),
        if_neg g8, if_pos hc.symm]
    · rw [SetOverlapedBeginTo_path, if_pos ⟨rfl, by rw [hlen]; exact f2⟩]
    · rw [SetOverlapedBeginTo_path, if_neg (fun h => f9 h.1),
        hpop path1 g4 (by rw [hc]; exact f2) (by rw [hc]; exact Ne.symm f8),
        if_neg g10, if_neg (by rw [hc]; exact f9)]
    · simp [SetOverlapedBeginTo, popBackEdges]
    · simp [SetOverlapedBeginTo, popBackEdges]
  · rintro h1 ⟨h2, hk⟩
    refine ⟨_, RemoveOverlap_reuse_second g st path1 path2 k h1 h2 hk.symm hk1, ?_⟩
    have hpop := popBackEdges_path st path1 k
    refine ⟨?_, ?_, ?_, ?_, ?_⟩
    · rw [SetOverlapedEndTo_path, if_pos ⟨rfl, by rw [hlen]; exact f1⟩,
        hpop path1 f1 f3 f7, if_pos rfl]
      rfl
    · rw [SetOverlapedEndTo_path, if_pos ⟨rfl, by rw [hlen]; exact f1⟩]
    · rw [SetOverlapedEndTo_path, if_neg (fun h => f9 h.1.symm),
        hpop path2 f1 f3 f7, if_neg (Ne.symm f9), if_neg (Ne.symm f11)]
    · simp [SetOverlapedEndTo, popBackEdges]
    · simp [SetOverlapedEndTo, popBackEdges]

/-- Witness of C13: the overlap path `(7, 9)` and the path `(7, 9, 11)` with `k = 2`; the
second path is left with `(11)` and is marked at its beginning. -/
theorem RemoveOverlap_reuses_overlap_path_witness :
    ∃ st', RemoveOverlap (exGraph 5) exStateOverlapFirst 0 2 2 = some st'
      ∧ (st'.path 2).data = [11] ∧ (st'.path 2).has_overlaped_begin = true
      ∧ (st'.path 0).data = [7, 9] ∧ st'.container = [(0, 1), (2, 3)] := by
  obtain ⟨st', h1, h2, _, h4, h5, h6, _⟩ :=
    (RemoveOverlap_reuses_overlap_path (exGraph 5) exStateOverlapFirst 0 2 2
      (by decide) (by decide) (by decide) (by decide)).1 ⟨by decide, by decide⟩
  exact ⟨st', h1, h2, h4, by rw [h5]; decide, h6⟩

/-- C12, amended.  `RemoveOverlap`, the extraction case.  `path1` and `path2` are paths of
different pairs with established conjugate links, `conj` is an involution on the edges of
`path1`, the conjugate of `path2` has the size of `path2`, `k > 0`, and neither
(`path1.is_overlap` and `k = size(path1)`) nor (`path2.is_overlap` and `k = size(path2)`)
holds.  If `k < size(path1)` and `k < size(path2)`, `RemoveOverlap` appends one new pair to
the container whose first path holds the `k` trailing edges of `path1`, is flagged
`is_overlap` and is subscribed with its conjugate; `path1` loses its last `k` edges and is
marked at its end, `path2` loses its first `k` edges and is marked at its beginning.  If
`k` is not smaller than both sizes, `RemoveOverlap` returns the state unchanged. -/
theorem RemoveOverlap_extraction_case (g : Graph) (st : State) (path1 path2 k : Nat)
    (hp : DistinctPairs st path1 path2)
    (hinv : ∀ e ∈ (st.path path1).data, g.conjugate (g.conjugate e) = e)
    (htwin : (st.path (st.GetConjPath path2)).Size = (st.path path2).Size)
    (hk : 0 < k)
    (h1 : ¬ ((st.path path1).IsOverlap = true ∧ k = (st.path path1).Size))
    (h2 : ¬ ((st.path path2).IsOverlap = true ∧ k = (st.path path2).Size)) :
    (k < (st.path path1).Size ∧ k < (st.path path2).Size →
      ∃ st', RemoveOverlap g st path1 path2 k = some st'
        ∧ st'.container = st.container ++ [(st.heap.length, st.heap.length + 1)]
        ∧ (st'.path st.heap.length).data
            = (st.path path1).data.drop ((st.path path1).Size - k)
        ∧ (st'.path st.heap.length).IsOverlap = true
        ∧ (st'.path (st.heap.length + 1)).data
            = conjSeq g ((st.path path1).data.drop ((st.path path1).Size - k))
        ∧ st.heap.length ∈ st'.coverage_map ∧ st.heap.length + 1 ∈ st'.coverage_map
        ∧ (st'.path path1).data = (st.path path1).data.take ((st.path path1).Size - k)
        ∧ (st'.path path2).data = (st.path path2).data.drop k
        ∧ (st'.path path1).HasOverlapedEnd = true
        ∧ (st'.path path2).HasOverlapedBegin = true)
    ∧ (¬ (k < (st.path path1).Size ∧ k < (st.path path2).Size) →
      RemoveOverlap g st path1 path2 k = some st) := by
  constructor
  · rintro ⟨hk1, hk2⟩
    obtain ⟨st', hr, e1, e2, e3, e4, e5, e6, e7, e8, e9, e10⟩ :=
      RemoveOverlap_extract g st path1 path2 k hp hinv htwin hk hk1 hk2
    refine ⟨st', hr, e2, by rw [e8]; rfl, by rw [e8]; rfl, by rw [e9]; rfl,
      (e3 _).2 (Or.inr (Or.inl rfl)), (e3 _).2 (Or.inr (Or.inr rfl)), by rw [e4]; rfl,
      by rw [e7], by rw [e4]; rfl, by rw [e7]; rfl⟩
  · intro h3
    exact RemoveOverlap_nothing g st path1 path2 k h1 (fun h => h2 ⟨h.1, h.2.symm⟩)
      (fun h => h3 ⟨h.2, h.1⟩)

/-- Witness of C12, amended: `(1, 3, 5)` and `(3, 5, 7, 9)` with `k = 2` give the overlap
path `(3, 5)` and leave `(1)` and `(7, 9)`. -/
theorem RemoveOverlap_extraction_case_witness :
    ∃ st', RemoveOverlap (exGraph 5) (exState [1, 3, 5] [3, 5, 7, 9]) 0 2 2 = some st'
      ∧ (st'.path 4).data = [3, 5] ∧ (st'.path 4).IsOverlap = true
      ∧ (st'.path 0).data = [1] ∧ (st'.path 2).data = [7, 9] := by
  obtain ⟨st', h, _, h2, h3, _, _, _, h7, h8, _, _⟩ :=
    (RemoveOverlap_extraction_case (exGraph 5) (exState [1, 3, 5] [3, 5, 7, 9]) 0 2 2
      (by decide) (by decide) (by decide) (by decide) (by decide) (by decide)).1
      ⟨by decide, by decide⟩
  exact ⟨st', h, h2, h3, h7, h8⟩

/-- Counterexample to C12 as stated: `path1 = (1, 3)`, `path2 = (1, 3, 5)`, `k = 2`.  The
last two edges of `path1` are the first two edges of `path2`, `k > 0`, and neither path is
an overlap path, so neither exception of the claim holds; but `k = size(path1)`, the
third condition `k < size(path2) && k < size(path1)` of the code fails and `RemoveOverlap`
returns the state unchanged: no overlap path is created and nothing is popped. -/
theorem RemoveOverlap_whole_path_not_extracted :
    0 < 2
    ∧ ¬ (((exState [1, 3] [1, 3, 5]).path 0).IsOverlap = true
          ∧ 2 = ((exState [1, 3] [1, 3, 5]).path 0).Size)
    ∧ ¬ (((exState [1, 3] [1, 3, 5]).path 2).IsOverlap = true
          ∧ 2 = ((exState [1, 3] [1, 3, 5]).path 2).Size)
    ∧ ((exState [1, 3] [1, 3, 5]).path 0).data.drop 0 = ((exState [1, 3] [1, 3, 5]).path 2).data.take 2
    ∧ RemoveOverlap (exGraph 5) (exState [1, 3] [1, 3, 5]) 0 2 2
        = some (exState [1, 3] [1, 3, 5]) := by
  decide

/-! ## Partner selection in `FindAndRemovePathOverlap` -/

theorem FindOverlapLoop_append (st : State) (path1 : Nat) (l1 l2 : List Nat) :
    ∀ acc, FindOverlapLoop st path1 (l1 ++ l2) acc
      = FindOverlapLoop st path1 l2 (FindOverlapLoop st path1 l1 acc) := by
  induction l1 with
  | nil => intro acc; rfl
  | cons x rest ih =>
    intro acc
    obtain ⟨op, os⟩ := acc
    rw [List.cons_append]
    conv_lhs => unfold FindOverlapLoop
    conv_rhs => arg 4; unfold FindOverlapLoop
    dsimp only
    split
    · exact ih _
    · split
      · exact ih _
      · split
        · exact ih _
        · exact ih _

/-- One step of the loop keeps the loop state the best partner of the entries seen. -/
theorem BestPartner_step (st : State) (path1 : Nat) (l : List Nat) (x : Nat)
    (acc : Option Nat × Nat) (h : BestPartner st path1 l acc) :
    BestPartner st path1 (l ++ [x]) (FindOverlapLoop st path1 [x] acc) := by
  obtain ⟨op, os⟩ := acc
  unfold FindOverlapLoop FindOverlapLoop
  dsimp only
  by_cases hskip : IsSamePath st x path1 = true ∨ HasAlreadyOverlapedBegin (st.path x) = true
  · rw [if_pos hskip]
    have hne : ¬ Eligible st path1 x := by
      intro he
      rcases hskip with h1 | h1
      · rw [he.1] at h1; exact Bool.false_ne_true h1
      · rw [he.2] at h1; exact Bool.false_ne_true h1
    unfold BestPartner at h ⊢
    cases op with
    | none =>
      dsimp only at h ⊢
      refine ⟨h.1, fun z hz => ?_⟩
      rcases List.mem_append.1 hz with hz | hz
      · exact h.2 z hz
      · rw [List.mem_singleton.1 hz]; exact hne
    | some y =>
      dsimp only at h ⊢
      obtain ⟨h1, h2, h3, h4, h5⟩ := h
      refine ⟨List.mem_append_left _ h1, h2, h3, fun z hz he => ?_, fun z hz he => ?_⟩
      · rcases List.mem_append.1 hz with hz | hz
        · exact h4 z hz he
        · rw [List.mem_singleton.1 hz] at he; exact absurd he hne
      · rcases List.mem_append.1 hz with hz | hz
        · exact h5 z hz he
        · rw [List.mem_singleton.1 hz] at he; exact absurd he hne
  · rw [if_neg hskip]
    have hel : Eligible st path1 x := by
      unfold Eligible
      constructor
      · cases hh : IsSamePath st x path1
        · rfl
        · exact absurd (Or.inl hh) hskip
      · cases hh : HasAlreadyOverlapedBegin (st.path x)
        · rfl
        · exact absurd (Or.inr hh) hskip
    by_cases hgt : OverlapEndSize (st.path path1) (st.path x) > os
    · rw [if_pos hgt]
      unfold BestPartner at h ⊢
      dsimp only
      refine ⟨List.mem_append_right _ (List.mem_singleton.2 rfl), hel, rfl,
        fun z hz he => ?_, fun z hz he heq => ?_⟩
      · rcases List.mem_append.1 hz with hz | hz
        · cases op with
          | none => exact absurd he (h.2 z hz)
          | some y =>
            dsimp only at h
            have := h.2.2.2.1 z hz he
            omega
        · rw [List.mem_singleton.1 hz]
      · rcases List.mem_append.1 hz with hz | hz
        · cases op with
          | none => exact absurd he (h.2 z hz)
          | some y =>
            dsimp only at h
            have := h.2.2.2.1 z hz he
            omega
        · rw [List.mem_singleton.1 hz]
    · rw [if_neg hgt]
      cases op with
      | none =>
        unfold BestPartner at h
        dsimp only at h
        have hos : os = 0 := h.1
        have h0 : OverlapEndSize (st.path path1) (st.path x) = os := by omega
        rw [if_pos ⟨h0, rfl⟩]
        unfold BestPartner
        dsimp only
        refine ⟨List.mem_append_right _ (List.mem_singleton.2 rfl), hel, h0.symm,
          fun z hz he => ?_, fun z hz he _ => ?_⟩
        · rcases List.mem_append.1 hz with hz | hz
          · exact absurd he (h.2 z hz)
          · rw [List.mem_singleton.1 hz, h0]
        · rcases List.mem_append.1 hz with hz | hz
          · exact absurd he (h.2 z hz)
          · rw [List.mem_singleton.1 hz]
      | some y =>
        unfold BestPartner at h
        dsimp only at h
        obtain ⟨h1, h2, h3, h4, h5⟩ := h
        by_cases htie : OverlapEndSize (st.path path1) (st.path x) = os
            ∧ (st.path x).id < (st.path y).id
        · rw [if_pos ⟨htie.1, by simpa [Option.all] using htie.2⟩]
          unfold BestPartner
          dsimp only
          refine ⟨List.mem_append_right _ (List.mem_singleton.2 rfl), hel, htie.1.symm,
            fun z hz he => ?_, fun z hz he heq => ?_⟩
          · rcases List.mem_append.1 hz with hz | hz
            · exact h4 z hz he
            · rw [List.mem_singleton.1 hz, htie.1]
          · rcases List.mem_append.1 hz with hz | hz
            · have := h5 z hz he heq
              omega
            · rw [List.mem_singleton.1 hz]
        · rw [if_neg (by
            intro hc
            apply htie
            exact ⟨hc.1, by simpa [Option.all] using hc.2⟩)]
          unfold BestPartner
          dsimp only
          refine ⟨List.mem_append_left _ h1, h2, h3, fun z hz he => ?_, fun z hz he heq => ?_⟩
          · rcases List.mem_append.1 hz with hz | hz
            · exact h4 z hz he
            · rw [List.mem_singleton.1 hz]; omega
          · rcases List.mem_append.1 hz with hz | hz
            · exact h5 z hz he heq
            · rw [List.mem_singleton.1 hz] at heq ⊢
              by_contra hlt
              exact htie ⟨heq, by omega⟩

/-- The loop of `FindAndRemovePathOverlap` computes the best eligible partner. -/
theorem FindOverlapLoop_best (st : State) (path1 : Nat) :
    ∀ (l2 l1 : List Nat) (acc : Option Nat × Nat), BestPartner st path1 l1 acc →
      BestPartner st path1 (l1 ++ l2) (FindOverlapLoop st path1 l2 acc) := by
  intro l2
  induction l2 with
  | nil => intro l1 acc h; rw [List.append_nil]; exact h
  | cons x rest ih =>
    intro l1 acc h
    have h1 := BestPartner_step st path1 l1 x acc h
    have h2 := ih (l1 ++ [x]) _ h1
    rw [List.append_assoc, List.singleton_append] at h2
    have e : FindOverlapLoop st path1 (x :: rest) acc
        = FindOverlapLoop st path1 rest (FindOverlapLoop st path1 [x] acc) :=
      FindOverlapLoop_append st path1 [x] rest acc
    rw [e]
    exact h2

theorem BestPartner_nil (st : State) (path1 : Nat) : BestPartner st path1 [] (none, 0) :=
  ⟨rfl, fun _ h => absurd h (List.not_mem_nil _)⟩

theorem FindAndRemovePathOverlap_unfold (g : Graph) (st : State) (path1 M : Nat) :
    FindAndRemovePathOverlap g st path1 M
      = if toInt32 (st.path path1).Size - 1 ≤ 0
          ∨ GetCoverage st ((st.path path1).At (toSizeT (toInt32 (st.path path1).Size - 1))) ≤ 1
          ∨ HasAlreadyOverlapedEnd (st.path path1) = true then some st
        else
          match (FindOverlapLoop st path1 (GetCoveringPaths st
            ((st.path path1).At (toSizeT (toInt32 (st.path path1).Size - 1)))) (none, 0)).1 with
          | none => some st
          | some overlap_path =>
            if (FindOverlapLoop st path1 (GetCoveringPaths st
              ((st.path path1).At (toSizeT (toInt32 (st.path path1).Size - 1)))) (none, 0)).2 > 0
            then RemoveOverlap g st path1 overlap_path (FindOverlapLoop st path1
              (GetCoveringPaths st ((st.path path1).At
                (toSizeT (toInt32 (st.path path1).Size - 1)))) (none, 0)).2
            else some st := rfl

theorem RemoveOverlapCall_unfold (st : State) (path1 : Nat) :
    RemoveOverlapCall st path1
      = if toInt32 (st.path path1).Size - 1 ≤ 0
          ∨ GetCoverage st ((st.path path1).At (toSizeT (toInt32 (st.path path1).Size - 1))) ≤ 1
          ∨ HasAlreadyOverlapedEnd (st.path path1) = true then none
        else
          match (FindOverlapLoop st path1 (GetCoveringPaths st
            ((st.path path1).At (toSizeT (toInt32 (st.path path1).Size - 1)))) (none, 0)).1 with
          | none => none
          | some overlap_path =>
            if (FindOverlapLoop st path1 (GetCoveringPaths st
              ((st.path path1).At (toSizeT (toInt32 (st.path path1).Size - 1)))) (none, 0)).2 > 0
            then some (overlap_path, (FindOverlapLoop st path1
              (GetCoveringPaths st ((st.path path1).At
                (toSizeT (toInt32 (st.path path1).Size - 1)))) (none, 0)).2)
            else none := rfl

/-- `FindAndRemovePathOverlap` is the call of `RemoveOverlap` listed by `RemoveOverlapCall`,
and returns the state unchanged when there is none. -/
theorem FindAndRemovePathOverlap_eq_call (g : Graph) (st : State) (path1 M : Nat) :
    FindAndRemovePathOverlap g st path1 M
      = match RemoveOverlapCall st path1 with
        | none => some st
        | some c => RemoveOverlap g st path1 c.1 c.2 := by
  rw [FindAndRemovePathOverlap_unfold, RemoveOverlapCall_unfold]
  by_cases hg : toInt32 (st.path path1).Size - 1 ≤ 0
      ∨ GetCoverage st ((st.path path1).At (toSizeT (toInt32 (st.path path1).Size - 1))) ≤ 1
      ∨ HasAlreadyOverlapedEnd (st.path path1) = true
  · rw [if_pos hg, if_pos hg]
  · rw [if_neg hg, if_neg hg]
    generalize FindOverlapLoop st path1 (GetCoveringPaths st
      ((st.path path1).At (toSizeT (toInt32 (st.path path1).Size - 1)))) (none, 0) = r
    obtain ⟨op, os⟩ := r
    cases op with
    | none => rfl
    | some y =>
      by_cases hk : os > 0
      · simp only [if_pos hk]
      · simp only [if_neg hk]

/-- The arguments of the call, read off the definition. -/
theorem RemoveOverlapCall_eq_some (st : State) (path1 p2 k : Nat) :
    RemoveOverlapCall st path1 = some (p2, k) ↔
      ¬ (toInt32 (st.path path1).Size - 1 ≤ 0
          ∨ GetCoverage st ((st.path path1).At (toSizeT (toInt32 (st.path path1).Size - 1))) ≤ 1
          ∨ HasAlreadyOverlapedEnd (st.path path1) = true)
      ∧ FindOverlapLoop st path1 (GetCoveringPaths st
          ((st.path path1).At (toSizeT (toInt32 (st.path path1).Size - 1)))) (none, 0)
          = (some p2, k)
      ∧ 0 < k := by
  rw [RemoveOverlapCall_unfold]
  by_cases hg : toInt32 (st.path path1).Size - 1 ≤ 0
      ∨ GetCoverage st ((st.path path1).At (toSizeT (toInt32 (st.path path1).Size - 1))) ≤ 1
      ∨ HasAlreadyOverlapedEnd (st.path path1) = true
  · rw [if_pos hg]
    constructor
    · intro h; exact absurd h (by simp)
    · intro h; exact absurd hg h.1
  · rw [if_neg hg]
    generalize FindOverlapLoop st path1 (GetCoveringPaths st
      ((st.path path1).At (toSizeT (toInt32 (st.path path1).Size - 1)))) (none, 0) = r
    obtain ⟨op, os⟩ := r
    cases op with
    | none =>
      constructor
      · intro h; exact absurd h (by simp)
      · intro h; exact absurd h.2.1 (by simp)
    | some y =>
      by_cases hk : os > 0
      · simp only [if_pos hk, Option.some.injEq, Prod.mk.injEq]
        constructor
        · rintro ⟨h1, h2⟩
          exact ⟨hg, ⟨h1, h2⟩, by omega⟩
        · rintro ⟨_, ⟨h1, h2⟩, _⟩
          exact ⟨h1, h2⟩
      · simp only [if_neg hk]
        constructor
        · intro h; exact absurd h (by simp)
        · rintro ⟨_, h, hpos⟩
          simp only [Prod.mk.injEq] at h
          omega

/-- C14, amended.  Partner selection.  The path `p2` that `FindAndRemovePathOverlap(path1)`
passes to `RemoveOverlap` with the overlap size `k` covers the last edge of `path1`, is
eligible — `IsSamePath` is false: `path1` equals (same edges and gaps) neither `p2` nor the
conjugate of `p2`, so `p2` is not `path1`; and `p2` has no already-overlapped begin —, has
`k = path1.OverlapEndSize(p2)`, no eligible covering path has a larger overlap size, and
among the eligible covering paths with overlap size `k` it has the smallest path id.  If
the path ids of the eligible covering paths are pairwise different, the loop finds the
same `(p2, k)` in whatever order the covering paths are visited. -/
theorem FindAndRemovePathOverlap_partner (g : Graph) (st : State) (path1 M p2 k : Nat)
    (hcall : RemoveOverlapCall st path1 = some (p2, k)) :
    FindAndRemovePathOverlap g st path1 M = RemoveOverlap g st path1 p2 k
    ∧ p2 ∈ GetCoveringPaths st
        ((st.path path1).At (toSizeT (toInt32 (st.path path1).Size - 1)))
    ∧ IsSamePath st p2 path1 = false ∧ HasAlreadyOverlapedBegin (st.path p2) = false
    ∧ p2 ≠ path1
    ∧ k = OverlapEndSize (st.path path1) (st.path p2)
    ∧ (∀ x ∈ GetCoveringPaths st
          ((st.path path1).At (toSizeT (toInt32 (st.path path1).Size - 1))),
        Eligible st path1 x → OverlapEndSize (st.path path1) (st.path x) ≤ k)
    ∧ (∀ x ∈ GetCoveringPaths st
          ((st.path path1).At (toSizeT (toInt32 (st.path path1).Size - 1))),
        Eligible st path1 x → OverlapEndSize (st.path path1) (st.path x) = k →
        (st.path p2).id ≤ (st.path x).id)
    ∧ (∀ L : List Nat, L.Perm (GetCoveringPaths st
          ((st.path path1).At (toSizeT (toInt32 (st.path path1).Size - 1)))) →
        (∀ x y, Eligible st path1 x → Eligible st path1 y →
          (st.path x).id = (st.path y).id → x = y) →
        FindOverlapLoop st path1 L (none, 0) = (some p2, k)) := by
  obtain ⟨_, hr, hk⟩ := (RemoveOverlapCall_eq_some st path1 p2 k).1 hcall
  have hb := FindOverlapLoop_best st path1 (GetCoveringPaths st
    ((st.path path1).At (toSizeT (toInt32 (st.path path1).Size - 1)))) [] (none, 0)
    (BestPartner_nil st path1)
  rw [List.nil_append, hr] at hb
  unfold BestPartner at hb
  dsimp only at hb
  obtain ⟨b1, b2, b3, b4, b5⟩ := hb
  refine ⟨?_, b1, b2.1, b2.2, ?_, b3, b4, b5, ?_⟩
  · rw [FindAndRemovePathOverlap_eq_call, hcall]
  · intro hc
    have h1 := b2.1
    rw [hc] at h1
    simp [IsSamePath, BidirectionalPath.Equal] at h1
  · intro L hL hinj
    have hb' := FindOverlapLoop_best st path1 L [] (none, 0) (BestPartner_nil st path1)
    rw [List.nil_append] at hb'
    unfold BestPartner at hb'
    cases hres : FindOverlapLoop st path1 L (none, 0) with
    | mk op os =>
      rw [hres] at hb'
      cases op with
      | none =>
        dsimp only at hb'
        exact absurd b2 (hb'.2 p2 (hL.mem_iff.2 b1))
      | some y =>
        dsimp only at hb'
        obtain ⟨c1, c2, c3, c4, c5⟩ := hb'
        have hy := b4 y (hL.mem_iff.1 c1) c2
        have hp := c4 p2 (hL.mem_iff.2 b1) b2
        have hos : os = k := by omega
        have hyk : OverlapEndSize (st.path path1) (st.path y) = k := by omega
        have i1 := b5 y (hL.mem_iff.1 c1) c2 hyk
        have i2 := c5 p2 (hL.mem_iff.2 b1) b2 (by omega)
        have : y = p2 := hinj y p2 c2 b2 (by omega)
        rw [this, hos]

/-- C15, amended.  Skip rule of shared-end extraction, for a path of fewer than `2 ^ 31`
edges.  `FindAndRemovePathOverlap(path1)` calls `RemoveOverlap(path1, p2, k)` if and only
if `path1` has at least two edges, the coverage of its last edge is at least 2, `path1`
has no already-overlapped end, and the loop over the covering paths ends with the partner
`p2` and the overlap size `k > 0`; its result is then the result of that call.  In every
other case it returns the state it was given. -/
theorem FindAndRemovePathOverlap_skip_rule (g : Graph) (st : State) (path1 M : Nat)
    (hsz : (st.path path1).Size < 2147483648) :
    (∀ p2 k, RemoveOverlapCall st path1 = some (p2, k) ↔
      2 ≤ (st.path path1).Size
      ∧ 2 ≤ GetCoverage st ((st.path path1).At ((st.path path1).Size - 1))
      ∧ HasAlreadyOverlapedEnd (st.path path1) = false
      ∧ FindOverlapLoop st path1 (GetCoveringPaths st
          ((st.path path1).At ((st.path path1).Size - 1))) (none, 0) = (some p2, k)
      ∧ 0 < k)
    ∧ (∀ p2 k, RemoveOverlapCall st path1 = some (p2, k) →
        FindAndRemovePathOverlap g st path1 M = RemoveOverlap g st path1 p2 k)
    ∧ (RemoveOverlapCall st path1 = none → FindAndRemovePathOverlap g st path1 M = some st) := by
  have e32 : toInt32 (st.path path1).Size = ((st.path path1).Size : Int) := by
    unfold toInt32; omega
  have elast : 2 ≤ (st.path path1).Size →
      toSizeT (toInt32 (st.path path1).Size - 1) = (st.path path1).Size - 1 := by
    intro h2
    rw [e32]
    exact toSizeT_pred _ (by omega) (by omega)
  refine ⟨fun p2 k => ?_, fun p2 k h => ?_, fun h => ?_⟩
  · rw [RemoveOverlapCall_eq_some]
    constructor
    · rintro ⟨hg, hr, hk⟩
      have h2 : 2 ≤ (st.path path1).Size := by
        by_contra hc
        exact hg (Or.inl (by rw [e32]; omega))
      rw [elast h2] at hg hr
      refine ⟨h2, ?_, ?_, hr, hk⟩
      · by_contra hc
        exact hg (Or.inr (Or.inl (by omega)))
      · cases hh : HasAlreadyOverlapedEnd (st.path path1)
        · rfl
        · exact absurd (Or.inr (Or.inr hh)) hg
    · rintro ⟨h2, hc, he, hr, hk⟩
      rw [elast h2]
      refine ⟨?_, hr, hk⟩
      rintro (h | h | h)
      · rw [e32] at h; omega
      · omega
      · rw [he] at h; exact Bool.false_ne_true h
  · rw [FindAndRemovePathOverlap_eq_call, h]
  · rw [FindAndRemovePathOverlap_eq_call, h]

/-- Witness of C14, amended: `path1 = (1, 3)` and the only other path `(3, 5)`. -/
theorem FindAndRemovePathOverlap_partner_witness :
    2 ∈ GetCoveringPaths (exState [1, 3] [3, 5]) 3
    ∧ 1 = OverlapEndSize ((exState [1, 3] [3, 5]).path 0) ((exState [1, 3] [3, 5]).path 2) := by
  obtain ⟨_, h2, _, _, _, h6, _⟩ := FindAndRemovePathOverlap_partner (exGraph 5)
    (exState [1, 3] [3, 5]) 0 0 2 1 (by decide)
  exact ⟨h2, h6⟩

/-- Counterexample to C14 as stated: `path1 = (1, 3)` at address 0, its duplicate `(1, 3)`
at address 2 and the path `(3, 5)` at address 4.  The duplicate covers the last edge of
`path1`, is neither `path1` nor its conjugate (address 1), has no overlapped begin, and the
last 2 edges of `path1` are its first 2 edges; but `IsSamePath` compares contents, the
duplicate is skipped, and the path passed to `RemoveOverlap` is `(3, 5)` with the overlap
size 1, which is not maximal among the paths the claim lists. -/
theorem FindAndRemovePathOverlap_skips_duplicate :
    2 ∈ GetCoveringPaths (exStateThree [1, 3] [1, 3] [3, 5]) 3
    ∧ 2 ≠ 0 ∧ 2 ≠ (exStateThree [1, 3] [1, 3] [3, 5]).GetConjPath 0
    ∧ HasAlreadyOverlapedBegin ((exStateThree [1, 3] [1, 3] [3, 5]).path 2) = false
    ∧ OverlapEndSize ((exStateThree [1, 3] [1, 3] [3, 5]).path 0)
        ((exStateThree [1, 3] [1, 3] [3, 5]).path 2) = 2
    ∧ RemoveOverlapCall (exStateThree [1, 3] [1, 3] [3, 5]) 0 = some (4, 1)
    ∧ OverlapEndSize ((exStateThree [1, 3] [1, 3] [3, 5]).path 0)
        ((exStateThree [1, 3] [1, 3] [3, 5]).path 4) = 1 := by
  decide

/-- Witness of C15, amended: `path1 = (1, 3)` and the path `(3, 5)`; the call is
`RemoveOverlap(path1, (3, 5), 1)`. -/
theorem FindAndRemovePathOverlap_skip_rule_witness :
    RemoveOverlapCall (exState [1, 3] [3, 5]) 0 = some (2, 1)
    ∧ FindAndRemovePathOverlap (exGraph 5) (exState [1, 3] [3, 5]) 0 0
        = RemoveOverlap (exGraph 5) (exState [1, 3] [3, 5]) 0 2 1 := by
  have h := FindAndRemovePathOverlap_skip_rule (exGraph 5) (exState [1, 3] [3, 5]) 0 0
    (by decide)
  have hc := (h.1 2 1).2 ⟨by decide, by decide, by decide, by decide, by decide⟩
  exact ⟨hc, h.2.1 2 1 hc⟩

/-- Counterexample to C15 as stated: `path1 = (3)` has one edge, so it is not empty; its
last edge 3 has coverage 2; no flag is set; the loop over the covering paths finds the
partner `(3, 5)` with the overlap size 1.  But `last = size - 1 = 0` and the guard
`last <= 0` makes `FindAndRemovePathOverlap` return without calling `RemoveOverlap`. -/
theorem FindAndRemovePathOverlap_skips_single_edge :
    ((exState [3] [3, 5]).path 0).Size ≠ 0
    ∧ 2 ≤ GetCoverage (exState [3] [3, 5]) (((exState [3] [3, 5]).path 0).At 0)
    ∧ HasAlreadyOverlapedEnd ((exState [3] [3, 5]).path 0) = false
    ∧ FindOverlapLoop (exState [3] [3, 5]) 0
        (GetCoveringPaths (exState [3] [3, 5]) (((exState [3] [3, 5]).path 0).At 0)) (none, 0)
        = (some 2, 1)
    ∧ RemoveOverlapCall (exState [3] [3, 5]) 0 = none
    ∧ FindAndRemovePathOverlap (exGraph 5) (exState [3] [3, 5]) 0 0
        = some (exState [3] [3, 5]) := by
  decide

/-! ## Pop safety -/

/-- C16 (code defect).  Pop safety fails on the container with the paths
`path1 = (3, 5, 7, 9, 11)` and `path2 = (1, 3, 11)` (conjugates consistent, no flags), in
the graph in which the edge 3 has length 5 and every other edge length 1, for
`RemoveSimilarPaths(3, false, false, false, true)`.  At the edge 3 the comparator skips
the edges 5, 7, 9 (total length 3) and matches the spans `[0..4]` of `path1` and `[1..2]`
of `path2`; the row "span2 touches end" of `CutOverlaps` then issues
`path2->PopBack(last1 + 1 - first1)` with `5` edges on a path of `3` edges, and the pass
aborts. -/
theorem RemoveSimilarPaths_pop_exceeds_size :
    ComparePaths (exGraph 3) 0 1 ((exState [3, 5, 7, 9, 11] [1, 3, 11]).path 0)
        ((exState [3, 5, 7, 9, 11] [1, 3, 11]).path 2) 3 = (4, 2)
    ∧ ComparePaths (exGraph 3) 4 1 ((exState [3, 5, 7, 9, 11] [1, 3, 11]).path 1)
        ((exState [3, 5, 7, 9, 11] [1, 3, 11]).path 3) 3 = (4, 1)
    ∧ toSizeT ((4 : Int) + 1 - 0) = 5
    ∧ ((exState [3, 5, 7, 9, 11] [1, 3, 11]).path 2).Size = 3
    ∧ PopBack (exState [3, 5, 7, 9, 11] [1, 3, 11]) 2 5 = none
    ∧ CutOverlaps (exGraph 3) (exState [3, 5, 7, 9, 11] [1, 3, 11]) 0 0 4 5 2 1 2 3
        false false true = none
    ∧ CompareAndCutFromPos (exGraph 3) (exState [3, 5, 7, 9, 11] [1, 3, 11]) 0 0 2 1 3
        false false true = none
    ∧ RemoveSimilarPaths (exGraph 3) (exState [3, 5, 7, 9, 11] [1, 3, 11]) 3
        false false false true = none := by
  decide

/-! ## Conjugate consistency and the edge count -/

theorem conjSeq_take (g : Graph) (l : List EdgeId) (n : Nat) :
    conjSeq g (l.take (l.length - n)) = (conjSeq g l).drop n := by
  unfold conjSeq
  rw [List.map_take, List.drop_reverse, List.length_map]

theorem conjSeq_drop (g : Graph) (l : List EdgeId) (n : Nat) :
    conjSeq g (l.drop n) = (conjSeq g l).take (l.length - n) := by
  unfold conjSeq
  rw [List.map_drop, List.take_reverse, List.length_map]
  by_cases h : n ≤ l.length
  · have e : l.length - (l.length - n) = n := by omega
    rw [e]
  · have e : l.length - (l.length - n) = l.length := by omega
    rw [e, List.drop_eq_nil_of_le (by rw [List.length_map]; omega),
      List.drop_eq_nil_of_le (by rw [List.length_map])]

theorem reverse_take_sub (l : List Int) (n : Nat) :
    (l.take (l.length - n)).reverse = l.reverse.drop n := by
  rw [List.drop_reverse]

theorem Reduced.unchanged (g : Graph) (s : State) : Reduced g s s :=
  ⟨rfl, rfl, rfl, fun _ => le_refl _, fun h => h⟩

theorem Reduced.followed_by {g : Graph} {s t u : State} (h1 : Reduced g s t) (h2 : Reduced g t u) :
    Reduced g s u :=
  ⟨h2.1.trans h1.1, h2.2.1.trans h1.2.1, h2.2.2.1.trans h1.2.2.1,
    fun r => le_trans (h2.2.2.2.1 r) (h1.2.2.2.1 r), fun h => h2.2.2.2.2 (h1.2.2.2.2 h)⟩

theorem containerPaths_congr {s t : State} (h : t.container = s.container) :
    containerPaths t = containerPaths s := by
  unfold containerPaths; rw [h]

/-- A state with the same shape (links, edges, gaps, container) is consistent as well. -/
theorem Consistent.of_same_shape {g : Graph} {s t : State} (hC : Consistent g s)
    (hl : t.heap.length = s.heap.length) (hc : t.container = s.container)
    (hp : ∀ r, (t.path r).conj = (s.path r).conj ∧ (t.path r).data = (s.path r).data
      ∧ (t.path r).gaps = (s.path r).gaps) : Consistent g t := by
  refine ⟨fun r hr => ?_, fun r hr => ?_, fun r hr => ?_, fun r hr => ?_, fun pq hpq => ?_,
    fun r hr => ?_, ?_⟩
  · rw [(hp r).1, (hp _).1, hl]; exact hC.linked r (hl ▸ hr)
  · rw [(hp r).1, (hp _).2.1, (hp r).2.1]; exact hC.edges r (hl ▸ hr)
  · rw [(hp r).1, (hp _).2.2, (hp r).2.2]; exact hC.gaps r (hl ▸ hr)
  · rw [(hp r).2.2, (hp r).2.1]; exact hC.gaps_length r (hl ▸ hr)
  · rw [(hp _).1, hl]; exact hC.pairs pq (hc ▸ hpq)
  · rw [containerPaths_congr hc]; exact hC.owned r (hl ▸ hr)
  · rw [containerPaths_congr hc]; exact hC.distinct

/-- Replacing the edges and gaps of a path and of its conjugate by a consistent pair of
sequences keeps the state consistent. -/
theorem Consistent.update_pair {g : Graph} {s t : State} (hC : Consistent g s) (p : Nat)
    (hpv : p < s.heap.length)
    (hl : t.heap.length = s.heap.length) (hc : t.container = s.container)
    (hconj : ∀ r, (t.path r).conj = (s.path r).conj)
    (hother : ∀ r, r ≠ p → r ≠ (s.path p).conj →
      (t.path r).data = (s.path r).data ∧ (t.path r).gaps = (s.path r).gaps)
    (hsym1 : (t.path (s.path p).conj).data = conjSeq g (t.path p).data)
    (hsym2 : (t.path p).data = conjSeq g (t.path (s.path p).conj).data)
    (hg : (t.path (s.path p).conj).gaps = (t.path p).gaps.reverse)
    (hgl1 : (t.path p).gaps.length = (t.path p).data.length - 1)
    (hgl2 : (t.path (s.path p).conj).gaps.length = (t.path (s.path p).conj).data.length - 1) :
    Consistent g t := by
  obtain ⟨hq1, hq2, hq3⟩ := hC.linked p hpv
  have hcases : ∀ r, r < s.heap.length → r ≠ p → r ≠ (s.path p).conj →
      (s.path r).conj ≠ p ∧ (s.path r).conj ≠ (s.path p).conj := by
    intro r hr h1 h2
    obtain ⟨a1, a2, a3⟩ := hC.linked r hr
    constructor
    · intro h; rw [h] at a2; exact h2 a2.symm
    · intro h; rw [h, hq2] at a2; exact h1 a2.symm
  refine ⟨fun r hr => ?_, fun r hr => ?_, fun r hr => ?_, fun r hr => ?_, fun pq hpq => ?_,
    fun r hr => ?_, ?_⟩
  · rw [hconj r, hconj, hl]; exact hC.linked r (hl ▸ hr)
  · rw [hconj r]
    by_cases h1 : r = p
    · rw [h1]; exact hsym1
    · by_cases h2 : r = (s.path p).conj
      · rw [h2, hq2]; exact hsym2
      · obtain ⟨c1, c2⟩ := hcases r (hl ▸ hr) h1 h2
        rw [(hother _ c1 c2).1, (hother r h1 h2).1]
        exact hC.edges r (hl ▸ hr)
  · rw [hconj r]
    by_cases h1 : r = p
    · rw [h1]; exact hg
    · by_cases h2 : r = (s.path p).conj
      · rw [h2, hq2, hg, List.reverse_reverse]
      · obtain ⟨c1, c2⟩ := hcases r (hl ▸ hr) h1 h2
        rw [(hother _ c1 c2).2, (hother r h1 h2).2]
        exact hC.gaps r (hl ▸ hr)
  · by_cases h1 : r = p
    · rw [h1]; exact hgl1
    · by_cases h2 : r = (s.path p).conj
      · rw [h2]; exact hgl2
      · rw [(hother r h1 h2).1, (hother r h1 h2).2]
        exact hC.gaps_length r (hl ▸ hr)
  · rw [hconj, hl]; exact hC.pairs pq (hc ▸ hpq)
  · rw [containerPaths_congr hc]; exact hC.owned r (hl ▸ hr)
  · rw [containerPaths_congr hc]; exact hC.distinct

theorem Consistent_Clear {g : Graph} {s : State} (hC : Consistent g s) (y : Nat)
    (hy : y < s.heap.length) : Consistent g (Clear s y) := by
  obtain ⟨hq1, hq2, hq3⟩ := hC.linked y hy
  have hP := fun r => Clear_path s y r hy hq1
  refine hC.update_pair y hy (Clear_heap_length _ _) rfl (fun r => ?_) (fun r h1 h2 => ?_)
    ?_ ?_ ?_ ?_ ?_
  · rw [hP]; split <;> rfl
  · rw [hP, if_neg (by intro h; rcases h with h | h; exact h1 h; exact h2 h)]
    exact ⟨rfl, rfl⟩
  · rw [hP, hP, if_pos (Or.inr rfl), if_pos (Or.inl rfl)]; rfl
  · rw [hP, hP, if_pos (Or.inr rfl), if_pos (Or.inl rfl)]; rfl
  · rw [hP, hP, if_pos (Or.inr rfl), if_pos (Or.inl rfl)]; rfl
  · rw [hP, if_pos (Or.inl rfl)]; rfl
  · rw [hP, if_pos (Or.inr rfl)]; rfl

theorem Consistent_popBackEdges {g : Graph} {s : State} (hC : Consistent g s) (p n : Nat)
    (hp : p < s.heap.length) : Consistent g (popBackEdges s p n) := by
  obtain ⟨hq1, hq2, hq3⟩ := hC.linked p hp
  have hP := fun r => popBackEdges_path s p n r hp hq1 hq3
  have hE := hC.edges p hp
  have hG := hC.gaps p hp
  have hL := hC.gaps_length p hp
  have hL2 := hC.gaps_length _ hq1
  have hlen : (s.path (s.path p).conj).data.length = (s.path p).data.length := by
    rw [hE, conjSeq_length]
  have hPp : (popBackEdges s p n).path p = { s.path p with
      data := (s.path p).data.take ((s.path p).data.length - n),
      gaps := (s.path p).gaps.take ((s.path p).data.length - n - 1) } := by
    rw [hP, if_pos rfl]
  have hPq : (popBackEdges s p n).path (s.path p).conj = { s.path (s.path p).conj with
      data := (s.path (s.path p).conj).data.drop n,
      gaps := (s.path (s.path p).conj).gaps.drop n } := by
    rw [hP, if_neg hq3, if_pos rfl]
  have hE2 : (s.path p).data = conjSeq g (s.path (s.path p).conj).data := by
    have := hC.edges _ hq1
    rw [hq2] at this
    exact this
  refine hC.update_pair p hp (by simp [popBackEdges]) (by simp [popBackEdges])
    (fun r => ?_) (fun r h1 h2 => ?_) ?_ ?_ ?_ ?_ ?_
  · rw [hP]; split
    · rename_i h; rw [h]
    · split <;> rfl
  · rw [hP, if_neg h1, if_neg h2]; exact ⟨rfl, rfl⟩
  · rw [hPp, hPq]
    show (s.path (s.path p).conj).data.drop n
      = conjSeq g ((s.path p).data.take ((s.path p).data.length - n))
    rw [conjSeq_take, hE]
  · rw [hPp, hPq]
    show (s.path p).data.take ((s.path p).data.length - n)
      = conjSeq g ((s.path (s.path p).conj).data.drop n)
    rw [conjSeq_drop, ← hE2, hlen]
  · rw [hPp, hPq]
    show (s.path (s.path p).conj).gaps.drop n
      = ((s.path p).gaps.take ((s.path p).data.length - n - 1)).reverse
    rw [hG]
    have e : (s.path p).data.length - n - 1 = (s.path p).gaps.length - n := by omega
    rw [e, reverse_take_sub]
  · rw [hPp]
    show ((s.path p).gaps.take ((s.path p).data.length - n - 1)).length
      = ((s.path p).data.take ((s.path p).data.length - n)).length - 1
    rw [List.length_take, List.length_take]
    omega
  · rw [hPq]
    show ((s.path (s.path p).conj).gaps.drop n).length
      = ((s.path (s.path p).conj).data.drop n).length - 1
    rw [List.length_drop, List.length_drop]
    omega

theorem Reduced_SetOverlap (g : Graph) (s : State) (x : Nat) (v : Bool) :
    Reduced g s (SetOverlap s x v) := by
  have hP : ∀ r, ((SetOverlap s x v).path r).conj = (s.path r).conj
      ∧ ((SetOverlap s x v).path r).data = (s.path r).data
      ∧ ((SetOverlap s x v).path r).gaps = (s.path r).gaps := by
    intro r
    unfold SetOverlap
    rw [State.path_store]
    split
    · rename_i h; rw [h.1]; exact ⟨rfl, rfl, rfl⟩
    · exact ⟨rfl, rfl, rfl⟩
  refine ⟨by simp [SetOverlap], rfl, rfl, fun r => ?_, fun hC => ?_⟩
  · unfold BidirectionalPath.Size; rw [(hP r).2.1]
  · exact hC.of_same_shape (by simp [SetOverlap]) rfl hP

theorem Reduced_Clear (g : Graph) (s : State) (y : Nat) (hy : y < s.heap.length) :
    Reduced g s (Clear s y) := by
  refine ⟨Clear_heap_length _ _, rfl, rfl, fun r => ?_, fun hC => Consistent_Clear hC y hy⟩
  rcases (Untrimmed_Clear s y).2.2 r with ⟨h, _⟩ | h
  · unfold BidirectionalPath.Size; rw [h]
  · rw [h]; exact Nat.zero_le _

theorem store_size_le (s : State) (p r : Nat) (x : BidirectionalPath)
    (h : x.data.length ≤ (s.path p).data.length) :
    ((s.store p x).path r).Size ≤ (s.path r).Size := by
  unfold BidirectionalPath.Size
  rw [State.path_store]
  split
  · rename_i h1; rw [h1.1]; exact h
  · exact le_refl _

theorem popBackEdges_size_le (s : State) (p n r : Nat) :
    ((popBackEdges s p n).path r).Size ≤ (s.path r).Size := by
  unfold popBackEdges
  simp only []
  refine le_trans (store_size_le _ _ r _ ?_) (store_size_le s p r _ ?_)
  · simp
  · simp

theorem Reduced_popBackEdges (g : Graph) (s : State) (p n : Nat) (hp : p < s.heap.length) :
    Reduced g s (popBackEdges s p n) :=
  ⟨by simp [popBackEdges], by simp [popBackEdges], by simp [popBackEdges],
    fun r => popBackEdges_size_le s p n r, fun hC => Consistent_popBackEdges hC p n hp⟩

theorem PopBack_reduced (g : Graph) (s s' : State) (p n : Nat) (hp : p < s.heap.length)
    (h : PopBack s p n = some s') : Reduced g s s' := by
  unfold PopBack at h
  split at h
  · exact absurd h (by simp)
  · simp only [Option.some.injEq] at h
    rw [← h]
    exact Reduced_popBackEdges g s p n hp

theorem PopBack_map_reduced (g : Graph) (s : State) (p n : Nat) (b : Bool) (r : Bool × State)
    (hp : p < s.heap.length) (h : (PopBack s p n).map (fun t => (b, t)) = some r) :
    Reduced g s r.2 := by
  cases hpop : PopBack s p n with
  | none => rw [hpop] at h; exact absurd h (by simp)
  | some t =>
    rw [hpop] at h
    simp only [Option.map, Option.some.injEq] at h
    rw [← h]
    exact PopBack_reduced g s t p n hp hpop

/-- Whatever `CutOverlaps` does to consistent paths only removes edges. -/
theorem CutOverlaps_reduced (g : Graph) (s : State)
    (path1 first1 last1 size1 path2 first2 last2 size2 : Nat) (f2 f3 f4 : Bool)
    (hC : Consistent g s) (h1 : path1 < s.heap.length) (h2 : path2 < s.heap.length)
    (r : Bool × State)
    (h : CutOverlaps g s path1 first1 last1 size1 path2 first2 last2 size2 f2 f3 f4 = some r) :
    Reduced g s r.2 := by
  have c1 : s.GetConjPath path1 < s.heap.length := (hC.linked path1 h1).1
  have c2 : s.GetConjPath path2 < s.heap.length := (hC.linked path2 h2).1
  have hsame : ∀ b : Bool, some (b, s) = some r → Reduced g s r.2 := by
    intro b hb
    simp only [Option.some.injEq] at hb
    rw [← hb]
    exact Reduced.unchanged g s
  have hclear : ∀ (b : Bool) (y : Nat), y < s.heap.length → some (b, Clear s y) = some r →
      Reduced g s r.2 := by
    intro b y hy hb
    simp only [Option.some.injEq] at hb
    rw [← hb]
    exact Reduced_Clear g s y hy
  unfold CutOverlaps at h
  simp only [] at h
  split at h
  · exact hclear _ _ h1 h
  · split at h
    · exact hclear _ _ h2 h
    · split at h
      · split at h
        · exact PopBack_map_reduced g s _ _ _ r c1 h
        · split at h
          · exact PopBack_map_reduced g s _ _ _ r c2 h
          · exact hsame _ h
      · split at h
        · split at h
          · exact PopBack_map_reduced g s _ _ _ r h1 h
          · split at h
            · exact PopBack_map_reduced g s _ _ _ r h2 h
            · exact hsame _ h
        · split at h
          · exact PopBack_map_reduced g s _ _ _ r c2 h
          · split at h
            · exact PopBack_map_reduced g s _ _ _ r h2 h
            · split at h
              · exact PopBack_map_reduced g s _ _ _ r c1 h
              · split at h
                · exact PopBack_map_reduced g s _ _ _ r h1 h
                · exact hsame _ h

theorem CompareAndCutFromPos_reduced (g : Graph) (s : State) (path1 pos1 path2 pos2 : Nat)
    (M : Int) (f2 f3 f4 : Bool) (hC : Consistent g s) (h1 : path1 < s.heap.length)
    (h2 : path2 < s.heap.length) (s' : State)
    (h : CompareAndCutFromPos g s path1 pos1 path2 pos2 M f2 f3 f4 = some s') :
    Reduced g s s' := by
  unfold CompareAndCutFromPos at h
  split at h
  · simp only [Option.some.injEq] at h
    rw [← h]; exact Reduced.unchanged g s
  · simp only [] at h
    obtain ⟨r, hr, hrs⟩ := Option.map_eq_some'.1 h
    rw [← hrs]
    exact CutOverlaps_reduced g s _ _ _ _ _ _ _ _ f2 f3 f4 hC h1 h2 r hr

theorem CompareAndCutInner_reduced (g : Graph) (path1 pos1 path2 M : Nat) (f2 f3 f4 : Bool) :
    ∀ (l : List Nat) (s : State), Consistent g s → path1 < s.heap.length →
      path2 < s.heap.length → ∀ s', CompareAndCutInner g path1 pos1 path2 M f2 f3 f4 l s = some s' →
      Reduced g s s' := by
  intro l
  induction l with
  | nil =>
    intro s _ _ _ s' h
    simp only [CompareAndCutInner, Option.some.injEq] at h
    rw [← h]; exact Reduced.unchanged g s
  | cons pos2 rest ih =>
    intro s hC h1 h2 s' h
    unfold CompareAndCutInner at h
    obtain ⟨s1, hs1, hs2⟩ := Option.bind_eq_some.1 h
    have hR := CompareAndCutFromPos_reduced g s path1 pos1 path2 pos2 _ f2 f3 f4 hC h1 h2 s1 hs1
    exact hR.followed_by (ih s1 (hR.2.2.2.2 hC) (by rw [hR.1]; exact h1) (by rw [hR.1]; exact h2) s' hs2)

theorem CompareAndCutOuter_reduced (g : Graph) (edge : EdgeId) (path1 path2 M : Nat)
    (f2 f3 f4 : Bool) :
    ∀ (l : List Nat) (s : State), Consistent g s → path1 < s.heap.length →
      path2 < s.heap.length →
      ∀ s', CompareAndCutOuter g edge path1 path2 M f2 f3 f4 l s = some s' →
      Reduced g s s' := by
  intro l
  induction l with
  | nil =>
    intro s _ _ _ s' h
    simp only [CompareAndCutOuter, Option.some.injEq] at h
    rw [← h]; exact Reduced.unchanged g s
  | cons pos1 rest ih =>
    intro s hC h1 h2 s' h
    unfold CompareAndCutOuter at h
    obtain ⟨s1, hs1, hs2⟩ := Option.bind_eq_some.1 h
    have hR := CompareAndCutInner_reduced g path1 pos1 path2 M f2 f3 f4 _ s hC h1 h2 s1 hs1
    exact hR.followed_by (ih s1 (hR.2.2.2.2 hC) (by rw [hR.1]; exact h1) (by rw [hR.1]; exact h2) s' hs2)

theorem CompareAndCut_reduced (g : Graph) (s : State) (edge : EdgeId) (path1 path2 M : Nat)
    (f2 f3 f4 : Bool) (hC : Consistent g s) (h1 : path1 < s.heap.length)
    (h2 : path2 < s.heap.length) (s' : State)
    (h : CompareAndCut g s edge path1 path2 M f2 f3 f4 = some s') : Reduced g s s' :=
  CompareAndCutOuter_reduced g edge path1 path2 M f2 f3 f4 _ s hC h1 h2 s' h

theorem RemoveSimilarInner_reduced (g : Graph) (edge : EdgeId) (M : Nat) (f1 f2 f3 f4 : Bool)
    (path1 : Nat) :
    ∀ (rest : List Nat) (s : State) (cov : List Nat), Consistent g s →
      path1 < s.heap.length → (∀ y ∈ rest, y < s.heap.length) →
      ∀ out, RemoveSimilarInner g edge M f1 f2 f3 f4 path1 rest (s, cov) = some out →
      Reduced g s out.1 := by
  intro rest
  induction rest with
  | nil =>
    intro s cov _ _ _ out h
    simp only [RemoveSimilarInner, Option.some.injEq] at h
    rw [← h]; exact Reduced.unchanged g s
  | cons y rest ih =>
    intro s cov hC h1 hv out h
    have hy : y < s.heap.length := hv y (List.mem_cons_self _ _)
    have hrest : ∀ z ∈ rest, z < s.heap.length := fun z hz => hv z (List.mem_cons_of_mem _ hz)
    unfold RemoveSimilarInner at h
    split at h
    · exact ih s cov hC h1 hrest out h
    · split at h
      · dsimp only at h
        have hR1 : Reduced g s
            (if (s.path y).IsOverlap = true then SetOverlap s path1 true else s) := by
          split
          · exact Reduced_SetOverlap g s path1 true
          · exact Reduced.unchanged g s
        have hR2 := hR1.followed_by (Reduced_Clear g _ y (by rw [hR1.1]; exact hy))
        refine hR2.followed_by (ih _ _ (hR2.2.2.2.2 hC) (by rw [hR2.1]; exact h1)
          (fun z hz => by rw [hR2.1]; exact hrest z hz) out h)
      · split at h
        · exact ih s cov hC h1 hrest out h
        · obtain ⟨s1, hs1, hs2⟩ := Option.bind_eq_some.1 h
          have hR := CompareAndCut_reduced g s edge path1 y _ f2 f3 f4 hC h1 hy s1 hs1
          exact hR.followed_by (ih _ _ (hR.2.2.2.2 hC) (by rw [hR.1]; exact h1)
            (fun z hz => by rw [hR.1]; exact hrest z hz) out hs2)

theorem RemoveSimilarOuter_reduced (g : Graph) (edge : EdgeId) (M : Nat) (f1 f2 f3 f4 : Bool) :
    ∀ (L : List Nat) (s : State) (cov : List Nat), Consistent g s →
      (∀ y ∈ L, y < s.heap.length) →
      ∀ out, RemoveSimilarOuter g edge M f1 f2 f3 f4 L (s, cov) = some out →
      Reduced g s out.1 := by
  intro L
  induction L with
  | nil =>
    intro s cov _ _ out h
    simp only [RemoveSimilarOuter, Option.some.injEq] at h
    rw [← h]; exact Reduced.unchanged g s
  | cons x rest ih =>
    intro s cov hC hv out h
    have hx : x < s.heap.length := hv x (List.mem_cons_self _ _)
    have hrest : ∀ z ∈ rest, z < s.heap.length := fun z hz => hv z (List.mem_cons_of_mem _ hz)
    unfold RemoveSimilarOuter at h
    split at h
    · exact ih s cov hC hrest out h
    · obtain ⟨o1, ho1, ho2⟩ := Option.bind_eq_some.1 h
      obtain ⟨s1, cov1⟩ := o1
      have hR := RemoveSimilarInner_reduced g edge M f1 f2 f3 f4 x rest s cov hC hx hrest _ ho1
      exact hR.followed_by (ih s1 cov1 (hR.2.2.2.2 hC) (fun z hz => by rw [hR.1]; exact hrest z hz)
        out ho2)

theorem RemoveSimilarAtEdge_reduced (g : Graph) (M : Nat) (f1 f2 f3 f4 : Bool) (s : State)
    (edge : EdgeId) (hC : Consistent g s) (s' : State)
    (h : RemoveSimilarAtEdge g M f1 f2 f3 f4 s edge = some s') : Reduced g s s' := by
  unfold RemoveSimilarAtEdge at h
  simp only [] at h
  obtain ⟨out, ho, hs⟩ := Option.map_eq_some'.1 h
  rw [← hs]
  refine RemoveSimilarOuter_reduced g edge M f1 f2 f3 f4 _ s _ hC (fun y hy => ?_) out ho
  exact ((mem_GetCoveringPaths s edge y).1 ((mem_sortByPathId _ _ _).1 hy)).1

theorem RemoveSimilarEdges_reduced (g : Graph) (M : Nat) (f1 f2 f3 f4 : Bool) :
    ∀ (l : List EdgeId) (s : State), Consistent g s →
      ∀ s', RemoveSimilarEdges g M f1 f2 f3 f4 l s = some s' → Reduced g s s' := by
  intro l
  induction l with
  | nil =>
    intro s _ s' h
    simp only [RemoveSimilarEdges, Option.some.injEq] at h
    rw [← h]; exact Reduced.unchanged g s
  | cons e rest ih =>
    intro s hC s' h
    unfold RemoveSimilarEdges at h
    obtain ⟨s1, hs1, hs2⟩ := Option.bind_eq_some.1 h
    have hR := RemoveSimilarAtEdge_reduced g M f1 f2 f3 f4 s e hC s1 hs1
    exact hR.followed_by (ih s1 (hR.2.2.2.2 hC) s' hs2)

theorem Reduced_SetOverlapedBeginTo (g : Graph) (s : State) (p t : Nat) :
    Reduced g s (SetOverlapedBeginTo s p t) := by
  have hP : ∀ r, ((SetOverlapedBeginTo s p t).path r).conj = (s.path r).conj
      ∧ ((SetOverlapedBeginTo s p t).path r).data = (s.path r).data
      ∧ ((SetOverlapedBeginTo s p t).path r).gaps = (s.path r).gaps := by
    intro r
    rw [SetOverlapedBeginTo_path]
    split
    · rename_i h; rw [h.1]; exact ⟨rfl, rfl, rfl⟩
    · exact ⟨rfl, rfl, rfl⟩
  refine ⟨by simp [SetOverlapedBeginTo], rfl, rfl, fun r => ?_, fun hC => ?_⟩
  · unfold BidirectionalPath.Size; rw [(hP r).2.1]
  · exact hC.of_same_shape (by simp [SetOverlapedBeginTo]) rfl hP

theorem Reduced_SetOverlapedEndTo (g : Graph) (s : State) (p t : Nat) :
    Reduced g s (SetOverlapedEndTo s p t) := by
  have hP : ∀ r, ((SetOverlapedEndTo s p t).path r).conj = (s.path r).conj
      ∧ ((SetOverlapedEndTo s p t).path r).data = (s.path r).data
      ∧ ((SetOverlapedEndTo s p t).path r).gaps = (s.path r).gaps := by
    intro r
    rw [SetOverlapedEndTo_path]
    split
    · rename_i h; rw [h.1]; exact ⟨rfl, rfl, rfl⟩
    · exact ⟨rfl, rfl, rfl⟩
  refine ⟨by simp [SetOverlapedEndTo], rfl, rfl, fun r => ?_, fun hC => ?_⟩
  · unfold BidirectionalPath.Size; rw [(hP r).2.1]
  · exact hC.of_same_shape (by simp [SetOverlapedEndTo]) rfl hP

/-- An overlap size is at most the size of either path. -/
theorem OverlapEndSize_le (p q : BidirectionalPath) :
    OverlapEndSize p q ≤ p.data.length ∧ OverlapEndSize p q ≤ q.data.length := by
  unfold OverlapEndSize
  cases h : ((List.range (p.data.length + 1)).reverse).find?
      (fun k => decide (p.data.drop (p.data.length - k) = q.data.take k)) with
  | none => exact ⟨Nat.zero_le _, Nat.zero_le _⟩
  | some k =>
    have h1 := List.find?_some h
    have h2 := List.mem_of_find?_eq_some h
    simp only [List.mem_reverse, List.mem_range] at h2
    simp only [decide_eq_true_eq] at h1
    have h3 := congrArg List.length h1
    rw [List.length_drop, List.length_take] at h3
    simp only [Option.getD]
    constructor
    · omega
    · omega

/-- A path of a consistent state and its conjugate have the same size. -/
theorem Consistent.size_conj {g : Graph} {s : State} (hC : Consistent g s) (r : Nat)
    (hr : r < s.heap.length) : (s.path (s.GetConjPath r)).Size = (s.path r).Size := by
  unfold BidirectionalPath.Size State.GetConjPath
  rw [hC.edges r hr, conjSeq_length]

/-- In a consistent state two valid paths of different pairs are `DistinctPairs`. -/
theorem Consistent.distinctPairs {g : Graph} {s : State} (hC : Consistent g s) (p1 p2 : Nat)
    (h1 : p1 < s.heap.length) (h2 : p2 < s.heap.length) (hne : p1 ≠ p2)
    (hne2 : p1 ≠ s.GetConjPath p2) : DistinctPairs s p1 p2 := by
  obtain ⟨a1, a2, a3⟩ := hC.linked p1 h1
  obtain ⟨b1, b2, b3⟩ := hC.linked p2 h2
  exact ⟨h1, h2, a1, b1, a2, b2, a3, b3, hne, hne2⟩

/-- Container addresses of a consistent state are the addresses of the heap. -/
theorem Consistent.mem_containerPaths {g : Graph} {s : State} (hC : Consistent g s) (r : Nat) :
    r ∈ containerPaths s ↔ r < s.heap.length := by
  constructor
  · intro h
    unfold containerPaths at h
    obtain ⟨pq, hpq, hr⟩ := List.mem_flatMap.1 h
    obtain ⟨v1, v2⟩ := hC.pairs pq hpq
    simp only [List.mem_cons, List.mem_singleton, List.not_mem_nil, or_false] at hr
    rcases hr with hr | hr
    · rw [hr]; exact v1
    · rw [hr, ← v2]; exact (hC.linked pq.1 v1).1
  · exact hC.owned r

theorem sum_pairs_eq_sum_flat (f : Nat → Nat) (l : List (Nat × Nat)) :
    (l.map (fun pq => f pq.1 + f pq.2)).sum
      = ((l.flatMap (fun pq => [pq.1, pq.2])).map f).sum := by
  induction l with
  | nil => rfl
  | cons pq rest ih =>
    simp only [List.map_cons, List.sum_cons, List.flatMap_cons, List.map_append,
      List.sum_append, List.map_nil, List.sum_nil, ih]
    omega

/-- In a consistent state the total edge count of the container is the sum of the sizes
of the objects of the heap. -/
theorem TotalEdges_eq_sum {g : Graph} {s : State} (hC : Consistent g s) :
    TotalEdges s = ∑ r in Finset.range s.heap.length, (s.path r).Size := by
  unfold TotalEdges
  rw [sum_pairs_eq_sum_flat (fun r => (s.path r).Size)]
  have e : containerPaths s = s.container.flatMap (fun pq => [pq.1, pq.2]) := rfl
  rw [← e, ← List.sum_toFinset _ hC.distinct]
  congr 1
  ext r
  rw [List.mem_toFinset, hC.mem_containerPaths, Finset.mem_range]

/-- A reduced state has at most the total edge count of the state it comes from. -/
theorem Reduced.totalEdges_le {g : Graph} {s t : State} (h : Reduced g s t) :
    TotalEdges t ≤ TotalEdges s := by
  unfold TotalEdges
  rw [h.2.1]
  apply List.sum_le_sum
  intro pq _
  exact Nat.add_le_add (h.2.2.2.1 pq.1) (h.2.2.2.1 pq.2)

/-- Appending a fresh, mutually linked and consistent pair to the heap and to the
container keeps the state consistent. -/
theorem Consistent.add_pair {g : Graph} {s t : State} (hC : Consistent g s)
    (hl : t.heap.length = s.heap.length + 2)
    (hc : t.container = s.container ++ [(s.heap.length, s.heap.length + 1)])
    (hold : ∀ r, r < s.heap.length → (t.path r).conj = (s.path r).conj
      ∧ (t.path r).data = (s.path r).data ∧ (t.path r).gaps = (s.path r).gaps)
    (hc1 : (t.path s.heap.length).conj = s.heap.length + 1)
    (hc2 : (t.path (s.heap.length + 1)).conj = s.heap.length)
    (hd1 : (t.path (s.heap.length + 1)).data = conjSeq g (t.path s.heap.length).data)
    (hd2 : (t.path s.heap.length).data = conjSeq g (t.path (s.heap.length + 1)).data)
    (hg : (t.path (s.heap.length + 1)).gaps = (t.path s.heap.length).gaps.reverse)
    (hgl : (t.path s.heap.length).gaps.length = (t.path s.heap.length).data.length - 1) :
    Consistent g t := by
  have hcp : containerPaths t = containerPaths s ++ [s.heap.length, s.heap.length + 1] := by
    unfold containerPaths
    rw [hc, List.flatMap_append]
    rfl
  have hcases : ∀ r, r < t.heap.length →
      r < s.heap.length ∨ r = s.heap.length ∨ r = s.heap.length + 1 := by
    intro r hr; rw [hl] at hr; omega
  refine ⟨fun r hr => ?_, fun r hr => ?_, fun r hr => ?_, fun r hr => ?_, fun pq hpq => ?_,
    fun r hr => ?_, ?_⟩
  · rcases hcases r hr with h | h | h
    · obtain ⟨a1, a2, a3⟩ := hC.linked r h
      rw [(hold r h).1, (hold _ a1).1, hl]
      exact ⟨by omega, a2, a3⟩
    · rw [h, hc1, hc2, hl]; exact ⟨by omega, rfl, by omega⟩
    · rw [h, hc2, hc1, hl]; exact ⟨by omega, rfl, by omega⟩
  · rcases hcases r hr with h | h | h
    · obtain ⟨a1, a2, a3⟩ := hC.linked r h
      rw [(hold r h).1, (hold _ a1).2.1, (hold r h).2.1]
      exact hC.edges r h
    · rw [h, hc1]; exact hd1
    · rw [h, hc2]; exact hd2
  · rcases hcases r hr with h | h | h
    · obtain ⟨a1, a2, a3⟩ := hC.linked r h
      rw [(hold r h).1, (hold _ a1).2.2, (hold r h).2.2]
      exact hC.gaps r h
    · rw [h, hc1]; exact hg
    · rw [h, hc2, hg, List.reverse_reverse]
  · rcases hcases r hr with h | h | h
    · rw [(hold r h).2.2, (hold r h).2.1]
      exact hC.gaps_length r h
    · rw [h]; exact hgl
    · rw [h, hg, hd1, List.length_reverse, conjSeq_length]; exact hgl
  · rw [hc] at hpq
    rcases List.mem_append.1 hpq with h | h
    · obtain ⟨v1, v2⟩ := hC.pairs pq h
      rw [(hold _ v1).1, hl]
      exact ⟨by omega, v2⟩
    · rw [List.mem_singleton.1 h]
      exact ⟨by rw [hl]; omega, hc1⟩
  · rw [hcp]
    rcases hcases r hr with h | h | h
    · exact List.mem_append_left _ (hC.owned r h)
    · rw [h]; exact List.mem_append_right _ (List.mem_cons_self _ _)
    · rw [h]; exact List.mem_append_right _ (List.mem_cons_of_mem _ (List.mem_singleton.2 rfl))
  · rw [hcp]
    refine List.Nodup.append hC.distinct (by simp) ?_
    intro a ha hb
    have := (hC.mem_containerPaths a).1 ha
    simp only [List.mem_cons, List.mem_singleton, List.not_mem_nil, or_false] at hb
    omega

/-- The state after an extraction is consistent. -/
theorem Extracted.consistent {g : Graph} {st st' : State} {path1 path2 k : Nat}
    (hE : Extracted g st path1 path2 k st') (hC : Consistent g st)
    (hinv : ∀ e, g.conjugate (g.conjugate e) = e)
    (hp : DistinctPairs st path1 path2) (hk : 0 < k) (hk1 : k ≤ (st.path path1).data.length) :
    Consistent g st' := by
  obtain ⟨f1, f2, f3, f4, f5, f6, f7, f8, f9, f10, f11, f12⟩ := hp.facts
  obtain ⟨e1, e2, e3, e4, e5, e6, e7, e8, e9, e10⟩ := hE
  have g3 : st.GetConjPath path1 < st.heap.length := f3
  have g4 : st.GetConjPath path2 < st.heap.length := f4
  have g6 : (st.path (st.GetConjPath path2)).conj = path2 := f6
  -- the two pops, as a consistent state of the same objects
  have hC1 := Consistent_popBackEdges hC path1 k f1
  have hl1 : (popBackEdges st path1 k).heap.length = st.heap.length := by simp [popBackEdges]
  have hP1 := fun r => popBackEdges_path st path1 k r f1 f3 f7
  have hc2' : ((popBackEdges st path1 k).path (st.GetConjPath path2)).conj = path2 := by
    rw [hP1, if_neg (fun h => f10 h.symm), if_neg (fun h => f12 h.symm)]
    exact f6
  have hC2 := Consistent_popBackEdges hC1 (st.GetConjPath path2) k (by rw [hl1]; exact g4)
  have hP2 := fun r => popBackEdges_path (popBackEdges st path1 k) (st.GetConjPath path2) k r
    (by rw [hl1]; exact g4) (by rw [hc2', hl1]; exact f2) (by rw [hc2']; exact Ne.symm f8)
  have hl2 : (popBackEdges (popBackEdges st path1 k) (st.GetConjPath path2) k).heap.length
      = st.heap.length := by simp [popBackEdges]
  have hcont2 : (popBackEdges (popBackEdges st path1 k) (st.GetConjPath path2) k).container
      = st.container := by simp [popBackEdges]
  have hdrop : ((st.path path1).data.drop ((st.path path1).data.length - k)).length = k := by
    rw [List.length_drop]; omega
  refine hC2.add_pair (by rw [hl2]; exact e1) (by rw [hl2, hcont2]; exact e2) (fun r hr => ?_)
    (by rw [hl2, e8]) (by rw [hl2, e9]) (by rw [hl2, e8, e9]; rfl) ?_ (by rw [hl2, e8, e9]; simp)
    (by rw [hl2, e8]; simp only [List.length_replicate]; rw [hdrop])
  · rw [hl2] at hr
    rw [hP2, hc2']
    by_cases h1 : r = st.GetConjPath path2
    · rw [if_pos h1, h1, e6, hP1, if_neg (fun h => f10 h.symm), if_neg (fun h => f12 h.symm)]
      exact ⟨rfl, rfl, rfl⟩
    · rw [if_neg h1]
      by_cases h2 : r = path2
      · rw [if_pos h2, h2, e7, hP1, if_neg (Ne.symm f9), if_neg (Ne.symm f11)]
        exact ⟨rfl, rfl, rfl⟩
      · rw [if_neg h2, hP1]
        by_cases h3 : r = path1
        · rw [if_pos h3, h3, e4]
          exact ⟨rfl, rfl, rfl⟩
        · rw [if_neg h3]
          by_cases h4 : r = (st.path path1).conj
          · rw [if_pos h4, h4]
            have := e5
            unfold State.GetConjPath at this
            rw [this]
            exact ⟨rfl, rfl, rfl⟩
          · rw [if_neg h4, e10 r h3 h4 h2 h1 (by omega) (by omega)]
            exact ⟨rfl, rfl, rfl⟩
  · rw [hl2, e8, e9]
    show (st.path path1).data.drop ((st.path path1).data.length - k)
      = conjSeq g (conjSeq g ((st.path path1).data.drop ((st.path path1).data.length - k)))
    rw [conjSeq_conjSeq g _ (fun e _ => hinv e)]

/-- Extraction is not edge-neutral: the total edge count drops by `2 * k`. -/
theorem Extracted.totalEdges {g : Graph} {st st' : State} {path1 path2 k : Nat}
    (hE : Extracted g st path1 path2 k st') (hC : Consistent g st) (hC' : Consistent g st')
    (hp : DistinctPairs st path1 path2) (hk1 : k ≤ (st.path path1).data.length)
    (hk2 : k ≤ (st.path path2).data.length) :
    TotalEdges st' + 2 * k = TotalEdges st := by
  obtain ⟨f1, f2, f3, f4, f5, f6, f7, f8, f9, f10, f11, f12⟩ := hp.facts
  obtain ⟨e1, e2, e3, e4, e5, e6, e7, e8, e9, e10⟩ := hE
  have g3 : st.GetConjPath path1 < st.heap.length := f3
  have g4 : st.GetConjPath path2 < st.heap.length := f4
  have s1 := hC.size_conj path1 f1
  have s2 := hC.size_conj path2 f2
  unfold BidirectionalPath.Size at s1 s2
  rw [TotalEdges_eq_sum hC, TotalEdges_eq_sum hC', e1, Finset.sum_range_succ,
    Finset.sum_range_succ]
  have hn1 : (st'.path st.heap.length).Size = k := by
    rw [e8]; unfold BidirectionalPath.Size
    show ((st.path path1).data.drop ((st.path path1).data.length - k)).length = k
    rw [List.length_drop]; omega
  have hn2 : (st'.path (st.heap.length + 1)).Size = k := by
    rw [e9]; unfold BidirectionalPath.Size
    show ((((st.path path1).data.drop ((st.path path1).data.length - k)).map
      g.conjugate).reverse).length = k
    rw [List.length_reverse, List.length_map, List.length_drop]; omega
  rw [hn1, hn2]
  -- the objects that were there before
  have hold : ∀ r ∈ Finset.range st.heap.length,
      (st.path r).Size = (st'.path r).Size
        + (if r ∈ ({path1, st.GetConjPath path1, path2, st.GetConjPath path2} : Finset Nat)
            then k else 0) := by
    intro r hr
    rw [Finset.mem_range] at hr
    unfold BidirectionalPath.Size
    by_cases h1 : r = path1
    · rw [if_pos (by rw [h1]; simp), h1, e4]
      show _ = ((st.path path1).data.take ((st.path path1).data.length - k)).length + k
      rw [List.length_take]; omega
    · by_cases h2 : r = st.GetConjPath path1
      · rw [if_pos (by rw [h2]; simp), h2, e5]
        show _ = ((st.path (st.GetConjPath path1)).data.drop k).length + k
        rw [List.length_drop]; omega
      · by_cases h3 : r = path2
        · rw [if_pos (by rw [h3]; simp), h3, e7]
          show _ = ((st.path path2).data.drop k).length + k
          rw [List.length_drop]; omega
        · by_cases h4 : r = st.GetConjPath path2
          · rw [if_pos (by rw [h4]; simp), h4, e6]
            show _ = ((st.path (st.GetConjPath path2)).data.take
              ((st.path (st.GetConjPath path2)).data.length - k)).length + k
            rw [List.length_take]; omega
          · rw [if_neg (by simp [h1, h2, h3, h4]), e10 r h1 h2 h3 h4 (by omega) (by omega)]
            rfl
  rw [Finset.sum_congr rfl hold, Finset.sum_add_distrib, Finset.sum_ite_mem]
  have hsub : Finset.range st.heap.length
      ∩ ({path1, st.GetConjPath path1, path2, st.GetConjPath path2} : Finset Nat)
      = {path1, st.GetConjPath path1, path2, st.GetConjPath path2} := by
    apply Finset.inter_eq_right.2
    intro x hx
    simp only [Finset.mem_insert, Finset.mem_singleton] at hx
    rw [Finset.mem_range]
    rcases hx with h | h | h | h <;> rw [h] <;> assumption
  have hcard : ({path1, st.GetConjPath path1, path2, st.GetConjPath path2} : Finset Nat).card
      = 4 := by
    have n1 : path1 ≠ st.GetConjPath path1 := Ne.symm f7
    have n2 : path1 ≠ st.GetConjPath path2 := f10
    have n3 : st.GetConjPath path1 ≠ path2 := f11
    have n4 : st.GetConjPath path1 ≠ st.GetConjPath path2 := f12
    have n5 : path2 ≠ st.GetConjPath path2 := Ne.symm f8
    rw [Finset.card_insert_of_not_mem (by simp [n1, f9, n2]),
      Finset.card_insert_of_not_mem (by simp [n3, n4]),
      Finset.card_insert_of_not_mem (by simp [n5]), Finset.card_singleton]
  rw [hsub, Finset.sum_const, hcard]
  simp only [smul_eq_mul]
  omega

theorem Resolved.unchanged_state {g : Graph} {s : State} (hC : Consistent g s) :
    Resolved g s s :=
  ⟨hC, le_refl _, le_refl _, le_refl _⟩

theorem Resolved.and_then {g : Graph} {s t u : State} (h1 : Resolved g s t)
    (h2 : Resolved g t u) : Resolved g s u :=
  ⟨h2.1, le_trans h1.2.1 h2.2.1, le_trans h2.2.2.1 h1.2.2.1, le_trans h2.2.2.2 h1.2.2.2⟩

theorem Reduced.resolved {g : Graph} {s t : State} (h : Reduced g s t) (hC : Consistent g s) :
    Resolved g s t := by
  have := h.totalEdges_le
  refine ⟨h.2.2.2.2 hC, by rw [h.2.1], this, by rw [h.2.1]; omega⟩

/-- `RemoveOverlap` on two paths of different pairs of a consistent state, with an
overlap size that is positive and at most both sizes: it returns and either only removes
edges or extracts. -/
theorem RemoveOverlap_step (g : Graph) (st : State) (path1 path2 k : Nat)
    (hC : Consistent g st) (hinv : ∀ e, g.conjugate (g.conjugate e) = e)
    (hp : DistinctPairs st path1 path2) (hk : 0 < k)
    (hk1 : k ≤ (st.path path1).Size) (hk2 : k ≤ (st.path path2).Size) :
    ∃ st', RemoveOverlap g st path1 path2 k = some st'
      ∧ (Reduced g st st' ∨ Extracted g st path1 path2 k st') := by
  obtain ⟨f1, f2, f3, f4, f5, f6, f7, f8, f9, f10, f11, f12⟩ := hp.facts
  have htwin := hC.size_conj path2 f2
  have g4 : st.GetConjPath path2 < st.heap.length := f4
  by_cases hA : (st.path path1).IsOverlap = true ∧ k = (st.path path1).Size
  · refine ⟨_, RemoveOverlap_reuse_first g st path1 path2 k hA.1 hA.2
      (by rw [htwin]; exact hk2), Or.inl ?_⟩
    exact (Reduced_popBackEdges g st _ k g4).followed_by (Reduced_SetOverlapedBeginTo g _ _ _)
  · by_cases hB : (st.path path2).IsOverlap = true ∧ (st.path path2).Size = k
    · refine ⟨_, RemoveOverlap_reuse_second g st path1 path2 k hA hB.1 hB.2 hk1, Or.inl ?_⟩
      exact (Reduced_popBackEdges g st _ k f1).followed_by (Reduced_SetOverlapedEndTo g _ _ _)
    · by_cases hX : k < (st.path path2).Size ∧ k < (st.path path1).Size
      · obtain ⟨st', h1, h2⟩ := RemoveOverlap_extract g st path1 path2 k hp
          (fun e _ => hinv e) htwin hk hX.2 hX.1
        exact ⟨st', h1, Or.inr h2⟩
      · exact ⟨st, RemoveOverlap_nothing g st path1 path2 k hA hB hX,
          Or.inl (Reduced.unchanged g st)⟩

theorem RemoveOverlap_resolved (g : Graph) (st : State) (path1 path2 k : Nat)
    (hC : Consistent g st) (hinv : ∀ e, g.conjugate (g.conjugate e) = e)
    (hp : DistinctPairs st path1 path2) (hk : 0 < k)
    (hk1 : k ≤ (st.path path1).Size) (hk2 : k ≤ (st.path path2).Size) :
    ∃ st', RemoveOverlap g st path1 path2 k = some st' ∧ Resolved g st st' := by
  obtain ⟨st', h1, h2⟩ := RemoveOverlap_step g st path1 path2 k hC hinv hp hk hk1 hk2
  refine ⟨st', h1, ?_⟩
  rcases h2 with h2 | h2
  · exact h2.resolved hC
  · have hC' := h2.consistent hC hinv hp hk hk1
    have ht := h2.totalEdges hC hC' hp hk1 hk2
    have hc := h2.2.1
    refine ⟨hC', by rw [hc]; simp, by omega, ?_⟩
    rw [hc, List.length_append, List.length_singleton]
    omega

/-- One call of `FindAndRemovePathOverlap` on a path of a consistent state. -/
theorem FindAndRemovePathOverlap_resolved (g : Graph) (st : State) (path1 M : Nat)
    (hC : Consistent g st) (hinv : ∀ e, g.conjugate (g.conjugate e) = e)
    (h1 : path1 < st.heap.length) :
    ∃ st', FindAndRemovePathOverlap g st path1 M = some st' ∧ Resolved g st st' := by
  rw [FindAndRemovePathOverlap_eq_call]
  cases hcall : RemoveOverlapCall st path1 with
  | none => exact ⟨st, rfl, Resolved.unchanged_state hC⟩
  | some c =>
    obtain ⟨p2, k⟩ := c
    obtain ⟨_, hr, hk⟩ := (RemoveOverlapCall_eq_some st path1 p2 k).1 hcall
    have hb := FindOverlapLoop_best st path1 (GetCoveringPaths st
      ((st.path path1).At (toSizeT (toInt32 (st.path path1).Size - 1)))) [] (none, 0)
      (BestPartner_nil st path1)
    rw [List.nil_append, hr] at hb
    unfold BestPartner at hb
    dsimp only at hb
    obtain ⟨b1, b2, b3, _, _⟩ := hb
    have h2 : p2 < st.heap.length := ((mem_GetCoveringPaths _ _ _).1 b1).1
    have hsame := b2.1
    unfold IsSamePath at hsame
    simp only [Bool.or_eq_false_iff] at hsame
    have hne : path1 ≠ p2 := by
      intro hc
      have := hsame.1
      rw [hc] at this
      simp [BidirectionalPath.Equal] at this
    have hne2 : path1 ≠ st.GetConjPath p2 := by
      intro hc
      have := hsame.2
      rw [← hc] at this
      simp [BidirectionalPath.Equal] at this
    have hle := OverlapEndSize_le (st.path path1) (st.path p2)
    exact RemoveOverlap_resolved g st path1 p2 k hC hinv
      (hC.distinctPairs path1 p2 h1 h2 hne hne2) hk (by rw [b3]; exact hle.1)
      (by rw [b3]; exact hle.2)

/-- The members of the pair at a valid position of the container are objects of the heap. -/
theorem Consistent.pair_valid {g : Graph} {s : State} (hC : Consistent g s) (i : Nat)
    (hi : i < s.container.length) :
    (s.container.getD i (0, 0)).1 < s.heap.length
      ∧ (s.container.getD i (0, 0)).2 < s.heap.length := by
  have hmem : s.container.getD i (0, 0) ∈ s.container := by
    rw [List.getD_eq_getElem _ _ hi]
    exact List.getElem_mem _
  obtain ⟨v1, v2⟩ := hC.pairs _ hmem
  exact ⟨v1, by rw [← v2]; exact (hC.linked _ v1).1⟩

theorem RemoveOverlapsLoop_zero (g : Graph) (M i : Nat) (st : State) :
    RemoveOverlapsLoop g M 0 i st = if i < st.container.length then none else some st := by
  simp only [RemoveOverlapsLoop]

theorem RemoveOverlapsLoop_succ (g : Graph) (M fuel i : Nat) (st : State) :
    RemoveOverlapsLoop g M (fuel + 1) i st
      = if i < st.container.length then
          (FindAndRemovePathOverlap g st (st.container.getD i (0, 0)).1 M).bind (fun st1 =>
          (FindAndRemovePathOverlap g st1 (st1.container.getD i (0, 0)).2 M).bind (fun st2 =>
          RemoveOverlapsLoop g M fuel (i + 1) st2))
        else some st := by
  simp only [RemoveOverlapsLoop]

/-- Whatever the loop of `RemoveOverlaps` returns is a resolved state. -/
theorem RemoveOverlapsLoop_resolved (g : Graph) (M : Nat)
    (hinv : ∀ e, g.conjugate (g.conjugate e) = e) :
    ∀ (fuel i : Nat) (s : State), Consistent g s →
      ∀ s', RemoveOverlapsLoop g M fuel i s = some s' → Resolved g s s' := by
  intro fuel
  induction fuel with
  | zero =>
    intro i s hC s' h
    rw [RemoveOverlapsLoop_zero] at h
    by_cases hi : i < s.container.length
    · rw [if_pos hi] at h
      exact absurd h (by simp)
    · rw [if_neg hi] at h
      have e : s = s' := Option.some.inj h
      rw [← e]; exact Resolved.unchanged_state hC
  | succ n ih =>
    intro i s hC s' h
    rw [RemoveOverlapsLoop_succ] at h
    by_cases hi : i < s.container.length
    · rw [if_pos hi] at h
      obtain ⟨t1, ht1, hR1⟩ := FindAndRemovePathOverlap_resolved g s
        (s.container.getD i (0, 0)).1 M hC hinv (hC.pair_valid i hi).1
      rw [ht1, Option.some_bind] at h
      obtain ⟨t2, ht2, hR2⟩ := FindAndRemovePathOverlap_resolved g t1
        (t1.container.getD i (0, 0)).2 M hR1.1 hinv
        (hR1.1.pair_valid i (by have := hR1.2.1; omega)).2
      rw [ht2, Option.some_bind] at h
      exact (hR1.and_then hR2).and_then (ih (i + 1) t2 hR2.1 s' h)
    · rw [if_neg hi] at h
      have e : s = s' := Option.some.inj h
      rw [← e]; exact Resolved.unchanged_state hC

/-- With a budget of at least `paths.size() + TotalEdges - i` iterations the loop of
`RemoveOverlaps` reaches its exit. -/
theorem RemoveOverlapsLoop_terminates (g : Graph) (M : Nat)
    (hinv : ∀ e, g.conjugate (g.conjugate e) = e) :
    ∀ (fuel i : Nat) (s : State), Consistent g s →
      s.container.length + TotalEdges s ≤ i + fuel →
      ∃ s', RemoveOverlapsLoop g M fuel i s = some s' := by
  intro fuel
  induction fuel with
  | zero =>
    intro i s _ hm
    rw [RemoveOverlapsLoop_zero, if_neg (by omega)]
    exact ⟨s, rfl⟩
  | succ n ih =>
    intro i s hC hm
    rw [RemoveOverlapsLoop_succ]
    by_cases hi : i < s.container.length
    · rw [if_pos hi]
      obtain ⟨t1, ht1, hR1⟩ := FindAndRemovePathOverlap_resolved g s
        (s.container.getD i (0, 0)).1 M hC hinv (hC.pair_valid i hi).1
      obtain ⟨t2, ht2, hR2⟩ := FindAndRemovePathOverlap_resolved g t1
        (t1.container.getD i (0, 0)).2 M hR1.1 hinv
        (hR1.1.pair_valid i (by have := hR1.2.1; omega)).2
      rw [ht1, Option.some_bind, ht2, Option.some_bind]
      have h1 := hR1.2.2.2
      have h2 := hR2.2.2.2
      exact ih (i + 1) t2 hR2.1 (by omega)
    · rw [if_neg hi]
      exact ⟨s, rfl⟩

/-! ## Mate-pair ends, symmetry of the pairs and the sorted edge list -/

theorem RemoveMatePairEndLoop_zero (g : Graph) (path m : Nat) (st : State) :
    RemoveMatePairEndLoop g path m 0 st = some st := by
  simp only [RemoveMatePairEndLoop]

theorem RemoveMatePairEndLoop_succ (g : Graph) (path m pos : Nat) (st : State) :
    RemoveMatePairEndLoop g path m (pos + 1) st
      = if g.length ((st.path path).At (pos + 1)) < m then
          (PopBack st path 1).bind (RemoveMatePairEndLoop g path m pos)
        else some st := by
  simp only [RemoveMatePairEndLoop]

/-- The loop of `RemoveMatePairEnd` returns and only removes edges, as long as `pos` is a
position of the path. -/
theorem RemoveMatePairEndLoop_reduced (g : Graph) (path m : Nat) :
    ∀ (pos : Nat) (s : State), Consistent g s → path < s.heap.length →
      (pos = 0 ∨ pos < (s.path path).data.length) →
      ∃ s', RemoveMatePairEndLoop g path m pos s = some s' ∧ Reduced g s s' := by
  intro pos
  induction pos with
  | zero =>
    intro s _ _ _
    exact ⟨s, RemoveMatePairEndLoop_zero g path m s, Reduced.unchanged g s⟩
  | succ n ih =>
    intro s hC hp hpos
    rw [RemoveMatePairEndLoop_succ]
    by_cases hlt : g.length ((s.path path).At (n + 1)) < m
    · rw [if_pos hlt, PopBack_eq_some s path 1 (by omega), Option.some_bind]
      have hR := Reduced_popBackEdges g s path 1 hp
      obtain ⟨q1, q2, q3⟩ := hC.linked path hp
      have hsz : ((popBackEdges s path 1).path path).data.length
          = (s.path path).data.length - 1 := by
        rw [popBackEdges_path s path 1 path hp q1 q3, if_pos rfl]
        show ((s.path path).data.take ((s.path path).data.length - 1)).length = _
        rw [List.length_take]; omega
      obtain ⟨s', h1, h2⟩ := ih (popBackEdges s path 1) (hR.2.2.2.2 hC) (by rw [hR.1]; exact hp)
        (by rw [hsz]; omega)
      exact ⟨s', h1, hR.followed_by h2⟩
    · rw [if_neg hlt]
      exact ⟨s, rfl, Reduced.unchanged g s⟩

theorem RemoveMatePairEnd_reduced (g : Graph) (s : State) (path m : Nat) (hC : Consistent g s)
    (hp : path < s.heap.length) :
    ∃ s', RemoveMatePairEnd g s path m = some s' ∧ Reduced g s s' := by
  unfold RemoveMatePairEnd
  apply RemoveMatePairEndLoop_reduced g path m _ s hC hp
  unfold BidirectionalPath.Size toInt32
  omega

theorem RemoveMatePairEndsLoop_reduced (g : Graph) (m : Nat) :
    ∀ (l : List (Nat × Nat)) (s : State), Consistent g s →
      (∀ pq ∈ l, pq.1 < s.heap.length ∧ pq.2 < s.heap.length) →
      ∃ s', RemoveMatePairEndsLoop g m l s = some s' ∧ Reduced g s s' := by
  intro l
  induction l with
  | nil => intro s _ _; exact ⟨s, by simp only [RemoveMatePairEndsLoop], Reduced.unchanged g s⟩
  | cons pq rest ih =>
    intro s hC hv
    obtain ⟨v1, v2⟩ := hv pq (List.mem_cons_self _ _)
    obtain ⟨s1, h1, hR1⟩ := RemoveMatePairEnd_reduced g s pq.1 m hC v1
    obtain ⟨s2, h2, hR2⟩ := RemoveMatePairEnd_reduced g s1 pq.2 m (hR1.2.2.2.2 hC)
      (by rw [hR1.1]; exact v2)
    have hR := hR1.followed_by hR2
    obtain ⟨s', h3, hR3⟩ := ih s2 (hR.2.2.2.2 hC)
      (fun z hz => by rw [hR.1]; exact hv z (List.mem_cons_of_mem _ hz))
    refine ⟨s', ?_, hR.followed_by hR3⟩
    have e : RemoveMatePairEndsLoop g m (pq :: rest) s
        = (RemoveMatePairEnd g s pq.1 m).bind (fun st1 =>
          (RemoveMatePairEnd g st1 pq.2 m).bind (RemoveMatePairEndsLoop g m rest)) := by
      simp only [RemoveMatePairEndsLoop]
    rw [e, h1, Option.some_bind, h2, Option.some_bind, h3]

theorem RemoveMatePairEnds_reduced (g : Graph) (s : State) (m : Nat) (hC : Consistent g s) :
    ∃ s', RemoveMatePairEnds g s m = some s' ∧ Reduced g s s' := by
  unfold RemoveMatePairEnds
  apply RemoveMatePairEndsLoop_reduced g m _ s hC
  intro pq hpq
  obtain ⟨v1, v2⟩ := hC.pairs pq hpq
  exact ⟨v1, by rw [← v2]; exact (hC.linked _ v1).1⟩

/-- In a consistent state every pair of the container is symmetric. -/
theorem Consistent.pairsSymmetric {g : Graph} {s : State} (hC : Consistent g s) :
    PairsSymmetric g s := by
  intro pq hpq
  obtain ⟨v1, v2⟩ := hC.pairs pq hpq
  obtain ⟨q1, q2, _⟩ := hC.linked pq.1 v1
  have he := hC.edges _ q1
  have hg := hC.gaps _ q1
  rw [q2, v2] at he hg
  exact ⟨he, hg⟩

theorem GetSortedEdges_nodup (g : Graph) : (GetSortedEdges g).Nodup := by
  unfold GetSortedEdges
  exact (List.perm_insertionSort _ _).nodup_iff.2 (List.nodup_dedup _)

theorem RemoveSimilarEdges_eq_foldlM (g : Graph) (M : Nat) (f1 f2 f3 f4 : Bool) :
    ∀ (l : List EdgeId) (s : State), RemoveSimilarEdges g M f1 f2 f3 f4 l s
      = l.foldlM (fun t e => RemoveSimilarAtEdge g M f1 f2 f3 f4 t e) s := by
  intro l
  induction l with
  | nil => intro s; rfl
  | cons e rest ih =>
    intro s
    have e1 : RemoveSimilarEdges g M f1 f2 f3 f4 (e :: rest) s
        = (RemoveSimilarAtEdge g M f1 f2 f3 f4 s e).bind
            (RemoveSimilarEdges g M f1 f2 f3 f4 rest) := rfl
    rw [e1, List.foldlM_cons]
    cases RemoveSimilarAtEdge g M f1 f2 f3 f4 s e with
    | none => rfl
    | some s1 => exact ih s1

/-- The container with the paths `(1, 3, 5, 7, 9)` and `(7, 9, 11)` is consistent. -/
theorem exState_consistent : Consistent (exGraph 5) (exState [1, 3, 5, 7, 9] [7, 9, 11]) := by
  refine ⟨fun r hr => ?_, fun r hr => ?_, fun r hr => ?_, fun r hr => ?_, by decide,
    fun r hr => ?_, by decide⟩
  all_goals
    have h4 : r < 4 := hr
    interval_cases r <;> decide

theorem flip_parity_twice (e : Nat) :
    (if (if e % 2 = 0 then e - 1 else e + 1) % 2 = 0
      then (if e % 2 = 0 then e - 1 else e + 1) - 1
      else (if e % 2 = 0 then e - 1 else e + 1) + 1) = e := by
  split <;> split <;> omega

theorem exGraph_conjugate_conjugate (long : EdgeId) (e : EdgeId) :
    (exGraph long).conjugate ((exGraph long).conjugate e) = e :=
  flip_parity_twice e

/-! ## No growth, termination and conjugate symmetry -/

theorem Consistent.wellLinked {g : Graph} {s : State} (hC : Consistent g s) : WellLinked s :=
  ⟨hC.linked, hC.gaps_length, hC.pairs, hC.owned, hC.distinct⟩

/-- A well linked container whose pairs are symmetric is consistent. -/
theorem Consistent.of_wellLinked {g : Graph} {s : State}
    (hinv : ∀ e, g.conjugate (g.conjugate e) = e) (hW : WellLinked s)
    (hS : PairsSymmetric g s) : Consistent g s := by
  have key : ∀ r, r < s.heap.length →
      (s.path (s.path r).conj).data = conjSeq g (s.path r).data
      ∧ (s.path (s.path r).conj).gaps = (s.path r).gaps.reverse := by
    intro r hr
    have hm := hW.owned r hr
    unfold containerPaths at hm
    obtain ⟨pq, hpq, hr2⟩ := List.mem_flatMap.1 hm
    obtain ⟨v1, v2⟩ := hW.pairs pq hpq
    obtain ⟨q1, q2, _⟩ := hW.linked pq.1 v1
    obtain ⟨s1, s2⟩ := hS pq hpq
    simp only [List.mem_cons, List.mem_singleton, List.not_mem_nil, or_false] at hr2
    rcases hr2 with hr2 | hr2
    · rw [hr2, v2]
      constructor
      · rw [s1, conjSeq_conjSeq g _ (fun e _ => hinv e)]
      · rw [s2, List.reverse_reverse]
    · rw [hr2, ← v2, q2, v2]
      exact ⟨s1, s2⟩
  exact ⟨hW.linked, fun r hr => (key r hr).1, fun r hr => (key r hr).2, hW.gaps_length,
    hW.pairs, hW.owned, hW.distinct⟩

/-- C17. No-growth: on a well-formed container (every pair is a path with its conjugate
twin, over a graph whose conjugation is an involution) every state that
`RemoveSimilarPaths` returns, for all parameters, and every state that `RemoveOverlaps`
returns, for every `max_overlaped`, has at most as many edge occurrences, summed over all
paths of the container (canonical paths and twins), as the state before the call; and
`RemoveOverlaps` does return such a state. -/
theorem resolver_no_growth (g : Graph) (st : State)
    (hinv : ∀ e, g.conjugate (g.conjugate e) = e) (hC : Consistent g st) :
    (∀ (M : Nat) (f1 f2 f3 f4 : Bool) (st' : State),
        RemoveSimilarPaths g st M f1 f2 f3 f4 = some st' → TotalEdges st' ≤ TotalEdges st)
    ∧ (∀ (M fuel : Nat) (st' : State),
        RemoveOverlaps g st M fuel = some st' → TotalEdges st' ≤ TotalEdges st)
    ∧ (∀ M : Nat, ∃ st', RemoveOverlaps g st M (st.container.length + TotalEdges st) = some st'
        ∧ TotalEdges st' ≤ TotalEdges st) := by
  refine ⟨fun M f1 f2 f3 f4 st' h => ?_, fun M fuel st' h => ?_, fun M => ?_⟩
  · exact (RemoveSimilarEdges_reduced g M f1 f2 f3 f4 _ st hC st' h).totalEdges_le
  · exact (RemoveOverlapsLoop_resolved g M hinv fuel 0 st hC st' h).2.2.1
  · obtain ⟨st', h⟩ := RemoveOverlapsLoop_terminates g M hinv
      (st.container.length + TotalEdges st) 0 st hC (by omega)
    exact ⟨st', h, (RemoveOverlapsLoop_resolved g M hinv _ 0 st hC st' h).2.2.1⟩

/-- Both passes on the container with the paths `(1, 3, 5, 7, 9)` and `(7, 9, 11)`:
`RemoveSimilarPaths` leaves 12 of the 16 edge occurrences. -/
theorem resolver_no_growth_witness :
    RemoveSimilarPaths (exGraph 5) (exState [1, 3, 5, 7, 9] [7, 9, 11]) 0 false true true true
      ≠ none
    ∧ ∀ st', RemoveSimilarPaths (exGraph 5) (exState [1, 3, 5, 7, 9] [7, 9, 11]) 0
        false true true true = some st' →
      TotalEdges st' ≤ TotalEdges (exState [1, 3, 5, 7, 9] [7, 9, 11]) :=
  ⟨by decide, fun st' h =>
    (resolver_no_growth (exGraph 5) (exState [1, 3, 5, 7, 9] [7, 9, 11])
      (exGraph_conjugate_conjugate 5) exState_consistent).1 0 false true true true st' h⟩

/-- C18 (counterexample). `RemoveOverlap` extracts the overlap `(3, 5)` of the paths
`(1, 3, 5)` and `(3, 5, 7, 9)`: the container has 14 edge occurrences before (7 on the
canonical paths) and 10 after (5 on the canonical paths), so the net change is not 0. -/
theorem RemoveOverlap_extraction_not_neutral :
    ∃ st', RemoveOverlap (exGraph 5) (exState [1, 3, 5] [3, 5, 7, 9]) 0 2 2 = some st'
      ∧ st'.container = [(0, 1), (2, 3), (4, 5)]
      ∧ (st'.path 4).data = [3, 5]
      ∧ TotalEdges (exState [1, 3, 5] [3, 5, 7, 9]) = 14
      ∧ TotalEdges st' = 10
      ∧ ((exState [1, 3, 5] [3, 5, 7, 9]).container.map
          (fun pq => ((exState [1, 3, 5] [3, 5, 7, 9]).path pq.1).Size)).sum = 7
      ∧ (st'.container.map (fun pq => (st'.path pq.1).Size)).sum = 5 := by
  decide

/-- C18 (amended). Whenever `RemoveOverlap` extracts a new overlap path of `k` edges from
the tail of `path1` and the head of `path2` (paths of different pairs of a well-formed
container, `0 < k` smaller than both sizes), the call returns, the new pair is appended to
the container, both of its paths have `k` edges, and the total number of edge occurrences
over all paths of the container (canonical paths and twins) decreases by `2 * k`: the
four old paths lose `k` edges each and the two new ones hold `k` each. -/
theorem RemoveOverlap_extraction_edge_count (g : Graph) (st : State) (path1 path2 k : Nat)
    (hinv : ∀ e, g.conjugate (g.conjugate e) = e) (hC : Consistent g st)
    (hp : DistinctPairs st path1 path2) (hk : 0 < k)
    (hk1 : k < (st.path path1).Size) (hk2 : k < (st.path path2).Size) :
    ∃ st', RemoveOverlap g st path1 path2 k = some st'
      ∧ st'.container = st.container ++ [(st.heap.length, st.heap.length + 1)]
      ∧ (st'.path st.heap.length).Size = k
      ∧ (st'.path (st.heap.length + 1)).Size = k
      ∧ TotalEdges st' + 2 * k = TotalEdges st := by
  obtain ⟨st', h1, hE⟩ := RemoveOverlap_extract g st path1 path2 k hp (fun e _ => hinv e)
    (hC.size_conj path2 hp.2.1) hk hk1 hk2
  unfold BidirectionalPath.Size at hk1 hk2
  have hC' := hE.consistent hC hinv hp hk (by omega)
  have ht := hE.totalEdges hC hC' hp (by omega) (by omega)
  obtain ⟨e1, e2, e3, e4, e5, e6, e7, e8, e9, e10⟩ := hE
  refine ⟨st', h1, e2, ?_, ?_, ht⟩
  · rw [e8]
    show ((st.path path1).data.drop ((st.path path1).data.length - k)).length = k
    rw [List.length_drop]; omega
  · rw [e9]
    show ((((st.path path1).data.drop ((st.path path1).data.length - k)).map
      g.conjugate).reverse).length = k
    rw [List.length_reverse, List.length_map, List.length_drop]; omega

/-- The extraction of the overlap `(7, 9)` of the paths `(1, 3, 5, 7, 9)` and `(7, 9, 11)`
takes 4 of the 16 edge occurrences away. -/
theorem RemoveOverlap_extraction_edge_count_witness :
    ∃ st', RemoveOverlap (exGraph 5) (exState [1, 3, 5, 7, 9] [7, 9, 11]) 0 2 2 = some st'
      ∧ st'.container = (exState [1, 3, 5, 7, 9] [7, 9, 11]).container
          ++ [((exState [1, 3, 5, 7, 9] [7, 9, 11]).heap.length,
               (exState [1, 3, 5, 7, 9] [7, 9, 11]).heap.length + 1)]
      ∧ (st'.path (exState [1, 3, 5, 7, 9] [7, 9, 11]).heap.length).Size = 2
      ∧ (st'.path ((exState [1, 3, 5, 7, 9] [7, 9, 11]).heap.length + 1)).Size = 2
      ∧ TotalEdges st' + 2 * 2 = TotalEdges (exState [1, 3, 5, 7, 9] [7, 9, 11]) :=
  RemoveOverlap_extraction_edge_count (exGraph 5) (exState [1, 3, 5, 7, 9] [7, 9, 11]) 0 2 2
    (exGraph_conjugate_conjugate 5) exState_consistent (by decide) (by decide) (by decide)
    (by decide)

/-- C19. Termination: on a well-formed container `RemoveOverlaps` returns once its loop
has been given as many iterations as the container has pairs plus edge occurrences,
although the bound `paths.size()` is read again at each iteration and grows at every
extraction: pairs plus edge occurrences never increase, so the extractions are bounded by
the edge count.  `RemoveSimilarPaths` is one pass over the sorted edge list, which holds
every edge of the graph and its conjugate, and no edge twice. -/
theorem resolver_terminates (g : Graph) (st : State) (M : Nat)
    (hinv : ∀ e, g.conjugate (g.conjugate e) = e) (hC : Consistent g st) :
    (∀ fuel, st.container.length + TotalEdges st ≤ fuel →
      ∃ st', RemoveOverlaps g st M fuel = some st'
        ∧ st.container.length ≤ st'.container.length
        ∧ st'.container.length + TotalEdges st' ≤ st.container.length + TotalEdges st)
    ∧ (∀ f1 f2 f3 f4 : Bool, RemoveSimilarPaths g st M f1 f2 f3 f4
        = (GetSortedEdges g).foldlM (fun s e => RemoveSimilarAtEdge g M f1 f2 f3 f4 s e) st)
    ∧ (GetSortedEdges g).Nodup
    ∧ (∀ e, e ∈ GetSortedEdges g ↔ ∃ e0 ∈ g.edges, e = e0 ∨ e = g.conjugate e0) := by
  refine ⟨fun fuel hf => ?_, fun f1 f2 f3 f4 => ?_, GetSortedEdges_nodup g, fun e => ?_⟩
  · obtain ⟨st', h⟩ := RemoveOverlapsLoop_terminates g M hinv fuel 0 st hC (by omega)
    have hR := RemoveOverlapsLoop_resolved g M hinv fuel 0 st hC st' h
    exact ⟨st', h, hR.2.1, hR.2.2.2⟩
  · exact RemoveSimilarEdges_eq_foldlM g M f1 f2 f3 f4 (GetSortedEdges g) st
  · unfold GetSortedEdges
    rw [(List.perm_insertionSort _ _).mem_iff, List.mem_dedup, List.mem_flatMap]
    simp only [List.mem_cons, List.mem_singleton, List.not_mem_nil, or_false]

/-- On the container with the paths `(1, 3, 5, 7, 9)` and `(7, 9, 11)` (2 pairs, 16 edge
occurrences) `RemoveOverlaps` returns within 18 iterations. -/
theorem resolver_terminates_witness :
    ∃ st', RemoveOverlaps (exGraph 5) (exState [1, 3, 5, 7, 9] [7, 9, 11]) 0 18 = some st'
      ∧ (exState [1, 3, 5, 7, 9] [7, 9, 11]).container.length ≤ st'.container.length
      ∧ st'.container.length + TotalEdges st'
          ≤ (exState [1, 3, 5, 7, 9] [7, 9, 11]).container.length
            + TotalEdges (exState [1, 3, 5, 7, 9] [7, 9, 11]) :=
  (resolver_terminates (exGraph 5) (exState [1, 3, 5, 7, 9] [7, 9, 11]) 0
    (exGraph_conjugate_conjugate 5) exState_consistent).1 18 (by decide)

/-- C20. Conjugate symmetry is preserved: in a well linked container over a graph whose
conjugation is an involution, if every pair `(P, Q)` satisfies
`P.edges = reverse (map conj Q.edges)` and `P.gaps = reverse Q.gaps`, then so does every
pair of every state that `RemoveSimilarPaths` or `RemoveOverlaps` returns and of the state
that `RemoveMatePairEnds` returns, and of the state after an extraction by `RemoveOverlap`,
whose container ends with the new overlap pair; `RemoveOverlaps`, `RemoveMatePairEnds` and
the extraction do return. -/
theorem resolver_keeps_conjugate_symmetry (g : Graph) (st : State)
    (hinv : ∀ e, g.conjugate (g.conjugate e) = e) (hW : WellLinked st)
    (hS : PairsSymmetric g st) :
    (∀ (M : Nat) (f1 f2 f3 f4 : Bool) (st' : State),
        RemoveSimilarPaths g st M f1 f2 f3 f4 = some st' →
        WellLinked st' ∧ PairsSymmetric g st')
    ∧ (∀ (M fuel : Nat) (st' : State), RemoveOverlaps g st M fuel = some st' →
        WellLinked st' ∧ PairsSymmetric g st')
    ∧ (∀ M : Nat, ∃ st', RemoveOverlaps g st M (st.container.length + TotalEdges st) = some st'
        ∧ WellLinked st' ∧ PairsSymmetric g st')
    ∧ (∀ min_edge_len : Nat, ∃ st', RemoveMatePairEnds g st min_edge_len = some st'
        ∧ WellLinked st' ∧ PairsSymmetric g st')
    ∧ (∀ path1 path2 k : Nat, DistinctPairs st path1 path2 → 0 < k →
        k < (st.path path1).Size → k < (st.path path2).Size →
        ∃ st', RemoveOverlap g st path1 path2 k = some st'
          ∧ st'.container = st.container ++ [(st.heap.length, st.heap.length + 1)]
          ∧ WellLinked st' ∧ PairsSymmetric g st') := by
  have hC : Consistent g st := Consistent.of_wellLinked hinv hW hS
  refine ⟨fun M f1 f2 f3 f4 st' h => ?_, fun M fuel st' h => ?_, fun M => ?_, fun m => ?_,
    fun path1 path2 k hp hk hk1 hk2 => ?_⟩
  · have hC' := (RemoveSimilarEdges_reduced g M f1 f2 f3 f4 _ st hC st' h).2.2.2.2 hC
    exact ⟨hC'.wellLinked, hC'.pairsSymmetric⟩
  · have hC' := (RemoveOverlapsLoop_resolved g M hinv fuel 0 st hC st' h).1
    exact ⟨hC'.wellLinked, hC'.pairsSymmetric⟩
  · obtain ⟨st', h⟩ := RemoveOverlapsLoop_terminates g M hinv
      (st.container.length + TotalEdges st) 0 st hC (by omega)
    have hC' := (RemoveOverlapsLoop_resolved g M hinv _ 0 st hC st' h).1
    exact ⟨st', h, hC'.wellLinked, hC'.pairsSymmetric⟩
  · obtain ⟨st', h, hR⟩ := RemoveMatePairEnds_reduced g st m hC
    have hC' := hR.2.2.2.2 hC
    exact ⟨st', h, hC'.wellLinked, hC'.pairsSymmetric⟩
  · obtain ⟨st', h1, hE⟩ := RemoveOverlap_extract g st path1 path2 k hp (fun e _ => hinv e)
      (hC.size_conj path2 hp.2.1) hk hk1 hk2
    unfold BidirectionalPath.Size at hk1
    have hC' := hE.consistent hC hinv hp hk (by omega)
    exact ⟨st', h1, hE.2.1, hC'.wellLinked, hC'.pairsSymmetric⟩

/-- The pairs of the container with the paths `(1, 3, 5, 7, 9)` and `(7, 9, 11)` stay
symmetric when `RemoveMatePairEnds` removes the edges shorter than 2 from the ends. -/
theorem resolver_keeps_conjugate_symmetry_witness :
    ∃ st', RemoveMatePairEnds (exGraph 5) (exState [1, 3, 5, 7, 9] [7, 9, 11]) 2 = some st'
      ∧ WellLinked st' ∧ PairsSymmetric (exGraph 5) st' :=
  (resolver_keeps_conjugate_symmetry (exGraph 5) (exState [1, 3, 5, 7, 9] [7, 9, 11])
    (exGraph_conjugate_conjugate 5) exState_consistent.wellLinked
    exState_consistent.pairsSymmetric).2.2.2.1 2

/-! ## The visiting order of the edges -/

theorem EdgeLengthAndIdComparator_iff (g : Graph) (a b : EdgeId) :
    EdgeLengthAndIdComparator g a b = true
      ↔ g.length a < g.length b ∨ (g.length a = g.length b ∧ g.int_id a < g.int_id b) := by
  unfold EdgeLengthAndIdComparator
  by_cases h1 : g.length a < g.length b
  · rw [if_pos h1]; exact ⟨fun _ => Or.inl h1, fun _ => rfl⟩
  · rw [if_neg h1]
    by_cases h2 : g.length b < g.length a
    · rw [if_pos h2]
      constructor
      · intro h; exact absurd h (by simp)
      · rintro (h | ⟨h, _⟩) <;> omega
    · rw [if_neg h2, decide_eq_true_iff]
      constructor
      · intro h; exact Or.inr ⟨by omega, h⟩
      · rintro (h | ⟨_, h⟩)
        · exact absurd h h1
        · exact h

theorem EdgeLengthAndIdComparator_false_iff (g : Graph) (a b : EdgeId) :
    EdgeLengthAndIdComparator g b a = false
      ↔ g.length a < g.length b ∨ (g.length a = g.length b ∧ g.int_id a ≤ g.int_id b) := by
  rw [← Bool.not_eq_true, EdgeLengthAndIdComparator_iff]
  constructor
  · intro h
    by_cases h1 : g.length a < g.length b
    · exact Or.inl h1
    · have h2 : ¬ g.length b < g.length a := fun hh => h (Or.inl hh)
      refine Or.inr ⟨by omega, ?_⟩
      by_contra h3
      exact h (Or.inr ⟨by omega, by omega⟩)
  · rintro (h | ⟨h1, h2⟩) (h3 | ⟨h3, h4⟩) <;> omega

/-- The list `GetSortedEdges` is sorted: no edge is followed by one that the comparator
puts in front of it. -/
theorem GetSortedEdges_sorted (g : Graph) :
    (GetSortedEdges g).Pairwise (fun a b => EdgeLengthAndIdComparator g b a = false) := by
  haveI : IsTotal EdgeId (fun a b => EdgeLengthAndIdComparator g b a = false) :=
    ⟨fun a b => by
      rw [EdgeLengthAndIdComparator_false_iff, EdgeLengthAndIdComparator_false_iff]
      by_cases h1 : g.length a < g.length b
      · exact Or.inl (Or.inl h1)
      · by_cases h2 : g.length b < g.length a
        · exact Or.inr (Or.inl h2)
        · by_cases h3 : g.int_id a ≤ g.int_id b
          · exact Or.inl (Or.inr ⟨by omega, h3⟩)
          · exact Or.inr (Or.inr ⟨by omega, by omega⟩)⟩
  haveI : IsTrans EdgeId (fun a b => EdgeLengthAndIdComparator g b a = false) :=
    ⟨fun a b c => by
      rw [EdgeLengthAndIdComparator_false_iff, EdgeLengthAndIdComparator_false_iff,
        EdgeLengthAndIdComparator_false_iff]
      rintro (h | ⟨h1, h2⟩) (h3 | ⟨h3, h4⟩)
      · exact Or.inl (by omega)
      · exact Or.inl (by omega)
      · exact Or.inl (by omega)
      · exact Or.inr ⟨by omega, by omega⟩⟩
  unfold GetSortedEdges
  exact List.sorted_insertionSort _ _

/-- C22. Visiting order: `GetSortedEdges` holds every graph edge and its conjugate, each
exactly once, and is sorted ascending by (length, int_id); `EdgeLengthAndIdComparator` is
irreflexive, asymmetric and transitive, and total on edges with distinct int_ids; when
the int_ids of the edges are distinct the list is strictly ascending and it is the only
sorted arrangement of its elements, so the visiting order of `RemoveSimilarPaths` is
determined by the graph. -/
theorem GetSortedEdges_visiting_order (g : Graph) (hid : Function.Injective g.int_id) :
    (∀ e, e ∈ GetSortedEdges g ↔ ∃ e0 ∈ g.edges, e = e0 ∨ e = g.conjugate e0)
    ∧ (∀ e ∈ GetSortedEdges g, (GetSortedEdges g).count e = 1)
    ∧ (GetSortedEdges g).Pairwise (fun a b =>
        g.length a < g.length b ∨ (g.length a = g.length b ∧ g.int_id a < g.int_id b))
    ∧ (∀ a, EdgeLengthAndIdComparator g a a = false)
    ∧ (∀ a b, EdgeLengthAndIdComparator g a b = true → EdgeLengthAndIdComparator g b a = false)
    ∧ (∀ a b c, EdgeLengthAndIdComparator g a b = true → EdgeLengthAndIdComparator g b c = true →
        EdgeLengthAndIdComparator g a c = true)
    ∧ (∀ a b, g.int_id a ≠ g.int_id b →
        EdgeLengthAndIdComparator g a b = true ∨ EdgeLengthAndIdComparator g b a = true)
    ∧ (∀ l : List EdgeId, l.Perm (GetSortedEdges g) →
        l.Pairwise (fun a b => EdgeLengthAndIdComparator g b a = false) →
        l = GetSortedEdges g) := by
  have hnd := GetSortedEdges_nodup g
  have hs := GetSortedEdges_sorted g
  refine ⟨fun e => ?_, fun e he => List.count_eq_one_of_mem hnd he, ?_, fun a => ?_,
    fun a b => ?_, fun a b c => ?_, fun a b hab => ?_, fun l hp hl => ?_⟩
  · unfold GetSortedEdges
    rw [(List.perm_insertionSort _ _).mem_iff, List.mem_dedup, List.mem_flatMap]
    simp only [List.mem_cons, List.mem_singleton, List.not_mem_nil, or_false]
  · have h2 : List.Pairwise (fun a b => EdgeLengthAndIdComparator g b a = false ∧ a ≠ b) (GetSortedEdges g) := List.Pairwise.and hs hnd
    refine h2.imp ?_
    intro a b hab
    rcases (EdgeLengthAndIdComparator_false_iff g a b).1 hab.1 with h | ⟨h1, h2⟩
    · exact Or.inl h
    · refine Or.inr ⟨h1, lt_of_le_of_ne h2 (fun h3 => hab.2 (hid h3))⟩
  · rw [← Bool.not_eq_true, EdgeLengthAndIdComparator_iff]
    rintro (h | ⟨_, h⟩) <;> omega
  · rw [← Bool.not_eq_true, EdgeLengthAndIdComparator_iff, EdgeLengthAndIdComparator_iff]
    rintro (h | ⟨h1, h2⟩) (h3 | ⟨h3, h4⟩) <;> omega
  · rw [EdgeLengthAndIdComparator_iff, EdgeLengthAndIdComparator_iff,
      EdgeLengthAndIdComparator_iff]
    rintro (h | ⟨h1, h2⟩) (h3 | ⟨h3, h4⟩)
    · exact Or.inl (by omega)
    · exact Or.inl (by omega)
    · exact Or.inl (by omega)
    · exact Or.inr ⟨by omega, by omega⟩
  · rw [EdgeLengthAndIdComparator_iff, EdgeLengthAndIdComparator_iff]
    by_cases h1 : g.length a < g.length b
    · exact Or.inl (Or.inl h1)
    · by_cases h2 : g.length b < g.length a
      · exact Or.inr (Or.inl h2)
      · by_cases h3 : g.int_id a < g.int_id b
        · exact Or.inl (Or.inr ⟨by omega, h3⟩)
        · exact Or.inr (Or.inr ⟨by omega, by omega⟩)
  · haveI : IsAntisymm EdgeId (fun a b => EdgeLengthAndIdComparator g b a = false) :=
      ⟨fun a b => by
        rw [EdgeLengthAndIdComparator_false_iff, EdgeLengthAndIdComparator_false_iff]
        rintro (h | ⟨h1, h2⟩) (h3 | ⟨h3, h4⟩)
        · omega
        · omega
        · omega
        · exact hid (le_antisymm h2 h4)⟩
    exact List.eq_of_perm_of_sorted hp hl hs

/-- In the example graph the int_ids are the edge handles: the sorted edge list is
strictly ascending by (length, int_id). -/
theorem GetSortedEdges_visiting_order_witness :
    Function.Injective (exGraph 5).int_id
    ∧ (GetSortedEdges (exGraph 5)).Pairwise (fun a b =>
        (exGraph 5).length a < (exGraph 5).length b
          ∨ ((exGraph 5).length a = (exGraph 5).length b
              ∧ (exGraph 5).int_id a < (exGraph 5).int_id b)) :=
  ⟨fun _ _ h => Int.ofNat_inj.1 h,
    (GetSortedEdges_visiting_order (exGraph 5) (fun _ _ h => Int.ofNat_inj.1 h)).2.2.1⟩

/-! ## The four-pass driver and the mate-pair ends -/

/-- C23. Four-pass driver: `removeOverlaps` leaves the state that the four passes
`RemoveSimilarPaths(M, false, true, true, false)`, `RemoveOverlaps(paths, M)`,
`RemoveSimilarPaths(M, true, false, false, false)`,
`RemoveSimilarPaths(M, false, true, true, true)` leave when run in this order (and it
aborts exactly when one of them does), and whenever it returns it has written five
snapshots: the input state first, then the state after each pass. -/
theorem removeOverlaps_four_passes (g : Graph) (st : State) (M : Nat) (writer : ContigWriter)
    (dir : String) (fuel : Nat) :
    (removeOverlaps g st M writer dir fuel).map Prod.fst = fourPassPipeline g st M fuel
    ∧ ∀ r, removeOverlaps g st M writer dir fuel = some r →
        ∃ s1 s2 s3, RemoveSimilarPaths g st M false true true false = some s1
          ∧ RemoveOverlaps g s1 M fuel = some s2
          ∧ RemoveSimilarPaths g s2 M true false false false = some s3
          ∧ RemoveSimilarPaths g s3 M false true true true = some r.1
          ∧ r.2 = writer ++ [(dir ++ "/before.fasta", st), (dir ++ "/remove_similar.fasta", s1),
              (dir ++ "/after_remove_overlaps.fasta", s2), (dir ++ "/remove_equal.fasta", s3),
              (dir ++ "/remove_all.fasta", r.1)] := by
  unfold removeOverlaps fourPassPipeline writePaths
  cases h1 : RemoveSimilarPaths g st M false true true false with
  | none => exact ⟨rfl, fun r h => absurd h (by simp)⟩
  | some s1 =>
    rw [Option.some_bind, Option.some_bind]
    cases h2 : RemoveOverlaps g s1 M fuel with
    | none => exact ⟨rfl, fun r h => absurd h (by simp)⟩
    | some s2 =>
      rw [Option.some_bind, Option.some_bind]
      cases h3 : RemoveSimilarPaths g s2 M true false false false with
      | none => exact ⟨rfl, fun r h => absurd h (by simp)⟩
      | some s3 =>
        rw [Option.some_bind, Option.some_bind]
        cases h4 : RemoveSimilarPaths g s3 M false true true true with
        | none => exact ⟨rfl, fun r h => absurd h (by simp)⟩
        | some s4 =>
          refine ⟨rfl, fun r h => ?_⟩
          simp only [Option.map_some', Option.some.injEq] at h
          subst h
          exact ⟨s1, s2, s3, rfl, h2, h3, h4, by simp⟩

/-- A loop over a list that threads a state through a fallible body is the monadic fold
of the body. -/
theorem loop_eq_foldlM {σ α : Type} (f : σ → α → Option σ) (loop : List α → σ → Option σ)
    (hnil : ∀ s, loop [] s = some s)
    (hcons : ∀ a l s, loop (a :: l) s = (f s a).bind (loop l)) :
    ∀ l s, loop l s = l.foldlM f s := by
  intro l
  induction l with
  | nil => intro s; rw [hnil]; rfl
  | cons a rest ih =>
    intro s
    rw [hcons, List.foldlM_cons]
    cases f s a with
    | none => rfl
    | some s1 => exact ih s1

theorem getD_take_of_lt (l : List EdgeId) (n i : Nat) (h : i < n) :
    (l.take n).getD i 0 = l.getD i 0 := by
  simp only [List.getD_eq_getElem?_getD, List.getElem?_take_of_lt h]

/-- The loop of `RemoveMatePairEnd` on a path of `pos + 1` edges: it pops the `k` last
edges, all of them short and none of them the first edge, and stops at a long edge or at
the first edge. -/
theorem RemoveMatePairEndLoop_trims (g : Graph) (path m : Nat) :
    ∀ (pos : Nat) (s : State), Consistent g s → path < s.heap.length →
      (s.path path).data.length = pos + 1 →
      ∃ s' k, RemoveMatePairEndLoop g path m pos s = some s' ∧ k ≤ pos
        ∧ (s'.path path).data = (s.path path).data.take (pos + 1 - k)
        ∧ (∀ i, pos + 1 - k ≤ i → i < pos + 1 → g.length ((s.path path).At i) < m)
        ∧ (pos = k ∨ m ≤ g.length ((s.path path).At (pos - k)))
        ∧ (s'.path (s.path path).conj).data = (s.path (s.path path).conj).data.drop k
        ∧ (∀ r, r ≠ path → r ≠ (s.path path).conj → s'.path r = s.path r) := by
  intro pos
  induction pos with
  | zero =>
    intro s _ _ hl
    refine ⟨s, 0, RemoveMatePairEndLoop_zero g path m s, le_refl _, ?_, ?_, Or.inl rfl, rfl,
      fun _ _ _ => rfl⟩
    · rw [List.take_of_length_le (by omega)]
    · intro i h1 h2; omega
  | succ n ih =>
    intro s hC hp hl
    rw [RemoveMatePairEndLoop_succ]
    by_cases hlt : g.length ((s.path path).At (n + 1)) < m
    · rw [if_pos hlt, PopBack_eq_some s path 1 (by omega), Option.some_bind]
      obtain ⟨q1, q2, q3⟩ := hC.linked path hp
      have hP := fun r => popBackEdges_path s path 1 r hp q1 q3
      have hd1 : ((popBackEdges s path 1).path path).data = (s.path path).data.take (n + 1) := by
        rw [hP path, if_pos rfl]
        show (s.path path).data.take ((s.path path).data.length - 1) = _
        rw [hl]; rfl
      have hc1 : ((popBackEdges s path 1).path path).conj = (s.path path).conj := by
        rw [hP path, if_pos rfl]
      have hC1 := Consistent_popBackEdges hC path 1 hp
      obtain ⟨s', k, h1, h2, h3, h4, h5, h6, h7⟩ := ih (popBackEdges s path 1) hC1
        (by rw [popBackEdges_heap_length]; exact hp) (by rw [hd1, List.length_take]; omega)
      refine ⟨s', k + 1, h1, by omega, ?_, ?_, ?_, ?_, ?_⟩
      · rw [h3, hd1, List.take_take]
        congr 1
        omega
      · intro i hi1 hi2
        by_cases hi : i = n + 1
        · rw [hi]; exact hlt
        · have := h4 i (by omega) (by omega)
          unfold BidirectionalPath.At at this ⊢
          rw [hd1, getD_take_of_lt _ _ _ (by omega)] at this
          exact this
      · rcases h5 with h5 | h5
        · exact Or.inl (by omega)
        · right
          unfold BidirectionalPath.At at h5 ⊢
          rw [hd1, getD_take_of_lt _ _ _ (by omega)] at h5
          have e : n + 1 - (k + 1) = n - k := by omega
          rw [e]; exact h5
      · rw [hc1] at h6
        rw [h6, hP (s.path path).conj, if_neg q3, if_pos rfl]
        show ((s.path (s.path path).conj).data.drop 1).drop k = _
        rw [List.drop_drop]
        congr 1
        omega
      · intro r hr1 hr2
        rw [h7 r hr1 (by rw [hc1]; exact hr2), hP r, if_neg hr1, if_neg hr2]
    · rw [if_neg hlt]
      refine ⟨s, 0, rfl, Nat.zero_le _, ?_, ?_, Or.inr (by rw [Nat.sub_zero]; omega), rfl,
        fun _ _ _ => rfl⟩
      · rw [List.take_of_length_le (by omega)]
      · intro i h1 h2; omega

/-- C27 (counterexample). On the path `(1, 3)`, both edges of length 1, with
`min_edge_len = 2`, `RemoveMatePairEnd` pops the edge `3` only: the remaining path `(1)`
is not empty and ends with an edge shorter than `min_edge_len`. -/
theorem RemoveMatePairEnd_keeps_short_first_edge :
    ∃ st', RemoveMatePairEnd (exGraph 5) (exState [1, 3] [7, 9, 11]) 0 2 = some st'
      ∧ (st'.path 0).data = [1]
      ∧ (exGraph 5).length 1 < 2 := by
  decide

/-- C27 (amended). Mate-pair end trimming: on a path of a well-formed container (of fewer
than `2^31` edges) `RemoveMatePairEnd` returns and pops the maximal run of trailing edges
shorter than `min_edge_len` that does not reach the first edge: the result is the original
without its last `k` edges, each popped edge is shorter than `min_edge_len`, the first
edge is never popped (`k < size`, an empty path stays empty), and the remaining path is
empty, has a single edge (long or short), or ends with an edge of length at least
`min_edge_len`; the twin loses its first `k` edges and no other path changes.
`RemoveMatePairEnds` applies this to the canonical path and then to the twin of every
pair of the container, in order. -/
theorem RemoveMatePairEnd_trims (g : Graph) (st : State) (path min_edge_len : Nat)
    (hC : Consistent g st) (hp : path < st.heap.length)
    (hsz : (st.path path).Size < 2147483648) :
    (∃ st' k, RemoveMatePairEnd g st path min_edge_len = some st'
      ∧ (st'.path path).data = (st.path path).data.take ((st.path path).Size - k)
      ∧ (k = 0 ∨ k < (st.path path).Size)
      ∧ (∀ i, (st.path path).Size - k ≤ i → i < (st.path path).Size →
          g.length ((st.path path).At i) < min_edge_len)
      ∧ ((st.path path).Size - k ≤ 1
          ∨ min_edge_len ≤ g.length ((st.path path).At ((st.path path).Size - k - 1)))
      ∧ (st'.path (st.path path).conj).data = (st.path (st.path path).conj).data.drop k
      ∧ (∀ r, r ≠ path → r ≠ (st.path path).conj → st'.path r = st.path r))
    ∧ RemoveMatePairEnds g st min_edge_len
        = st.container.foldlM (fun s pq => (RemoveMatePairEnd g s pq.1 min_edge_len).bind
            (fun s1 => RemoveMatePairEnd g s1 pq.2 min_edge_len)) st := by
  constructor
  · unfold RemoveMatePairEnd
    unfold BidirectionalPath.Size at hsz ⊢
    by_cases h0 : (st.path path).data.length = 0
    · have e : (toInt32 (st.path path).data.length - 1).toNat = 0 := by
        rw [h0]; decide
      rw [e]
      refine ⟨st, 0, RemoveMatePairEndLoop_zero g path min_edge_len st, ?_, Or.inl rfl, ?_,
        Or.inl (by omega), rfl, fun _ _ _ => rfl⟩
      · rw [List.take_of_length_le (by omega)]
      · intro i h1 h2; omega
    · have e : (toInt32 (st.path path).data.length - 1).toNat = (st.path path).data.length - 1 := by
        unfold toInt32; omega
      rw [e]
      obtain ⟨s', k, h1, h2, h3, h4, h5, h6, h7⟩ := RemoveMatePairEndLoop_trims g path
        min_edge_len ((st.path path).data.length - 1) st hC hp (by omega)
      have e2 : (st.path path).data.length - 1 + 1 = (st.path path).data.length := by omega
      rw [e2] at h3 h4
      refine ⟨s', k, h1, h3, Or.inr (by omega), h4, ?_, h6, h7⟩
      rcases h5 with h5 | h5
      · exact Or.inl (by omega)
      · right
        have e3 : (st.path path).data.length - k - 1 = (st.path path).data.length - 1 - k := by
          omega
        rw [e3]; exact h5
  · unfold RemoveMatePairEnds
    refine loop_eq_foldlM _ (RemoveMatePairEndsLoop g min_edge_len) (fun s => ?_)
      (fun pq rest s => ?_) st.container st
    · simp only [RemoveMatePairEndsLoop]
    · have e : RemoveMatePairEndsLoop g min_edge_len (pq :: rest) s
          = (RemoveMatePairEnd g s pq.1 min_edge_len).bind (fun st1 =>
            (RemoveMatePairEnd g st1 pq.2 min_edge_len).bind
              (RemoveMatePairEndsLoop g min_edge_len rest)) := by
        simp only [RemoveMatePairEndsLoop]
      rw [e]
      exact (Option.bind_assoc _ _ _).symm

/-- On the path `(1, 3, 5, 7, 9)`, where only the edge `5` is long, `RemoveMatePairEnd`
with `min_edge_len = 2` pops the edges `7` and `9`. -/
theorem RemoveMatePairEnd_trims_witness :
    ∃ st' k, RemoveMatePairEnd (exGraph 5) (exState [1, 3, 5, 7, 9] [7, 9, 11]) 0 2 = some st'
      ∧ (st'.path 0).data = ((exState [1, 3, 5, 7, 9] [7, 9, 11]).path 0).data.take
          (((exState [1, 3, 5, 7, 9] [7, 9, 11]).path 0).Size - k)
      ∧ (k = 0 ∨ k < ((exState [1, 3, 5, 7, 9] [7, 9, 11]).path 0).Size) :=
  let ⟨st', k, h1, h2, h3, _⟩ := (RemoveMatePairEnd_trims (exGraph 5)
    (exState [1, 3, 5, 7, 9] [7, 9, 11]) 0 2 exState_consistent (by decide) (by decide)).1
  ⟨st', k, h1, h2, h3⟩

/-! ## Seed pairs: makeSimpleSeeds and addUncoveredEdges -/

theorem addSeedPair_shape (g : Graph) (st : State) (e : EdgeId) :
    (addSeedPair g st e).heap.length = st.heap.length + 2
    ∧ (addSeedPair g st e).container = st.container ++ [(st.heap.length, st.heap.length + 1)]
    ∧ (addSeedPair g st e).coverage_map = st.coverage_map := by
  simp [addSeedPair, AddPair, newPath, State.store]

theorem addSeedPair_path (g : Graph) (st : State) (e : EdgeId) (r : Nat) :
    (addSeedPair g st e).path r =
      if r = st.heap.length then
        ⟨[e], [], st.next_id, st.heap.length + 1, false, false, false⟩
      else if r = st.heap.length + 1 then
        ⟨[g.conjugate e], [], st.next_id + 1, st.heap.length, false, false, false⟩
      else st.path r := by
  have h1 : (newPath st e).1.heap.length = st.heap.length + 1 := by simp [newPath]
  have h2 : (newPath (newPath st e).1 (g.conjugate e)).1.heap.length = st.heap.length + 2 := by
    simp [newPath]
  have n1 : (newPath st e).1.next_id = st.next_id + 1 := rfl
  have a1 : (newPath st e).2 = st.heap.length := rfl
  have a2 : (newPath (newPath st e).1 (g.conjugate e)).2 = st.heap.length + 1 := h1
  unfold addSeedPair
  rw [a1, a2, AddPair_path _ _ _ _ (by rw [h2]; omega) (by rw [h2]; omega) (by omega)]
  by_cases hr : r = st.heap.length
  · rw [if_pos hr, if_pos hr, newPath_path, h1, if_neg (by omega), newPath_path, if_pos rfl]
  · rw [if_neg hr, if_neg hr]
    by_cases hr2 : r = st.heap.length + 1
    · rw [if_pos hr2, if_pos hr2, newPath_path, h1, if_pos rfl, n1]
    · rw [if_neg hr2, if_neg hr2, newPath_path, h1, if_neg hr2, newPath_path, if_neg hr]

/-- What `addSeeds` does: the old objects and the coverage map are left alone, and one
seed pair per edge of the list is appended to the container, in order. -/
theorem addSeeds_spec (g : Graph) :
    ∀ (seeds : List EdgeId) (st : State),
      (addSeeds g seeds st).heap.length = st.heap.length + 2 * seeds.length
      ∧ (addSeeds g seeds st).coverage_map = st.coverage_map
      ∧ (∀ r, r < st.heap.length → (addSeeds g seeds st).path r = st.path r)
      ∧ ∃ X, (addSeeds g seeds st).container = st.container ++ X
          ∧ List.Forall₂ (IsSeedPair g (addSeeds g seeds st)) X seeds := by
  intro seeds
  induction seeds with
  | nil =>
    intro st
    exact ⟨rfl, rfl, fun _ _ => rfl, [], (List.append_nil _).symm, List.Forall₂.nil⟩
  | cons e rest ih =>
    intro st
    obtain ⟨i1, i2, i3, X, i4, i5⟩ := ih (addSeedPair g st e)
    obtain ⟨s1, s2, s3⟩ := addSeedPair_shape g st e
    have e0 : addSeeds g (e :: rest) st = addSeeds g rest (addSeedPair g st e) := rfl
    rw [e0]
    refine ⟨by rw [i1, s1, List.length_cons]; omega, by rw [i2, s3], fun r hr => ?_,
      (st.heap.length, st.heap.length + 1) :: X, by rw [i4, s2, List.append_assoc]; rfl,
      List.Forall₂.cons ?_ i5⟩
    · rw [i3 r (by omega), addSeedPair_path, if_neg (by omega), if_neg (by omega)]
    · have p1 := i3 st.heap.length (by omega)
      have p2 := i3 (st.heap.length + 1) (by omega)
      rw [addSeedPair_path, if_pos rfl] at p1
      rw [addSeedPair_path, if_neg (by omega), if_pos rfl] at p2
      unfold IsSeedPair
      rw [p1, p2]
      exact ⟨rfl, rfl, rfl, rfl⟩

theorem selectSeeds_mem (g : Graph) (ok : EdgeId → Bool) :
    ∀ (es included : List EdgeId), ∀ s ∈ selectSeeds g ok es included,
      s ∈ es ∧ ok s = true ∧ s ∉ included := by
  intro es
  induction es with
  | nil => intro _ s hs; simp [selectSeeds] at hs
  | cons e rest ih =>
    intro included s hs
    unfold selectSeeds at hs
    split at hs
    · rename_i h
      rcases List.mem_cons.1 hs with hs | hs
      · rw [hs]; exact ⟨List.mem_cons_self _ _, h.1, h.2⟩
      · obtain ⟨h1, h2, h3⟩ := ih _ s hs
        exact ⟨List.mem_cons_of_mem _ h1, h2,
          fun hh => h3 (List.mem_cons_of_mem _ (List.mem_cons_of_mem _ hh))⟩
    · obtain ⟨h1, h2, h3⟩ := ih _ s hs
      exact ⟨List.mem_cons_of_mem _ h1, h2, h3⟩

theorem selectSeeds_disjoint (g : Graph) (ok : EdgeId → Bool)
    (hinv : ∀ e, g.conjugate (g.conjugate e) = e) :
    ∀ (es included : List EdgeId), SeedsDisjoint g (selectSeeds g ok es included) := by
  intro es
  induction es with
  | nil => intro _; exact List.Pairwise.nil
  | cons e rest ih =>
    intro included
    unfold selectSeeds
    split
    · refine List.Pairwise.cons (fun b hb => ?_) (ih _)
      have hb3 := (selectSeeds_mem g ok rest _ b hb).2.2
      have n1 : b ≠ g.conjugate e := fun h => hb3 (by rw [h]; exact List.mem_cons_self _ _)
      have n2 : b ≠ e := fun h =>
        hb3 (by rw [h]; exact List.mem_cons_of_mem _ (List.mem_cons_self _ _))
      refine ⟨n2, n1, fun h => n1 ?_, fun h => n2 ?_⟩
      · rw [← h, hinv]
      · have := congrArg g.conjugate h
        rw [hinv, hinv] at this
        exact this
    · exact ih _

theorem selectSeeds_complete (g : Graph) (ok : EdgeId → Bool) :
    ∀ (es included : List EdgeId), ∀ e ∈ es, ok e = true →
      e ∈ included ∨ ∃ s ∈ selectSeeds g ok es included, e = s ∨ e = g.conjugate s := by
  intro es
  induction es with
  | nil => intro _ e he; simp at he
  | cons x rest ih =>
    intro included e he hok
    unfold selectSeeds
    rcases List.mem_cons.1 he with he | he
    · subst he
      split
      · exact Or.inr ⟨e, List.mem_cons_self _ _, Or.inl rfl⟩
      · rename_i h
        left
        by_contra hc
        exact h ⟨hok, hc⟩
    · split
      · rcases ih (g.conjugate x :: x :: included) e he hok with h | ⟨s, hs, h⟩
        · rcases List.mem_cons.1 h with h | h
          · exact Or.inr ⟨x, List.mem_cons_self _ _, Or.inr h⟩
          · rcases List.mem_cons.1 h with h | h
            · exact Or.inr ⟨x, List.mem_cons_self _ _, Or.inl h⟩
            · exact Or.inl h
        · exact Or.inr ⟨s, List.mem_cons_of_mem _ hs, h⟩
      · exact ih included e he hok

theorem conjClass_conjugate (g : Graph) (hinv : ∀ e, g.conjugate (g.conjugate e) = e)
    (e : EdgeId) : conjClass g (g.conjugate e) = conjClass g e := by
  unfold conjClass
  rw [hinv, min_comm]

theorem conjClass_eq (g : Graph) (hinv : ∀ e, g.conjugate (g.conjugate e) = e)
    (x e : EdgeId) (h : conjClass g x = conjClass g e) : x = e ∨ x = g.conjugate e := by
  unfold conjClass at h
  have hx : min x (g.conjugate x) = x ∨ min x (g.conjugate x) = g.conjugate x := min_choice _ _
  have he : min e (g.conjugate e) = e ∨ min e (g.conjugate e) = g.conjugate e := min_choice _ _
  have key : ∀ a b : EdgeId, g.conjugate a = g.conjugate b → a = b := by
    intro a b hab
    have := congrArg g.conjugate hab
    rw [hinv, hinv] at this
    exact this
  rcases hx with hx | hx <;> rcases he with he | he <;> rw [hx, he] at h
  · exact Or.inl h
  · exact Or.inr h
  · right; rw [← h, hinv]
  · exact Or.inl (key _ _ h)

/-- The number of seeds: one per pair `{e, conj e}` that has an edge which passes the
test and is not included at the start. -/
theorem selectSeeds_length (g : Graph) (ok : EdgeId → Bool)
    (hinv : ∀ e, g.conjugate (g.conjugate e) = e) :
    ∀ (es included : List EdgeId), (∀ x ∈ included, g.conjugate x ∈ included) →
      (selectSeeds g ok es included).length
        = (((es.filter (fun e => ok e && decide (e ∉ included))).map (conjClass g)).toFinset).card := by
  intro es
  induction es with
  | nil => intro _ _; rfl
  | cons e rest ih =>
    intro included hcl
    unfold selectSeeds
    by_cases h : ok e = true ∧ e ∉ included
    · rw [if_pos h, List.length_cons, ih]
      · have ef : (e :: rest).filter (fun x => ok x && decide (x ∉ included))
            = e :: rest.filter (fun x => ok x && decide (x ∉ included)) := by
          simp [List.filter_cons, h.1, h.2]
        rw [ef, List.map_cons, List.toFinset_cons]
        have hnot : conjClass g e ∉ ((rest.filter (fun x => ok x
            && decide (x ∉ g.conjugate e :: e :: included))).map (conjClass g)).toFinset := by
          intro hm
          rw [List.mem_toFinset, List.mem_map] at hm
          obtain ⟨x, hx, hxe⟩ := hm
          rw [List.mem_filter] at hx
          have hx2 : x ∉ g.conjugate e :: e :: included := by
            have h0 := hx.2
            simp only [Bool.and_eq_true, decide_eq_true_eq] at h0
            exact h0.2
          rcases conjClass_eq g hinv x e hxe with h1 | h1
          · exact hx2 (by rw [h1]; exact List.mem_cons_of_mem _ (List.mem_cons_self _ _))
          · exact hx2 (by rw [h1]; exact List.mem_cons_self _ _)
        have hins : insert (conjClass g e) ((rest.filter (fun x => ok x
              && decide (x ∉ included))).map (conjClass g)).toFinset
            = insert (conjClass g e) ((rest.filter (fun x => ok x
              && decide (x ∉ g.conjugate e :: e :: included))).map (conjClass g)).toFinset := by
          ext y
          simp only [Finset.mem_insert, List.mem_toFinset, List.mem_map, List.mem_filter,
            Bool.and_eq_true, decide_eq_true_eq, List.mem_cons, not_or]
          constructor
          · rintro (hy | ⟨x, ⟨hx1, hx2, hx3⟩, hxy⟩)
            · exact Or.inl hy
            · by_cases hc : x = g.conjugate e ∨ x = e
              · left
                rw [← hxy]
                rcases hc with hc | hc
                · rw [hc, conjClass_conjugate g hinv]
                · rw [hc]
              · exact Or.inr ⟨x, ⟨hx1, hx2, fun h1 => hc (Or.inl h1), fun h1 => hc (Or.inr h1),
                  hx3⟩, hxy⟩
          · rintro (hy | ⟨x, ⟨hx1, hx2, _, _, hx3⟩, hxy⟩)
            · exact Or.inl hy
            · exact Or.inr ⟨x, ⟨hx1, hx2, hx3⟩, hxy⟩
        rw [hins, Finset.card_insert_of_not_mem hnot]
      · intro x hx
        rcases List.mem_cons.1 hx with hx | hx
        · rw [hx, hinv]; exact List.mem_cons_of_mem _ (List.mem_cons_self _ _)
        · rcases List.mem_cons.1 hx with hx | hx
          · rw [hx]; exact List.mem_cons_self _ _
          · exact List.mem_cons_of_mem _ (List.mem_cons_of_mem _ (hcl x hx))
    · rw [if_neg h, ih included hcl]
      have ef : (e :: rest).filter (fun x => ok x && decide (x ∉ included))
          = rest.filter (fun x => ok x && decide (x ∉ included)) := by
        rw [List.filter_cons, if_neg]
        simp only [Bool.and_eq_true, decide_eq_true_eq]
        exact h
      rw [ef]

theorem makeSimpleSeedsLoop_eq (g : Graph) (InCycle : EdgeId → Bool) :
    ∀ (es included : List EdgeId) (st : State),
      makeSimpleSeedsLoop g InCycle es included st
        = addSeeds g (selectSeeds g (fun e => !(decide (g.int_id e ≤ 0) || InCycle e))
            es included) st := by
  intro es
  induction es with
  | nil => intro _ _; rfl
  | cons e rest ih =>
    intro included st
    unfold makeSimpleSeedsLoop selectSeeds
    by_cases h1 : g.int_id e ≤ 0 ∨ InCycle e = true
    · have hnok : ¬ ((!(decide (g.int_id e ≤ 0) || InCycle e)) = true ∧ e ∉ included) := by
        rintro ⟨hh, _⟩
        simp only [Bool.not_eq_true', Bool.or_eq_false_iff, decide_eq_false_iff_not] at hh
        rcases h1 with h1 | h1
        · exact hh.1 h1
        · rw [h1] at hh; exact absurd hh.2 (by decide)
      rw [if_pos h1, if_neg hnok]
      exact ih included st
    · rw [if_neg h1]
      have hok : (!(decide (g.int_id e ≤ 0) || InCycle e)) = true := by
        simp only [Bool.not_eq_true', Bool.or_eq_false_iff, decide_eq_false_iff_not]
        refine ⟨fun h => h1 (Or.inl h), ?_⟩
        cases hc : InCycle e
        · rfl
        · exact absurd (Or.inr hc) h1
      by_cases h2 : e ∉ included
      · rw [if_pos h2, if_pos ⟨hok, h2⟩]
        exact ih _ _
      · rw [if_neg h2, if_neg (fun hh => h2 hh.2)]
        exact ih included st

/-- The coverage of every edge is the same in a state that extends another one by new
objects that are not subscribed. -/
theorem coverage_of_extension (s t : State) (hm : t.coverage_map = s.coverage_map)
    (hl : s.heap.length ≤ t.heap.length)
    (hp : ∀ r, r < s.heap.length → t.path r = s.path r)
    (hv : ∀ r ∈ s.coverage_map, r < s.heap.length) (e : EdgeId) :
    GetCoveringPaths t e = GetCoveringPaths s e ∧ GetCoverage t e = GetCoverage s e := by
  obtain ⟨d, hd⟩ : ∃ d, t.heap.length = s.heap.length + d := ⟨_, (Nat.add_sub_cancel' hl).symm⟩
  have hnew : ∀ x ∈ (List.range d).map (fun i => s.heap.length + i), x ∉ s.coverage_map := by
    intro x hx hc
    obtain ⟨i, _, hi⟩ := List.mem_map.1 hx
    have := hv x hc
    omega
  constructor
  · unfold GetCoveringPaths
    rw [hd, List.range_add, List.filter_append, hm]
    have e1 : ((List.range d).map (fun i => s.heap.length + i)).filter
        (fun p => decide (p ∈ s.coverage_map) && decide (e ∈ (t.path p).data)) = [] := by
      rw [List.filter_eq_nil_iff]
      intro x hx
      simp [hnew x hx]
    rw [e1, List.append_nil]
    apply List.filter_congr
    intro x hx
    rw [hp x (List.mem_range.1 hx)]
  · unfold GetCoverage
    rw [hd, List.range_add, List.filter_append, hm]
    have e1 : ((List.range d).map (fun i => s.heap.length + i)).filter
        (fun p => decide (p ∈ s.coverage_map)) = [] := by
      rw [List.filter_eq_nil_iff]
      intro x hx
      simp [hnew x hx]
    rw [e1, List.append_nil]
    congr 1
    apply List.map_congr_left
    intro x hx
    rw [hp x (List.mem_range.1 (List.mem_filter.1 hx).1)]

theorem addUncoveredEdgesLoop_eq (g : Graph) :
    ∀ (es included : List EdgeId) (st : State),
      (∀ r ∈ st.coverage_map, r < st.heap.length) →
      addUncoveredEdgesLoop g es included st
        = addSeeds g (selectSeeds g (fun e => !IsCovered st e) es included) st := by
  intro es
  induction es with
  | nil => intro _ _ _; rfl
  | cons e rest ih =>
    intro included st hv
    unfold addUncoveredEdgesLoop selectSeeds
    by_cases h : e ∉ included ∧ IsCovered st e = false
    · rw [if_pos h, if_pos ⟨by rw [h.2]; rfl, h.1⟩]
      obtain ⟨s1, s2, s3⟩ := addSeedPair_shape g st e
      have hv1 : ∀ r ∈ (addSeedPair g st e).coverage_map, r < (addSeedPair g st e).heap.length := by
        intro r hr
        rw [s3] at hr
        rw [s1]
        exact Nat.lt_add_right 2 (hv r hr)
      have hcov : (fun x => !IsCovered (addSeedPair g st e) x) = (fun x => !IsCovered st x) := by
        funext x
        unfold IsCovered
        rw [(coverage_of_extension st (addSeedPair g st e) s3 (by omega) (fun r hr => by
          rw [addSeedPair_path, if_neg (by omega), if_neg (by omega)]) hv x).2]
      have := ih (g.conjugate e :: e :: included) (addSeedPair g st e) hv1
      rw [hcov] at this
      exact this
    · rw [if_neg h, if_neg (fun hh => h ⟨hh.2, by simpa using hh.1⟩)]
      exact ih included st hv

theorem IsCovered_of_no_subscription (st : State) (hm : st.coverage_map = []) (e : EdgeId) :
    IsCovered st e = false := by
  unfold IsCovered GetCoverage
  rw [hm]
  simp

/-- C24. `makeSimpleSeeds` (over a graph whose conjugation is an involution): the pairs of
the returned container are, in order, the singleton pairs `((s), (conj s))` of a list of
seed edges; every seed is a graph edge with positive int_id that does not lie on a cycle;
no edge is the canonical or the twin edge of two different pairs; and every graph edge
with positive int_id that is not on a cycle is the canonical or the twin edge of a pair. -/
theorem makeSimpleSeeds_seeds (g : Graph) (InCycle : EdgeId → Bool) (next_id : Nat)
    (hinv : ∀ e, g.conjugate (g.conjugate e) = e) :
    ∃ seeds : List EdgeId,
      List.Forall₂ (IsSeedPair g (makeSimpleSeeds g InCycle next_id))
        (makeSimpleSeeds g InCycle next_id).container seeds
      ∧ (∀ s ∈ seeds, s ∈ g.edges ∧ 0 < g.int_id s ∧ InCycle s = false)
      ∧ SeedsDisjoint g seeds
      ∧ (∀ e ∈ g.edges, 0 < g.int_id e → InCycle e = false →
          ∃ s ∈ seeds, e = s ∨ e = g.conjugate s) := by
  have hfuse : makeSimpleSeeds g InCycle next_id
      = addSeeds g (selectSeeds g (fun e => !(decide (g.int_id e ≤ 0) || InCycle e))
          g.edges []) ⟨[], [], [], next_id⟩ :=
    makeSimpleSeedsLoop_eq g InCycle g.edges [] _
  obtain ⟨_, _, _, X, hX, hF⟩ := addSeeds_spec g
    (selectSeeds g (fun e => !(decide (g.int_id e ≤ 0) || InCycle e)) g.edges [])
    ⟨[], [], [], next_id⟩
  rw [← hfuse] at hX hF
  have hX2 : (makeSimpleSeeds g InCycle next_id).container = X := by
    rw [hX]; exact List.nil_append _
  refine ⟨_, by rw [hX2]; exact hF, fun s hs => ?_, selectSeeds_disjoint g _ hinv _ _,
    fun e he hid hcy => ?_⟩
  · obtain ⟨h1, h2, _⟩ := selectSeeds_mem g _ _ _ s hs
    simp only [Bool.not_eq_true', Bool.or_eq_false_iff, decide_eq_false_iff_not] at h2
    exact ⟨h1, by omega, h2.2⟩
  · have hok : (fun e => !(decide (g.int_id e ≤ 0) || InCycle e)) e = true := by
      simp only [Bool.not_eq_true', Bool.or_eq_false_iff, decide_eq_false_iff_not]
      exact ⟨by omega, hcy⟩
    rcases selectSeeds_complete g (fun e => !(decide (g.int_id e ≤ 0) || InCycle e))
      g.edges [] e he hok with h | h
    · exact absurd h (List.not_mem_nil _)
    · exact h

/-- The seeds of the example graph when the edge `3` lies on a cycle. -/
theorem makeSimpleSeeds_seeds_witness :
    ∃ seeds : List EdgeId,
      List.Forall₂ (IsSeedPair (exGraph 5) (makeSimpleSeeds (exGraph 5) (fun e => decide (e = 3)) 0))
        (makeSimpleSeeds (exGraph 5) (fun e => decide (e = 3)) 0).container seeds
      ∧ (∀ s ∈ seeds, s ∈ (exGraph 5).edges ∧ 0 < (exGraph 5).int_id s
          ∧ (fun e => decide (e = 3)) s = false)
      ∧ SeedsDisjoint (exGraph 5) seeds
      ∧ (∀ e ∈ (exGraph 5).edges, 0 < (exGraph 5).int_id e → (fun e => decide (e = 3)) e = false →
          ∃ s ∈ seeds, e = s ∨ e = (exGraph 5).conjugate s) :=
  makeSimpleSeeds_seeds (exGraph 5) (fun e => decide (e = 3)) 0 (exGraph_conjugate_conjugate 5)

/-- C25. `addUncoveredEdges` backfills every uncovered edge (over a graph whose
conjugation is an involution, with a coverage map that holds addresses of existing
objects only): the container afterwards is the container before followed by the singleton
pairs `((s), (conj s))` of a list of seed edges, every object that existed before is
unchanged, no edge is the canonical or the twin edge of two different added pairs, every
seed is a graph edge that was uncovered, and every graph edge `e` that was uncovered is a
seed or the conjugate of one, so that an added pair is `((e), (conj e))` or
`((conj e), (e))`. -/
theorem addUncoveredEdges_backfills (g : Graph) (st : State)
    (hinv : ∀ e, g.conjugate (g.conjugate e) = e)
    (hv : ∀ r ∈ st.coverage_map, r < st.heap.length) :
    ∃ (X : List (Nat × Nat)) (seeds : List EdgeId),
      (addUncoveredEdges g st).container = st.container ++ X
      ∧ List.Forall₂ (IsSeedPair g (addUncoveredEdges g st)) X seeds
      ∧ (∀ r, r < st.heap.length → (addUncoveredEdges g st).path r = st.path r)
      ∧ SeedsDisjoint g seeds
      ∧ (∀ s ∈ seeds, s ∈ g.edges ∧ IsCovered st s = false)
      ∧ (∀ e ∈ g.edges, IsCovered st e = false → ∃ s ∈ seeds, s = e ∨ s = g.conjugate e)
      ∧ (∀ e ∈ g.edges, IsCovered st e = false →
          ∃ pq ∈ X, IsSeedPair g (addUncoveredEdges g st) pq e
            ∨ ((addUncoveredEdges g st).path pq.1).data = [g.conjugate e]
              ∧ ((addUncoveredEdges g st).path pq.2).data = [e]) := by
  have hfuse : addUncoveredEdges g st
      = addSeeds g (selectSeeds g (fun e => !IsCovered st e) g.edges []) st :=
    addUncoveredEdgesLoop_eq g g.edges [] st hv
  obtain ⟨_, _, hP, X, hX, hF⟩ := addSeeds_spec g
    (selectSeeds g (fun e => !IsCovered st e) g.edges []) st
  rw [← hfuse] at hX hF hP
  have hcomplete : ∀ e ∈ g.edges, IsCovered st e = false →
      ∃ s ∈ selectSeeds g (fun e => !IsCovered st e) g.edges [], s = e ∨ s = g.conjugate e := by
    intro e he hc
    rcases selectSeeds_complete g (fun e => !IsCovered st e) g.edges [] e he
      (by simp only [hc]; rfl) with h | ⟨s, hs, h⟩
    · exact absurd h (List.not_mem_nil _)
    · refine ⟨s, hs, ?_⟩
      rcases h with h | h
      · exact Or.inl h.symm
      · right; rw [h, hinv]
  refine ⟨X, _, hX, hF, hP, selectSeeds_disjoint g _ hinv _ _, fun s hs => ?_, hcomplete,
    fun e he hc => ?_⟩
  · obtain ⟨h1, h2, _⟩ := selectSeeds_mem g _ _ _ s hs
    simp only [Bool.not_eq_true'] at h2
    exact ⟨h1, h2⟩
  · obtain ⟨s, hs, h⟩ := hcomplete e he hc
    have key : ∀ (X : List (Nat × Nat)) (seeds : List EdgeId),
        List.Forall₂ (IsSeedPair g (addUncoveredEdges g st)) X seeds → s ∈ seeds →
        ∃ pq ∈ X, IsSeedPair g (addUncoveredEdges g st) pq s := by
      intro X seeds hF2
      induction hF2 with
      | nil => intro hm; exact absurd hm (List.not_mem_nil _)
      | cons hab _ ih =>
        intro hm
        rcases List.mem_cons.1 hm with hm | hm
        · exact ⟨_, List.mem_cons_self _ _, by rw [hm]; exact hab⟩
        · obtain ⟨pq, h1, h2⟩ := ih hm
          exact ⟨pq, List.mem_cons_of_mem _ h1, h2⟩
    obtain ⟨pq, hpq, hsp⟩ := key X _ hF hs
    refine ⟨pq, hpq, ?_⟩
    rcases h with h | h
    · left; rw [← h]; exact hsp
    · right
      obtain ⟨a1, a2, _, _⟩ := hsp
      rw [h] at a1 a2
      rw [hinv] at a2
      exact ⟨a1, a2⟩

/-- In the container with the paths `(1, 3, 5, 7, 9)` and `(7, 9, 11)` the graph edge `13`
is the only one that is uncovered. -/
theorem addUncoveredEdges_backfills_witness :
    ∃ (X : List (Nat × Nat)) (seeds : List EdgeId),
      (addUncoveredEdges (exGraph 5) (exState [1, 3, 5, 7, 9] [7, 9, 11])).container
        = (exState [1, 3, 5, 7, 9] [7, 9, 11]).container ++ X
      ∧ List.Forall₂ (IsSeedPair (exGraph 5)
          (addUncoveredEdges (exGraph 5) (exState [1, 3, 5, 7, 9] [7, 9, 11]))) X seeds
      ∧ (∀ e ∈ (exGraph 5).edges, IsCovered (exState [1, 3, 5, 7, 9] [7, 9, 11]) e = false →
          ∃ s ∈ seeds, s = e ∨ s = (exGraph 5).conjugate e) :=
  let ⟨X, seeds, h1, h2, _, _, _, h6, _⟩ := addUncoveredEdges_backfills (exGraph 5)
    (exState [1, 3, 5, 7, 9] [7, 9, 11]) (exGraph_conjugate_conjugate 5) (by decide)
  ⟨X, seeds, h1, h2, h6⟩

/-- C26 (counterexample). The only edge of the graph has the int_id `0`: starting from an
empty container and an empty coverage map `addUncoveredEdges` adds the pair `((1), (2))`
for it, although no edge of the graph has a positive int_id. -/
theorem addUncoveredEdges_ignores_int_id :
    (addUncoveredEdges exGraphZeroId ⟨[], [], [], 0⟩).container = [(0, 1)]
    ∧ ((addUncoveredEdges exGraphZeroId ⟨[], [], [], 0⟩).path 0).data = [1]
    ∧ ((addUncoveredEdges exGraphZeroId ⟨[], [], [], 0⟩).path 1).data = [2]
    ∧ exGraphZeroId.int_id 1 ≤ 0
    ∧ (exGraphZeroId.edges.filter (fun e => decide (0 < exGraphZeroId.int_id e))).length = 0 := by
  decide

/-- C26 (amended). Starting from an empty container and an empty coverage map (over a
graph whose conjugation is an involution) `addUncoveredEdges` adds exactly one pair
`((s), (conj s))` per pair `{e, conj e}` of graph edges, whatever the int_id of the edge
and whether or not it lies on a cycle: the container is the list of the singleton pairs of
a list of seeds, the seeds are graph edges, no edge is the canonical or the twin edge of
two pairs, every graph edge is a seed or the conjugate of one, and the number of pairs is
the number of pairs `{e, conj e}` among the graph edges. -/
theorem addUncoveredEdges_pair_count (g : Graph) (st : State)
    (hinv : ∀ e, g.conjugate (g.conjugate e) = e)
    (hc : st.container = []) (hm : st.coverage_map = []) :
    ∃ seeds : List EdgeId,
      List.Forall₂ (IsSeedPair g (addUncoveredEdges g st)) (addUncoveredEdges g st).container seeds
      ∧ (∀ s ∈ seeds, s ∈ g.edges)
      ∧ SeedsDisjoint g seeds
      ∧ (∀ e ∈ g.edges, ∃ s ∈ seeds, s = e ∨ s = g.conjugate e)
      ∧ (addUncoveredEdges g st).container.length
          = ((g.edges.map (conjClass g)).toFinset).card := by
  have hv : ∀ r ∈ st.coverage_map, r < st.heap.length := by
    intro r hr; rw [hm] at hr; exact absurd hr (List.not_mem_nil _)
  have hfuse : addUncoveredEdges g st
      = addSeeds g (selectSeeds g (fun e => !IsCovered st e) g.edges []) st :=
    addUncoveredEdgesLoop_eq g g.edges [] st hv
  obtain ⟨_, _, _, X, hX, hF⟩ := addSeeds_spec g
    (selectSeeds g (fun e => !IsCovered st e) g.edges []) st
  rw [← hfuse] at hX hF
  have hX2 : (addUncoveredEdges g st).container = X := by
    rw [hX, hc]; exact List.nil_append _
  have hok : ∀ e, (fun e => !IsCovered st e) e = true := by
    intro e
    simp only [IsCovered_of_no_subscription st hm e]
    rfl
  refine ⟨_, by rw [hX2]; exact hF, fun s hs => (selectSeeds_mem g _ _ _ s hs).1,
    selectSeeds_disjoint g _ hinv _ _, fun e he => ?_, ?_⟩
  · rcases selectSeeds_complete g (fun e => !IsCovered st e) g.edges [] e he (hok e) with
      h | ⟨s, hs, h⟩
    · exact absurd h (List.not_mem_nil _)
    · refine ⟨s, hs, ?_⟩
      rcases h with h | h
      · exact Or.inl h.symm
      · right; rw [h, hinv]
  · rw [hX2, hF.length_eq, selectSeeds_length g _ hinv g.edges [] (fun x hx =>
      absurd hx (List.not_mem_nil _))]
    congr 3
    rw [List.filter_eq_self]
    intro e _
    have := hok e
    simp only [List.not_mem_nil, not_false_eq_true, decide_True, Bool.and_true]
    exact this

/-- The example graph has seven edges and no two of them are conjugate: seven pairs. -/
theorem addUncoveredEdges_pair_count_witness :
    ∃ seeds : List EdgeId,
      List.Forall₂ (IsSeedPair (exGraph 5) (addUncoveredEdges (exGraph 5) ⟨[], [], [], 0⟩))
        (addUncoveredEdges (exGraph 5) ⟨[], [], [], 0⟩).container seeds
      ∧ (addUncoveredEdges (exGraph 5) ⟨[], [], [], 0⟩).container.length
          = (((exGraph 5).edges.map (conjClass (exGraph 5))).toFinset).card :=
  let ⟨seeds, h1, _, _, _, h5⟩ := addUncoveredEdges_pair_count (exGraph 5) ⟨[], [], [], 0⟩
    (exGraph_conjugate_conjugate 5) rfl rfl
  ⟨seeds, h1, h5⟩

/-! ## Coverage correctness -/

theorem PopBack_closed {R : State → State → Prop} (hR : StepClosed R) (s s' : State)
    (p n : Nat) (h : PopBack s p n = some s') : R s s' := by
  unfold PopBack at h
  split at h
  · exact absurd h (by simp)
  · simp only [Option.some.injEq] at h
    rw [← h]
    exact hR.popBack s p n

theorem PopBack_map_closed {R : State → State → Prop} (hR : StepClosed R) (s : State)
    (p n : Nat) (b : Bool) (r : Bool × State)
    (h : (PopBack s p n).map (fun t => (b, t)) = some r) : R s r.2 := by
  cases hpop : PopBack s p n with
  | none => rw [hpop] at h; exact absurd h (by simp)
  | some t =>
    rw [hpop] at h
    simp only [Option.map, Option.some.injEq] at h
    rw [← h]
    exact PopBack_closed hR s t p n hpop

theorem CutOverlaps_closed {R : State → State → Prop} (hR : StepClosed R) (g : Graph)
    (s : State) (path1 first1 last1 size1 path2 first2 last2 size2 : Nat) (f2 f3 f4 : Bool)
    (r : Bool × State)
    (h : CutOverlaps g s path1 first1 last1 size1 path2 first2 last2 size2 f2 f3 f4 = some r) :
    R s r.2 := by
  have hsame : ∀ b : Bool, some (b, s) = some r → R s r.2 := by
    intro b hb
    simp only [Option.some.injEq] at hb
    rw [← hb]
    exact hR.stay s
  have hclear : ∀ (b : Bool) (y : Nat), some (b, Clear s y) = some r → R s r.2 := by
    intro b y hb
    simp only [Option.some.injEq] at hb
    rw [← hb]
    exact hR.clear s y
  unfold CutOverlaps at h
  simp only [] at h
  split at h
  · exact hclear _ _ h
  · split at h
    · exact hclear _ _ h
    · split at h
      · split at h
        · exact PopBack_map_closed hR s _ _ _ r h
        · split at h
          · exact PopBack_map_closed hR s _ _ _ r h
          · exact hsame _ h
      · split at h
        · split at h
          · exact PopBack_map_closed hR s _ _ _ r h
          · split at h
            · exact PopBack_map_closed hR s _ _ _ r h
            · exact hsame _ h
        · split at h
          · exact PopBack_map_closed hR s _ _ _ r h
          · split at h
            · exact PopBack_map_closed hR s _ _ _ r h
            · split at h
              · exact PopBack_map_closed hR s _ _ _ r h
              · split at h
                · exact PopBack_map_closed hR s _ _ _ r h
                · exact hsame _ h

theorem CompareAndCutFromPos_closed {R : State → State → Prop} (hR : StepClosed R) (g : Graph)
    (s : State) (path1 pos1 path2 pos2 : Nat) (M : Int) (f2 f3 f4 : Bool) (s' : State)
    (h : CompareAndCutFromPos g s path1 pos1 path2 pos2 M f2 f3 f4 = some s') : R s s' := by
  unfold CompareAndCutFromPos at h
  split at h
  · simp only [Option.some.injEq] at h
    rw [← h]; exact hR.stay s
  · simp only [] at h
    obtain ⟨r, hr, hrs⟩ := Option.map_eq_some'.1 h
    rw [← hrs]
    exact CutOverlaps_closed hR g s _ _ _ _ _ _ _ _ f2 f3 f4 r hr

theorem CompareAndCutInner_closed {R : State → State → Prop} (hR : StepClosed R) (g : Graph)
    (path1 pos1 path2 M : Nat) (f2 f3 f4 : Bool) :
    ∀ (l : List Nat) (s s' : State),
      CompareAndCutInner g path1 pos1 path2 M f2 f3 f4 l s = some s' → R s s' := by
  intro l
  induction l with
  | nil =>
    intro s s' h
    simp only [CompareAndCutInner, Option.some.injEq] at h
    rw [← h]; exact hR.stay s
  | cons pos2 rest ih =>
    intro s s' h
    unfold CompareAndCutInner at h
    obtain ⟨s1, hs1, hs2⟩ := Option.bind_eq_some.1 h
    exact hR.seq _ _ _ (CompareAndCutFromPos_closed hR g s path1 pos1 path2 pos2 _ f2 f3 f4 s1 hs1)
      (ih s1 s' hs2)

theorem CompareAndCutOuter_closed {R : State → State → Prop} (hR : StepClosed R) (g : Graph)
    (edge : EdgeId) (path1 path2 M : Nat) (f2 f3 f4 : Bool) :
    ∀ (l : List Nat) (s s' : State),
      CompareAndCutOuter g edge path1 path2 M f2 f3 f4 l s = some s' → R s s' := by
  intro l
  induction l with
  | nil =>
    intro s s' h
    simp only [CompareAndCutOuter, Option.some.injEq] at h
    rw [← h]; exact hR.stay s
  | cons pos1 rest ih =>
    intro s s' h
    unfold CompareAndCutOuter at h
    obtain ⟨s1, hs1, hs2⟩ := Option.bind_eq_some.1 h
    exact hR.seq _ _ _ (CompareAndCutInner_closed hR g path1 pos1 path2 M f2 f3 f4 _ s s1 hs1)
      (ih s1 s' hs2)

theorem RemoveSimilarInner_closed {R : State → State → Prop} (hR : StepClosed R) (g : Graph)
    (edge : EdgeId) (M : Nat) (f1 f2 f3 f4 : Bool) (path1 : Nat) :
    ∀ (rest : List Nat) (s : State) (cov : List Nat) (out : State × List Nat),
      RemoveSimilarInner g edge M f1 f2 f3 f4 path1 rest (s, cov) = some out → R s out.1 := by
  intro rest
  induction rest with
  | nil =>
    intro s cov out h
    simp only [RemoveSimilarInner, Option.some.injEq] at h
    rw [← h]; exact hR.stay s
  | cons y rest ih =>
    intro s cov out h
    unfold RemoveSimilarInner at h
    split at h
    · exact ih s cov out h
    · split at h
      · dsimp only at h
        have hR1 : R s (if (s.path y).IsOverlap = true then SetOverlap s path1 true else s) := by
          split
          · exact hR.setOverlap s path1 true
          · exact hR.stay s
        exact hR.seq _ _ _ (hR.seq _ _ _ hR1 (hR.clear _ y)) (ih _ _ out h)
      · split at h
        · exact ih s cov out h
        · obtain ⟨s1, hs1, hs2⟩ := Option.bind_eq_some.1 h
          exact hR.seq _ _ _
            (CompareAndCutOuter_closed hR g edge path1 y _ f2 f3 f4 _ s s1 hs1) (ih _ _ out hs2)

theorem RemoveSimilarOuter_closed {R : State → State → Prop} (hR : StepClosed R) (g : Graph)
    (edge : EdgeId) (M : Nat) (f1 f2 f3 f4 : Bool) :
    ∀ (L : List Nat) (s : State) (cov : List Nat) (out : State × List Nat),
      RemoveSimilarOuter g edge M f1 f2 f3 f4 L (s, cov) = some out → R s out.1 := by
  intro L
  induction L with
  | nil =>
    intro s cov out h
    simp only [RemoveSimilarOuter, Option.some.injEq] at h
    rw [← h]; exact hR.stay s
  | cons x rest ih =>
    intro s cov out h
    unfold RemoveSimilarOuter at h
    split at h
    · exact ih s cov out h
    · obtain ⟨o1, ho1, ho2⟩ := Option.bind_eq_some.1 h
      obtain ⟨s1, cov1⟩ := o1
      exact hR.seq _ _ _ (RemoveSimilarInner_closed hR g edge M f1 f2 f3 f4 x rest s cov _ ho1)
        (ih s1 cov1 out ho2)

theorem RemoveSimilarAtEdge_closed {R : State → State → Prop} (hR : StepClosed R) (g : Graph)
    (M : Nat) (f1 f2 f3 f4 : Bool) (s : State) (edge : EdgeId) (s' : State)
    (h : RemoveSimilarAtEdge g M f1 f2 f3 f4 s edge = some s') : R s s' := by
  unfold RemoveSimilarAtEdge at h
  simp only [] at h
  obtain ⟨out, ho, hs⟩ := Option.map_eq_some'.1 h
  rw [← hs]
  exact RemoveSimilarOuter_closed hR g edge M f1 f2 f3 f4 _ s _ out ho

/-- Every relation that holds along the primitive steps holds between the state before
`RemoveSimilarPaths` and the state it returns. -/
theorem RemoveSimilarEdges_closed {R : State → State → Prop} (hR : StepClosed R) (g : Graph)
    (M : Nat) (f1 f2 f3 f4 : Bool) :
    ∀ (l : List EdgeId) (s s' : State),
      RemoveSimilarEdges g M f1 f2 f3 f4 l s = some s' → R s s' := by
  intro l
  induction l with
  | nil =>
    intro s s' h
    simp only [RemoveSimilarEdges, Option.some.injEq] at h
    rw [← h]; exact hR.stay s
  | cons e rest ih =>
    intro s s' h
    unfold RemoveSimilarEdges at h
    obtain ⟨s1, hs1, hs2⟩ := Option.bind_eq_some.1 h
    exact hR.seq _ _ _ (RemoveSimilarAtEdge_closed hR g M f1 f2 f3 f4 s e s1 hs1) (ih s1 s' hs2)

theorem RemoveMatePairEndLoop_closed {R : State → State → Prop} (hR : StepClosed R) (g : Graph)
    (path m : Nat) :
    ∀ (pos : Nat) (s s' : State), RemoveMatePairEndLoop g path m pos s = some s' → R s s' := by
  intro pos
  induction pos with
  | zero =>
    intro s s' h
    rw [RemoveMatePairEndLoop_zero] at h
    rw [← Option.some.inj h]; exact hR.stay s
  | succ n ih =>
    intro s s' h
    rw [RemoveMatePairEndLoop_succ] at h
    by_cases hlt : g.length ((s.path path).At (n + 1)) < m
    · rw [if_pos hlt] at h
      obtain ⟨s1, hs1, hs2⟩ := Option.bind_eq_some.1 h
      exact hR.seq _ _ _ (PopBack_closed hR s s1 path 1 hs1) (ih s1 s' hs2)
    · rw [if_neg hlt] at h
      rw [← Option.some.inj h]; exact hR.stay s

theorem RemoveMatePairEndsLoop_closed {R : State → State → Prop} (hR : StepClosed R)
    (g : Graph) (m : Nat) :
    ∀ (l : List (Nat × Nat)) (s s' : State),
      RemoveMatePairEndsLoop g m l s = some s' → R s s' := by
  intro l
  induction l with
  | nil =>
    intro s s' h
    simp only [RemoveMatePairEndsLoop, Option.some.injEq] at h
    rw [← h]; exact hR.stay s
  | cons pq rest ih =>
    intro s s' h
    have e : RemoveMatePairEndsLoop g m (pq :: rest) s
        = (RemoveMatePairEnd g s pq.1 m).bind (fun st1 =>
          (RemoveMatePairEnd g st1 pq.2 m).bind (RemoveMatePairEndsLoop g m rest)) := by
      simp only [RemoveMatePairEndsLoop]
    rw [e] at h
    obtain ⟨s1, hs1, h2⟩ := Option.bind_eq_some.1 h
    obtain ⟨s2, hs2, h3⟩ := Option.bind_eq_some.1 h2
    exact hR.seq _ _ _ (hR.seq _ _ _
      (RemoveMatePairEndLoop_closed hR g pq.1 m _ s s1 hs1)
      (RemoveMatePairEndLoop_closed hR g pq.2 m _ s1 s2 hs2)) (ih s2 s' h3)

theorem store_shrinks (s : State) (p : Nat) (x : BidirectionalPath)
    (h : ∀ e, e ∈ x.data → e ∈ (s.path p).data) : Shrinks s (s.store p x) := by
  refine ⟨by simp [State.store], rfl, rfl, fun r e he => ?_⟩
  rw [State.path_store] at he
  split at he
  · rename_i h1; rw [h1.1]; exact h e he
  · exact he

theorem Shrinks.followed_by_shrinks {s t u : State} (h1 : Shrinks s t) (h2 : Shrinks t u) :
    Shrinks s u :=
  ⟨h2.1.trans h1.1, h2.2.1.trans h1.2.1, h2.2.2.1.trans h1.2.2.1,
    fun r e he => h1.2.2.2 r e (h2.2.2.2 r e he)⟩

/-- The primitive steps only take edges away. -/
theorem Shrinks_stepClosed : StepClosed Shrinks where
  stay := fun _ => ⟨rfl, rfl, rfl, fun _ _ h => h⟩
  seq := fun _ _ _ h1 h2 => h1.followed_by_shrinks h2
  setOverlap := fun s x _ => store_shrinks s x _ (fun _ h => h)
  clear := fun s y =>
    (store_shrinks s y _ (fun _ h => absurd h (List.not_mem_nil _))).followed_by_shrinks
      (store_shrinks _ _ _ (fun _ h => absurd h (List.not_mem_nil _)))
  popBack := fun s p _ =>
    (store_shrinks s p _ (fun _ h => List.mem_of_mem_take h)).followed_by_shrinks
      (store_shrinks _ _ _ (fun _ h => List.mem_of_mem_drop h))
  markBegin := fun s p _ => store_shrinks s p _ (fun _ h => h)
  markEnd := fun s p _ => store_shrinks s p _ (fun _ h => h)

/-- Coverage correctness survives when paths only lose edges. -/
theorem CoverageCorrect.of_shrinks {s t : State} (hc : CoverageCorrect s) (h : Shrinks s t) :
    CoverageCorrect t := by
  intro e r
  rw [mem_GetCoveringPaths, containerPaths_congr h.2.1, h.1, h.2.2.1]
  have hs := hc e r
  rw [mem_GetCoveringPaths] at hs
  constructor
  · rintro ⟨h1, h2, h3⟩
    exact ⟨(hs.1 ⟨h1, h2, h.2.2.2 r e h3⟩).1, h3⟩
  · rintro ⟨h1, h3⟩
    obtain ⟨a, b, _⟩ := hs.2 ⟨h1, h.2.2.2 r e h3⟩
    exact ⟨a, b, h3⟩

/-- Coverage correctness of the state after an extraction by `RemoveOverlap`. -/
theorem Extracted.coverageCorrect {g : Graph} {st st' : State} {path1 path2 k : Nat}
    (hE : Extracted g st path1 path2 k st') (hc : CoverageCorrect st) :
    CoverageCorrect st' := by
  obtain ⟨e1, e2, e3, e4, e5, e6, e7, e8, e9, e10⟩ := hE
  have hsub : ∀ r, r ≠ st.heap.length → r ≠ st.heap.length + 1 →
      ∀ e, e ∈ (st'.path r).data → e ∈ (st.path r).data := by
    intro r n1 n2 e he
    by_cases h1 : r = path1
    · rw [h1, e4] at he; rw [h1]; exact List.mem_of_mem_take he
    · by_cases h2 : r = st.GetConjPath path1
      · rw [h2, e5] at he; rw [h2]; exact List.mem_of_mem_drop he
      · by_cases h3 : r = path2
        · rw [h3, e7] at he; rw [h3]; exact List.mem_of_mem_drop he
        · by_cases h4 : r = st.GetConjPath path2
          · rw [h4, e6] at he; rw [h4]; exact List.mem_of_mem_take he
          · rw [e10 r h1 h2 h3 h4 n1 n2] at he; exact he
  have hcp : ∀ r, r ∈ containerPaths st' ↔
      r ∈ containerPaths st ∨ r = st.heap.length ∨ r = st.heap.length + 1 := by
    intro r
    unfold containerPaths
    rw [e2, List.flatMap_append, List.mem_append]
    simp
  intro e r
  rw [mem_GetCoveringPaths, hcp, e3, e1]
  have hs := hc e r
  rw [mem_GetCoveringPaths] at hs
  by_cases hn : r = st.heap.length ∨ r = st.heap.length + 1
  · constructor
    · rintro ⟨_, _, h3⟩; exact ⟨Or.inr hn, h3⟩
    · rintro ⟨_, h3⟩
      exact ⟨by rcases hn with hn | hn <;> omega, Or.inr hn, h3⟩
  · have n1 : r ≠ st.heap.length := fun h => hn (Or.inl h)
    have n2 : r ≠ st.heap.length + 1 := fun h => hn (Or.inr h)
    constructor
    · rintro ⟨h1, h2, h3⟩
      have h2b : r ∈ st.coverage_map := by
        rcases h2 with h2 | h2
        · exact h2
        · exact absurd h2 hn
      exact ⟨Or.inl (hs.1 ⟨by omega, h2b, hsub r n1 n2 e h3⟩).1, h3⟩
    · rintro ⟨h1, h3⟩
      have h1b : r ∈ containerPaths st := by
        rcases h1 with h1 | h1
        · exact h1
        · exact absurd h1 hn
      obtain ⟨a, b, _⟩ := hs.2 ⟨h1b, hsub r n1 n2 e h3⟩
      exact ⟨by omega, Or.inl b, h3⟩

/-- `RemoveOverlap` on two paths of different pairs of a consistent state, with an
overlap size that is positive and at most both sizes: it returns and either only takes
edges away or extracts. -/
theorem RemoveOverlap_step_shrinks (g : Graph) (st : State) (path1 path2 k : Nat)
    (hC : Consistent g st) (hinv : ∀ e, g.conjugate (g.conjugate e) = e)
    (hp : DistinctPairs st path1 path2) (hk : 0 < k)
    (hk1 : k ≤ (st.path path1).Size) (hk2 : k ≤ (st.path path2).Size) :
    ∃ st', RemoveOverlap g st path1 path2 k = some st'
      ∧ (Shrinks st st' ∨ Extracted g st path1 path2 k st') := by
  have htwin := hC.size_conj path2 hp.2.1
  by_cases hA : (st.path path1).IsOverlap = true ∧ k = (st.path path1).Size
  · refine ⟨_, RemoveOverlap_reuse_first g st path1 path2 k hA.1 hA.2
      (by rw [htwin]; exact hk2), Or.inl ?_⟩
    exact Shrinks_stepClosed.seq _ _ _ (Shrinks_stepClosed.popBack st _ k)
      (Shrinks_stepClosed.markBegin _ _ _)
  · by_cases hB : (st.path path2).IsOverlap = true ∧ (st.path path2).Size = k
    · refine ⟨_, RemoveOverlap_reuse_second g st path1 path2 k hA hB.1 hB.2 hk1, Or.inl ?_⟩
      exact Shrinks_stepClosed.seq _ _ _ (Shrinks_stepClosed.popBack st _ k)
        (Shrinks_stepClosed.markEnd _ _ _)
    · by_cases hX : k < (st.path path2).Size ∧ k < (st.path path1).Size
      · obtain ⟨st', h1, h2⟩ := RemoveOverlap_extract g st path1 path2 k hp
          (fun e _ => hinv e) htwin hk hX.2 hX.1
        exact ⟨st', h1, Or.inr h2⟩
      · exact ⟨st, RemoveOverlap_nothing g st path1 path2 k hA hB hX,
          Or.inl (Shrinks_stepClosed.stay st)⟩

/-- One call of `FindAndRemovePathOverlap` on a path of a consistent state keeps the
coverage correct. -/
theorem FindAndRemovePathOverlap_covered (g : Graph) (st : State) (path1 M : Nat)
    (hC : Consistent g st) (hinv : ∀ e, g.conjugate (g.conjugate e) = e)
    (h1 : path1 < st.heap.length) (hc : CoverageCorrect st) :
    ∃ st', FindAndRemovePathOverlap g st path1 M = some st' ∧ CoverageCorrect st' := by
  rw [FindAndRemovePathOverlap_eq_call]
  cases hcall : RemoveOverlapCall st path1 with
  | none => exact ⟨st, rfl, hc⟩
  | some c =>
    obtain ⟨p2, k⟩ := c
    obtain ⟨_, hr, hk⟩ := (RemoveOverlapCall_eq_some st path1 p2 k).1 hcall
    have hb := FindOverlapLoop_best st path1 (GetCoveringPaths st
      ((st.path path1).At (toSizeT (toInt32 (st.path path1).Size - 1)))) [] (none, 0)
      (BestPartner_nil st path1)
    rw [List.nil_append, hr] at hb
    unfold BestPartner at hb
    dsimp only at hb
    obtain ⟨b1, b2, b3, _, _⟩ := hb
    have h2 : p2 < st.heap.length := ((mem_GetCoveringPaths _ _ _).1 b1).1
    have hsame := b2.1
    unfold IsSamePath at hsame
    simp only [Bool.or_eq_false_iff] at hsame
    have hne : path1 ≠ p2 := by
      intro hc
      have := hsame.1
      rw [hc] at this
      simp [BidirectionalPath.Equal] at this
    have hne2 : path1 ≠ st.GetConjPath p2 := by
      intro hc
      have := hsame.2
      rw [← hc] at this
      simp [BidirectionalPath.Equal] at this
    have hle := OverlapEndSize_le (st.path path1) (st.path p2)
    obtain ⟨st', e1, e2⟩ := RemoveOverlap_step_shrinks g st path1 p2 k hC hinv
      (hC.distinctPairs path1 p2 h1 h2 hne hne2) hk (by rw [b3]; exact hle.1)
      (by rw [b3]; exact hle.2)
    refine ⟨st', e1, ?_⟩
    rcases e2 with e2 | e2
    · exact hc.of_shrinks e2
    · exact e2.coverageCorrect hc

theorem RemoveOverlapsLoop_covered (g : Graph) (M : Nat)
    (hinv : ∀ e, g.conjugate (g.conjugate e) = e) :
    ∀ (fuel i : Nat) (s : State), Consistent g s → CoverageCorrect s →
      ∀ s', RemoveOverlapsLoop g M fuel i s = some s' → CoverageCorrect s' := by
  intro fuel
  induction fuel with
  | zero =>
    intro i s _ hc s' h
    rw [RemoveOverlapsLoop_zero] at h
    by_cases hi : i < s.container.length
    · rw [if_pos hi] at h
      exact absurd h (by simp)
    · rw [if_neg hi] at h
      have e : s = s' := Option.some.inj h
      rw [← e]; exact hc
  | succ n ih =>
    intro i s hC hc s' h
    rw [RemoveOverlapsLoop_succ] at h
    by_cases hi : i < s.container.length
    · rw [if_pos hi] at h
      obtain ⟨t1, ht1, hR1⟩ := FindAndRemovePathOverlap_resolved g s
        (s.container.getD i (0, 0)).1 M hC hinv (hC.pair_valid i hi).1
      obtain ⟨u1, hu1, hc1⟩ := FindAndRemovePathOverlap_covered g s
        (s.container.getD i (0, 0)).1 M hC hinv (hC.pair_valid i hi).1 hc
      rw [ht1] at hu1
      have eu : t1 = u1 := Option.some.inj hu1
      rw [← eu] at hc1
      rw [ht1, Option.some_bind] at h
      have hv2 := (hR1.1.pair_valid i (by have := hR1.2.1; omega)).2
      obtain ⟨t2, ht2, hR2⟩ := FindAndRemovePathOverlap_resolved g t1
        (t1.container.getD i (0, 0)).2 M hR1.1 hinv hv2
      obtain ⟨u2, hu2, hc2⟩ := FindAndRemovePathOverlap_covered g t1
        (t1.container.getD i (0, 0)).2 M hR1.1 hinv hv2 hc1
      rw [ht2] at hu2
      have eu2 : t2 = u2 := Option.some.inj hu2
      rw [← eu2] at hc2
      rw [ht2, Option.some_bind] at h
      exact ih (i + 1) t2 hR2.1 hc2 s' h
    · rw [if_neg hi] at h
      have e : s = s' := Option.some.inj h
      rw [← e]; exact hc

theorem IsCovered_of_mem (st : State) (e : EdgeId) (r : Nat)
    (h : r ∈ GetCoveringPaths st e) : IsCovered st e = true := by
  obtain ⟨h1, h2, h3⟩ := (mem_GetCoveringPaths st e r).1 h
  unfold IsCovered GetCoverage
  rw [decide_eq_true_iff]
  have hm : (st.path r).data.count e ∈ ((List.range st.heap.length).filter
      (fun p => decide (p ∈ st.coverage_map))).map (fun p => (st.path p).data.count e) :=
    List.mem_map.2 ⟨r, List.mem_filter.2 ⟨List.mem_range.2 h1, by simpa using h2⟩, rfl⟩
  have hle := List.single_le_sum (fun x _ => Nat.zero_le x) _ hm
  have hpos : 0 < (st.path r).data.count e := List.count_pos_iff.2 h3
  omega

/-- The coverage is correct when the subscribed paths are the paths of the container. -/
theorem CoverageCorrect.of_subscribed (st : State)
    (h1 : ∀ r, r ∈ st.coverage_map ↔ r ∈ containerPaths st)
    (h2 : ∀ r ∈ st.coverage_map, r < st.heap.length) : CoverageCorrect st := by
  intro e r
  rw [mem_GetCoveringPaths]
  constructor
  · rintro ⟨_, a, b⟩; exact ⟨(h1 r).1 a, b⟩
  · rintro ⟨a, b⟩; exact ⟨h2 r ((h1 r).2 a), (h1 r).2 a, b⟩

theorem exState_coverageCorrect (d1 d2 : List EdgeId) : CoverageCorrect (exState d1 d2) :=
  CoverageCorrect.of_subscribed _ (fun _ => Iff.rfl) (fun r hr => by
    have h : r ∈ [0, 1, 2, 3] := hr
    show r < 4
    simp only [List.mem_cons, List.mem_singleton, List.not_mem_nil, or_false] at h
    omega)

theorem forall₂_exists_of_mem {α β : Type} (R : α → β → Prop) :
    ∀ (X : List α) (S : List β), List.Forall₂ R X S → ∀ s ∈ S, ∃ x ∈ X, R x s := by
  intro X S h
  induction h with
  | nil => intro s hs; exact absurd hs (List.not_mem_nil _)
  | cons hab _ ih =>
    intro s hs
    rcases List.mem_cons.1 hs with hs | hs
    · exact ⟨_, List.mem_cons_self _ _, by rw [hs]; exact hab⟩
    · obtain ⟨x, h1, h2⟩ := ih s hs
      exact ⟨x, List.mem_cons_of_mem _ h1, h2⟩

theorem selectSeeds_nil_of_not_ok (g : Graph) (ok : EdgeId → Bool) :
    ∀ (es included : List EdgeId), (∀ e ∈ es, ok e = false) →
      selectSeeds g ok es included = [] := by
  intro es
  induction es with
  | nil => intro _ _; rfl
  | cons e rest ih =>
    intro included h
    unfold selectSeeds
    rw [if_neg (by rw [h e (List.mem_cons_self _ _)]; simp)]
    exact ih included (fun x hx => h x (List.mem_cons_of_mem _ hx))

/-- After `addUncoveredEdges` the coverage map has the sets it had, and they are no longer
the sets of the container paths unless no pair has been added. -/
theorem addUncoveredEdges_coverage (g : Graph) (st : State)
    (hv : ∀ r ∈ st.coverage_map, r < st.heap.length) :
    (∀ e, GetCoveringPaths (addUncoveredEdges g st) e = GetCoveringPaths st e)
    ∧ (∀ r, r < st.heap.length → (addUncoveredEdges g st).path r = st.path r)
    ∧ ((∀ e ∈ g.edges, IsCovered st e = true) → addUncoveredEdges g st = st)
    ∧ ((∃ e ∈ g.edges, IsCovered st e = false) →
        ∃ pq ∈ (addUncoveredEdges g st).container, ∃ s,
          ((addUncoveredEdges g st).path pq.1).data = [s]
          ∧ pq.1 ∉ GetCoveringPaths (addUncoveredEdges g st) s) := by
  have hfuse : addUncoveredEdges g st
      = addSeeds g (selectSeeds g (fun e => !IsCovered st e) g.edges []) st :=
    addUncoveredEdgesLoop_eq g g.edges [] st hv
  obtain ⟨hl, hm, hP, X, hX, hF⟩ := addSeeds_spec g
    (selectSeeds g (fun e => !IsCovered st e) g.edges []) st
  rw [← hfuse] at hl hm hP hX hF
  have hG : ∀ e, GetCoveringPaths (addUncoveredEdges g st) e = GetCoveringPaths st e :=
    fun e => (coverage_of_extension st _ hm (by omega) hP hv e).1
  refine ⟨hG, hP, fun hall => ?_, ?_⟩
  · rw [hfuse, selectSeeds_nil_of_not_ok g _ g.edges [] (fun e he => by
      simp only [hall e he]; rfl)]
    rfl
  · rintro ⟨e, he, hc⟩
    rcases selectSeeds_complete g (fun e => !IsCovered st e) g.edges [] e he
      (by simp only [hc]; rfl) with h | ⟨s, hs, _⟩
    · exact absurd h (List.not_mem_nil _)
    · obtain ⟨pq, hpq, hsp⟩ := forall₂_exists_of_mem _ X _ hF s hs
      refine ⟨pq, by rw [hX]; exact List.mem_append_right _ hpq, s, hsp.1, fun hmem => ?_⟩
      rw [hG] at hmem
      have h1 := IsCovered_of_mem st s pq.1 hmem
      have h2 := (selectSeeds_mem g _ _ _ s hs).2.1
      simp only [Bool.not_eq_true'] at h2
      rw [h1] at h2
      exact absurd h2 (by decide)

/-- C21 (counterexample). In the container with the paths `(1, 3, 5, 7, 9)` and
`(7, 9, 11)`, all subscribed, the coverage is correct; the graph edge `13` is uncovered
and `addUncoveredEdges` adds the pair `((13), (14))` at the addresses 4 and 5 without
subscribing it: afterwards the container path at address 4 holds the edge `13` and is not
in the coverage set of `13`. -/
theorem addUncoveredEdges_breaks_coverage :
    CoverageCorrect (exState [1, 3, 5, 7, 9] [7, 9, 11])
    ∧ 4 ∈ containerPaths (addUncoveredEdges (exGraph 5) (exState [1, 3, 5, 7, 9] [7, 9, 11]))
    ∧ 13 ∈ ((addUncoveredEdges (exGraph 5) (exState [1, 3, 5, 7, 9] [7, 9, 11])).path 4).data
    ∧ 4 ∉ GetCoveringPaths (addUncoveredEdges (exGraph 5) (exState [1, 3, 5, 7, 9] [7, 9, 11])) 13
    ∧ ¬ CoverageCorrect (addUncoveredEdges (exGraph 5) (exState [1, 3, 5, 7, 9] [7, 9, 11])) := by
  have h1 : 4 ∈ containerPaths
      (addUncoveredEdges (exGraph 5) (exState [1, 3, 5, 7, 9] [7, 9, 11])) := by decide
  have h2 : 13 ∈ ((addUncoveredEdges (exGraph 5)
      (exState [1, 3, 5, 7, 9] [7, 9, 11])).path 4).data := by decide
  have h3 : 4 ∉ GetCoveringPaths
      (addUncoveredEdges (exGraph 5) (exState [1, 3, 5, 7, 9] [7, 9, 11])) 13 := by decide
  exact ⟨exState_coverageCorrect _ _, h1, h2, h3, fun hc => h3 ((hc 13 4).2 ⟨h1, h2⟩)⟩

/-- C21 (amended). Coverage correctness (on a well-formed container over a graph whose
conjugation is an involution, with a coverage map that holds addresses of existing
objects): if, for every edge, the set of the coverage map is the set of the container
paths that contain the edge, then the same holds in every state that `RemoveSimilarPaths`
or `RemoveOverlaps` returns, in the state that `RemoveMatePairEnds` returns, and after an
extraction by `RemoveOverlap`, which subscribes the new overlap path and its twin.
`addUncoveredEdges` does not subscribe the pairs it adds: it leaves every set of the
coverage map and every old path as they were, so the coverage stays correct only if no
graph edge was uncovered (and then nothing is added); otherwise an added canonical path
`(s)` is missing from the coverage set of `s`. -/
theorem resolver_keeps_coverage (g : Graph) (st : State)
    (hinv : ∀ e, g.conjugate (g.conjugate e) = e) (hC : Consistent g st)
    (hc : CoverageCorrect st) (hv : ∀ r ∈ st.coverage_map, r < st.heap.length) :
    (∀ (M : Nat) (f1 f2 f3 f4 : Bool) (st' : State),
        RemoveSimilarPaths g st M f1 f2 f3 f4 = some st' → CoverageCorrect st')
    ∧ (∀ (M fuel : Nat) (st' : State), RemoveOverlaps g st M fuel = some st' →
        CoverageCorrect st')
    ∧ (∀ M : Nat, ∃ st', RemoveOverlaps g st M (st.container.length + TotalEdges st) = some st'
        ∧ CoverageCorrect st')
    ∧ (∀ min_edge_len : Nat, ∃ st', RemoveMatePairEnds g st min_edge_len = some st'
        ∧ CoverageCorrect st')
    ∧ (∀ path1 path2 k : Nat, DistinctPairs st path1 path2 → 0 < k →
        k < (st.path path1).Size → k < (st.path path2).Size →
        ∃ st', RemoveOverlap g st path1 path2 k = some st'
          ∧ st'.container = st.container ++ [(st.heap.length, st.heap.length + 1)]
          ∧ st.heap.length ∈ st'.coverage_map ∧ st.heap.length + 1 ∈ st'.coverage_map
          ∧ CoverageCorrect st')
    ∧ (∀ e, GetCoveringPaths (addUncoveredEdges g st) e = GetCoveringPaths st e)
    ∧ (∀ r, r < st.heap.length → (addUncoveredEdges g st).path r = st.path r)
    ∧ (CoverageCorrect (addUncoveredEdges g st) ↔ ∀ e ∈ g.edges, IsCovered st e = true)
    ∧ ((∃ e ∈ g.edges, IsCovered st e = false) →
        ∃ pq ∈ (addUncoveredEdges g st).container, ∃ s,
          ((addUncoveredEdges g st).path pq.1).data = [s]
          ∧ pq.1 ∉ GetCoveringPaths (addUncoveredEdges g st) s) := by
  obtain ⟨a1, a2, a3, a4⟩ := addUncoveredEdges_coverage g st hv
  refine ⟨fun M f1 f2 f3 f4 st' h => ?_, fun M fuel st' h => ?_, fun M => ?_, fun m => ?_,
    fun path1 path2 k hp hk hk1 hk2 => ?_, a1, a2, ⟨fun hc' => ?_, fun hall => ?_⟩, a4⟩
  · exact hc.of_shrinks (RemoveSimilarEdges_closed Shrinks_stepClosed g M f1 f2 f3 f4 _ st st' h)
  · exact RemoveOverlapsLoop_covered g M hinv fuel 0 st hC hc st' h
  · obtain ⟨st', h⟩ := RemoveOverlapsLoop_terminates g M hinv
      (st.container.length + TotalEdges st) 0 st hC (by omega)
    exact ⟨st', h, RemoveOverlapsLoop_covered g M hinv _ 0 st hC hc st' h⟩
  · obtain ⟨st', h, _⟩ := RemoveMatePairEnds_reduced g st m hC
    exact ⟨st', h, hc.of_shrinks (RemoveMatePairEndsLoop_closed Shrinks_stepClosed g m _ st st' h)⟩
  · obtain ⟨st', h1, hE⟩ := RemoveOverlap_extract g st path1 path2 k hp (fun e _ => hinv e)
      (hC.size_conj path2 hp.2.1) hk hk1 hk2
    exact ⟨st', h1, hE.2.1, (hE.2.2.1 _).2 (Or.inr (Or.inl rfl)),
      (hE.2.2.1 _).2 (Or.inr (Or.inr rfl)), hE.coverageCorrect hc⟩
  · intro e he
    by_contra hne
    have hf : IsCovered st e = false := by
      cases hh : IsCovered st e
      · rfl
      · exact absurd hh hne
    obtain ⟨pq, hpq, s, hs1, hs2⟩ := a4 ⟨e, he, hf⟩
    apply hs2
    refine (hc' s pq.1).2 ⟨?_, by rw [hs1]; exact List.mem_singleton_self _⟩
    unfold containerPaths
    exact List.mem_flatMap.2 ⟨pq, hpq, List.mem_cons_self _ _⟩
  · rw [a3 hall]; exact hc

/-- The container with the paths `(1, 3, 5, 7, 9)` and `(7, 9, 11)`: the coverage stays
correct when `RemoveMatePairEnds` trims the ends. -/
theorem resolver_keeps_coverage_witness :
    ∃ st', RemoveMatePairEnds (exGraph 5) (exState [1, 3, 5, 7, 9] [7, 9, 11]) 2 = some st'
      ∧ CoverageCorrect st' :=
  (resolver_keeps_coverage (exGraph 5) (exState [1, 3, 5, 7, 9] [7, 9, 11])
    (exGraph_conjugate_conjugate 5) exState_consistent (exState_coverageCorrect _ _)
    (by decide)).2.2.2.1 2

/-! ## Weight counters -/

theorem divide_eq_some (a b : ℚ) (hb : b ≠ 0) : divide a b = some (a / b) := by
  unfold divide
  rw [if_neg hb]

/-- A loop that adds a summand at every entry returns the sum. -/
theorem foldlM_add {α : Type} (f : ℚ → α → Option ℚ) (v : α → ℚ) :
    ∀ (l : List α), (∀ a ∈ l, ∀ w, f w a = some (w + v a)) →
      ∀ w0, l.foldlM f w0 = some (w0 + (l.map v).sum) := by
  intro l
  induction l with
  | nil => intro _ w0; simp
  | cons a rest ih =>
    intro h w0
    rw [List.foldlM_cons, h a (List.mem_cons_self _ _) w0]
    show rest.foldlM f (w0 + v a) = _
    rw [ih (fun b hb => h b (List.mem_cons_of_mem _ hb)), List.map_cons, List.sum_cons, add_assoc]

theorem filterMap_ite_eq {β : Type} (P : Nat → Prop) [DecidablePred P] (mk : Nat → β) :
    ∀ l : List Nat, l.filterMap (fun i => if P i then some (mk i) else none)
      = (l.filter (fun i => decide (P i))).map mk := by
  intro l
  induction l with
  | nil => rfl
  | cons a rest ih =>
    by_cases h : P a
    · rw [List.filterMap_cons_some (by rw [if_pos h]), ih,
        List.filter_cons_of_pos (by simpa using h), List.map_cons]
    · rw [List.filterMap_cons_none (by rw [if_neg h]), ih,
        List.filter_cons_of_neg (by simpa using h)]

theorem FindCoveredEdges_eq (g : Graph) (lib : PairedInfoLibrary) (path : BidirectionalPath)
    (candidate : EdgeId) :
    FindCoveredEdges g lib path candidate
      = (((List.range (toInt32 path.Size).toNat).reverse).filter (fun i =>
          decide (lib.IdealPairedInfo (path.At i) candidate (toInt32 (LengthAt g path i)) > 0))).map
          (fun i => ⟨i, lib.IdealPairedInfo (path.At i) candidate (toInt32 (LengthAt g path i))⟩) :=
  filterMap_ite_eq _ _ _

/-- Every entry of `coveredEdges` carries a positive ideal weight. -/
theorem FindCoveredEdges_pos (g : Graph) (lib : PairedInfoLibrary) (path : BidirectionalPath)
    (candidate : EdgeId) : ∀ it ∈ FindCoveredEdges g lib path candidate, it.pi_ > 0 := by
  intro it hit
  rw [FindCoveredEdges_eq] at hit
  obtain ⟨i, hi, rfl⟩ := List.mem_map.1 hit
  have := (List.mem_filter.1 hi).2
  simpa using this

theorem PathCover_add_inv (g : Graph) (wc : WeightCounter) (thr : ℚ) (lib : PairedInfoLibrary)
    (path : BidirectionalPath) (e : EdgeId) (gap : Int) (acc : ℚ × ℚ) (pos : Nat) (iw : ℚ)
    (hiw : iw > 0) (h1 : 0 ≤ acc.1) (h2 : acc.1 ≤ acc.2) :
    ∃ acc', PathCoverWeightCounter.CountSingleLibAdd g wc thr lib path e gap acc pos iw = some acc'
      ∧ 0 ≤ acc'.1 ∧ acc'.1 ≤ acc'.2 := by
  unfold PathCoverWeightCounter.CountSingleLibAdd
  simp only []
  have hd : ∃ sw, (if wc.normalizeWeight_ = true then
      divide (lib.CountPairedInfo (path.At pos) e (toInt32 (LengthAt g path pos) + gap)) iw
      else some (lib.CountPairedInfo (path.At pos) e (toInt32 (LengthAt g path pos) + gap)))
      = some sw := by
    split
    · exact ⟨_, divide_eq_some _ _ (ne_of_gt hiw)⟩
    · exact ⟨_, rfl⟩
  obtain ⟨sw, hsw⟩ := hd
  rw [hsw]
  have key : ∀ (c : Prop) [Decidable c], 0 ≤ (if c then acc.1 + iw else acc.1)
      ∧ (if c then acc.1 + iw else acc.1) ≤ acc.2 + iw := by
    intro c _
    by_cases hc : c
    · rw [if_pos hc]
      exact ⟨add_nonneg h1 (le_of_lt hiw), add_le_add_right h2 iw⟩
    · rw [if_neg hc]
      exact ⟨h1, le_trans h2 (le_add_of_nonneg_right (le_of_lt hiw))⟩
  exact ⟨_, rfl, (key _).1, (key _).2⟩

theorem PathCover_loop_inv (g : Graph) (wc : WeightCounter) (thr : ℚ) (lib : PairedInfoLibrary)
    (path : BidirectionalPath) (e : EdgeId) (gap : Int) :
    ∀ (cov : List EdgeWithPairedInfo), (∀ it ∈ cov, it.pi_ > 0) →
      ∀ acc : ℚ × ℚ, 0 ≤ acc.1 → acc.1 ≤ acc.2 →
      ∃ acc', cov.foldlM (PathCoverWeightCounter.CountSingleLibStep g wc thr lib path e gap) acc
          = some acc' ∧ 0 ≤ acc'.1 ∧ acc'.1 ≤ acc'.2 := by
  intro cov
  induction cov with
  | nil => intro _ acc h1 h2; exact ⟨acc, rfl, h1, h2⟩
  | cons it rest ih =>
    intro hpos acc h1 h2
    have hstep : ∃ acc1, PathCoverWeightCounter.CountSingleLibStep g wc thr lib path e gap acc it
        = some acc1 ∧ 0 ≤ acc1.1 ∧ acc1.1 ≤ acc1.2 := by
      unfold PathCoverWeightCounter.CountSingleLibStep
      cases hx : wc.excluded_edges_ it.e_ with
      | none =>
        exact PathCover_add_inv g wc thr lib path e gap acc it.e_ it.pi_
          (hpos it (List.mem_cons_self _ _)) h1 h2
      | some x =>
        show ∃ acc1, (if ¬ (x > 0) ∨ ¬ (it.pi_ > 0) then some acc else _) = some acc1 ∧ _
        by_cases hc : ¬ (x > 0) ∨ ¬ (it.pi_ > 0)
        · rw [if_pos hc]; exact ⟨acc, rfl, h1, h2⟩
        · rw [if_neg hc]
          exact PathCover_add_inv g wc thr lib path e gap acc it.e_ x
            (by by_contra hn; exact hc (Or.inl hn)) h1 h2
    obtain ⟨acc1, e1, a1, a2⟩ := hstep
    rw [List.foldlM_cons, e1]
    exact ih (fun b hb => hpos b (List.mem_cons_of_mem _ hb)) acc1 a1 a2

theorem PathCover_result_range (acc : ℚ × ℚ) (h1 : 0 ≤ acc.1) (h2 : acc.1 ≤ acc.2) :
    ∃ v, PathCoverWeightCounter.CountSingleLibResult acc = some v ∧ 0 ≤ v ∧ v ≤ 1
      ∧ (¬ acc.2 > 0 → v = 0) ∧ (acc.2 > 0 → v = acc.1 / acc.2) := by
  unfold PathCoverWeightCounter.CountSingleLibResult
  by_cases h : acc.2 > 0
  · rw [if_pos h, divide_eq_some _ _ (ne_of_gt h)]
    exact ⟨_, rfl, div_nonneg h1 (le_of_lt h), (div_le_one h).2 h2, fun hn => absurd h hn,
      fun _ => rfl⟩
  · rw [if_neg h]
    exact ⟨0, rfl, le_refl _, zero_le_one, fun _ => rfl, fun hp => absurd hp h⟩

theorem foldlM_add_range {α : Type} (F : α → Option ℚ)
    (hF : ∀ a, ∃ v, F a = some v ∧ 0 ≤ v ∧ v ≤ 1) :
    ∀ (l : List α) (w0 : ℚ),
      ∃ w, l.foldlM (fun weight a => (F a).map (fun x => weight + x)) w0 = some w
        ∧ w0 ≤ w ∧ w ≤ w0 + l.length := by
  intro l
  induction l with
  | nil => intro w0; exact ⟨w0, rfl, le_refl _, by simp⟩
  | cons a rest ih =>
    intro w0
    obtain ⟨v, hv, v0, v1⟩ := hF a
    obtain ⟨w, hw, w1, w2⟩ := ih (w0 + v)
    refine ⟨w, ?_, by linarith, ?_⟩
    · rw [List.foldlM_cons, hv]
      exact hw
    · rw [List.length_cons]
      push_cast
      linarith

/-- C29. PathCover weight range: for every path, candidate edge, gap, list of libraries
(the empty list included), excluded-edges map and thresholds, the loop of
`PathCoverWeightCounter::CountSingleLib` ends with `0 ≤ weight ≤ idealWeight`, the
function returns `weight / idealWeight`, a value between 0 and 1, when the total ideal
weight is positive and 0 otherwise, and `PathCoverWeightCounter::CountWeight` returns a
value between 0 and 1; none of the divisions (normalization, final ratio, average over
the libraries) is a division by zero. -/
theorem PathCover_weight_range (g : Graph) (wc : WeightCounter) (singleThreshold : ℚ)
    (path : BidirectionalPath) (e : EdgeId) (gapLength : Int) :
    (∀ lib : PairedInfoLibrary, ∃ (acc : ℚ × ℚ) (v : ℚ),
      PathCoverWeightCounter.CountSingleLibLoop g wc singleThreshold lib path e gapLength
          (FindCoveredEdges g lib path e) = some acc
        ∧ 0 ≤ acc.1 ∧ acc.1 ≤ acc.2
        ∧ PathCoverWeightCounter.CountSingleLib g wc singleThreshold lib path e gapLength = some v
        ∧ 0 ≤ v ∧ v ≤ 1 ∧ (¬ acc.2 > 0 → v = 0) ∧ (acc.2 > 0 → v = acc.1 / acc.2))
    ∧ ∃ w, PathCoverWeightCounter.CountWeight g wc singleThreshold path e gapLength = some w
        ∧ 0 ≤ w ∧ w ≤ 1 := by
  have hlib : ∀ lib : PairedInfoLibrary, ∃ (acc : ℚ × ℚ) (v : ℚ),
      PathCoverWeightCounter.CountSingleLibLoop g wc singleThreshold lib path e gapLength
          (FindCoveredEdges g lib path e) = some acc
        ∧ 0 ≤ acc.1 ∧ acc.1 ≤ acc.2
        ∧ PathCoverWeightCounter.CountSingleLib g wc singleThreshold lib path e gapLength = some v
        ∧ 0 ≤ v ∧ v ≤ 1 ∧ (¬ acc.2 > 0 → v = 0) ∧ (acc.2 > 0 → v = acc.1 / acc.2) := by
    intro lib
    obtain ⟨acc, h1, h2, h3⟩ := PathCover_loop_inv g wc singleThreshold lib path e gapLength
      (FindCoveredEdges g lib path e) (FindCoveredEdges_pos g lib path e) (0, 0)
      (le_refl _) (le_refl _)
    obtain ⟨v, r1, r2, r3, r4, r5⟩ := PathCover_result_range acc h2 h3
    refine ⟨acc, v, h1, h2, h3, ?_, r2, r3, r4, r5⟩
    unfold PathCoverWeightCounter.CountSingleLib
    have h1b : PathCoverWeightCounter.CountSingleLibLoop g wc singleThreshold lib path e gapLength
        (FindCoveredEdges g lib path e) = some acc := h1
    rw [h1b]
    exact r1
  refine ⟨hlib, ?_⟩
  obtain ⟨w, hw, w1, w2⟩ := foldlM_add_range
    (fun lib => PathCoverWeightCounter.CountSingleLib g wc singleThreshold lib path e gapLength)
    (fun lib => by
      obtain ⟨_, v, _, _, _, hv, v0, v1, _⟩ := hlib lib
      exact ⟨v, hv, v0, v1⟩) wc.libs_ 0
  have hmax : (0 : ℚ) < ((max wc.libs_.length 1 : Nat) : ℚ) := by
    have : 0 < max wc.libs_.length 1 := lt_of_lt_of_le Nat.one_pos (le_max_right _ _)
    exact_mod_cast this
  have hle : (wc.libs_.length : ℚ) ≤ ((max wc.libs_.length 1 : Nat) : ℚ) := by
    exact_mod_cast le_max_left _ _
  refine ⟨w / ((max wc.libs_.length 1 : Nat) : ℚ), ?_, div_nonneg w1 (le_of_lt hmax),
    (div_le_one hmax).2 (by linarith)⟩
  unfold PathCoverWeightCounter.CountWeight
  rw [hw]
  exact divide_eq_some _ _ (ne_of_gt hmax)

theorem toInt32_of_lt (n : Nat) (h : n < 2147483648) : toInt32 n = (n : Int) := by
  unfold toInt32; omega

theorem sum_map_filter_reverse (l : List Nat) (P : Nat → Bool) (h : Nat → ℚ) :
    ((l.reverse.filter P).map h).sum = ((l.filter P).map h).sum := by
  rw [List.filter_reverse, List.map_reverse, List.sum_reverse]

/-- The weight of one library in `ReadCountWeightCounter` when no position is excluded:
the sum over the positions whose ideal count at the distance `length_at(i)` is positive of
the observed count at the distance `length_at(i) + gap`, divided by that ideal count when
the normalization is on. -/
theorem ReadCount_CountSingleLib_eq (g : Graph) (wc : WeightCounter) (lib : PairedInfoLibrary)
    (path : BidirectionalPath) (e : EdgeId) (gap : Int)
    (hex : ∀ i, wc.excluded_edges_ i = none) (hsz : path.Size < 2147483648)
    (hlen : ∀ i, i < path.Size → LengthAt g path i < 2147483648) :
    ReadCountWeightCounter.CountSingleLib g wc lib path e gap = some
      (((List.range path.Size).filter (fun i =>
          decide (lib.IdealPairedInfo (path.At i) e (LengthAt g path i : Int) > 0))).map
        (fun i =>
          if wc.normalizeWeight_ = true then
            lib.CountPairedInfo (path.At i) e ((LengthAt g path i : Int) + gap)
              / lib.IdealPairedInfo (path.At i) e (LengthAt g path i : Int)
          else lib.CountPairedInfo (path.At i) e ((LengthAt g path i : Int) + gap))).sum := by
  unfold ReadCountWeightCounter.CountSingleLib ReadCountWeightCounter.CountSingleLibLoop
  rw [foldlM_add (ReadCountWeightCounter.CountSingleLibStep g wc lib path e gap)
    (fun it => if wc.normalizeWeight_ = true then
        lib.CountPairedInfo (path.At it.e_) e (toInt32 (LengthAt g path it.e_) + gap) / it.pi_
      else lib.CountPairedInfo (path.At it.e_) e (toInt32 (LengthAt g path it.e_) + gap))]
  · have hf : (List.range path.Size).filter (fun i =>
          decide (lib.IdealPairedInfo (path.At i) e (toInt32 (LengthAt g path i)) > 0))
        = (List.range path.Size).filter (fun i =>
          decide (lib.IdealPairedInfo (path.At i) e (LengthAt g path i : Int) > 0)) := by
      apply List.filter_congr
      intro i hi
      rw [toInt32_of_lt _ (hlen i (List.mem_range.1 hi))]
    rw [zero_add, FindCoveredEdges_eq, List.map_map, toInt32_of_lt _ hsz, Int.toNat_ofNat,
      sum_map_filter_reverse, hf]
    refine congrArg some (congrArg List.sum ?_)
    apply List.map_congr_left
    intro i hi
    have hi2 := List.mem_range.1 (List.mem_filter.1 hi).1
    show (if wc.normalizeWeight_ = true then
        lib.CountPairedInfo (path.At i) e (toInt32 (LengthAt g path i) + gap)
          / lib.IdealPairedInfo (path.At i) e (toInt32 (LengthAt g path i))
      else lib.CountPairedInfo (path.At i) e (toInt32 (LengthAt g path i) + gap)) = _
    rw [toInt32_of_lt _ (hlen i hi2)]
  · intro it hit w
    have hp := FindCoveredEdges_pos g lib path e it hit
    unfold ReadCountWeightCounter.CountSingleLibStep
    rw [hex]
    simp only [Option.isSome_none, Bool.false_eq_true, if_false]
    by_cases hn : wc.normalizeWeight_ = true
    · rw [if_pos hn, if_pos hn, divide_eq_some _ _ (ne_of_gt hp)]
      rfl
    · rw [if_neg hn, if_neg hn]

theorem exFindCoveredEdges :
    FindCoveredEdges (exGraph 5) exLibrary (exPath [1] 0 1) 3 = [⟨0, 1⟩] := by
  have h1 : (toInt32 (exPath [1] 0 1).Size).toNat = 1 := by decide
  have h2 : toInt32 (LengthAt (exGraph 5) (exPath [1] 0 1) 0) = 1 := by decide
  have hr : (List.range 1).reverse = [0] := by decide
  have hw : exLibrary.IdealPairedInfo ((exPath [1] 0 1).At 0) 3
      (toInt32 (LengthAt (exGraph 5) (exPath [1] 0 1) 0)) = 1 := by
    rw [h2]
    show (if (1 : Int) = 1 then (1 : ℚ) else 2) = 1
    rw [if_pos rfl]
  unfold FindCoveredEdges
  rw [h1, hr]
  simp only [List.filterMap_cons, List.filterMap_nil, hw]
  norm_num

/-- C28 (counterexample). One library, the path `(1)` of length 1 and the gap 1: the ideal
count is 1 at the distance 1 and 2 at the distance 2, the observed count is 6.
`CountWeight` returns `6 = 6 / 1`, the observed count at the distance `1 + 1` divided by
the ideal count at the distance 1, and not `3 = 6 / 2`, the quotient of the two counts at
the distance `length_at(0) + gap = 2`. -/
theorem ReadCount_ideal_ignores_gap :
    LengthAt (exGraph 5) (exPath [1] 0 1) 0 = 1
    ∧ ReadCountWeightCounter.CountWeight (exGraph 5) exWeightCounter (exPath [1] 0 1) 3 1 = some 6
    ∧ exLibrary.CountPairedInfo 1 3 (1 + 1) / exLibrary.IdealPairedInfo 1 3 (1 + 1) = 3
    ∧ exLibrary.CountPairedInfo 1 3 (1 + 1) / exLibrary.IdealPairedInfo 1 3 1 = 6 := by
  refine ⟨by decide, ?_, by norm_num [exLibrary], by norm_num [exLibrary]⟩
  have h2 : toInt32 (LengthAt (exGraph 5) (exPath [1] 0 1) 0) = 1 := by decide
  have e1 : ReadCountWeightCounter.CountSingleLib (exGraph 5) exWeightCounter exLibrary
      (exPath [1] 0 1) 3 1 = some 6 := by
    unfold ReadCountWeightCounter.CountSingleLib ReadCountWeightCounter.CountSingleLibLoop
    rw [exFindCoveredEdges]
    simp only [List.foldlM_cons, List.foldlM_nil, ReadCountWeightCounter.CountSingleLibStep]
    norm_num [exWeightCounter, exLibrary, divide]
  show [exLibrary].foldlM (fun weight lib =>
    (ReadCountWeightCounter.CountSingleLib (exGraph 5) exWeightCounter lib (exPath [1] 0 1) 3 1).map
      (fun w => weight + w)) 0 = some 6
  simp only [List.foldlM_cons, List.foldlM_nil, e1]
  norm_num

/-- C28 (amended). ReadCount weight formula: with an empty excluded-edges map, on a path
of fewer than `2^31` edges whose lengths `length_at(i)` are below `2^31`,
`ReadCountWeightCounter::CountWeight(P, e, g)` returns the sum over the libraries `L` and
over the positions `i` of `P` with `L.ideal(P[i], e, length_at(i)) > 0` of
`L.count(P[i], e, length_at(i) + g) / L.ideal(P[i], e, length_at(i))`: the observed count
is taken at the distance `length_at(i) + g`, the ideal count, in the test and in the
division, at the distance `length_at(i)` without the gap.  When the normalization is off
it is the same sum without the division.  For the gap 0 the two distances are the same. -/
theorem ReadCount_CountWeight_formula (g : Graph) (wc : WeightCounter)
    (path : BidirectionalPath) (e : EdgeId) (gap : Int)
    (hex : ∀ i, wc.excluded_edges_ i = none) (hsz : path.Size < 2147483648)
    (hlen : ∀ i, i < path.Size → LengthAt g path i < 2147483648) :
    ReadCountWeightCounter.CountWeight g wc path e gap = some
      ((wc.libs_.map (fun lib =>
        (((List.range path.Size).filter (fun i =>
            decide (lib.IdealPairedInfo (path.At i) e (LengthAt g path i : Int) > 0))).map
          (fun i =>
            if wc.normalizeWeight_ = true then
              lib.CountPairedInfo (path.At i) e ((LengthAt g path i : Int) + gap)
                / lib.IdealPairedInfo (path.At i) e (LengthAt g path i : Int)
            else lib.CountPairedInfo (path.At i) e ((LengthAt g path i : Int) + gap))).sum)).sum)
    ∧ (gap = 0 → ReadCountWeightCounter.CountWeight g wc path e gap = some
      ((wc.libs_.map (fun lib =>
        (((List.range path.Size).filter (fun i =>
            decide (lib.IdealPairedInfo (path.At i) e ((LengthAt g path i : Int) + gap) > 0))).map
          (fun i =>
            if wc.normalizeWeight_ = true then
              lib.CountPairedInfo (path.At i) e ((LengthAt g path i : Int) + gap)
                / lib.IdealPairedInfo (path.At i) e ((LengthAt g path i : Int) + gap)
            else lib.CountPairedInfo (path.At i) e ((LengthAt g path i : Int) + gap))).sum)).sum)) := by
  have main : ReadCountWeightCounter.CountWeight g wc path e gap = some
      ((wc.libs_.map (fun lib =>
        (((List.range path.Size).filter (fun i =>
            decide (lib.IdealPairedInfo (path.At i) e (LengthAt g path i : Int) > 0))).map
          (fun i =>
            if wc.normalizeWeight_ = true then
              lib.CountPairedInfo (path.At i) e ((LengthAt g path i : Int) + gap)
                / lib.IdealPairedInfo (path.At i) e (LengthAt g path i : Int)
            else lib.CountPairedInfo (path.At i) e ((LengthAt g path i : Int) + gap))).sum)).sum) := by
    unfold ReadCountWeightCounter.CountWeight
    rw [foldlM_add _ (fun lib =>
        (((List.range path.Size).filter (fun i =>
            decide (lib.IdealPairedInfo (path.At i) e (LengthAt g path i : Int) > 0))).map
          (fun i =>
            if wc.normalizeWeight_ = true then
              lib.CountPairedInfo (path.At i) e ((LengthAt g path i : Int) + gap)
                / lib.IdealPairedInfo (path.At i) e (LengthAt g path i : Int)
            else lib.CountPairedInfo (path.At i) e ((LengthAt g path i : Int) + gap))).sum),
      zero_add]
    intro lib _ w
    rw [ReadCount_CountSingleLib_eq g wc lib path e gap hex hsz hlen]
    rfl
  refine ⟨main, fun h0 => ?_⟩
  rw [main]
  subst h0
  simp only [add_zero]

/-- The weight of the path `(1)` for the candidate `3` at the gap 1, from one library. -/
theorem ReadCount_CountWeight_formula_witness :
    ReadCountWeightCounter.CountWeight (exGraph 5) exWeightCounter (exPath [1] 0 1) 3 1 = some
      ((exWeightCounter.libs_.map (fun lib =>
        (((List.range (exPath [1] 0 1).Size).filter (fun i =>
            decide (lib.IdealPairedInfo ((exPath [1] 0 1).At i) 3
              (LengthAt (exGraph 5) (exPath [1] 0 1) i : Int) > 0))).map
          (fun i =>
            if exWeightCounter.normalizeWeight_ = true then
              lib.CountPairedInfo ((exPath [1] 0 1).At i) 3
                  ((LengthAt (exGraph 5) (exPath [1] 0 1) i : Int) + 1)
                / lib.IdealPairedInfo ((exPath [1] 0 1).At i) 3
                  (LengthAt (exGraph 5) (exPath [1] 0 1) i : Int)
            else lib.CountPairedInfo ((exPath [1] 0 1).At i) 3
                  ((LengthAt (exGraph 5) (exPath [1] 0 1) i : Int) + 1))).sum)).sum) :=
  (ReadCount_CountWeight_formula (exGraph 5) exWeightCounter (exPath [1] 0 1) 3 1
    (fun _ => rfl) (by decide) (fun i hi => by
      have h1 : i < 1 := hi
      have h0 : i = 0 := by omega
      rw [h0]
      decide)).1

theorem ReadCount_loop_veto (g : Graph) (wc : WeightCounter) (lib : PairedInfoLibrary)
    (path : BidirectionalPath) (e : EdgeId) (gap : Int) :
    ∀ (cov : List EdgeWithPairedInfo) (w0 : ℚ),
      cov.foldlM (ReadCountWeightCounter.CountSingleLibStep g wc lib path e gap) w0
        = (cov.filter (fun it => (wc.excluded_edges_ it.e_).isNone)).foldlM
            (ReadCountWeightCounter.CountSingleLibStep g
              { wc with excluded_edges_ := fun _ => none } lib path e gap) w0 := by
  intro cov
  induction cov with
  | nil => intro _; rfl
  | cons it rest ih =>
    intro w0
    cases hx : wc.excluded_edges_ it.e_ with
    | some x =>
      have hs : ReadCountWeightCounter.CountSingleLibStep g wc lib path e gap w0 it = some w0 := by
        unfold ReadCountWeightCounter.CountSingleLibStep
        rw [hx]
        rfl
      rw [List.foldlM_cons, hs, List.filter_cons_of_neg (by rw [hx]; simp)]
      exact ih w0
    | none =>
      have hs : ReadCountWeightCounter.CountSingleLibStep g wc lib path e gap w0 it
          = ReadCountWeightCounter.CountSingleLibStep g
              { wc with excluded_edges_ := fun _ => none } lib path e gap w0 it := by
        unfold ReadCountWeightCounter.CountSingleLibStep
        rw [hx]
      rw [List.foldlM_cons, hs, List.filter_cons_of_pos (by rw [hx]; rfl), List.foldlM_cons]
      cases ReadCountWeightCounter.CountSingleLibStep g
          { wc with excluded_edges_ := fun _ => none } lib path e gap w0 it with
      | none => rfl
      | some w1 => exact ih w1

theorem PathCover_loop_effective (g : Graph) (wc : WeightCounter) (thr : ℚ)
    (lib : PairedInfoLibrary) (path : BidirectionalPath) (e : EdgeId) (gap : Int) :
    ∀ (cov : List EdgeWithPairedInfo), (∀ it ∈ cov, it.pi_ > 0) → ∀ (acc : ℚ × ℚ),
      cov.foldlM (PathCoverWeightCounter.CountSingleLibStep g wc thr lib path e gap) acc
        = (PathCoverWeightCounter.EffectiveEdges wc cov).foldlM
            (PathCoverWeightCounter.CountSingleLibStep g
              { wc with excluded_edges_ := fun _ => none } thr lib path e gap) acc := by
  intro cov
  induction cov with
  | nil => intro _ _; rfl
  | cons it rest ih =>
    intro hpos acc
    have hrest : ∀ b ∈ rest, b.pi_ > 0 := fun b hb => hpos b (List.mem_cons_of_mem _ hb)
    have hp := hpos it (List.mem_cons_self _ _)
    unfold PathCoverWeightCounter.EffectiveEdges
    cases hx : wc.excluded_edges_ it.e_ with
    | none =>
      have hs : PathCoverWeightCounter.CountSingleLibStep g wc thr lib path e gap acc it
          = PathCoverWeightCounter.CountSingleLibStep g
              { wc with excluded_edges_ := fun _ => none } thr lib path e gap acc it := by
        unfold PathCoverWeightCounter.CountSingleLibStep
        rw [hx]
        rfl
      rw [List.foldlM_cons, hs, List.filterMap_cons_some (by rw [hx]), List.foldlM_cons]
      cases PathCoverWeightCounter.CountSingleLibStep g
          { wc with excluded_edges_ := fun _ => none } thr lib path e gap acc it with
      | none => rfl
      | some a1 => exact ih hrest a1
    | some x =>
      by_cases hxp : x > 0
      · have hs : PathCoverWeightCounter.CountSingleLibStep g wc thr lib path e gap acc it
            = PathCoverWeightCounter.CountSingleLibStep g
                { wc with excluded_edges_ := fun _ => none } thr lib path e gap acc ⟨it.e_, x⟩ := by
          unfold PathCoverWeightCounter.CountSingleLibStep
          rw [hx]
          show (if ¬ (x > 0) ∨ ¬ (it.pi_ > 0) then some acc else _) = _
          rw [if_neg (by rintro (h | h); exact h hxp; exact h hp)]
          rfl
        rw [List.foldlM_cons, hs, List.filterMap_cons_some (by rw [hx]; exact if_pos hxp),
          List.foldlM_cons]
        cases PathCoverWeightCounter.CountSingleLibStep g
            { wc with excluded_edges_ := fun _ => none } thr lib path e gap acc ⟨it.e_, x⟩ with
        | none => rfl
        | some a1 => exact ih hrest a1
      · have hs : PathCoverWeightCounter.CountSingleLibStep g wc thr lib path e gap acc it
            = some acc := by
          unfold PathCoverWeightCounter.CountSingleLibStep
          rw [hx]
          show (if ¬ (x > 0) ∨ ¬ (it.pi_ > 0) then some acc else _) = _
          rw [if_pos (Or.inl hxp)]
        rw [List.foldlM_cons, hs, List.filterMap_cons_none (by rw [hx]; exact if_neg hxp)]
        exact ih hrest acc

theorem EffectiveEdges_eq_filter (wc : WeightCounter) (hval : ∀ i x, wc.excluded_edges_ i = some x → x ≤ 0) :
    ∀ cov : List EdgeWithPairedInfo, PathCoverWeightCounter.EffectiveEdges wc cov
      = cov.filter (fun it => (wc.excluded_edges_ it.e_).isNone) := by
  intro cov
  unfold PathCoverWeightCounter.EffectiveEdges
  induction cov with
  | nil => rfl
  | cons it rest ih =>
    cases hx : wc.excluded_edges_ it.e_ with
    | none =>
      rw [List.filterMap_cons_some (by rw [hx]), ih, List.filter_cons_of_pos (by rw [hx]; rfl)]
    | some x =>
      rw [List.filterMap_cons_none (by rw [hx]; exact if_neg (not_lt.2 (hval _ _ hx))), ih,
        List.filter_cons_of_neg (by rw [hx]; simp)]

/-- C30 (counterexample). PathCover, one library, the path `(1)`: the position 0, the only
one enumerated, is a key of the excluded-edges map with the value 1.  `CountWeight`
returns 1, while the weight computed without the position 0 is 0. -/
theorem PathCover_excluded_position_counts :
    exWeightCounterExcluded.excluded_edges_ 0 = some 1
    ∧ FindCoveredEdges (exGraph 5) exLibrary (exPath [1] 0 1) 3 = [⟨0, 1⟩]
    ∧ PathCoverWeightCounter.CountWeight (exGraph 5) exWeightCounterExcluded 0
        (exPath [1] 0 1) 3 0 = some 1
    ∧ (PathCoverWeightCounter.CountSingleLibLoop (exGraph 5) exWeightCounter 0 exLibrary
        (exPath [1] 0 1) 3 0 []).bind PathCoverWeightCounter.CountSingleLibResult = some 0 := by
  refine ⟨rfl, exFindCoveredEdges, ?_, ?_⟩
  · have e1 : PathCoverWeightCounter.CountSingleLib (exGraph 5) exWeightCounterExcluded 0
        exLibrary (exPath [1] 0 1) 3 0 = some 1 := by
      unfold PathCoverWeightCounter.CountSingleLib PathCoverWeightCounter.CountSingleLibLoop
      rw [exFindCoveredEdges]
      simp only [List.foldlM_cons, List.foldlM_nil, PathCoverWeightCounter.CountSingleLibStep,
        PathCoverWeightCounter.CountSingleLibAdd, PathCoverWeightCounter.CountSingleLibResult]
      norm_num [exWeightCounterExcluded, exLibrary, divide]
    show ([exLibrary].foldlM (fun weight lib =>
      (PathCoverWeightCounter.CountSingleLib (exGraph 5) exWeightCounterExcluded 0 lib
        (exPath [1] 0 1) 3 0).map (fun w => weight + w)) 0).bind
      (fun weight => divide weight ((max [exLibrary].length 1 : Nat) : ℚ)) = some 1
    simp only [List.foldlM_cons, List.foldlM_nil, e1]
    norm_num [divide]
  · simp [PathCoverWeightCounter.CountSingleLibLoop, PathCoverWeightCounter.CountSingleLibResult]

/-- C30 (amended). Excluded-edges map.  ReadCount: a position that is a key of the map
contributes nothing, whatever the value: `CountSingleLib` is the loop over the entries
whose position is not a key, run with an empty map, and `CountWeight` is the same for two
maps with the same keys.  PathCover: a position that is a key contributes nothing only if
its value is not positive; with a positive value it takes part in both sums with that
value as its ideal weight: `CountSingleLib` is the loop over the effective entries, run
with an empty map, and it is the loop over the entries whose position is not a key when
no value of the map is positive. -/
theorem excluded_edges_veto (g : Graph) (wc : WeightCounter) (singleThreshold : ℚ)
    (path : BidirectionalPath) (e : EdgeId) (gap : Int) :
    (∀ lib : PairedInfoLibrary,
      ReadCountWeightCounter.CountSingleLib g wc lib path e gap
        = ReadCountWeightCounter.CountSingleLibLoop g
            { wc with excluded_edges_ := fun _ => none } lib path e gap
            ((FindCoveredEdges g lib path e).filter
              (fun it => (wc.excluded_edges_ it.e_).isNone)))
    ∧ (∀ wc2 : WeightCounter, wc2.libs_ = wc.libs_ → wc2.normalizeWeight_ = wc.normalizeWeight_ →
        (∀ i, (wc2.excluded_edges_ i).isSome = (wc.excluded_edges_ i).isSome) →
        ReadCountWeightCounter.CountWeight g wc2 path e gap
          = ReadCountWeightCounter.CountWeight g wc path e gap)
    ∧ (∀ lib : PairedInfoLibrary,
      PathCoverWeightCounter.CountSingleLib g wc singleThreshold lib path e gap
        = (PathCoverWeightCounter.CountSingleLibLoop g
            { wc with excluded_edges_ := fun _ => none } singleThreshold lib path e gap
            (PathCoverWeightCounter.EffectiveEdges wc (FindCoveredEdges g lib path e))).bind
            PathCoverWeightCounter.CountSingleLibResult)
    ∧ ((∀ i x, wc.excluded_edges_ i = some x → x ≤ 0) → ∀ lib : PairedInfoLibrary,
      PathCoverWeightCounter.CountSingleLib g wc singleThreshold lib path e gap
        = (PathCoverWeightCounter.CountSingleLibLoop g
            { wc with excluded_edges_ := fun _ => none } singleThreshold lib path e gap
            ((FindCoveredEdges g lib path e).filter
              (fun it => (wc.excluded_edges_ it.e_).isNone))).bind
            PathCoverWeightCounter.CountSingleLibResult) := by
  have h3 : ∀ lib : PairedInfoLibrary,
      PathCoverWeightCounter.CountSingleLib g wc singleThreshold lib path e gap
        = (PathCoverWeightCounter.CountSingleLibLoop g
            { wc with excluded_edges_ := fun _ => none } singleThreshold lib path e gap
            (PathCoverWeightCounter.EffectiveEdges wc (FindCoveredEdges g lib path e))).bind
            PathCoverWeightCounter.CountSingleLibResult := by
    intro lib
    unfold PathCoverWeightCounter.CountSingleLib PathCoverWeightCounter.CountSingleLibLoop
    rw [PathCover_loop_effective g wc singleThreshold lib path e gap _
      (FindCoveredEdges_pos g lib path e)]
  refine ⟨fun lib => ?_, fun wc2 hl hn hk => ?_, h3, fun hval lib => ?_⟩
  · unfold ReadCountWeightCounter.CountSingleLib ReadCountWeightCounter.CountSingleLibLoop
    exact ReadCount_loop_veto g wc lib path e gap _ 0
  · have hstep : ∀ lib, ReadCountWeightCounter.CountSingleLibStep g wc2 lib path e gap
        = ReadCountWeightCounter.CountSingleLibStep g wc lib path e gap := by
      intro lib
      funext w it
      unfold ReadCountWeightCounter.CountSingleLibStep
      rw [hk, hn]
    unfold ReadCountWeightCounter.CountWeight ReadCountWeightCounter.CountSingleLib
      ReadCountWeightCounter.CountSingleLibLoop
    rw [hl]
    simp only [hstep]
  · rw [h3 lib, EffectiveEdges_eq_filter wc hval]

/-! ## Comparator: matched endpoints and the acceptance rule -/

theorem ComparePathsLoop_endpoints (g : Graph) (p1 p2 : BidirectionalPath) (M a b : Nat) :
    ∀ (fuel cur l1 l2 d : Nat), l1 < cur → a ≤ l1 → b ≤ l2 →
      p1.At l1 = p2.At l2 → (l1 = a ↔ l2 = b) →
      p1.At (ComparePathsLoop g p1 p2 M fuel cur l1 l2 d).1
          = p2.At (ComparePathsLoop g p1 p2 M fuel cur l1 l2 d).2
        ∧ ((ComparePathsLoop g p1 p2 M fuel cur l1 l2 d).1 = a
            ↔ (ComparePathsLoop g p1 p2 M fuel cur l1 l2 d).2 = b) := by
  intro fuel
  induction fuel with
  | zero => intro cur l1 l2 d _ _ _ he hi; exact ⟨he, hi⟩
  | succ n ih =>
    intro cur l1 l2 d hl ha hb he hi
    unfold ComparePathsLoop
    by_cases hdM : d > M
    · simp only [if_pos hdM]
      exact ⟨he, hi⟩
    · simp only [if_neg hdM]
      cases hf : (p2.FindAll (p1.At cur)).find? (fun q => decide (q > l2)) with
      | none => exact ih _ _ _ _ (by omega) ha hb he hi
      | some q =>
        simp only []
        have hq1 : q > l2 := by simpa using List.find?_some hf
        have hq2 := (mem_FindAll _ _ _).1 (List.mem_of_find?_eq_some hf)
        split
        · exact ih _ _ _ _ (by omega) ha hb he hi
        · exact ih _ _ _ _ (by omega) (by omega) (by omega) hq2.2.symm
            ⟨fun h => by omega, fun h => by omega⟩

/-- C35. Matched endpoints carry the same edge: for valid start positions with
`P1[start1] = P2[start2]` and every `M`, the pair `(last1, last2)` that `ComparePaths`
returns consists of valid positions at or after the start positions with
`P1[last1] = P2[last2]`, and `last1 = start1` if and only if `last2 = start2`. -/
theorem ComparePaths_matched_endpoints (g : Graph) (path1 path2 : BidirectionalPath)
    (start1 start2 M : Nat) (h1 : start1 < path1.Size) (h2 : start2 < path2.Size)
    (hsz : path1.Size < 18446744073709551616)
    (he : path1.At start1 = path2.At start2) :
    path1.At (ComparePaths g start1 start2 path1 path2 M).1
        = path2.At (ComparePaths g start1 start2 path1 path2 M).2
    ∧ ((ComparePaths g start1 start2 path1 path2 M).1 = start1
        ↔ (ComparePaths g start1 start2 path1 path2 M).2 = start2)
    ∧ start1 ≤ (ComparePaths g start1 start2 path1 path2 M).1
    ∧ (ComparePaths g start1 start2 path1 path2 M).1 < path1.Size
    ∧ start2 ≤ (ComparePaths g start1 start2 path1 path2 M).2
    ∧ (ComparePaths g start1 start2 path1 path2 M).2 < path2.Size := by
  have hc : (start1 + 1) % 18446744073709551616 = start1 + 1 := Nat.mod_eq_of_lt (by omega)
  unfold ComparePaths
  simp only [hc]
  obtain ⟨a1, a2⟩ := ComparePathsLoop_endpoints g path1 path2 M start1 start2
    (path1.Size - (start1 + 1)) (start1 + 1) start1 start2 0 (by omega) (le_refl _) (le_refl _)
    he ⟨fun _ => rfl, fun _ => rfl⟩
  obtain ⟨b1, b2, b3, b4⟩ := ComparePathsLoop_range g path1 path2 M start1 start2
    (path1.Size - (start1 + 1)) (start1 + 1) start1 start2 0 (by omega) (by omega) h2
    (le_refl _) (le_refl _)
  exact ⟨a1, a2, b1, b2, b3, b4⟩

/-- The comparison of `(1, 3, 5, 7, 9)` with `(7, 9, 11)` from the shared edge `7` ends at
the shared edge `9`. -/
theorem ComparePaths_matched_endpoints_witness :
    (exPath [1, 3, 5, 7, 9] 0 1).At
        (ComparePaths (exGraph 5) 3 0 (exPath [1, 3, 5, 7, 9] 0 1) (exPath [7, 9, 11] 2 3) 0).1
      = (exPath [7, 9, 11] 2 3).At
        (ComparePaths (exGraph 5) 3 0 (exPath [1, 3, 5, 7, 9] 0 1) (exPath [7, 9, 11] 2 3) 0).2
    ∧ ((ComparePaths (exGraph 5) 3 0 (exPath [1, 3, 5, 7, 9] 0 1) (exPath [7, 9, 11] 2 3) 0).1 = 3
      ↔ (ComparePaths (exGraph 5) 3 0 (exPath [1, 3, 5, 7, 9] 0 1) (exPath [7, 9, 11] 2 3) 0).2
          = 0) :=
  let h := ComparePaths_matched_endpoints (exGraph 5) (exPath [1, 3, 5, 7, 9] 0 1)
    (exPath [7, 9, 11] 2 3) 3 0 0 (by decide) (by decide) (by decide) (by decide)
  ⟨h.1, h.2.1⟩

theorem skippedInPath2_succ (g : Graph) (p : BidirectionalPath) (a b : Nat) (h : a < b) :
    skippedInPath2 g p a (b + 1)
      = skippedInPath2 g p a b + (g.length (p.At b) : Int) + p.GapAt (b + 1) := by
  unfold skippedInPath2
  have e1 : b + 1 - a - 1 = (b - a - 1) + 1 := by omega
  have e2 : b + 1 - a = (b - a) + 1 := by omega
  rw [e1, e2, List.range'_concat, List.range'_concat]
  have e3 : a + 1 + 1 * (b - a - 1) = b := by omega
  have e4 : a + 1 + 1 * (b - a) = b + 1 := by omega
  simp only [List.map_append, List.sum_append, List.map_cons, List.map_nil, List.sum_cons,
    List.sum_nil, e3, e4]
  ring

theorem GapAt_nonneg (p : BidirectionalPath) (hg : ∀ x ∈ p.gaps, 0 ≤ x) (j : Nat) :
    0 ≤ p.GapAt j := by
  cases j with
  | zero => exact le_refl _
  | succ k =>
    rw [GapAt_succ, List.getD_eq_getElem?_getD]
    cases hk : p.gaps[k]? with
    | none => exact le_refl _
    | some x => exact hg x (List.getElem?_mem hk)

/-- With gaps that are not negative the distance from a position grows with the target. -/
theorem skippedInPath2_mono (g : Graph) (p : BidirectionalPath) (hg : ∀ x ∈ p.gaps, 0 ≤ x)
    (a b : Nat) (hab : a < b) :
    ∀ n, 0 ≤ skippedInPath2 g p a b ∧ skippedInPath2 g p a b ≤ skippedInPath2 g p a (b + n) := by
  have h0 : ∀ c, a < c → 0 ≤ skippedInPath2 g p a c := by
    intro c hc
    obtain ⟨m, rfl⟩ : ∃ m, c = a + 1 + m := ⟨c - a - 1, by omega⟩
    induction m with
    | zero =>
      have e : skippedInPath2 g p a (a + 1 + 0) = p.GapAt (a + 1) := by
        simp [skippedInPath2]
      rw [e]; exact GapAt_nonneg p hg _
    | succ m ih =>
      have e : a + 1 + (m + 1) = (a + 1 + m) + 1 := by omega
      rw [e, skippedInPath2_succ g p a (a + 1 + m) (by omega)]
      have := ih (by omega)
      have := GapAt_nonneg p hg (a + 1 + m + 1)
      have : (0 : Int) ≤ (g.length (p.At (a + 1 + m)) : Int) := Int.natCast_nonneg _
      linarith
  intro n
  refine ⟨h0 b hab, ?_⟩
  induction n with
  | zero => exact le_refl _
  | succ n ih =>
    have e : b + (n + 1) = (b + n) + 1 := by omega
    rw [e, skippedInPath2_succ g p a (b + n) (by omega)]
    have := GapAt_nonneg p hg (b + n + 1)
    have : (0 : Int) ≤ (g.length (p.At (b + n)) : Int) := Int.natCast_nonneg _
    linarith

theorem find_first_le : ∀ (l : List Nat) (l2 x q0 : Nat),
    l.Pairwise (fun a b => a < b) → l.find? (fun y => decide (y > l2)) = some x →
    q0 ∈ l → l2 < q0 → x ≤ q0 := by
  intro l
  induction l with
  | nil => intro l2 x q0 _ hf; simp at hf
  | cons a t ih =>
    intro l2 x q0 hs hf hm hl
    rw [List.pairwise_cons] at hs
    by_cases ha : a > l2
    · rw [List.find?_cons_of_pos _ (by simpa using ha)] at hf
      have hx : a = x := Option.some.inj hf
      rcases List.mem_cons.1 hm with h | h
      · omega
      · have := hs.1 q0 h
        omega
    · rw [List.find?_cons_of_neg _ (by simpa using ha)] at hf
      rcases List.mem_cons.1 hm with h | h
      · omega
      · exact ih l2 x q0 hs.2 hf h hl

/-- The inner loop of `ComparePaths` stops at the first position after `last_pos2` at which
the edge occurs. -/
theorem find_FindAll_first (p : BidirectionalPath) (e : EdgeId) (q0 l2 : Nat)
    (hq : q0 < p.Size) (hat : p.At q0 = e) (hl : l2 < q0)
    (hmin : ∀ j, l2 < j → j < q0 → p.At j ≠ e) :
    (p.FindAll e).find? (fun x => decide (x > l2)) = some q0 := by
  cases hf : (p.FindAll e).find? (fun x => decide (x > l2)) with
  | none =>
    have := List.find?_eq_none.1 hf q0 ((mem_FindAll _ _ _).2 ⟨hq, hat⟩)
    simp at this; omega
  | some x =>
    have hx := (mem_FindAll _ _ _).1 (List.mem_of_find?_eq_some hf)
    have hx1 : x > l2 := by simpa using List.find?_some hf
    have hge : q0 ≤ x := by
      by_contra hlt
      exact hmin x hx1 (by omega) hx.2
    have hle : x ≤ q0 := by
      have hsorted : (p.FindAll e).Pairwise (fun a b => a < b) := by
        unfold BidirectionalPath.FindAll
        exact List.Pairwise.filter _ (List.pairwise_lt_range _)
      exact find_first_le (p.FindAll e) l2 x q0 hsorted hf
        ((mem_FindAll _ _ _).2 ⟨hq, hat⟩) hl
    rw [le_antisymm hle hge]

theorem diff_len2_eq (g : Graph) (p : BidirectionalPath) (l2 q : Nat) (h1 : l2 < q)
    (h2 : q < p.Size) :
    toSizeT ((LengthAt g p l2 : Int) - (LengthAt g p q : Int) - (g.length (p.At l2) : Int))
      = toSizeT (skippedInPath2 g p l2 q) := by
  have e : q = l2 + (q - l2 - 1) + 1 := by omega
  have := lengthAtZ_sub g p l2 (q - l2 - 1) (by omega)
  rw [← e] at this
  rw [← this]
  unfold LengthAt
  rw [toSizeT_sub_sub]

/-- One iteration of the loop of `ComparePaths` when the edge `P1[cur]` occurs in `P2`
after `last_pos2`: the first such position `q0` is the only one that is examined. -/
theorem ComparePathsLoop_first_occurrence (g : Graph) (p1 p2 : BidirectionalPath)
    (M fuel cur l1 l2 d q0 : Nat) (hd : d ≤ M) (hq : q0 < p2.Size)
    (hat : p2.At q0 = p1.At cur) (hl : l2 < q0)
    (hmin : ∀ j, l2 < j → j < q0 → p2.At j ≠ p1.At cur) :
    ComparePathsLoop g p1 p2 M (fuel + 1) cur l1 l2 d
      = if toSizeT (skippedInPath2 g p2 l2 q0) ≤ M then
          ComparePathsLoop g p1 p2 M fuel (cur + 1) cur q0 0
        else ComparePathsLoop g p1 p2 M fuel (cur + 1) l1 l2
          (toSizeT ((d : Int) + (g.length (p1.At cur) : Int) + p1.GapAt cur)) := by
  have e : ComparePathsLoop g p1 p2 M (fuel + 1) cur l1 l2 d
      = if d > M then (l1, l2)
        else
          match (p2.FindAll (p1.At cur)).find? (fun q => decide (q > l2)) with
          | none => ComparePathsLoop g p1 p2 M fuel (cur + 1) l1 l2
              (toSizeT ((d : Int) + (g.length (p1.At cur) : Int) + p1.GapAt cur))
          | some q =>
            if toSizeT ((LengthAt g p2 l2 : Int) - (LengthAt g p2 q : Int)
                - (g.length (p2.At l2) : Int)) > M then
              ComparePathsLoop g p1 p2 M fuel (cur + 1) l1 l2
                (toSizeT ((d : Int) + (g.length (p1.At cur) : Int) + p1.GapAt cur))
            else ComparePathsLoop g p1 p2 M fuel (cur + 1) cur q 0 := rfl
  rw [e, if_neg (by omega), find_FindAll_first p2 (p1.At cur) q0 l2 hq hat hl hmin]
  simp only []
  rw [diff_len2_eq g p2 l2 q0 hl hq]
  by_cases hc : toSizeT (skippedInPath2 g p2 l2 q0) ≤ M
  · rw [if_pos hc, if_neg (by omega)]
  · rw [if_neg hc, if_pos (by omega)]

/-- C31 (counterexample). `P1 = (1, 3)`, `P2 = (1, 3, 7, 3)` with the gaps 6, -3, 0 and
`max_overlap = 5`, started at the shared edge `1`: the edge `P1[1] = 3` occurs in `P2` at
the position 3, at the distance 5 from position 0, but the step is not accepted, because
the first occurrence, at position 1, is at the distance 6: `ComparePaths` returns the
start positions. -/
theorem ComparePaths_rejects_later_occurrence :
    (exPath [1, 3] 0 1).At 1 = exPathNegativeGap.At 3
    ∧ skippedInPath2 (exGraph 5) exPathNegativeGap 0 3 = 5
    ∧ skippedInPath2 (exGraph 5) exPathNegativeGap 0 1 = 6
    ∧ ComparePaths (exGraph 5) 0 0 (exPath [1, 3] 0 1) exPathNegativeGap 5 = (0, 0) := by
  decide

/-- C31 (amended). Acceptance and tie-break in `ComparePaths`.  At a step at which the
skip counter does not exceed `max_overlap` and `P1[cur]` occurs in `P2` after `last2`, the
loop examines the smallest such position `q0` only: the step is accepted, with
`last1 := cur`, `last2 := q0` and the counter reset to 0, if the distance from `last2` to
`q0` (as a `size_t`) is at most `max_overlap`, and it is rejected otherwise, whatever the
later occurrences are.  When the gaps of `P2` are not negative, this is the rule of the
design: if `P1[cur]` occurs at some position `q > last2` at a distance of at most
`max_overlap`, the step is accepted and the new `last2` is the smallest position after
`last2` at which the edge occurs, which is the smallest one within the budget. -/
theorem ComparePaths_step_acceptance (g : Graph) (p1 p2 : BidirectionalPath)
    (M fuel cur l1 l2 d : Nat) (hd : d ≤ M) (hM : M < 18446744073709551616) :
    (∀ q0, q0 < p2.Size → p2.At q0 = p1.At cur → l2 < q0 →
      (∀ j, l2 < j → j < q0 → p2.At j ≠ p1.At cur) →
      ComparePathsLoop g p1 p2 M (fuel + 1) cur l1 l2 d
        = if toSizeT (skippedInPath2 g p2 l2 q0) ≤ M then
            ComparePathsLoop g p1 p2 M fuel (cur + 1) cur q0 0
          else ComparePathsLoop g p1 p2 M fuel (cur + 1) l1 l2
            (toSizeT ((d : Int) + (g.length (p1.At cur) : Int) + p1.GapAt cur)))
    ∧ ((∀ x ∈ p2.gaps, 0 ≤ x) →
      ∀ q, q < p2.Size → p2.At q = p1.At cur → l2 < q → skippedInPath2 g p2 l2 q ≤ M →
      ∃ q0, l2 < q0 ∧ q0 ≤ q ∧ p2.At q0 = p1.At cur
        ∧ (∀ j, l2 < j → j < q0 → p2.At j ≠ p1.At cur)
        ∧ skippedInPath2 g p2 l2 q0 ≤ M
        ∧ ComparePathsLoop g p1 p2 M (fuel + 1) cur l1 l2 d
            = ComparePathsLoop g p1 p2 M fuel (cur + 1) cur q0 0) := by
  refine ⟨fun q0 hq hat hl hmin =>
    ComparePathsLoop_first_occurrence g p1 p2 M fuel cur l1 l2 d q0 hd hq hat hl hmin,
    fun hg q hq hat hl hdist => ?_⟩
  have hex : ∃ j, l2 < j ∧ j < p2.Size ∧ p2.At j = p1.At cur := ⟨q, hl, hq, hat⟩
  have hspec := Nat.find_spec hex
  have hle : Nat.find hex ≤ q := Nat.find_min' hex ⟨hl, hq, hat⟩
  have hmin : ∀ j, l2 < j → j < Nat.find hex → p2.At j ≠ p1.At cur := by
    intro j hj1 hj2 hj3
    exact Nat.find_min hex hj2 ⟨hj1, by omega, hj3⟩
  obtain ⟨n, hn⟩ : ∃ n, q = Nat.find hex + n := ⟨q - Nat.find hex, by omega⟩
  have hmono := skippedInPath2_mono g p2 hg l2 (Nat.find hex) hspec.1 n
  rw [← hn] at hmono
  have hsk : skippedInPath2 g p2 l2 (Nat.find hex) ≤ M := le_trans hmono.2 hdist
  refine ⟨Nat.find hex, hspec.1, hle, hspec.2.2, hmin, hsk, ?_⟩
  rw [ComparePathsLoop_first_occurrence g p1 p2 M fuel cur l1 l2 d (Nat.find hex) hd hspec.2.1
    hspec.2.2 hspec.1 hmin, if_pos]
  have hc := toSizeT_of_range _ hmono.1 (lt_of_le_of_lt hsk (by omega))
  omega

/-- The first step of the comparison of `(7, 9)` with `(7, 9, 11)` is accepted. -/
theorem ComparePaths_step_acceptance_witness :
    ∃ q0, 0 < q0 ∧ q0 ≤ 1 ∧ (exPath [7, 9, 11] 2 3).At q0 = (exPath [7, 9] 0 1).At 1
      ∧ ComparePathsLoop (exGraph 5) (exPath [7, 9] 0 1) (exPath [7, 9, 11] 2 3) 0 (0 + 1) 1 0 0 0
          = ComparePathsLoop (exGraph 5) (exPath [7, 9] 0 1) (exPath [7, 9, 11] 2 3) 0 0 (1 + 1)
              1 q0 0 :=
  let ⟨q0, a, b, c, _, _, f⟩ := (ComparePaths_step_acceptance (exGraph 5) (exPath [7, 9] 0 1)
    (exPath [7, 9, 11] 2 3) 0 0 1 0 0 0 (by decide) (by decide)).2 (by decide) 1 (by decide)
    (by decide) (by decide) (by decide)
  ⟨q0, a, b, c, f⟩

/-! ## CompareAndCut: positions computed before a cut -/

/-- C34 (failing input). `CompareAndCut(5, path1, path2, 0, true, true, false)` on
`path1 = (5, 7)` and `path2 = (5, 9, 5, 11, 13)`: the first comparison, from the
co-occurrence `(0, 0)`, pops the common beginning `5` of `path1`; the second comparison
uses the stale position `0` of `path1` with the position `2` of `path2`, at a time when
`path1[0] = 7` is not the edge `5 = path2[2]`, and its result makes `CutOverlaps` delete
`path1`, whose only edge `7` does not occur in `path2`. -/
theorem CompareAndCut_compares_at_stale_position :
    CompareAndCutCalls (exGraph 5) (exState [5, 7] [5, 9, 5, 11, 13]) 5 0 2 0 true true false
      = [(0, 0, exState [5, 7] [5, 9, 5, 11, 13]), (0, 2, exState [7] [5, 9, 5, 11, 13])]
    ∧ ((exState [7] [5, 9, 5, 11, 13]).path 0).At 0 = 7
    ∧ ((exState [7] [5, 9, 5, 11, 13]).path 2).At 2 = 5
    ∧ 7 ∉ ((exState [5, 7] [5, 9, 5, 11, 13]).path 2).data
    ∧ CompareAndCut (exGraph 5) (exState [5, 7] [5, 9, 5, 11, 13]) 5 0 2 0 true true false
      = some (exState [] [5, 9, 5, 11, 13]) := by
  refine ⟨by decide, by decide, by decide, by decide, by decide⟩

/-! ## Mate-pair trimming never deletes a path -/

theorem KeepsNonEmpty.unmoved (s : State) : KeepsNonEmpty s s := ⟨rfl, fun _ h => h⟩

theorem KeepsNonEmpty.followed_by_keeps {s t u : State} (h1 : KeepsNonEmpty s t)
    (h2 : KeepsNonEmpty t u) : KeepsNonEmpty s u :=
  ⟨h2.1.trans h1.1, fun r h => h2.2 r (h1.2 r h)⟩

/-- The loop of `RemoveMatePairEnd`, started with a counter that is a position of the
path, returns, keeps the first edge of the path and empties no path. -/
theorem RemoveMatePairEndLoop_keeps (g : Graph) (path m : Nat) :
    ∀ (pos : Nat) (s : State), Consistent g s → path < s.heap.length →
      (pos = 0 ∨ pos < (s.path path).data.length) →
      ∃ s', RemoveMatePairEndLoop g path m pos s = some s' ∧ Reduced g s s'
        ∧ KeepsNonEmpty s s' ∧ (s'.path path).At 0 = (s.path path).At 0 := by
  intro pos
  induction pos with
  | zero =>
    intro s _ _ _
    exact ⟨s, RemoveMatePairEndLoop_zero g path m s, Reduced.unchanged g s,
      KeepsNonEmpty.unmoved s, rfl⟩
  | succ n ih =>
    intro s hC hp hpos
    rw [RemoveMatePairEndLoop_succ]
    by_cases hlt : g.length ((s.path path).At (n + 1)) < m
    · rw [if_pos hlt, PopBack_eq_some s path 1 (by omega), Option.some_bind]
      have hR := Reduced_popBackEdges g s path 1 hp
      obtain ⟨q1, q2, q3⟩ := hC.linked path hp
      have hP := fun r => popBackEdges_path s path 1 r hp q1 q3
      have hd : ((popBackEdges s path 1).path path).data
          = (s.path path).data.take ((s.path path).data.length - 1) := by
        rw [hP path, if_pos rfl]
      have hsz : ((popBackEdges s path 1).path path).data.length
          = (s.path path).data.length - 1 := by
        rw [hd, List.length_take]; omega
      have hconj := hC.size_conj path hp
      unfold BidirectionalPath.Size State.GetConjPath at hconj
      have hk : KeepsNonEmpty s (popBackEdges s path 1) := by
        refine ⟨hR.2.1, fun r hr => ?_⟩
        unfold BidirectionalPath.Size at hr ⊢
        by_cases h1 : r = path
        · rw [h1, hsz]; omega
        · by_cases h2 : r = (s.path path).conj
          · rw [hP r, if_neg h1, if_pos h2]
            show 1 ≤ ((s.path r).data.drop 1).length
            rw [List.length_drop, h2, hconj]; omega
          · rw [hP r, if_neg h1, if_neg h2]; exact hr
      have h0 : ((popBackEdges s path 1).path path).At 0 = (s.path path).At 0 := by
        unfold BidirectionalPath.At
        rw [hd]
        exact getD_take_of_lt _ _ _ (by omega)
      obtain ⟨s', a1, a2, a3, a4⟩ := ih (popBackEdges s path 1) (hR.2.2.2.2 hC)
        (by rw [hR.1]; exact hp) (by rw [hsz]; omega)
      exact ⟨s', a1, hR.followed_by a2, hk.followed_by_keeps a3, a4.trans h0⟩
    · rw [if_neg hlt]
      exact ⟨s, rfl, Reduced.unchanged g s, KeepsNonEmpty.unmoved s, rfl⟩

theorem RemoveMatePairEnd_keeps (g : Graph) (s : State) (path m : Nat) (hC : Consistent g s)
    (hp : path < s.heap.length) :
    ∃ s', RemoveMatePairEnd g s path m = some s' ∧ Reduced g s s'
      ∧ KeepsNonEmpty s s' ∧ (s'.path path).At 0 = (s.path path).At 0 := by
  unfold RemoveMatePairEnd
  apply RemoveMatePairEndLoop_keeps g path m _ s hC hp
  unfold BidirectionalPath.Size toInt32
  omega

theorem RemoveMatePairEndsLoop_keeps (g : Graph) (m : Nat) :
    ∀ (l : List (Nat × Nat)) (s : State), Consistent g s →
      (∀ pq ∈ l, pq.1 < s.heap.length ∧ pq.2 < s.heap.length) →
      ∃ s', RemoveMatePairEndsLoop g m l s = some s' ∧ Reduced g s s'
        ∧ KeepsNonEmpty s s' := by
  intro l
  induction l with
  | nil =>
    intro s _ _
    exact ⟨s, by simp only [RemoveMatePairEndsLoop], Reduced.unchanged g s,
      KeepsNonEmpty.unmoved s⟩
  | cons pq rest ih =>
    intro s hC hv
    obtain ⟨v1, v2⟩ := hv pq (List.mem_cons_self _ _)
    obtain ⟨s1, h1, hR1, hK1, _⟩ := RemoveMatePairEnd_keeps g s pq.1 m hC v1
    obtain ⟨s2, h2, hR2, hK2, _⟩ := RemoveMatePairEnd_keeps g s1 pq.2 m (hR1.2.2.2.2 hC)
      (by rw [hR1.1]; exact v2)
    have hR := hR1.followed_by hR2
    obtain ⟨s', h3, hR3, hK3⟩ := ih s2 (hR.2.2.2.2 hC)
      (fun z hz => by rw [hR.1]; exact hv z (List.mem_cons_of_mem _ hz))
    refine ⟨s', ?_, hR.followed_by hR3, (hK1.followed_by_keeps hK2).followed_by_keeps hK3⟩
    have e : RemoveMatePairEndsLoop g m (pq :: rest) s
        = (RemoveMatePairEnd g s pq.1 m).bind (fun st1 =>
          (RemoveMatePairEnd g st1 pq.2 m).bind (RemoveMatePairEndsLoop g m rest)) := by
      simp only [RemoveMatePairEndsLoop]
    rw [e, h1, Option.some_bind, h2, Option.some_bind, h3]

/-- C36. Mate-pair trimming never deletes a path: in a well-formed container, for every
`min_edge_len`, `RemoveMatePairEnd` on a non-empty path returns and leaves the path
non-empty with its first edge unchanged, and `RemoveMatePairEnds` returns, keeps the
container and leaves every non-empty path with at least one edge. -/
theorem RemoveMatePairEnd_never_deletes (g : Graph) (st : State) (min_edge_len : Nat)
    (hC : Consistent g st) :
    (∀ path, path < st.heap.length → 1 ≤ (st.path path).Size →
      ∃ st', RemoveMatePairEnd g st path min_edge_len = some st'
        ∧ 1 ≤ (st'.path path).Size ∧ (st'.path path).At 0 = (st.path path).At 0)
    ∧ ∃ st', RemoveMatePairEnds g st min_edge_len = some st'
        ∧ st'.container = st.container
        ∧ ∀ r, 1 ≤ (st.path r).Size → 1 ≤ (st'.path r).Size := by
  constructor
  · intro path hp hne
    obtain ⟨s', h1, _, h3, h4⟩ := RemoveMatePairEnd_keeps g st path min_edge_len hC hp
    exact ⟨s', h1, h3.2 path hne, h4⟩
  · obtain ⟨s', h1, _, h3⟩ := RemoveMatePairEndsLoop_keeps g min_edge_len st.container st hC
      (fun pq hpq => by
        obtain ⟨v1, v2⟩ := hC.pairs pq hpq
        exact ⟨v1, by rw [← v2]; exact (hC.linked _ v1).1⟩)
    exact ⟨s', h1, h3.1, h3.2⟩

/-- Trimming with `min_edge_len = 6`, under which every edge of the graph is short, leaves
every path of the container `(1, 3, 5, 7, 9)`, `(7, 9, 11)` non-empty. -/
theorem RemoveMatePairEnd_never_deletes_witness :
    ∃ st', RemoveMatePairEnds (exGraph 5) (exState [1, 3, 5, 7, 9] [7, 9, 11]) 6 = some st'
      ∧ st'.container = (exState [1, 3, 5, 7, 9] [7, 9, 11]).container
      ∧ ∀ r, 1 ≤ ((exState [1, 3, 5, 7, 9] [7, 9, 11]).path r).Size → 1 ≤ (st'.path r).Size :=
  (RemoveMatePairEnd_never_deletes (exGraph 5) (exState [1, 3, 5, 7, 9] [7, 9, 11]) 6
    exState_consistent).2

/-! ## The duplicates-only pass leaves no duplicates -/

theorem ClearOnly.rfl_state (s : State) : ClearOnly s s := ⟨Untrimmed.same s, rfl⟩

theorem ClearOnly.then_clearOnly {s t u : State} (h1 : ClearOnly s t) (h2 : ClearOnly t u) :
    ClearOnly s u :=
  ⟨h1.1.chain h2.1, h2.2.trans h1.2⟩

theorem ClearOnly_Clear (s : State) (y : Nat) : ClearOnly s (Clear s y) :=
  ⟨Untrimmed_Clear s y, rfl⟩

theorem ClearOnly_SetOverlap (s : State) (x : Nat) (v : Bool) : ClearOnly s (SetOverlap s x v) :=
  ⟨Untrimmed_SetOverlap s x v, rfl⟩

/-- A path that covers an edge after clear-only steps covered it before, with the same
edges and gaps. -/
theorem ClearOnly.covering {s t : State} (h : ClearOnly s t) (e : EdgeId) (r : Nat)
    (hr : r ∈ GetCoveringPaths t e) :
    r ∈ GetCoveringPaths s e ∧ (t.path r).data = (s.path r).data
      ∧ (t.path r).gaps = (s.path r).gaps := by
  rw [mem_GetCoveringPaths] at hr ⊢
  obtain ⟨h1, h2, h3⟩ := hr
  rcases h.1.2.2 r with ⟨a, b⟩ | a
  · exact ⟨⟨by rw [← h.1.1]; exact h1, by rw [← h.2]; exact h2, by rw [← a]; exact h3⟩, a, b⟩
  · unfold BidirectionalPath.Size at a
    rw [List.length_eq_zero] at a
    rw [a] at h3
    exact absurd h3 (List.not_mem_nil _)

theorem ClearOnly.empty_stays {s t : State} (h : ClearOnly s t) (r : Nat)
    (hr : (s.path r).data = []) : (t.path r).data = [] := by
  rcases h.1.2.2 r with ⟨a, _⟩ | a
  · rw [a, hr]
  · unfold BidirectionalPath.Size at a
    exact List.length_eq_zero.1 a

theorem Clear_self_data (s : State) (y : Nat) (hy : y < s.heap.length) :
    ((Clear s y).path y).data = [] := by
  unfold Clear
  simp only []
  rw [State.path_store]
  split
  · rfl
  · rw [State.path_store, if_pos ⟨rfl, hy⟩]

theorem Equal_symm (p q : BidirectionalPath) : p.Equal q = q.Equal p := by
  unfold BidirectionalPath.Equal
  have e1 : decide (p.data = q.data) = decide (q.data = p.data) := by
    by_cases h : p.data = q.data
    · rw [decide_eq_true h, decide_eq_true h.symm]
    · rw [decide_eq_false h, decide_eq_false (fun hc => h hc.symm)]
  have e2 : decide (p.gaps = q.gaps) = decide (q.gaps = p.gaps) := by
    by_cases h : p.gaps = q.gaps
    · rw [decide_eq_true h, decide_eq_true h.symm]
    · rw [decide_eq_false h, decide_eq_false (fun hc => h hc.symm)]
  rw [e1, e2]

theorem Equal_congr (p q p' q' : BidirectionalPath) (h1 : p'.data = p.data)
    (h2 : p'.gaps = p.gaps) (h3 : q'.data = q.data) (h4 : q'.gaps = q.gaps) :
    p'.Equal q' = p.Equal q := by
  unfold BidirectionalPath.Equal
  rw [h1, h2, h3, h4]

/-- Two paths that both cover the edge after clear-only steps compare as they did
before. -/
theorem ClearOnly.equal_eq {s t : State} (h : ClearOnly s t) (e : EdgeId) (p q : Nat)
    (hp : p ∈ GetCoveringPaths t e) (hq : q ∈ GetCoveringPaths t e) :
    (t.path p).Equal (t.path q) = (s.path p).Equal (s.path q) := by
  obtain ⟨_, a1, a2⟩ := h.covering e p hp
  obtain ⟨_, b1, b2⟩ := h.covering e q hq
  exact Equal_congr _ _ _ _ a1 a2 b1 b2

theorem EqualOnlyInner_cons (edge : EdgeId) (path1 path2 : Nat) (rest : List Nat)
    (st : State) (cov : List Nat) :
    EqualOnlyInner edge path1 (path2 :: rest) (st, cov)
      = if path2 ∈ cov ∧ (st.path path1).Equal (st.path path2) = true then
          EqualOnlyInner edge path1 rest
            (Clear (if (st.path path2).IsOverlap = true then SetOverlap st path1 true else st)
                path2,
              GetCoveringPaths
                (Clear (if (st.path path2).IsOverlap = true then SetOverlap st path1 true
                  else st) path2) edge)
        else EqualOnlyInner edge path1 rest (st, cov) := by
  simp only [EqualOnlyInner]

/-- The inner loop of the duplicates-only pass for `path1`: the set `cov_paths` stays the
covering set of the edge, only clear steps are made, and no later entry that still covers
the edge equals `path1` if `path1` still covers it. -/
theorem EqualOnlyInner_spec (edge : EdgeId) (path1 : Nat) :
    ∀ (rest : List Nat) (st : State),
      (EqualOnlyInner edge path1 rest (st, GetCoveringPaths st edge)).2
          = GetCoveringPaths (EqualOnlyInner edge path1 rest (st, GetCoveringPaths st edge)).1
              edge
      ∧ ClearOnly st (EqualOnlyInner edge path1 rest (st, GetCoveringPaths st edge)).1
      ∧ ∀ q ∈ rest,
          path1 ∈ GetCoveringPaths
            (EqualOnlyInner edge path1 rest (st, GetCoveringPaths st edge)).1 edge →
          q ∈ GetCoveringPaths
            (EqualOnlyInner edge path1 rest (st, GetCoveringPaths st edge)).1 edge →
          ((EqualOnlyInner edge path1 rest (st, GetCoveringPaths st edge)).1.path path1).Equal
            ((EqualOnlyInner edge path1 rest (st, GetCoveringPaths st edge)).1.path q)
              = false := by
  intro rest
  induction rest with
  | nil =>
    intro st
    exact ⟨rfl, ClearOnly.rfl_state st, fun q hq => absurd hq (List.not_mem_nil _)⟩
  | cons path2 rest ih =>
    intro st
    rw [EqualOnlyInner_cons]
    by_cases hc : path2 ∈ GetCoveringPaths st edge
        ∧ (st.path path1).Equal (st.path path2) = true
    · rw [if_pos hc]
      have hstep : ClearOnly st
          (Clear (if (st.path path2).IsOverlap = true then SetOverlap st path1 true else st)
            path2) := by
        by_cases ho : (st.path path2).IsOverlap = true
        · rw [if_pos ho]
          exact (ClearOnly_SetOverlap st path1 true).then_clearOnly (ClearOnly_Clear _ _)
        · rw [if_neg ho]
          exact ClearOnly_Clear _ _
      have hvalid : path2 < st.heap.length := ((mem_GetCoveringPaths _ _ _).1 hc.1).1
      have hempty : ((Clear (if (st.path path2).IsOverlap = true then SetOverlap st path1 true
          else st) path2).path path2).data = [] := by
        apply Clear_self_data
        by_cases ho : (st.path path2).IsOverlap = true
        · rw [if_pos ho]
          rw [(Untrimmed_SetOverlap st path1 true).1]; exact hvalid
        · rw [if_neg ho]; exact hvalid
      obtain ⟨a1, a2, a3⟩ := ih
        (Clear (if (st.path path2).IsOverlap = true then SetOverlap st path1 true else st) path2)
      refine ⟨a1, hstep.then_clearOnly a2, fun q hq h1 h2 => ?_⟩
      rcases List.mem_cons.1 hq with rfl | hq
      · have := a2.empty_stays q hempty
        have h3 := ((mem_GetCoveringPaths _ _ _).1 h2).2.2
        rw [this] at h3
        exact absurd h3 (List.not_mem_nil _)
      · exact a3 q hq h1 h2
    · rw [if_neg hc]
      obtain ⟨a1, a2, a3⟩ := ih st
      refine ⟨a1, a2, fun q hq h1 h2 => ?_⟩
      rcases List.mem_cons.1 hq with rfl | hq
      · rw [a2.equal_eq edge path1 q h1 h2]
        have hq0 := (a2.covering edge q h2).1
        cases hE : (st.path path1).Equal (st.path q) with
        | false => rfl
        | true => exact absurd ⟨hq0, hE⟩ hc
      · exact a3 q hq h1 h2

theorem EqualOnlyOuter_cons (edge : EdgeId) (path1 : Nat) (rest : List Nat)
    (st : State) (cov : List Nat) :
    EqualOnlyOuter edge (path1 :: rest) (st, cov)
      = if path1 ∈ cov then
          EqualOnlyOuter edge rest (EqualOnlyInner edge path1 rest (st, cov))
        else EqualOnlyOuter edge rest (st, cov) := by
  simp only [EqualOnlyOuter]

/-- The outer loop of the duplicates-only pass: only clear steps are made, and afterwards
no two entries of the visited list that still cover the edge are equal. -/
theorem EqualOnlyOuter_spec (edge : EdgeId) :
    ∀ (l : List Nat) (st : State),
      ClearOnly st (EqualOnlyOuter edge l (st, GetCoveringPaths st edge)).1
      ∧ l.Pairwise (fun p q =>
          p ∈ GetCoveringPaths (EqualOnlyOuter edge l (st, GetCoveringPaths st edge)).1 edge →
          q ∈ GetCoveringPaths (EqualOnlyOuter edge l (st, GetCoveringPaths st edge)).1 edge →
          ((EqualOnlyOuter edge l (st, GetCoveringPaths st edge)).1.path p).Equal
            ((EqualOnlyOuter edge l (st, GetCoveringPaths st edge)).1.path q) = false) := by
  intro l
  induction l with
  | nil => intro st; exact ⟨ClearOnly.rfl_state st, List.Pairwise.nil⟩
  | cons path1 rest ih =>
    intro st
    rw [EqualOnlyOuter_cons]
    by_cases hc : path1 ∈ GetCoveringPaths st edge
    · rw [if_pos hc]
      obtain ⟨a1, a2, a3⟩ := EqualOnlyInner_spec edge path1 rest st
      have e : EqualOnlyInner edge path1 rest (st, GetCoveringPaths st edge)
          = ((EqualOnlyInner edge path1 rest (st, GetCoveringPaths st edge)).1,
              GetCoveringPaths
                (EqualOnlyInner edge path1 rest (st, GetCoveringPaths st edge)).1 edge) :=
        Prod.ext rfl a1
      rw [e]
      obtain ⟨b1, b2⟩ := ih (EqualOnlyInner edge path1 rest (st, GetCoveringPaths st edge)).1
      refine ⟨a2.then_clearOnly b1, List.Pairwise.cons (fun q hq h1 h2 => ?_) b2⟩
      rw [b1.equal_eq edge path1 q h1 h2]
      exact a3 q hq (b1.covering edge path1 h1).1 (b1.covering edge q h2).1
    · rw [if_neg hc]
      obtain ⟨b1, b2⟩ := ih st
      refine ⟨b1, List.Pairwise.cons (fun q _ h1 _ => ?_) b2⟩
      exact absurd (b1.covering edge path1 h1).1 hc

theorem EqualOnlyEdges_cons (edge : EdgeId) (rest : List EdgeId) (st : State) :
    EqualOnlyEdges (edge :: rest) st
      = EqualOnlyEdges rest
          (EqualOnlyOuter edge (sortByPathId st (GetCoveringPaths st edge))
            (st, GetCoveringPaths st edge)).1 := by
  simp only [EqualOnlyEdges]

theorem EqualOnlyEdges_clearOnly : ∀ (l : List EdgeId) (st : State),
    ClearOnly st (EqualOnlyEdges l st) := by
  intro l
  induction l with
  | nil => intro st; exact ClearOnly.rfl_state st
  | cons edge rest ih =>
    intro st
    rw [EqualOnlyEdges_cons]
    exact (EqualOnlyOuter_spec edge _ st).1.then_clearOnly (ih _)

/-- After the duplicates-only pass over the edges `l`, no two different paths that cover
an edge of `l` are equal. -/
theorem EqualOnlyEdges_no_duplicates : ∀ (l : List EdgeId) (st : State) (e : EdgeId),
    e ∈ l → ∀ p q, p ≠ q → p ∈ GetCoveringPaths (EqualOnlyEdges l st) e →
      q ∈ GetCoveringPaths (EqualOnlyEdges l st) e →
      ((EqualOnlyEdges l st).path p).Equal ((EqualOnlyEdges l st).path q) = false := by
  intro l
  induction l with
  | nil => intro st e he; exact absurd he (List.not_mem_nil _)
  | cons edge rest ih =>
    intro st e he p q hpq hp hq
    rw [EqualOnlyEdges_cons] at hp hq ⊢
    rcases List.mem_cons.1 he with rfl | he
    · obtain ⟨b1, b2⟩ := EqualOnlyOuter_spec e (sortByPathId st (GetCoveringPaths st e)) st
      have hrest := EqualOnlyEdges_clearOnly rest
        (EqualOnlyOuter e (sortByPathId st (GetCoveringPaths st e))
          (st, GetCoveringPaths st e)).1
      rw [hrest.equal_eq e p q hp hq]
      have hp1 := (hrest.covering e p hp).1
      have hq1 := (hrest.covering e q hq).1
      have hp0 := (mem_sortByPathId st _ p).2 (b1.covering e p hp1).1
      have hq0 := (mem_sortByPathId st _ q).2 (b1.covering e q hq1).1
      have hsymm : Symmetric (fun p q =>
          p ∈ GetCoveringPaths (EqualOnlyOuter e (sortByPathId st (GetCoveringPaths st e))
            (st, GetCoveringPaths st e)).1 e →
          q ∈ GetCoveringPaths (EqualOnlyOuter e (sortByPathId st (GetCoveringPaths st e))
            (st, GetCoveringPaths st e)).1 e →
          ((EqualOnlyOuter e (sortByPathId st (GetCoveringPaths st e))
            (st, GetCoveringPaths st e)).1.path p).Equal
            ((EqualOnlyOuter e (sortByPathId st (GetCoveringPaths st e))
              (st, GetCoveringPaths st e)).1.path q) = false) := by
        intro x y hxy hy hx
        rw [Equal_symm]
        exact hxy hx hy
      exact List.Pairwise.forall hsymm b2 hp0 hq0 hpq hp1 hq1
    · exact ih _ e he p q hpq hp hq

/-- C32. Duplicates are fully collapsed: on a container whose paths are all subscribed to
the coverage map (and consist of edges of the graph), `RemoveSimilarPaths` with
`del_only_equal` set returns, and afterwards no two distinct non-empty paths of the
container are equal (same edges and gaps). -/
theorem RemoveSimilarPaths_no_duplicates_left (g : Graph) (st : State) (M : Nat)
    (f2 f3 f4 : Bool)
    (hsub : ∀ r ∈ containerPaths st, r ∈ st.coverage_map ∧ r < st.heap.length)
    (hedges : ∀ r ∈ containerPaths st, ∀ e ∈ (st.path r).data, e ∈ GetSortedEdges g) :
    ∃ t, RemoveSimilarPaths g st M true f2 f3 f4 = some t
      ∧ t.container = st.container
      ∧ ∀ p ∈ containerPaths t, ∀ q ∈ containerPaths t, p ≠ q →
          1 ≤ (t.path p).Size → 1 ≤ (t.path q).Size →
          (t.path p).Equal (t.path q) = false := by
  have h := RemoveSimilarEdges_equal_only g M f2 f3 f4 (GetSortedEdges g) st
  have hC := EqualOnlyEdges_clearOnly (GetSortedEdges g) st
  refine ⟨EqualOnlyEdges (GetSortedEdges g) st, h.1, hC.1.2.1, fun p hp q hq hpq hp1 hq1 => ?_⟩
  have hcont : containerPaths (EqualOnlyEdges (GetSortedEdges g) st) = containerPaths st := by
    unfold containerPaths; rw [hC.1.2.1]
  rw [hcont] at hp hq
  cases hE : ((EqualOnlyEdges (GetSortedEdges g) st).path p).Equal
      ((EqualOnlyEdges (GetSortedEdges g) st).path q) with
  | false => rfl
  | true =>
    exfalso
    unfold BidirectionalPath.Size at hp1 hq1
    obtain ⟨e0, he0⟩ := List.exists_mem_of_length_pos (by omega :
      0 < ((EqualOnlyEdges (GetSortedEdges g) st).path p).data.length)
    have hdata : ((EqualOnlyEdges (GetSortedEdges g) st).path p).data
        = ((EqualOnlyEdges (GetSortedEdges g) st).path q).data := by
      unfold BidirectionalPath.Equal at hE
      simp only [Bool.and_eq_true, decide_eq_true_eq] at hE
      exact hE.1
    have hpd : ((EqualOnlyEdges (GetSortedEdges g) st).path p).data = (st.path p).data := by
      rcases hC.1.2.2 p with ⟨a, _⟩ | a
      · exact a
      · unfold BidirectionalPath.Size at a; omega
    have hmem : e0 ∈ GetSortedEdges g := hedges p hp e0 (by rw [← hpd]; exact he0)
    have hpc : p ∈ GetCoveringPaths (EqualOnlyEdges (GetSortedEdges g) st) e0 :=
      (mem_GetCoveringPaths _ _ _).2
        ⟨by rw [hC.1.1]; exact (hsub p hp).2, by rw [hC.2]; exact (hsub p hp).1, he0⟩
    have hqc : q ∈ GetCoveringPaths (EqualOnlyEdges (GetSortedEdges g) st) e0 :=
      (mem_GetCoveringPaths _ _ _).2
        ⟨by rw [hC.1.1]; exact (hsub q hq).2, by rw [hC.2]; exact (hsub q hq).1,
          by rw [← hdata]; exact he0⟩
    have := EqualOnlyEdges_no_duplicates (GetSortedEdges g) st e0 hmem p q hpq hpc hqc
    rw [hE] at this
    exact absurd this (by decide)

/-- The pass on three pairs that all hold the edge sequence `(1, 3)` leaves no two equal
non-empty paths. -/
theorem RemoveSimilarPaths_no_duplicates_left_witness :
    ∃ t, RemoveSimilarPaths (exGraph 5) (exStateTriple [1, 3]) 0 true false false false = some t
      ∧ t.container = (exStateTriple [1, 3]).container
      ∧ ∀ p ∈ containerPaths t, ∀ q ∈ containerPaths t, p ≠ q →
          1 ≤ (t.path p).Size → 1 ≤ (t.path q).Size →
          (t.path p).Equal (t.path q) = false :=
  RemoveSimilarPaths_no_duplicates_left (exGraph 5) (exStateTriple [1, 3]) 0 false false false
    (by decide) (by decide)

/-! ## PathsWeightCounter: the guard of the quotient -/

theorem CountPairInfo_eq (c : PathsWeightCounter) (g : Graph) (path1 : BidirectionalPath)
    (from1 to1 : Nat) (path2 : BidirectionalPath) (from2 to2 : Nat) :
    PathsWeightCounter.CountPairInfo c g path1 from1 to1 path2 from2 to2
      = (if PathsWeightCounter.CountPairInfoDenominator c g path1 from1 to1 path2 from2 to2 ≥ 0
          then divide
            ((PathsWeightCounter.CountPairInfoSums c
              (PathsWeightCounter.FindPairInfo c g path1 from1 to1 path2 from2 to2
                (fun _ => none, 0)).1 from1 to1).1
              - (PathsWeightCounter.CountPairInfoSums c
                  (PathsWeightCounter.FindPairInfo c g path1 from1 to1 path2 from2 to2
                    (fun _ => none, 0)).1 from1 to1).2)
            (PathsWeightCounter.CountPairInfoDenominator c g path1 from1 to1 path2 from2 to2)
          else some 0).map (fun total_result => if total_result ≥ 0 then total_result else 0) :=
  rfl

theorem CountPairInfoDenominator_empty (c : PathsWeightCounter) (g : Graph)
    (path1 : BidirectionalPath) (from1 : Nat) (path2 : BidirectionalPath) (from2 to2 : Nat) :
    PathsWeightCounter.CountPairInfoDenominator c g path1 from1 from1 path2 from2 to2 = 0 := by
  unfold PathsWeightCounter.CountPairInfoDenominator PathsWeightCounter.FindPairInfo
    PathsWeightCounter.CountPairInfoSums
  simp only [Nat.sub_self, List.range'_zero, List.foldl_nil, sub_self]

theorem exPathsWeightCounter_denominator :
    PathsWeightCounter.CountPairInfoDenominator exPathsWeightCounter (exGraph 5)
      (exPath [1] 0 1) 0 1 (exPath [3] 2 3) 0 1 = 0 := by
  have e1 : toInt32 (toSizeT ((LengthAt (exGraph 5) (exPath [1] 0 1) 0 : Int)
      + (Length (exGraph 5) (exPath [3] 2 3) : Int)
      - (LengthAt (exGraph 5) (exPath [3] 2 3) 0 : Int))) = 1 := by decide
  unfold PathsWeightCounter.CountPairInfoDenominator PathsWeightCounter.FindPairInfo
    PathsWeightCounter.CountPairInfoSums
  simp only [Nat.sub_zero, List.range'_one, List.foldl_cons, List.foldl_nil,
    PathsWeightCounter.FindPairInfoStep, PathsWeightCounter.FindPairInfoEdges, e1]
  norm_num [exPathsWeightCounter, exLibrary]

/-- C37 (failing input). The quotient of `CountPairInfo` is evaluated with the denominator
zero: the guard `math::ge(ideal_pi, 0.0)` lets the value 0 pass.  This happens for every
empty index range `from1 = to1` and, with the range `0 .. 1` of one position, when the
registered common weight equals the ideal paired info; the call returns no value exactly
when the denominator is zero, and a value that is returned is never negative. -/
theorem CountPairInfo_zero_denominator :
    (∀ (c : PathsWeightCounter) (g : Graph) (path1 path2 : BidirectionalPath)
        (from1 from2 to2 : Nat),
      PathsWeightCounter.CountPairInfoDenominator c g path1 from1 from1 path2 from2 to2 = 0
      ∧ PathsWeightCounter.CountPairInfo c g path1 from1 from1 path2 from2 to2 = none)
    ∧ PathsWeightCounter.CountPairInfo exPathsWeightCounter (exGraph 5)
        (exPath [1] 0 1) 0 1 (exPath [3] 2 3) 0 1 = none
    ∧ (∀ (c : PathsWeightCounter) (g : Graph) (path1 path2 : BidirectionalPath)
        (from1 to1 from2 to2 : Nat),
      (PathsWeightCounter.CountPairInfo c g path1 from1 to1 path2 from2 to2 = none
        ↔ PathsWeightCounter.CountPairInfoDenominator c g path1 from1 to1 path2 from2 to2 = 0)
      ∧ 0 ≤ (PathsWeightCounter.CountPairInfo c g path1 from1 to1 path2 from2 to2).getD 0) := by
  have hiff : ∀ (c : PathsWeightCounter) (g : Graph) (path1 path2 : BidirectionalPath)
      (from1 to1 from2 to2 : Nat),
      (PathsWeightCounter.CountPairInfo c g path1 from1 to1 path2 from2 to2 = none
        ↔ PathsWeightCounter.CountPairInfoDenominator c g path1 from1 to1 path2 from2 to2 = 0)
      ∧ 0 ≤ (PathsWeightCounter.CountPairInfo c g path1 from1 to1 path2 from2 to2).getD 0 := by
    intro c g path1 path2 from1 to1 from2 to2
    rw [CountPairInfo_eq]
    by_cases hd : PathsWeightCounter.CountPairInfoDenominator c g path1 from1 to1 path2 from2 to2
        ≥ 0
    · rw [if_pos hd]
      by_cases h0 : PathsWeightCounter.CountPairInfoDenominator c g path1 from1 to1 path2
          from2 to2 = 0
      · have e : ∀ x : ℚ, divide x (PathsWeightCounter.CountPairInfoDenominator c g path1 from1
            to1 path2 from2 to2) = none := by
          intro x; unfold divide; rw [if_pos h0]
        rw [e]
        exact ⟨⟨fun _ => h0, fun _ => rfl⟩, le_refl _⟩
      · rw [divide_eq_some _ _ h0]
        refine ⟨⟨fun h => absurd h (by simp), fun h => absurd h h0⟩, ?_⟩
        simp only [Option.map_some', Option.getD_some]
        split
        · assumption
        · exact le_refl _
    · rw [if_neg hd]
      refine ⟨⟨fun h => absurd h (by simp), fun h => ?_⟩, ?_⟩
      · rw [h] at hd; exact absurd (le_refl _) hd
      · simp
  refine ⟨fun c g path1 path2 from1 from2 to2 => ?_, ?_, hiff⟩
  · have h0 := CountPairInfoDenominator_empty c g path1 from1 path2 from2 to2
    exact ⟨h0, (hiff c g path1 path2 from1 from1 from2 to2).1.2 h0⟩
  · exact (hiff _ _ _ _ _ _ _ _).1.2 exPathsWeightCounter_denominator

/-! ## The paired-to-single stream adapter -/

theorem flatMap_pair_getElem {α : Type} : ∀ (rs : List (α × α)) (i : Nat),
    (rs.flatMap (fun r => [r.1, r.2]))[2 * i]? = rs[i]?.map Prod.fst
    ∧ (rs.flatMap (fun r => [r.1, r.2]))[2 * i + 1]? = rs[i]?.map Prod.snd := by
  intro rs
  induction rs with
  | nil => intro i; simp
  | cons r rest ih =>
    intro i
    cases i with
    | zero => simp
    | succ j =>
      have e1 : 2 * (j + 1) = (2 * j + 1) + 1 := by omega
      have e2 : 2 * (j + 1) + 1 = (2 * j + 1 + 1) + 1 := by omega
      obtain ⟨h1, h2⟩ := ih j
      constructor
      · rw [e1]
        simp only [List.flatMap_cons, List.cons_append, List.nil_append, List.getElem?_cons_succ]
        exact h1
      · rw [e2]
        simp only [List.flatMap_cons, List.cons_append, List.nil_append, List.getElem?_cons_succ]
        exact h2

theorem flatMap_pair_length {α : Type} (rs : List (α × α)) :
    (rs.flatMap (fun r => [r.1, r.2])).length = 2 * rs.length := by
  induction rs with
  | nil => rfl
  | cons r rest ih =>
    simp only [List.flatMap_cons, List.length_append, List.length_cons, List.length_nil, ih]
    omega

/-- The wrapper after `k` extractions from a stream over the records `rs`. -/
theorem extractN_state {α : Type} [Inhabited α] (rs : List (α × α))
    (hn : rs.length < 18446744073709551616) :
    ∀ k, k ≤ 2 * rs.length →
      ∃ cur : α × α,
        SeqSingleReadStreamWrapper.extractN k
            (SeqSingleReadStreamWrapper.wrap (SeqPairedReadStream.openStream rs.length rs))
          = some ((rs.flatMap (fun r => [r.1, r.2])).take k,
              ⟨⟨rs, rs.length, (k + 1) / 2, rs.length, (k + 1) / 2⟩, cur, decide (k % 2 = 1)⟩)
        ∧ (k % 2 = 1 → rs[k / 2]? = some cur) := by
  intro k
  induction k with
  | zero =>
    intro _
    exact ⟨default, rfl, fun h => absurd h (by decide)⟩
  | succ k ih =>
    intro hk
    obtain ⟨cur, h1, h2⟩ := ih (by omega)
    have e : SeqSingleReadStreamWrapper.extractN (k + 1)
          (SeqSingleReadStreamWrapper.wrap (SeqPairedReadStream.openStream rs.length rs))
        = (SeqSingleReadStreamWrapper.extractN k
            (SeqSingleReadStreamWrapper.wrap (SeqPairedReadStream.openStream rs.length rs))).bind
            (fun x => (SeqSingleReadStreamWrapper.extract x.2).map
              (fun y => (x.1 ++ [y.1], y.2))) := rfl
    rw [e, h1, Option.some_bind]
    rcases Nat.even_or_odd' k with ⟨i, hi | hi⟩
    · -- `k = 2 i`: a paired read is taken from the stream
      have hlt : i < rs.length := by omega
      have hpos : (k + 1) / 2 = i := by omega
      have hpos' : (k + 1 + 1) / 2 = i + 1 := by omega
      have hodd : decide (k % 2 = 1) = false := by
        rw [decide_eq_false_iff_not]; omega
      have hodd' : decide ((k + 1) % 2 = 1) = true := by
        rw [decide_eq_true_iff]; omega
      have hget : rs[i]? = some (rs.get ⟨i, hlt⟩) := List.getElem?_eq_getElem hlt
      have hmod : (i + 1) % 18446744073709551616 = i + 1 := Nat.mod_eq_of_lt (by omega)
      have hflat : (rs.flatMap (fun r => [r.1, r.2]))[k]? = some (rs.get ⟨i, hlt⟩).1 := by
        rw [hi, (flatMap_pair_getElem rs i).1, hget]; rfl
      refine ⟨rs.get ⟨i, hlt⟩, ?_, fun _ => ?_⟩
      · rw [hpos, hpos', hodd, hodd', List.take_succ, hflat]
        simp only [SeqSingleReadStreamWrapper.extract, SeqPairedReadStream.extract, hget, hmod,
          if_true, Option.map_some', Option.toList]
      · have : (k + 1) / 2 = i := by omega
        rw [this]; exact hget
    · -- `k = 2 i + 1`: the second read of the buffered paired read is handed out
      have hlt : i < rs.length := by omega
      have hpos : (k + 1) / 2 = i + 1 := by omega
      have hpos' : (k + 1 + 1) / 2 = i + 1 := by omega
      have hodd : decide (k % 2 = 1) = true := by
        rw [decide_eq_true_iff]; omega
      have hodd' : decide ((k + 1) % 2 = 1) = false := by
        rw [decide_eq_false_iff_not]; omega
      have hcur : rs[i]? = some cur := by
        have := h2 (by omega)
        have e2 : k / 2 = i := by omega
        rw [e2] at this; exact this
      have hflat : (rs.flatMap (fun r => [r.1, r.2]))[k]? = some cur.2 := by
        rw [hi, (flatMap_pair_getElem rs i).2, hcur]; rfl
      refine ⟨cur, ?_, fun h => absurd h (by omega)⟩
      rw [hpos, hpos', hodd, hodd', List.take_succ, hflat]
      simp only [SeqSingleReadStreamWrapper.extract, Bool.true_eq_false, if_false,
        Option.map_some', Option.toList]

/-- One extraction from two wrappers with the same behaviour has the same outcome. -/
theorem sameBehaviour_extract {α : Type} (w1 w2 : SeqSingleReadStreamWrapper α)
    (h : SeqSingleReadStreamWrapper.sameBehaviour w1 w2) :
    (w1.extract = none ∧ w2.extract = none)
    ∨ ∃ a v1 v2, w1.extract = some (a, v1) ∧ w2.extract = some (a, v2)
        ∧ SeqSingleReadStreamWrapper.sameBehaviour v1 v2 := by
  obtain ⟨h1, h2, h3⟩ := h
  by_cases hr : w1.is_read_ = false
  · have hr2 : w2.is_read_ = false := by rw [← h2]; exact hr
    have e1 : w1.extract = (match w1.stream_.extract with
        | none => none
        | some (r, s) => some (r.1, ⟨s, r, true⟩)) := by
      unfold SeqSingleReadStreamWrapper.extract
      rw [if_pos hr]
    have e2 : w2.extract = (match w1.stream_.extract with
        | none => none
        | some (r, s) => some (r.1, ⟨s, r, true⟩)) := by
      unfold SeqSingleReadStreamWrapper.extract
      rw [if_pos hr2, h1]
    rw [e1, e2]
    cases hx : w1.stream_.extract with
    | none => exact Or.inl ⟨rfl, rfl⟩
    | some x => exact Or.inr ⟨x.1.1, _, _, rfl, rfl, rfl, rfl, fun _ => rfl⟩
  · have ht : w1.is_read_ = true := by
      cases hb : w1.is_read_ with
      | false => exact absurd hb hr
      | true => rfl
    have hr2 : ¬ w2.is_read_ = false := by rw [← h2]; exact hr
    have e1 : w1.extract = some (w1.current_read_.2, { w1 with is_read_ := false }) := by
      unfold SeqSingleReadStreamWrapper.extract
      rw [if_neg hr]
    have e2 : w2.extract = some (w2.current_read_.2, { w2 with is_read_ := false }) := by
      unfold SeqSingleReadStreamWrapper.extract
      rw [if_neg hr2]
    refine Or.inr ⟨w1.current_read_.2, { w1 with is_read_ := false },
      { w2 with is_read_ := false }, e1, by rw [e2, h3 ht], h1, rfl, fun hc => ?_⟩
    exact absurd hc (by simp)

theorem sameBehaviour_extractN {α : Type} (w1 w2 : SeqSingleReadStreamWrapper α)
    (h : SeqSingleReadStreamWrapper.sameBehaviour w1 w2) :
    ∀ m, (SeqSingleReadStreamWrapper.extractN m w1 = none
          ∧ SeqSingleReadStreamWrapper.extractN m w2 = none)
      ∨ ∃ l v1 v2, SeqSingleReadStreamWrapper.extractN m w1 = some (l, v1)
          ∧ SeqSingleReadStreamWrapper.extractN m w2 = some (l, v2)
          ∧ SeqSingleReadStreamWrapper.sameBehaviour v1 v2 := by
  intro m
  induction m with
  | zero => exact Or.inr ⟨[], w1, w2, rfl, rfl, h⟩
  | succ m ih =>
    have e : ∀ w : SeqSingleReadStreamWrapper α, SeqSingleReadStreamWrapper.extractN (m + 1) w
        = (SeqSingleReadStreamWrapper.extractN m w).bind
            (fun x => (SeqSingleReadStreamWrapper.extract x.2).map
              (fun y => (x.1 ++ [y.1], y.2))) := fun _ => rfl
    rw [e w1, e w2]
    rcases ih with ⟨a, b⟩ | ⟨l, v1, v2, a, b, c⟩
    · rw [a, b]; exact Or.inl ⟨rfl, rfl⟩
    · rw [a, b, Option.some_bind, Option.some_bind]
      rcases sameBehaviour_extract v1 v2 c with ⟨x, y⟩ | ⟨r, u1, u2, x, y, z⟩
      · rw [x, y]; exact Or.inl ⟨rfl, rfl⟩
      · rw [x, y]; exact Or.inr ⟨l ++ [r], u1, u2, rfl, rfl, z⟩

theorem sameBehaviour_eof {α : Type} (w1 w2 : SeqSingleReadStreamWrapper α)
    (h : SeqSingleReadStreamWrapper.sameBehaviour w1 w2) : w1.eof = w2.eof := by
  unfold SeqSingleReadStreamWrapper.eof
  rw [h.1, h.2.1]

/-- C39. Paired-to-single stream adapter: on a paired stream that holds the reads
`r1 … rn`, the first `k ≤ 2n` extractions from the wrapper return and yield the first `k`
entries of `first(r1), second(r1), …, first(rn), second(rn)`, having consumed `⌈k/2⌉`
paired reads; `eof()` is then true exactly if `k = 2n` (so it is false after an odd
number of extractions); and after `reset()` the wrapped stream is at its start, `is_read_`
is `false`, and every further sequence of extractions and `eof()` queries behaves as on the
wrapper before the first extraction. -/
theorem SeqSingleReadStreamWrapper_yields {α : Type} [Inhabited α] (rs : List (α × α))
    (k : Nat) (hn : rs.length < 18446744073709551616) (hk : k ≤ 2 * rs.length) :
    ∃ w, SeqSingleReadStreamWrapper.extractN k
          (SeqSingleReadStreamWrapper.wrap (SeqPairedReadStream.openStream rs.length rs))
        = some ((rs.flatMap (fun r => [r.1, r.2])).take k, w)
      ∧ ((rs.flatMap (fun r => [r.1, r.2])).take k).length = k
      ∧ w.stream_.current_ = (k + 1) / 2
      ∧ (w.eof = true ↔ k = 2 * rs.length)
      ∧ w.reset.stream_ = SeqPairedReadStream.openStream rs.length rs
      ∧ w.reset.is_read_ = false
      ∧ ∀ m, (SeqSingleReadStreamWrapper.extractN m w.reset).map (fun x => (x.1, x.2.eof))
          = (SeqSingleReadStreamWrapper.extractN m
              (SeqSingleReadStreamWrapper.wrap
                (SeqPairedReadStream.openStream rs.length rs))).map (fun x => (x.1, x.2.eof)) := by
  obtain ⟨cur, h1, _⟩ := extractN_state rs hn k hk
  refine ⟨_, h1, ?_, rfl, ?_, rfl, rfl, fun m => ?_⟩
  · rw [List.length_take, flatMap_pair_length]; omega
  · unfold SeqSingleReadStreamWrapper.eof SeqPairedReadStream.eof
    simp only [Bool.and_eq_true, decide_eq_true_eq, Bool.not_eq_true', decide_eq_false_iff_not]
    omega
  · have hs : SeqSingleReadStreamWrapper.sameBehaviour
        (SeqSingleReadStreamWrapper.reset
          (⟨⟨rs, rs.length, (k + 1) / 2, rs.length, (k + 1) / 2⟩, cur, decide (k % 2 = 1)⟩ :
            SeqSingleReadStreamWrapper α))
        (SeqSingleReadStreamWrapper.wrap (SeqPairedReadStream.openStream rs.length rs)) :=
      ⟨rfl, rfl, fun hc => absurd hc (by simp [SeqSingleReadStreamWrapper.reset])⟩
    rcases sameBehaviour_extractN _ _ hs m with ⟨a, b⟩ | ⟨l, v1, v2, a, b, c⟩
    · rw [a, b]
    · rw [a, b]
      simp only [Option.map_some', sameBehaviour_eof v1 v2 c]

/-- Three extractions from the stream that holds `(10, 11)` and `(20, 21)` yield
`10, 11, 20`. -/
theorem SeqSingleReadStreamWrapper_yields_witness :
    ∃ w, SeqSingleReadStreamWrapper.extractN 3 (SeqSingleReadStreamWrapper.wrap exPairedStream)
          = some ([10, 11, 20], w)
      ∧ w.stream_.current_ = 2 ∧ w.eof = false :=
  let ⟨w, h1, _, h3, h4, _⟩ := SeqSingleReadStreamWrapper_yields [((10 : Nat), (11 : Nat)), (20, 21)]
    3 (by decide) (by decide)
  ⟨w, h1, h3, by
    cases hw : w.eof with
    | false => rfl
    | true => exact absurd (h4.1 hw) (by decide)⟩

/-! ## BinaryWriter::ToBinary distributes the reads round robin -/

theorem succ_div_mod_cases (n m : Nat) (hm : 0 < m) :
    (n % m + 1 < m ∧ (n + 1) % m = n % m + 1 ∧ (n + 1) / m = n / m)
    ∨ (n % m + 1 = m ∧ (n + 1) % m = 0 ∧ (n + 1) / m = n / m + 1) := by
  have h1 := Nat.div_add_mod n m
  have h2 := Nat.mod_lt n hm
  by_cases h : n % m + 1 < m
  · left
    have e : n + 1 = m * (n / m) + (n % m + 1) := by omega
    refine ⟨h, ?_, ?_⟩
    · rw [e, Nat.mul_add_mod, Nat.mod_eq_of_lt h]
    · rw [e, Nat.mul_add_div hm, Nat.div_eq_of_lt h, Nat.add_zero]
  · right
    have h3 : n % m + 1 = m := by omega
    have e : n + 1 = m * (n / m + 1) := by rw [Nat.mul_add, Nat.mul_one]; omega
    refine ⟨h3, ?_, ?_⟩
    · rw [e, Nat.mul_mod_right]
    · rw [e, Nat.mul_div_cancel_left _ hm]

theorem inBuffer_zero (fn i : Nat) : BinaryWriter.inBuffer fn 0 i = 0 := by
  simp [BinaryWriter.inBuffer]

theorem inBuffer_succ (fn c i : Nat) (hfn : 0 < fn) (hi : i < fn) :
    BinaryWriter.inBuffer fn (c + 1) i
      = BinaryWriter.inBuffer fn c i + (if c % fn = i then 1 else 0) := by
  unfold BinaryWriter.inBuffer
  have h2 := Nat.mod_lt c hfn
  rcases succ_div_mod_cases c fn hfn with ⟨a, b, d⟩ | ⟨a, b, d⟩
  · rw [b, d]
    by_cases h1 : i < c % fn
    · rw [if_pos h1, if_pos (by omega), if_neg (by omega)]
    · by_cases h3 : c % fn = i
      · rw [if_neg h1, if_pos (by omega), if_pos h3]
      · rw [if_neg h1, if_neg (by omega), if_neg h3]
  · rw [b, d]
    by_cases h1 : i < c % fn
    · rw [if_pos h1, if_neg (by omega), if_neg (by omega)]
    · rw [if_neg h1, if_neg (by omega), if_pos (by omega)]

theorem inBuffer_self (fn c : Nat) : BinaryWriter.inBuffer fn c (c % fn) = c / fn := by
  unfold BinaryWriter.inBuffer
  rw [if_neg (lt_irrefl _), Nat.add_zero]

theorem inBuffer_full (fn bs i : Nat) (hfn : 0 < fn) :
    BinaryWriter.inBuffer fn (bs * fn) i = bs := by
  unfold BinaryWriter.inBuffer
  rw [Nat.mul_div_cancel _ hfn, Nat.mul_mod_left, if_neg (Nat.not_lt_zero _), Nat.add_zero]

theorem readsOfFile_snoc {α : Type} (fn i : Nat) (l : List α) (a : α) :
    BinaryWriter.readsOfFile fn i (l ++ [a])
      = BinaryWriter.readsOfFile fn i l ++ (if l.length % fn = i then [a] else []) := by
  unfold BinaryWriter.readsOfFile List.enum
  rw [List.enumFrom_append, List.filter_append, List.map_append]
  congr 1
  simp only [Nat.zero_add, List.enumFrom_singleton]
  by_cases h : l.length % fn = i
  · rw [if_pos h, List.filter_cons_of_pos (by simpa using h)]
    rfl
  · rw [if_neg h, List.filter_cons_of_neg (by simpa using h)]
    rfl

theorem readsOfFile_length_le {α : Type} (fn i : Nat) (l : List α) :
    (BinaryWriter.readsOfFile fn i l).length ≤ l.length := by
  unfold BinaryWriter.readsOfFile
  rw [List.length_map]
  exact le_trans (List.length_filter_le _ _) (by rw [List.enum_length])

theorem map_update_range {α : Type} (f : Nat → α) (k : Nat) (a : α) :
    (List.range k).map (Function.update f k a) = (List.range k).map f := by
  apply List.map_congr_left
  intro j hj
  rw [List.mem_range] at hj
  rw [Function.update_noteq (by omega)]

/-- The state after the read `a` has been stored, before the test for a flush. -/
theorem ToBinaryStore_spec {α : Type} (fn bs : Nat) (l : List α) (a : α) (s : ToBinaryState α)
    (h1 : 1 ≤ fn) (h2 : 1 ≤ bs) (h3 : bs * fn < 18446744073709551616)
    (h4 : l.length + 1 < 18446744073709551616)
    (hI : BinaryWriter.ToBinaryInv fn bs l s) :
    s.current_buf_sizes (s.read_count % fn) < bs
    ∧ (BinaryWriter.ToBinaryStore fn s a).read_count = l.length + 1
    ∧ (∀ i, i < fn → (BinaryWriter.ToBinaryStore fn s a).buf_sizes i
        = (BinaryWriter.readsOfFile fn i (l ++ [a])).length)
    ∧ (∀ i, i < fn → (BinaryWriter.ToBinaryStore fn s a).current_buf_sizes i
        = BinaryWriter.inBuffer fn (l.length % (bs * fn) + 1) i)
    ∧ (∀ i, i < fn → (BinaryWriter.ToBinaryStore fn s a).file_records i
          ++ (List.range ((BinaryWriter.ToBinaryStore fn s a).current_buf_sizes i)).map
              ((BinaryWriter.ToBinaryStore fn s a).buf i)
        = BinaryWriter.readsOfFile fn i (l ++ [a])) := by
  have hR : 0 < bs * fn := Nat.mul_pos (by omega) (by omega)
  have hbs : bs ≤ bs * fn := Nat.le_mul_of_pos_right bs (by omega)
  have hb : l.length % (bs * fn) % fn = l.length % fn := Nat.mod_mul_left_mod _ _ _
  have hblt : l.length % fn < fn := Nat.mod_lt _ (by omega)
  have hclt : l.length % (bs * fn) < bs * fn := Nat.mod_lt _ hR
  have hself : BinaryWriter.inBuffer fn (l.length % (bs * fn)) (l.length % fn)
      = l.length % (bs * fn) / fn := by
    have e := inBuffer_self fn (l.length % (bs * fn))
    rw [hb] at e
    exact e
  have hslot : s.current_buf_sizes (l.length % fn) = l.length % (bs * fn) / fn := by
    rw [hI.current _ hblt]
    exact hself
  have hslotlt : l.length % (bs * fn) / fn < bs :=
    Nat.div_lt_of_lt_mul (by rw [Nat.mul_comm fn bs]; exact hclt)
  have hmod : (s.current_buf_sizes (l.length % fn) + 1) % 18446744073709551616
      = s.current_buf_sizes (l.length % fn) + 1 := by
    rw [hslot]; exact Nat.mod_eq_of_lt (by omega)
  have hsz := readsOfFile_length_le fn (l.length % fn) l
  have hcur : ∀ i, i < fn → (BinaryWriter.ToBinaryStore fn s a).current_buf_sizes i
      = BinaryWriter.inBuffer fn (l.length % (bs * fn) + 1) i := by
    intro i hi
    show Function.update s.current_buf_sizes (s.read_count % fn)
      ((s.current_buf_sizes (s.read_count % fn) + 1) % 18446744073709551616) i = _
    rw [hI.count, inBuffer_succ fn _ i (by omega) hi, hb]
    by_cases hib : i = l.length % fn
    · rw [hib, Function.update_same, if_pos rfl, hmod, hslot, hself]
    · rw [Function.update_noteq hib, if_neg (fun hc => hib hc.symm), Nat.add_zero,
        hI.current i hi]
  refine ⟨by rw [hI.count, hslot]; exact hslotlt, ?_, fun i hi => ?_, hcur, fun i hi => ?_⟩
  · show (s.read_count + 1) % 18446744073709551616 = _
    rw [hI.count, Nat.mod_eq_of_lt h4]
  · show Function.update s.buf_sizes (s.read_count % fn)
      ((s.buf_sizes (s.read_count % fn) + 1) % 18446744073709551616) i = _
    rw [hI.count, readsOfFile_snoc]
    by_cases hib : i = l.length % fn
    · rw [hib, Function.update_same, if_pos rfl, hI.sizes _ hblt, List.length_append,
        List.length_singleton, Nat.mod_eq_of_lt (by omega)]
    · rw [Function.update_noteq hib, if_neg (fun hc => hib hc.symm), List.append_nil,
        hI.sizes i hi]
  · rw [hcur i hi, ← hcur i hi]
    show s.file_records i ++ (List.range (Function.update s.current_buf_sizes (s.read_count % fn)
        ((s.current_buf_sizes (s.read_count % fn) + 1) % 18446744073709551616) i)).map
        (Function.update s.buf (s.read_count % fn)
          (Function.update (s.buf (s.read_count % fn))
            (s.current_buf_sizes (s.read_count % fn)) a) i) = _
    rw [hI.count, readsOfFile_snoc]
    by_cases hib : i = l.length % fn
    · rw [hib, Function.update_same, Function.update_same, if_pos rfl, hmod,
        List.range_succ, List.map_append, map_update_range, List.map_singleton,
        Function.update_same, ← List.append_assoc, hI.content _ hblt]
    · rw [Function.update_noteq hib, Function.update_noteq hib, if_neg (fun hc => hib hc.symm),
        List.append_nil, hI.content i hi]

/-- One iteration of the loop of `ToBinary` keeps the invariant and stores the read at a
slot of the buffer. -/
theorem ToBinaryStep_inv {α : Type} (fn bs : Nat) (l : List α) (a : α) (s : ToBinaryState α)
    (h1 : 1 ≤ fn) (h2 : 1 ≤ bs) (h3 : bs * fn < 18446744073709551616)
    (h4 : (l ++ [a]).length < 18446744073709551616)
    (hI : BinaryWriter.ToBinaryInv fn bs l s) :
    ∃ s', BinaryWriter.ToBinaryStep fn bs s a = some s'
      ∧ BinaryWriter.ToBinaryInv fn bs (l ++ [a]) s' := by
  rw [List.length_append, List.length_singleton] at h4
  have hR : 0 < bs * fn := Nat.mul_pos (by omega) (by omega)
  have hRm : (bs * fn) % 18446744073709551616 = bs * fn := Nat.mod_eq_of_lt h3
  obtain ⟨p0, p1, p2, p3, p4⟩ := ToBinaryStore_spec fn bs l a s h1 h2 h3 h4 hI
  have hstep : BinaryWriter.ToBinaryStep fn bs s a
      = if (l.length + 1) % (bs * fn) = 0 then
          some (BinaryWriter.FlushAll fn bs (BinaryWriter.ToBinaryStore fn s a))
        else some (BinaryWriter.ToBinaryStore fn s a) := by
    unfold BinaryWriter.ToBinaryStep
    simp only [hRm, p1]
    rw [if_neg (by omega), if_neg (by omega), if_neg (by omega)]
  rw [hstep]
  rcases succ_div_mod_cases l.length (bs * fn) hR with ⟨c1, c2, _⟩ | ⟨c1, c2, _⟩
  · rw [if_neg (by omega)]
    refine ⟨_, rfl, ⟨?_, p2, fun i hi => ?_, p4⟩⟩
    · rw [p1, List.length_append, List.length_singleton]
    · rw [List.length_append, List.length_singleton, c2]
      exact p3 i hi
  · rw [if_pos c2]
    refine ⟨_, rfl, ⟨?_, p2, fun i hi => ?_, fun i hi => ?_⟩⟩
    · show (BinaryWriter.ToBinaryStore fn s a).read_count = _
      rw [p1, List.length_append, List.length_singleton]
    · rw [List.length_append, List.length_singleton, c2, inBuffer_zero]
      show (if i < fn then 0 else _) = 0
      rw [if_pos hi]
    · show (if i < fn then BinaryWriter.FlushBuffer _
            ((BinaryWriter.ToBinaryStore fn s a).file_records i) else _)
          ++ (List.range (if i < fn then 0 else _)).map _ = _
      rw [if_pos hi, if_pos hi, List.range_zero, List.map_nil, List.append_nil]
      have := p4 i hi
      rw [p3 i hi, c1, inBuffer_full fn bs i (by omega)] at this
      exact this

theorem ToBinaryInit_inv {α : Type} [Inhabited α] (fn bs : Nat) :
    BinaryWriter.ToBinaryInv fn bs ([] : List α) BinaryWriter.ToBinaryInit := by
  refine ⟨rfl, fun i _ => rfl, fun i _ => ?_, fun i _ => rfl⟩
  show 0 = BinaryWriter.inBuffer fn (0 % (bs * fn)) i
  rw [Nat.zero_mod, inBuffer_zero]

/-- The `while` loop of `ToBinary` returns with the invariant. -/
theorem ToBinaryLoop_inv {α : Type} [Inhabited α] (fn bs : Nat)
    (h1 : 1 ≤ fn) (h2 : 1 ≤ bs) (h3 : bs * fn < 18446744073709551616) :
    ∀ (l : List α), l.length < 18446744073709551616 →
      ∃ s, l.foldlM (BinaryWriter.ToBinaryStep fn bs) BinaryWriter.ToBinaryInit = some s
        ∧ BinaryWriter.ToBinaryInv fn bs l s := by
  intro l
  induction l using List.reverseRecOn with
  | nil => intro _; exact ⟨_, rfl, ToBinaryInit_inv fn bs⟩
  | append_singleton l a ih =>
    intro hl
    obtain ⟨s, hs, hI⟩ := ih (by rw [List.length_append, List.length_singleton] at hl; omega)
    obtain ⟨s', hs', hI'⟩ := ToBinaryStep_inv fn bs l a s h1 h2 h3 hl hI
    refine ⟨s', ?_, hI'⟩
    rw [List.foldlM_append, hs]
    simp only [Option.bind_eq_bind, Option.some_bind, List.foldlM_cons, List.foldlM_nil, hs']
    rfl

/-- C38. Round-robin binary conversion: for `file_num ≥ 1` files, a per-file buffer size
`buf_size ≥ 1` (with `buf_size * file_num` a `size_t`) and an input stream of `n` reads,
`ToBinary` returns without storing a read outside a buffer, the reads written to file `i`
are exactly the reads whose 0-based input index is congruent to `i` modulo `file_num`,
each once and in input order, and the header of file `i` holds the number of reads
written to the file. -/
theorem ToBinary_round_robin {α : Type} [Inhabited α] (file_num buf_size : Nat)
    (stream : List α) (h1 : 1 ≤ file_num) (h2 : 1 ≤ buf_size)
    (h3 : buf_size * file_num < 18446744073709551616)
    (h4 : stream.length < 18446744073709551616) :
    ∃ out, BinaryWriter.ToBinary file_num buf_size stream = some out
      ∧ ∀ i, i < file_num →
        out.file_records i
            = (stream.enum.filter (fun p => decide (p.1 % file_num = i))).map Prod.snd
        ∧ out.file_header i = (out.file_records i).length := by
  obtain ⟨s, hs, hI⟩ := ToBinaryLoop_inv file_num buf_size h1 h2 h3 stream h4
  refine ⟨BinaryWriter.ToBinaryFinish file_num buf_size s, ?_, fun i hi => ?_⟩
  · unfold BinaryWriter.ToBinary
    rw [hs]; rfl
  · have hle : s.current_buf_sizes i ≤ buf_size := by
      rw [hI.current i hi]
      unfold BinaryWriter.inBuffer
      have hR : 0 < buf_size * file_num := Nat.mul_pos (by omega) (by omega)
      have : stream.length % (buf_size * file_num) / file_num < buf_size :=
        Nat.div_lt_of_lt_mul (by rw [Nat.mul_comm file_num buf_size]; exact Nat.mod_lt _ hR)
      split <;> omega
    have hrec : (BinaryWriter.ToBinaryFinish file_num buf_size s).file_records i
        = BinaryWriter.readsOfFile file_num i stream := by
      show (if i < file_num then BinaryWriter.FlushBuffer _ (s.file_records i) else _) = _
      rw [if_pos hi, ← hI.content i hi]
      unfold BinaryWriter.FlushBuffer
      congr 1
      apply List.map_congr_left
      intro j hj
      rw [List.mem_range] at hj
      rw [if_pos (by omega)]
    refine ⟨hrec, ?_⟩
    rw [hrec]
    show (if i < file_num then s.buf_sizes i else _) = _
    rw [if_pos hi, hI.sizes i hi]

/-- Five reads written to two files with buffers of two reads: file 0 receives the reads
0, 2 and 4, file 1 the reads 1 and 3. -/
theorem ToBinary_round_robin_witness :
    ∃ out, BinaryWriter.ToBinary 2 2 [10, 11, 12, 13, 14] = some out
      ∧ ∀ i, i < 2 →
        out.file_records i
            = (([10, 11, 12, 13, 14] : List Nat).enum.filter
                (fun p => decide (p.1 % 2 = i))).map Prod.snd
        ∧ out.file_header i = (out.file_records i).length :=
  ToBinary_round_robin 2 2 [10, 11, 12, 13, 14] (by decide) (by decide) (by decide) (by decide)

/-! ## CutOverlaps and the overlap flags -/

/-- `CutOverlaps` is the statement of the branch that is taken, run in the state. -/
theorem CutOverlaps_eq_run (g : Graph) (st : State)
    (path1 first1 last1 size1 path2 first2 last2 size2 : Nat) (f2 f3 f4 : Bool) :
    CutOverlaps g st path1 first1 last1 size1 path2 first2 last2 size2 f2 f3 f4
      = (CutOverlapsAction g st path1 first1 last1 size1 path2 first2 last2 size2
          f2 f3 f4).run st := by
  unfold CutOverlaps CutOverlapsAction
  simp only []
  split_ifs <;> rfl

/-- The branches of `CutOverlaps` with the part of their conditions that concerns the
flags: a `Clear` is executed on an argument path without flags, a `PopBack` at an end
that is not flagged, in a row of `del_begins` or `del_all`. -/
theorem CutOverlapsAction_cases (g : Graph) (st : State)
    (path1 first1 last1 size1 path2 first2 last2 size2 : Nat) (f2 f3 f4 : Bool)
    (A : CutAction)
    (hA : A = CutOverlapsAction g st path1 first1 last1 size1 path2 first2 last2 size2
      f2 f3 f4) :
    (A = CutAction.clear path1 ∧ (st.path path1).HasOverlapedBegin = false
        ∧ (st.path path1).HasOverlapedEnd = false)
    ∨ (A = CutAction.clear path2 ∧ (st.path path2).HasOverlapedBegin = false
        ∧ (st.path path2).HasOverlapedEnd = false)
    ∨ (∃ n, A = CutAction.popBack (st.GetConjPath path1) n
        ∧ (st.path path1).HasOverlapedBegin = false ∧ (f3 = true ∨ f4 = true))
    ∨ (∃ n, A = CutAction.popBack path1 n
        ∧ (st.path path1).HasOverlapedEnd = false ∧ (f3 = true ∨ f4 = true))
    ∨ (∃ n, A = CutAction.popBack (st.GetConjPath path2) n
        ∧ (st.path path2).HasOverlapedBegin = false ∧ (f3 = true ∨ f4 = true))
    ∨ (∃ n, A = CutAction.popBack path2 n
        ∧ (st.path path2).HasOverlapedEnd = false ∧ (f3 = true ∨ f4 = true))
    ∨ A = CutAction.keep ∨ A = CutAction.nothingDeleted := by
  unfold CutOverlapsAction at hA
  simp only [] at hA
  split at hA
  · rename_i hc
    exact Or.inl ⟨hA, hc.2.2.2.1, hc.2.2.2.2⟩
  · split at hA
    · rename_i _ hc
      exact Or.inr (Or.inl ⟨hA, hc.2.2.2.1, hc.2.2.2.2⟩)
    · split at hA
      · rename_i _ _ hr
        split at hA
        · rename_i hc
          exact Or.inr (Or.inr (Or.inl ⟨_, hA, hc.2, Or.inl hr.2.2⟩))
        · split at hA
          · rename_i _ hc
            exact Or.inr (Or.inr (Or.inr (Or.inr (Or.inl ⟨_, hA, hc, Or.inl hr.2.2⟩))))
          · exact Or.inr (Or.inr (Or.inr (Or.inr (Or.inr (Or.inr (Or.inl hA))))))
      · split at hA
        · rename_i _ _ _ hr
          split at hA
          · rename_i hc
            exact Or.inr (Or.inr (Or.inr (Or.inl ⟨_, hA, hc.2, Or.inl hr.2⟩)))
          · split at hA
            · rename_i _ hc
              exact Or.inr (Or.inr (Or.inr (Or.inr (Or.inr (Or.inl ⟨_, hA, hc, Or.inl hr.2⟩)))))
            · exact Or.inr (Or.inr (Or.inr (Or.inr (Or.inr (Or.inr (Or.inl hA))))))
        · split at hA
          · rename_i _ _ _ _ hc
            exact Or.inr (Or.inr (Or.inr (Or.inr (Or.inl ⟨_, hA, hc.2.2, Or.inr hc.2.1⟩))))
          · split at hA
            · rename_i _ _ _ _ _ hc
              exact Or.inr (Or.inr (Or.inr (Or.inr (Or.inr
                (Or.inl ⟨_, hA, hc.2.2, Or.inr hc.2.1⟩)))))
            · split at hA
              · rename_i _ _ _ _ _ _ hc
                exact Or.inr (Or.inr (Or.inl ⟨_, hA, hc.2.2, Or.inr hc.2.1⟩))
              · split at hA
                · rename_i _ _ _ _ _ _ _ hc
                  exact Or.inr (Or.inr (Or.inr (Or.inl ⟨_, hA, hc.2.2, Or.inr hc.2.1⟩)))
                · exact Or.inr (Or.inr (Or.inr (Or.inr (Or.inr (Or.inr (Or.inr hA))))))

/-- A successful `PopBack(n)`: `n` is at most the size of the path, and the paths of the
state after it. -/
theorem run_popBack_path (st : State) (p n : Nat) (res : Bool × State)
    (hp : p < st.heap.length) (hq : (st.path p).conj < st.heap.length)
    (hne : (st.path p).conj ≠ p)
    (h : (CutAction.popBack p n).run st = some res) :
    n ≤ (st.path p).Size
    ∧ ∀ r, res.2.path r =
      if r = p then { st.path p with data := (st.path p).data.take ((st.path p).data.length - n),
                                     gaps := (st.path p).gaps.take ((st.path p).data.length - n - 1) }
      else if r = (st.path p).conj then
        { st.path r with data := (st.path r).data.drop n, gaps := (st.path r).gaps.drop n }
      else st.path r := by
  have h' : (PopBack st p n).map (fun s => (true, s)) = some res := h
  obtain ⟨s, hs, hres⟩ := Option.map_eq_some'.1 h'
  unfold PopBack at hs
  split at hs
  · exact absurd hs (by simp)
  · rename_i hn
    simp only [Option.some.injEq] at hs
    refine ⟨by unfold BidirectionalPath.Size; omega, fun r => ?_⟩
    rw [← hres, ← hs]
    exact popBackEdges_path st p n r hp hq hne

theorem FlagProtected.of_unchanged (A : CutAction) (f3 f4 : Bool) (st : State)
    (res : Bool × State) (x : Nat)
    (hclear : ∀ y, A = CutAction.clear y → y ≠ x ∧ y ≠ st.GetConjPath x)
    (hu : res.2.path x = st.path x) : FlagProtected A f3 f4 st res x :=
  fun _ => ⟨fun y hy => ⟨(hclear y hy).1, (hclear y hy).2, hu⟩, fun _ _ => hu,
    fun _ => Or.inl hu, fun _ => Or.inl hu, fun _ _ => hu⟩

theorem FlagProtected.of_unflagged (A : CutAction) (f3 f4 : Bool) (st : State)
    (res : Bool × State) (x : Nat)
    (hb : (st.path x).HasOverlapedBegin = false)
    (he : (st.path x).HasOverlapedEnd = false) : FlagProtected A f3 f4 st res x := by
  intro hflag
  rcases hflag with h | h
  · rw [hb] at h; exact absurd h (by simp)
  · rw [he] at h; exact absurd h (by simp)

theorem FlagProtected.of_popBack (f3 f4 : Bool) (st : State) (res : Bool × State) (x n : Nat)
    (he : (st.path x).HasOverlapedEnd = false) (hf : f3 = true ∨ f4 = true)
    (hn : n ≤ (st.path x).Size)
    (hr : res.2.path x = { st.path x with
      data := (st.path x).data.take ((st.path x).data.length - n),
      gaps := (st.path x).gaps.take ((st.path x).data.length - n - 1) }) :
    FlagProtected (CutAction.popBack x n) f3 f4 st res x := by
  intro _
  refine ⟨fun y hy => absurd hy (by simp), fun h3 h4 => ?_, fun _ => Or.inr ⟨n, rfl, hn, hr⟩,
    fun h => ?_, fun _ h => ?_⟩
  · rcases hf with hf | hf
    · rw [h3] at hf; exact absurd hf (by simp)
    · rw [h4] at hf; exact absurd hf (by simp)
  · rw [he] at h; exact absurd h (by simp)
  · rw [he] at h; exact absurd h (by simp)

theorem FlagProtected.of_popBack_twin (f3 f4 : Bool) (st : State) (res : Bool × State)
    (x n : Nat) (hb : (st.path x).HasOverlapedBegin = false) (hf : f3 = true ∨ f4 = true)
    (hn : n ≤ (st.path (st.GetConjPath x)).Size)
    (hr : res.2.path x = { st.path x with
      data := (st.path x).data.drop n, gaps := (st.path x).gaps.drop n }) :
    FlagProtected (CutAction.popBack (st.GetConjPath x) n) f3 f4 st res x := by
  intro _
  refine ⟨fun y hy => absurd hy (by simp), fun h3 h4 => ?_, fun h => ?_,
    fun _ => Or.inr ⟨n, rfl, hn, hr⟩, fun h _ => ?_⟩
  · rcases hf with hf | hf
    · rw [h3] at hf; exact absurd hf (by simp)
    · rw [h4] at hf; exact absurd hf (by simp)
  · rw [hb] at h; exact absurd h (by simp)
  · rw [hb] at h; exact absurd h (by simp)

/-- Whatever branch `CutOverlaps` takes, both argument paths are protected by their
flags. -/
theorem CutOverlapsAction_protects (g : Graph) (st : State)
    (path1 first1 last1 size1 path2 first2 last2 size2 : Nat) (f2 f3 f4 : Bool)
    (res : Bool × State) (hp : DistinctPairs st path1 path2)
    (h : (CutOverlapsAction g st path1 first1 last1 size1 path2 first2 last2 size2
      f2 f3 f4).run st = some res) :
    FlagProtected (CutOverlapsAction g st path1 first1 last1 size1 path2 first2 last2 size2
        f2 f3 f4) f3 f4 st res path1
    ∧ FlagProtected (CutOverlapsAction g st path1 first1 last1 size1 path2 first2 last2 size2
        f2 f3 f4) f3 f4 st res path2 := by
  obtain ⟨f1, f2', f3', f4', f5, f6, f7, f8, f9, f10, f11, f12⟩ := hp.facts
  have hc1 : st.GetConjPath path1 = (st.path path1).conj := rfl
  have hc2 : st.GetConjPath path2 = (st.path path2).conj := rfl
  rcases CutOverlapsAction_cases g st path1 first1 last1 size1 path2 first2 last2 size2
      f2 f3 f4 _ rfl with
    ⟨hA, b1, e1⟩ | ⟨hA, b2, e2⟩ | ⟨n, hA, b1, hf⟩ | ⟨n, hA, e1, hf⟩ | ⟨n, hA, b2, hf⟩
      | ⟨n, hA, e2, hf⟩ | hA | hA
  · -- `path1->Clear()`
    rw [hA] at h ⊢
    have hres : res = (true, Clear st path1) := (Option.some.inj h).symm
    refine ⟨FlagProtected.of_unflagged _ _ _ _ _ _ b1 e1,
      FlagProtected.of_unchanged _ _ _ _ _ _ (fun y hy => ?_) ?_⟩
    · have hy1 : path1 = y := CutAction.clear.inj hy
      rw [← hy1, hc2]
      exact ⟨f9, f10⟩
    · rw [hres]
      show (Clear st path1).path path2 = _
      rw [Clear_path st path1 path2 f1 f3', if_neg]
      rintro (hc | hc)
      · exact f9 hc.symm
      · exact f11 hc.symm
  · -- `path2->Clear()`
    rw [hA] at h ⊢
    have hres : res = (true, Clear st path2) := (Option.some.inj h).symm
    refine ⟨FlagProtected.of_unchanged _ _ _ _ _ _ (fun y hy => ?_) ?_,
      FlagProtected.of_unflagged _ _ _ _ _ _ b2 e2⟩
    · have hy1 : path2 = y := CutAction.clear.inj hy
      rw [← hy1, hc1]
      exact ⟨fun hc => f9 hc.symm, fun hc => f11 hc.symm⟩
    · rw [hres]
      show (Clear st path2).path path1 = _
      rw [Clear_path st path2 path1 f2' f4', if_neg]
      rintro (hc | hc)
      · exact f9 hc
      · exact f10 hc
  · -- `path1->GetConjPath()->PopBack(n)`
    rw [hA] at h ⊢
    obtain ⟨hn, key⟩ := run_popBack_path st (st.GetConjPath path1) n res f3'
      (by rw [hc1, f5]; exact f1) (by rw [hc1, f5]; exact fun hc => f7 hc.symm) h
    refine ⟨FlagProtected.of_popBack_twin _ _ _ _ _ _ b1 hf hn ?_,
      FlagProtected.of_unchanged _ _ _ _ _ _ (fun y hy => absurd hy (by simp)) ?_⟩
    · rw [key path1, if_neg (by rw [hc1]; exact fun hc => f7 hc.symm),
        if_pos (by rw [hc1, f5])]
    · rw [key path2, if_neg (by rw [hc1]; exact fun hc => f11 hc.symm),
        if_neg (by rw [hc1, f5]; exact fun hc => f9 hc.symm)]
  · -- `path1->PopBack(n)`
    rw [hA] at h ⊢
    obtain ⟨hn, key⟩ := run_popBack_path st path1 n res f1 f3' f7 h
    refine ⟨FlagProtected.of_popBack _ _ _ _ _ _ e1 hf hn ?_,
      FlagProtected.of_unchanged _ _ _ _ _ _ (fun y hy => absurd hy (by simp)) ?_⟩
    · rw [key path1, if_pos rfl]
    · rw [key path2, if_neg (fun hc => f9 hc.symm), if_neg (fun hc => f11 hc.symm)]
  · -- `path2->GetConjPath()->PopBack(n)`
    rw [hA] at h ⊢
    obtain ⟨hn, key⟩ := run_popBack_path st (st.GetConjPath path2) n res f4'
      (by rw [hc2, f6]; exact f2') (by rw [hc2, f6]; exact fun hc => f8 hc.symm) h
    refine ⟨FlagProtected.of_unchanged _ _ _ _ _ _ (fun y hy => absurd hy (by simp)) ?_,
      FlagProtected.of_popBack_twin _ _ _ _ _ _ b2 hf hn ?_⟩
    · rw [key path1, if_neg (by rw [hc2]; exact f10), if_neg (by rw [hc2, f6]; exact f9)]
    · rw [key path2, if_neg (by rw [hc2]; exact fun hc => f8 hc.symm),
        if_pos (by rw [hc2, f6])]
  · -- `path2->PopBack(n)`
    rw [hA] at h ⊢
    obtain ⟨hn, key⟩ := run_popBack_path st path2 n res f2' f4' f8 h
    refine ⟨FlagProtected.of_unchanged _ _ _ _ _ _ (fun y hy => absurd hy (by simp)) ?_,
      FlagProtected.of_popBack _ _ _ _ _ _ e2 hf hn ?_⟩
    · rw [key path1, if_neg f9, if_neg f10]
    · rw [key path2, if_pos rfl]
  · -- nothing is modified, the result is `true`
    rw [hA] at h ⊢
    have hres : res = (true, st) := (Option.some.inj h).symm
    rw [hres]
    exact ⟨FlagProtected.of_unchanged _ _ _ _ _ _ (fun y hy => absurd hy (by simp)) rfl,
      FlagProtected.of_unchanged _ _ _ _ _ _ (fun y hy => absurd hy (by simp)) rfl⟩
  · -- nothing is modified, the result is `false`
    rw [hA] at h ⊢
    have hres : res = (false, st) := (Option.some.inj h).symm
    rw [hres]
    exact ⟨FlagProtected.of_unchanged _ _ _ _ _ _ (fun y hy => absurd hy (by simp)) rfl,
      FlagProtected.of_unchanged _ _ _ _ _ _ (fun y hy => absurd hy (by simp)) rfl⟩

/-- The protection distinguishes a `Clear` from the code: a state in which the path
`(1, 3)` with `has_overlaped_begin` set has been cleared does not satisfy it. -/
theorem FlagProtected_excludes_clear :
    ¬ FlagProtected (CutAction.clear 0) false false exStateOverlapedBegin
        (true, Clear exStateOverlapedBegin 0) 0 := by
  intro h
  have h1 := (h (Or.inl (by decide))).2.1 rfl rfl
  revert h1
  decide

/-- C33 (counterexample). The first path `(1, 3)` has its `has_overlaped_end` flag set and
is a common beginning of the two paths: `CutOverlaps` with the span `0 .. 1` in both
paths and `del_begins` executes `PopBack(2)` on the twin of the path, which pops the two
edges from its unprotected beginning and leaves the flagged path with no edge. -/
theorem CutOverlaps_empties_flagged_path :
    (exStateOverlapedEnd.path 0).HasOverlapedEnd = true
    ∧ (exStateOverlapedEnd.path 0).Size = 2
    ∧ CutOverlapsAction (exGraph 5) exStateOverlapedEnd 0 0 1 2 2 0 1 4 true true false
        = CutAction.popBack 1 2
    ∧ ∃ t, CutOverlaps (exGraph 5) exStateOverlapedEnd 0 0 1 2 2 0 1 4 true true false
        = some (true, t) ∧ (t.path 0).Size = 0 :=
  ⟨by decide, by decide, by decide, _, rfl, by decide⟩

/-- C33 (amended). The overlap flags of the argument paths of `CutOverlaps` protect the
ends they mark.  `CutOverlaps` is the statement of the branch it takes (`Clear`,
`PopBack(n)` or nothing), and for an argument path `x` with a flag set: the statement is
never a `Clear` of `x` or of its twin, and a `Clear` that is executed leaves `x` as it is;
without `del_begins` and `del_all` the path is unchanged; with `has_overlaped_begin` set
the path is unchanged or the statement is `PopBack(n)` on `x` with `n ≤ size`, which
removes its last `n` edges; with `has_overlaped_end` set the path is unchanged or the
statement is `PopBack(n)` on the twin of `x`, which removes its first `n` edges; with both
flags set the path is unchanged.  So a path with one flag set loses all its edges only
by a `PopBack` of `n = size` edges at its other end. -/
theorem CutOverlaps_flagged_ends_kept (g : Graph) (st : State)
    (path1 first1 last1 size1 path2 first2 last2 size2 : Nat) (f2 f3 f4 : Bool)
    (res : Bool × State) (hp : DistinctPairs st path1 path2)
    (h : CutOverlaps g st path1 first1 last1 size1 path2 first2 last2 size2 f2 f3 f4
      = some res) :
    (CutOverlapsAction g st path1 first1 last1 size1 path2 first2 last2 size2 f2 f3 f4).run st
      = some res
    ∧ ∀ x, x = path1 ∨ x = path2 →
      ((st.path x).HasOverlapedBegin = true ∨ (st.path x).HasOverlapedEnd = true) →
      (∀ y, CutOverlapsAction g st path1 first1 last1 size1 path2 first2 last2 size2 f2 f3 f4
            = CutAction.clear y →
          y ≠ x ∧ y ≠ st.GetConjPath x ∧ res.2.path x = st.path x)
      ∧ (f3 = false → f4 = false → res.2.path x = st.path x)
      ∧ ((st.path x).HasOverlapedBegin = true →
          res.2.path x = st.path x
          ∨ ∃ n, CutOverlapsAction g st path1 first1 last1 size1 path2 first2 last2 size2
                f2 f3 f4 = CutAction.popBack x n
              ∧ n ≤ (st.path x).Size
              ∧ res.2.path x = { st.path x with
                  data := (st.path x).data.take ((st.path x).data.length - n),
                  gaps := (st.path x).gaps.take ((st.path x).data.length - n - 1) })
      ∧ ((st.path x).HasOverlapedEnd = true →
          res.2.path x = st.path x
          ∨ ∃ n, CutOverlapsAction g st path1 first1 last1 size1 path2 first2 last2 size2
                f2 f3 f4 = CutAction.popBack (st.GetConjPath x) n
              ∧ n ≤ (st.path (st.GetConjPath x)).Size
              ∧ res.2.path x = { st.path x with
                  data := (st.path x).data.drop n, gaps := (st.path x).gaps.drop n })
      ∧ ((st.path x).HasOverlapedBegin = true → (st.path x).HasOverlapedEnd = true →
          res.2.path x = st.path x) := by
  have hrun : (CutOverlapsAction g st path1 first1 last1 size1 path2 first2 last2 size2
      f2 f3 f4).run st = some res := by
    rw [← CutOverlaps_eq_run]; exact h
  have main := CutOverlapsAction_protects g st path1 first1 last1 size1 path2 first2 last2
    size2 f2 f3 f4 res hp hrun
  refine ⟨hrun, fun x hx hflag => ?_⟩
  rcases hx with rfl | rfl
  · exact main.1 hflag
  · exact main.2 hflag

/-- A cut at the end of the path `(1, 3)` whose beginning is marked as overlapped: the
executed statement is `PopBack(1)` on the path, which keeps its first edge; with
`del_subpaths` alone the same path would be left as it is. -/
theorem CutOverlaps_flagged_ends_kept_witness :
    (exStateOverlapedBegin.path 0).HasOverlapedBegin = true
    ∧ (((CutOverlaps (exGraph 5) exStateOverlapedBegin 0 1 1 2 2 3 3 4 false true
          false).getD (false, exStateOverlapedBegin)).2.path 0 = exStateOverlapedBegin.path 0
      ∨ ∃ n, CutOverlapsAction (exGraph 5) exStateOverlapedBegin 0 1 1 2 2 3 3 4 false true false
            = CutAction.popBack 0 n
          ∧ n ≤ (exStateOverlapedBegin.path 0).Size
          ∧ ((CutOverlaps (exGraph 5) exStateOverlapedBegin 0 1 1 2 2 3 3 4 false true
              false).getD (false, exStateOverlapedBegin)).2.path 0
            = { exStateOverlapedBegin.path 0 with
                data := (exStateOverlapedBegin.path 0).data.take
                  ((exStateOverlapedBegin.path 0).data.length - n),
                gaps := (exStateOverlapedBegin.path 0).gaps.take
                  ((exStateOverlapedBegin.path 0).data.length - n - 1) }) :=
  ⟨by decide, ((CutOverlaps_flagged_ends_kept (exGraph 5) exStateOverlapedBegin 0 1 1 2 2 3 3 4
    false true false _ (by decide) rfl).2 0 (Or.inl rfl) (Or.inl (by decide))).2.2.1
      (by decide)⟩

end PathExtend
